import Mathlib

set_option autoImplicit false

/-!
# Bavieca: embedding of `SADModule.cpp` and `HMMStateDecoding.cpp`

The first part of the definitions follows `src/common/sadmodule/SADModule.cpp`
statement by statement; the part on `HMMStateDecoding.cpp` has its own
introduction further down.  The header `SADModule.h` is not part of the
sources at hand, so the things it declares are handled as follows.

* `HMM_STATES_CLASS` (a build-time constant) is the field `hmmStatesClass` of
  `SADModule`; the code only makes sense for `1 ≤ HMM_STATES_CLASS`.
* Scores are `float` in the source.  Here the score type `α` is arbitrary: it
  only needs an addition and a decidable comparison, and `-FLT_MAX` is the
  field `negFltMax`.  Nothing proved for an arbitrary `α` relies on a law of
  arithmetic, so it also covers rounding.
* `SpeechSegment::iFrameStart`, `iFrameEnd`, `m_iFramesPadding` and
  `GridElementSAD::iPrev` are signed `int` (the code stores `-1` in them and
  tests `iFrameStart - m_iFramesPadding > 0`); they are `Int` here and are
  assumed to stay below `2^31`.  `unsigned int iFrame` wraps modulo `2^32`.
* The two emission calls `computeEmissionProbability(row, t)` are the
  functions `emitSilence` and `emitSpeech` of the feature row: the time stamp
  is reset at the start of `processFeatures` and every later call of one state
  object uses a fresh `t`, so the one-slot cache never answers.
* `BVC_ERROR` raises; `assert` aborts unless the build defines `NDEBUG`
  (field `ndebug`).
-/

namespace Bavieca

/-- What can go wrong in a call: the `BVC_ERROR` of `recoverSpeechSegments`, an
index outside the vector or matrix it addresses, an `assert` that does not
hold (with its source line), or an allocation that fails. -/
inductive SADError where
  | insufficientFrames
  | outOfBounds
  | assertion (line : Nat)
  | allocation
  deriving DecidableEq

/-- The constants `AUDIO_SEGMENT_SILENCE` and `AUDIO_SEGMENT_SPEECH`. -/
inductive AudioSegment where
  | silence
  | speech
  deriving DecidableEq

/-- One cell of the dynamic-programming grid: `{ float fScore; int iPrev; }`. -/
structure GridElementSAD (α : Type) where
  fScore : α
  iPrev : Int
  deriving DecidableEq

/-- A segment of audio: `{ int iFrameStart; int iFrameEnd; }`. -/
structure SpeechSegment where
  iFrameStart : Int
  iFrameEnd : Int
  deriving DecidableEq

/-- The immutable part of a `SADModule` object together with the build
constants: `HMM_STATES_CLASS`, `-FLT_MAX`, whether `NDEBUG` is defined, the two
pooled emission distributions, the penalty and the padding.  `garbage` is the
indeterminate content of a cell that `new GridElementSAD[...]` has just
allocated. -/
structure SADModule (α F : Type) where
  hmmStatesClass : Nat
  negFltMax : α
  ndebug : Bool
  emitSilence : F → α
  emitSpeech : F → α
  fPenaltySilenceToSpeech : α
  iFramesPadding : Int
  garbage : GridElementSAD α

/-- The mutable members `m_grid` and `m_iTimeFrame`. -/
structure SADSession (α : Type) where
  m_grid : List (List (GridElementSAD α))
  m_iTimeFrame : Nat
  deriving DecidableEq

/-- Conversion of an `unsigned int` to `int` (two's complement). -/
def uintToInt (n : Nat) : Int :=
  if n % 2 ^ 32 < 2 ^ 31 then ((n % 2 ^ 32 : Nat) : Int) else ((n % 2 ^ 32 : Nat) : Int) - 2 ^ 32

/-- The macro `assert(c)` at a source line. -/
def cAssert (ndebug : Bool) (line : Nat) (c : Bool) : Except SADError Unit :=
  if ndebug || c then .ok () else .error (.assertion line)

section Lattice

variable {α F : Type} [Add α] [LT α] [DecidableRel (fun a b : α => a < b)]

/-- The state of a module object before the first session, and after
`endSession`: an empty grid. -/
def SADSession.fresh : SADSession α := ⟨[], 0⟩

/-- `SADModule::beginSession`: only the time is reset. -/
def beginSession (s : SADSession α) : SADSession α :=
  { s with m_iTimeFrame := 0 }

/-- `SADModule::endSession`: the grid is freed and cleared. -/
def endSession (s : SADSession α) : SADSession α :=
  { s with m_grid := [] }

/-- `row[j]` for a row of the grid.  Rows have `2 * HMM_STATES_CLASS` cells and
every index the code forms is below that, so the default is not returned. -/
def rowGet (m : SADModule α F) (row : List (GridElementSAD α)) (j : Nat) : GridElementSAD α :=
  row.getD j m.garbage

/-- Body of the loop over the silence states (source lines 239-266) for state
`j` at time `i`.  The carried triple is the row `m_grid[i]` and the variables
`iPrevSelf`, `iPrevLeft`, which are declared outside both loops and keep their
value from one iteration to the next. -/
def silenceStep (m : SADModule α F) (i : Nat) (prevRow : List (GridElementSAD α))
    (fSilenceScore : α) (st : List (GridElementSAD α) × Int × Int) (j : Nat) :
    List (GridElementSAD α) × Int × Int :=
  let row := st.1
  let fSelf := if j < i then (rowGet m prevRow j).fScore else m.negFltMax
  let iPrevSelf : Int := if j < i then (j : Int) else st.2.1
  let fLeft :=
    if 0 < j ∧ 0 < i then (rowGet m prevRow (j - 1)).fScore
    else if j = 0 ∧ m.hmmStatesClass ≤ i then (rowGet m prevRow (2 * m.hmmStatesClass - 1)).fScore
    else m.negFltMax
  let iPrevLeft : Int :=
    if 0 < j ∧ 0 < i then ((j - 1 : Nat) : Int)
    else if j = 0 ∧ m.hmmStatesClass ≤ i then ((2 * m.hmmStatesClass - 1 : Nat) : Int)
    else st.2.2
  if fLeft > fSelf then
    (row.set j ⟨fLeft + fSilenceScore, iPrevLeft⟩, iPrevSelf, iPrevLeft)
  else
    (row.set j ⟨fSelf + fSilenceScore, iPrevSelf⟩, iPrevSelf, iPrevLeft)

/-- Body of the loop over the speech states (source lines 271-298). -/
def speechStep (m : SADModule α F) (i : Nat) (prevRow : List (GridElementSAD α))
    (fSpeechScore : α) (st : List (GridElementSAD α) × Int × Int) (j : Nat) :
    List (GridElementSAD α) × Int × Int :=
  let row := st.1
  let fSelf := if j < i then (rowGet m prevRow (j + m.hmmStatesClass)).fScore else m.negFltMax
  let iPrevSelf : Int := if j < i then ((j + m.hmmStatesClass : Nat) : Int) else st.2.1
  let fLeft :=
    if 0 < j ∧ 0 < i then (rowGet m prevRow (j + m.hmmStatesClass - 1)).fScore
    else if j = 0 ∧ m.hmmStatesClass ≤ i then
      (rowGet m prevRow (m.hmmStatesClass - 1)).fScore + m.fPenaltySilenceToSpeech
    else m.negFltMax
  let iPrevLeft : Int :=
    if 0 < j ∧ 0 < i then ((j - 1 + m.hmmStatesClass : Nat) : Int)
    else if j = 0 ∧ m.hmmStatesClass ≤ i then ((m.hmmStatesClass - 1 : Nat) : Int)
    else st.2.2
  if fLeft > fSelf then
    (row.set (j + m.hmmStatesClass) ⟨fLeft + fSpeechScore, iPrevLeft⟩, iPrevSelf, iPrevLeft)
  else
    (row.set (j + m.hmmStatesClass) ⟨fSelf + fSpeechScore, iPrevSelf⟩, iPrevSelf, iPrevLeft)

/-- One iteration of the loop over time (source lines 236-298): the silence
states, then the speech states, of column `i`. -/
def fillColumn (m : SADModule α F) (i : Nat) (prevRow curRow : List (GridElementSAD α))
    (feat : F) (iPrevSelf iPrevLeft : Int) : List (GridElementSAD α) × Int × Int :=
  let st := (List.range m.hmmStatesClass).foldl
    (silenceStep m i prevRow (m.emitSilence feat)) (curRow, iPrevSelf, iPrevLeft)
  (List.range m.hmmStatesClass).foldl (speechStep m i prevRow (m.emitSpeech feat)) st

/-- An element of a vector or matrix, or the out-of-bounds error when the index
does not address one. -/
def orOutOfBounds {β : Type} (x : Option β) : Except SADError β :=
  match x with
  | some b => .ok b
  | none => .error .outOfBounds

/-- The loop `for (i = m_iTimeFrame; i < iTimeFrameLast; ++i, ++m_iTimeFrame,
++iFeatureVector)` of `processFeatures`, with `n` iterations left.  Row
`iFeatureVector` of the feature matrix is read at every iteration. -/
def fillGrid (m : SADModule α F) (mFeatures : List F) :
    Nat → Nat → Nat → List (List (GridElementSAD α)) → Int → Int →
    Except SADError (List (List (GridElementSAD α)))
  | 0, _, _, grid, _, _ => .ok grid
  | n + 1, i, iFeatureVector, grid, iPrevSelf, iPrevLeft => do
    let feat ← orOutOfBounds mFeatures[iFeatureVector]?
    let prevRow ← orOutOfBounds grid[i - 1]?
    let curRow ← orOutOfBounds grid[i]?
    let r := fillColumn m i prevRow curRow feat iPrevSelf iPrevLeft
    fillGrid m mFeatures n (i + 1) (iFeatureVector + 1) (grid.set i r.1) r.2.1 r.2.2

/-- Column 0 as the first call leaves it (source lines 219-226). -/
def firstColumn (m : SADModule α F) (feat : F) : List (GridElementSAD α) :=
  ((List.replicate (2 * m.hmmStatesClass) (⟨m.negFltMax, -1⟩ : GridElementSAD α)).set 0
      ⟨m.emitSilence feat, -1⟩).set m.hmmStatesClass
      ⟨m.emitSpeech feat + m.fPenaltySilenceToSpeech, -1⟩

/-- `SADModule::processFeatures`: one row per feature vector is appended to the
grid, column 0 is set when the session time is 0, and the remaining columns
are filled, reading the feature rows from `iFeatureVector = 1` on. -/
def processFeatures (m : SADModule α F) (s : SADSession α) (mFeatures : List F) :
    Except SADError (SADSession α) :=
  let grid := s.m_grid ++
    List.replicate mFeatures.length (List.replicate (2 * m.hmmStatesClass) m.garbage)
  let iTimeFrameLast := s.m_iTimeFrame + mFeatures.length
  if s.m_iTimeFrame = 0 then do
    let _ ← orOutOfBounds grid[0]?
    let feat ← orOutOfBounds mFeatures[0]?
    let g ← fillGrid m mFeatures (iTimeFrameLast - 1) 1 1 (grid.set 0 (firstColumn m feat))
      (-1) (-1)
    .ok ⟨g, 1 + (iTimeFrameLast - 1)⟩
  else do
    let g ← fillGrid m mFeatures (iTimeFrameLast - s.m_iTimeFrame) s.m_iTimeFrame 1 grid
      (-1) (-1)
    .ok ⟨g, s.m_iTimeFrame + (iTimeFrameLast - s.m_iTimeFrame)⟩

/-- `m_grid[c][s]` for an `int` index `s`. -/
def gridGet (grid : List (List (GridElementSAD α))) (c : Nat) (s : Int) :
    Option (GridElementSAD α) :=
  if s < 0 then none else (grid[c]?).bind (fun row => row[s.toNat]?)

/-- The class of a state index: `(iPrev >= HMM_STATES_CLASS) ? AUDIO_SEGMENT_SPEECH
: AUDIO_SEGMENT_SILENCE`. -/
def audioType (m : SADModule α F) (iPrev : Int) : AudioSegment :=
  if iPrev ≥ (m.hmmStatesClass : Int) then .speech else .silence

/-- The statement `if (iTypeBack != iTypeCurrent) { ... }` of the back-tracking
loop (source lines 333-343): the segment being built gets its start
`iFrame + 1`, is checked, and is pushed when it is speech; a new segment ending
at `iFrame` is opened.  The triple is `iTypeCurrent`, the end of the segment
being built, and the vector. -/
def closeSegment (m : SADModule α F) (iFrame : Nat) (iTypeBack iTypeCurrent : AudioSegment)
    (iFrameEnd : Int) (vSpeechSegment : List SpeechSegment) :
    Except SADError (AudioSegment × Int × List SpeechSegment) :=
  if iTypeBack ≠ iTypeCurrent then do
    cAssert m.ndebug 335
      (decide (iFrameEnd - uintToInt (iFrame + 1) ≥ (m.hmmStatesClass : Int) - 1))
    .ok (iTypeBack, uintToInt iFrame,
      if iTypeCurrent = .speech then
        vSpeechSegment ++ [⟨uintToInt (iFrame + 1), iFrameEnd⟩]
      else vSpeechSegment)
  else .ok (iTypeCurrent, iFrameEnd, vSpeechSegment)

/-- The `while (elementAux->iPrev != -1)` loop of `recoverSpeechSegments`
(source lines 330-346).  The arguments are the loop variables `iFrame`,
`elementAux`, `iTypeCurrent`, the end frame of the segment being built and the
vector of segments pushed so far; the result is their value when the loop is
left.  `m_grid[iFrame-1]` with `iFrame = 0` addresses row `2^32 - 1`, which no
grid of a session has. -/
def backtrack (m : SADModule α F) (grid : List (List (GridElementSAD α))) :
    Nat → GridElementSAD α → AudioSegment → Int → List SpeechSegment →
    Except SADError (AudioSegment × Int × List SpeechSegment)
  | iFrame, elementAux, iTypeCurrent, iFrameEnd, vSpeechSegment =>
    if elementAux.iPrev = -1 then .ok (iTypeCurrent, iFrameEnd, vSpeechSegment)
    else do
      let st ← closeSegment m iFrame (audioType m elementAux.iPrev) iTypeCurrent iFrameEnd
        vSpeechSegment
      match iFrame with
      | 0 => .error .outOfBounds
      | f + 1 => do
        let el ← orOutOfBounds (gridGet grid f elementAux.iPrev)
        backtrack m grid f el st.1 st.2.1 st.2.2

/-- Left padding of the segment `*it` (source lines 369-382).  `segmentPrev` is
`NULL` exactly while `iSegment == 0`; otherwise it is the previous segment,
already padded on both sides. -/
def padLeft (m : SADModule α F) (segmentPrev : Option SpeechSegment) (seg : SpeechSegment) :
    Except SADError Int :=
  match segmentPrev with
  | none =>
    .ok (if seg.iFrameStart - m.iFramesPadding > 0 then seg.iFrameStart - m.iFramesPadding
      else 0)
  | some prev => do
    let iFrameStart :=
      if seg.iFrameStart - m.iFramesPadding > prev.iFrameEnd then
        seg.iFrameStart - m.iFramesPadding
      else prev.iFrameEnd + 1
    cAssert m.ndebug 381 (decide (iFrameStart > prev.iFrameEnd))
    .ok iFrameStart

/-- Right padding of the segment `*it` (source lines 384-403).  `rest` holds the
segments after it, not yet padded; it is empty exactly when
`iSegment == size - 1`, and its head is `*jt` otherwise. -/
def padRight (m : SADModule α F) (iTimeFrame : Int) (seg : SpeechSegment)
    (rest : List SpeechSegment) : Except SADError Int :=
  match rest with
  | [] =>
    .ok (if seg.iFrameEnd + m.iFramesPadding ≤ iTimeFrame - 1 then
        seg.iFrameEnd + m.iFramesPadding
      else iTimeFrame - 1)
  | jt :: _ => do
    let iFramesSilence := jt.iFrameStart - seg.iFrameEnd - 1
    cAssert m.ndebug 396 (decide (iFramesSilence ≥ (m.hmmStatesClass : Int)))
    let iFrameEnd :=
      if seg.iFrameEnd + m.iFramesPadding < jt.iFrameStart - iFramesSilence.tdiv 2 + 1 then
        seg.iFrameEnd + m.iFramesPadding
      else seg.iFrameEnd + iFramesSilence.tdiv 2 + 1
    cAssert m.ndebug 402 (decide (jt.iFrameStart > iFrameEnd))
    .ok iFrameEnd

/-- The padding loop of `recoverSpeechSegments` (source lines 365-405) over the
segments from the iterator `it` on: each segment is padded on the left, then on
the right, and becomes `segmentPrev`. -/
def applyPadding (m : SADModule α F) (iTimeFrame : Int) :
    Option SpeechSegment → List SpeechSegment → Except SADError (List SpeechSegment)
  | _, [] => .ok []
  | segmentPrev, seg :: rest => do
    let iFrameStart ← padLeft m segmentPrev seg
    let iFrameEnd ← padRight m iTimeFrame seg rest
    let out ← applyPadding m iTimeFrame (some ⟨iFrameStart, iFrameEnd⟩) rest
    .ok (⟨iFrameStart, iFrameEnd⟩ :: out)

/-- The choice of the last state (source lines 315-326): the type and the grid
element of the better of the two final states of the last column
`m_grid.back()`; speech when the scores are equal. -/
def lastElement (m : SADModule α F) (s : SADSession α) :
    Except SADError (AudioSegment × GridElementSAD α) := do
  let last ← orOutOfBounds s.m_grid.getLast?
  let elementLastSilence ← orOutOfBounds last[m.hmmStatesClass - 1]?
  let elementLastSpeech ← orOutOfBounds last[2 * m.hmmStatesClass - 1]?
  if elementLastSilence.fScore > elementLastSpeech.fScore then
    .ok (.silence, elementLastSilence)
  else .ok (.speech, elementLastSpeech)

/-- The initial value of `unsigned int iFrame = m_iTimeFrame - 2`. -/
def initialFrame (iTimeFrame : Nat) : Nat :=
  (iTimeFrame + 2 ^ 32 - 2) % 2 ^ 32

/-- The statements after the loop (source lines 347-360): the segment being
built starts at frame 0, is checked, is pushed when it is speech, and the
vector is reversed. -/
def finishSegments (m : SADModule α F) (st : AudioSegment × Int × List SpeechSegment) :
    Except SADError (List SpeechSegment) := do
  cAssert m.ndebug 348 (decide (st.2.1 - 0 ≥ (m.hmmStatesClass : Int) - 1))
  .ok (if st.1 = .speech then st.2.2 ++ [⟨0, st.2.1⟩] else st.2.2).reverse

/-- The back-tracking part of `recoverSpeechSegments` (source lines 303-360):
the check on the number of frames, the choice of the last state, the loop, the
segment that reaches frame 0, and the reversal of the vector.  The vector
passed in by the caller is empty. -/
def recoverSegmentsUnpadded (m : SADModule α F) (s : SADSession α) :
    Except SADError (List SpeechSegment) :=
  if s.m_iTimeFrame < m.hmmStatesClass then .error .insufficientFrames
  else do
    let last ← lastElement m s
    let st ← backtrack m s.m_grid (initialFrame s.m_iTimeFrame) last.2 last.1
      ((s.m_iTimeFrame : Int) - 1) []
    finishSegments m st

/-- `SADModule::recoverSpeechSegments`: back-tracking, then padding. -/
def recoverSpeechSegments (m : SADModule α F) (s : SADSession α) :
    Except SADError (List SpeechSegment) := do
  let v ← recoverSegmentsUnpadded m s
  applyPadding m (s.m_iTimeFrame : Int) none v

/-- A session on a fresh module object: `beginSession`, then one call of
`processFeatures` with all the frames. -/
def runSession (m : SADModule α F) (mFeatures : List F) : Except SADError (SADSession α) :=
  processFeatures m (beginSession SADSession.fresh) mFeatures

/-- A whole run: the session of `runSession` followed by
`recoverSpeechSegments`. -/
def detect (m : SADModule α F) (mFeatures : List F) : Except SADError (List SpeechSegment) := do
  let s ← runSession m mFeatures
  recoverSpeechSegments m s

end Lattice

/-! ## The path of the specification

The back-pointer path and its runs of speech states, written from the words of
the specification (not from the code), to compare the code with. -/

/-- The state at frame `T - 1 - k` on the back-pointer path, for each `k` up to
`n`, latest frame first: `p(T-1)` is `last`, and `p(t-1) = lattice[t][p(t)].prev`. -/
def specPath {α : Type} (grid : List (List (GridElementSAD α))) : Nat → Nat → Int → List Int
  | 0, _, _ => []
  | n + 1, t, p =>
    p :: (match t, gridGet grid t p with
      | t0 + 1, some el => specPath grid n t0 el.iPrev
      | _, _ => [])

/-- The maximal runs `[a, b]` of `true` in a list of flags, the first flag
being frame `t`. -/
def specRuns : List Bool → Int → Option Int → List SpeechSegment
  | [], t, some a => [⟨a, t - 1⟩]
  | [], _, none => []
  | true :: fs, t, some a => specRuns fs (t + 1) (some a)
  | true :: fs, t, none => specRuns fs (t + 1) (some t)
  | false :: fs, t, some a => ⟨a, t - 1⟩ :: specRuns fs (t + 1) none
  | false :: fs, t, none => specRuns fs (t + 1) none

/-- The speech segments the specification asks for: the maximal runs of frames
whose state on the back-pointer path from the winning last state is a speech
state. -/
def specSegments {α : Type} [LT α] [DecidableRel (fun a b : α => a < b)]
    (hmmStatesClass : Nat) (s : SADSession α) : List SpeechSegment :=
  match s.m_grid.getLast? with
  | none => []
  | some last =>
    match last[hmmStatesClass - 1]?, last[2 * hmmStatesClass - 1]? with
    | some sil, some sp =>
      let win : Int := if sil.fScore > sp.fScore then ((hmmStatesClass - 1 : Nat) : Int)
        else ((2 * hmmStatesClass - 1 : Nat) : Int)
      let path := (specPath s.m_grid s.m_iTimeFrame (s.m_iTimeFrame - 1) win).reverse
      specRuns (path.map (fun p => decide (p ≥ (hmmStatesClass : Int)))) 0 none
    | _, _ => []

deriving instance DecidableEq for Except

/-! ## The models of the test scenarios -/

/-- Log-density of a two-dimensional Gaussian with unit variances and mean
`mu`, in units of `10^-4` (`log (1 / (2 π)) = -1.8379`). -/
def unitGaussian (mu x : Int × Int) : Int :=
  -18379 - 5000 * ((x.1 - mu.1) ^ 2 + (x.2 - mu.2) ^ 2)

/-- The module of scenarios 1 to 3: silence at `(0,0)`, speech at `(5,5)`,
penalty 0, exact integer scores, `-FLT_MAX = -(2^128 - 2^104)`. -/
def scenarioModule (hmmStatesClass : Nat) (iFramesPadding : Int) (ndebug : Bool) :
    SADModule Int (Int × Int) where
  hmmStatesClass := hmmStatesClass
  negFltMax := -(2 ^ 128 - 2 ^ 104)
  ndebug := ndebug
  emitSilence := unitGaussian (0, 0)
  emitSpeech := unitGaussian (5, 5)
  fPenaltySilenceToSpeech := 0
  iFramesPadding := iFramesPadding
  garbage := ⟨0, 0⟩

/-- The module of the scenarios with scores in `WithBot ℤ`: `-FLT_MAX` is `⊥`,
which addition absorbs and below which there is no score, as in single
precision, where `-FLT_MAX + x` rounds back to `-FLT_MAX` for every emission
`x`. -/
def absorbingModule (hmmStatesClass : Nat) (iFramesPadding : Int) (ndebug : Bool) :
    SADModule (WithBot Int) (Int × Int) where
  hmmStatesClass := hmmStatesClass
  negFltMax := ⊥
  ndebug := ndebug
  emitSilence := fun x => ((unitGaussian (0, 0) x : Int) : WithBot Int)
  emitSpeech := fun x => ((unitGaussian (5, 5) x : Int) : WithBot Int)
  fPenaltySilenceToSpeech := 0
  iFramesPadding := iFramesPadding
  garbage := ⟨0, 0⟩

/-- A finite score. -/
def finiteScore (x : Int) : WithBot Int := (x : WithBot Int)

/-- The grid that `absorbingModule 2` builds from the frames
`(0,0),(0,0),(5,5),(5,5)`: two states a class, four columns. -/
def absorbingGrid : List (List (GridElementSAD (WithBot Int))) :=
  [[⟨finiteScore (-18379), -1⟩, ⟨⊥, -1⟩, ⟨finiteScore (-268379), -1⟩, ⟨⊥, -1⟩],
   [⟨finiteScore (-36758), 0⟩, ⟨finiteScore (-36758), 0⟩, ⟨finiteScore (-536758), 2⟩, ⟨finiteScore (-536758), 2⟩],
   [⟨finiteScore (-305137), 0⟩, ⟨finiteScore (-305137), 1⟩, ⟨finiteScore (-55137), 1⟩, ⟨finiteScore (-555137), 3⟩],
   [⟨finiteScore (-573516), 0⟩, ⟨finiteScore (-573516), 1⟩, ⟨finiteScore (-73516), 2⟩, ⟨finiteScore (-73516), 2⟩]]

/-- The grid that `scenarioModule 3` builds from the two frames `(0,0),(0,0)`:
three states a class, two columns.  In column 1 the states 2 and 5 cannot be
reached yet. -/
def shortGrid : List (List (GridElementSAD Int)) :=
  [[⟨-18379, -1⟩, ⟨-(2 ^ 128 - 2 ^ 104), -1⟩, ⟨-(2 ^ 128 - 2 ^ 104), -1⟩,
    ⟨-268379, -1⟩, ⟨-(2 ^ 128 - 2 ^ 104), -1⟩, ⟨-(2 ^ 128 - 2 ^ 104), -1⟩],
   [⟨-36758, 0⟩, ⟨-36758, 0⟩, ⟨-(2 ^ 128 - 2 ^ 104) - 18379, 0⟩,
    ⟨-536758, 3⟩, ⟨-536758, 3⟩, ⟨-(2 ^ 128 - 2 ^ 104) - 268379, 3⟩]]

/-! ## Shape of the back-pointers -/

/-- What the recursion can write as back-pointer of the silence state `j` of
column `i`: a silence state, not below `j - 1` when the self-loop is open
(`j < i`), or the last speech state, for state 0 from column `HMM_STATES_CLASS`
on. -/
def SilencePointer (H i j : Nat) (p : Int) : Prop :=
  (0 ≤ p ∧ p < (H : Int) ∧ (j < i → (j : Int) ≤ p + 1)) ∨
    (j = 0 ∧ H ≤ i ∧ p = 2 * (H : Int) - 1)

/-- What the recursion can write as back-pointer of the speech state
`HMM_STATES_CLASS + j` of column `i`. -/
def SpeechPointer (H i j : Nat) (p : Int) : Prop :=
  ((H : Int) ≤ p ∧ p < 2 * (H : Int) ∧ (j < i → (j : Int) + H ≤ p + 1)) ∨
    (j = 0 ∧ H ≤ i ∧ p = (H : Int) - 1)

/-- The back-pointers of a whole grid of `T` columns: `-1` throughout column 0,
and of the shapes above in every later column. -/
def GridPointers (H : Nat) {α : Type} (grid : List (List (GridElementSAD α))) (T : Nat) : Prop :=
  (∀ s : Nat, s < 2 * H → ∃ c, gridGet grid 0 (s : Int) = some c ∧ c.iPrev = -1) ∧
    (∀ r j : Nat, 1 ≤ r → r < T → j < H →
      (∃ c, gridGet grid r (j : Int) = some c ∧ SilencePointer H r j c.iPrev) ∧
      (∃ c, gridGet grid r ((j + H : Nat) : Int) = some c ∧ SpeechPointer H r j c.iPrev))

/-- The index of a state within its class. -/
def classOffset (H s : Nat) : Nat :=
  if s < H then s else s - H

/-- The two pointer shapes in one statement, for the state `s` of column `c`:
the pointer `p` is a state of the same class, at most one step lower while the
self-loop is open, or it crosses from the first state of a class to the last
state of the other one, which happens from column `HMM_STATES_CLASS` on. -/
def PointerOK (H c s : Nat) (p : Int) : Prop :=
  ∃ pn : Nat, p = (pn : Int) ∧ pn < 2 * H ∧
    (((pn < H ↔ s < H) ∧ (classOffset H s < c → classOffset H s ≤ classOffset H pn + 1)) ∨
      (¬ (pn < H ↔ s < H) ∧ classOffset H s = 0 ∧ H ≤ c ∧ classOffset H pn = H - 1))

/-- Segments in time order, each of at least `H` frames, with at least `H`
frames between one and the next. -/
def GapChain (H : Nat) (w : List SpeechSegment) : Prop :=
  (∀ seg ∈ w, seg.iFrameEnd - seg.iFrameStart ≥ (H : Int) - 1) ∧
    List.Chain' (fun a b : SpeechSegment => b.iFrameStart - a.iFrameEnd - 1 ≥ (H : Int)) w

/-- The vector of the back-tracking loop, read backwards (`w`, in time order),
against the segment being built, which ends at `e` and has type `ty`: the
pushed segments form a `GapChain` after `e`, and are `H` frames away from `e`
when the segment being built is speech. -/
def TraceVec (H : Nat) (w : List SpeechSegment) (e : Int) (ty : AudioSegment) : Prop :=
  GapChain H w ∧ ∀ b, w.head? = some b →
    b.iFrameStart ≥ e + 1 ∧ (ty = .speech → b.iFrameStart ≥ e + 1 + (H : Int))

/-! ## The cell of the specification

The recursion of one cell as the specification words it, to compare the code
with. -/

/-- The cell that the specification asks for at state `s` of column `t ≥ 1`,
from the column before (`prevRow`) and the feature vector of the frame: the
better of the available predecessors plus the emission of the class, and the
index of that predecessor.  The self-loop is available when the class-local
index is below `t`; the preceding state is available for a class-local index
above 0, and the last state of the other class for the first state of a class
from column `H` on, the penalty being added on the way into the first speech
state.  The self-loop is taken when the two are equal. -/
def specCell {α F : Type} [Add α] [LT α] [DecidableRel (fun a b : α => a < b)]
    (m : SADModule α F) (prevRow : List (GridElementSAD α)) (feat : F) (t s : Nat) :
    GridElementSAD α :=
  let H := m.hmmStatesClass
  let j := classOffset H s
  let e := if s < H then m.emitSilence feat else m.emitSpeech feat
  let self : Option (α × Int) :=
    if j < t then some ((rowGet m prevRow s).fScore, (s : Int)) else none
  let left : Option (α × Int) :=
    if 0 < j then some ((rowGet m prevRow (s - 1)).fScore, ((s - 1 : Nat) : Int))
    else if H ≤ t then
      (if s < H then some ((rowGet m prevRow (2 * H - 1)).fScore, ((2 * H - 1 : Nat) : Int))
        else some ((rowGet m prevRow (H - 1)).fScore + m.fPenaltySilenceToSpeech,
          ((H - 1 : Nat) : Int)))
    else none
  match self, left with
  | some a, some b => if a.1 < b.1 then ⟨b.1 + e, b.2⟩ else ⟨a.1 + e, a.2⟩
  | some a, none => ⟨a.1 + e, a.2⟩
  | none, some b => ⟨b.1 + e, b.2⟩
  | none, none => ⟨m.negFltMax + e, -1⟩


/-- The cells in which the recursion is decided by a real score: when the
self-loop is not open yet, the preceding state scores above `-FLT_MAX`; and
when there is no preceding state yet (first state of a class before column
`H`), the state itself does not score below `-FLT_MAX`. -/
def CellSettled {α F : Type} [LT α] (m : SADModule α F) (prevRow : List (GridElementSAD α))
    (t s : Nat) : Prop :=
  (classOffset m.hmmStatesClass s < t ∨ m.negFltMax < (rowGet m prevRow (s - 1)).fScore) ∧
    (0 < classOffset m.hmmStatesClass s ∨ m.hmmStatesClass ≤ t ∨
      ¬ (rowGet m prevRow s).fScore < m.negFltMax)

/-! ## Embedding of `HMMStateDecoding.cpp`

The definitions below follow `src/common/hmm/HMMStateDecoding.cpp`.  The header
`HMMStateDecoding.h` and the files `Global.h`, `IOBase.h`, `PhoneSet.h` are not
part of the sources at hand, so what they declare is handled as follows.

* The build constants `DIMENSIONALITY`, `LOG_LIKELIHOOD_FLOOR`, `PI_NUMBER`,
  `NUMBER_HMM_STATES`, `MAX_PHONETIC_SYMBOL_LENGTH`, and whether
  `OPTIMIZED_COMPUTATION` and `NDEBUG` are defined, are the fields of
  `DecodingBuild`, as are the library functions `powf`, `sqrt` and `log`.
* `float` and `double` are an arbitrary linearly ordered field `α`: the
  arithmetic is exact, every value is finite (so `assert(finite(x))` holds and
  is left out), and the casts between `float` and `double` are the identity.
* The vectors `fMean` and `fCovariance` of a `GaussianDecoding` and the feature
  vector are lists; `vectorAt` reads an element.
* `m_iGaussianComponents` is the length of the list `m_gaussians`.
* A file is a list of `FileCell`: single bytes, and `float` values, each of
  which stands for the four bytes of its representation.
-/

/-- The struct `GaussianDecoding`: identifier, weight, precomputed constant,
mean and diagonal covariance. -/
structure GaussianDecoding (α : Type) where
  iId : Int
  fWeight : α
  fConstant : α
  fMean : List α
  fCovariance : List α
  deriving DecidableEq

/-- The data members of `HMMStateDecoding`.  The pointer `m_phoneSet` is an
argument of `store` and `load`. -/
structure HMMStateDecoding (α : Type) where
  m_iDim : Nat
  m_iPhone : Nat
  m_iState : Nat
  m_iPosition : Nat
  m_iId : Int
  m_gaussians : List (GaussianDecoding α)
  m_bCovarianceOriginal : Bool
  m_iTimestamp : Int
  m_fProbabilityCached : α
  m_fConstant : α
  deriving DecidableEq

/-- The constants and library functions that the code takes from the build. -/
structure DecodingBuild (α : Type) where
  dimensionality : Nat
  logLikelihoodFloor : α
  optimizedComputation : Bool
  ndebug : Bool
  numberHmmStates : Nat
  maxPhoneticSymbolLength : Nat
  piNumber : α
  powf : α → α → α
  sqrt : α → α
  log : α → α

section Decoding

variable {α : Type} [LinearOrderedField α]

/-- The element `v[i]` of a vector.  The vectors have `DIMENSIONALITY` elements
and the code reads below that index. -/
def vectorAt (v : List α) (i : Nat) : α :=
  v.getD i 0

/-- The function `max(a, b)` of the C++ library: `(a < b) ? b : a`. -/
def cMax (a b : α) : α :=
  if a < b then b else a

/-- The statements `fAcc -= (fFeatures[i]-fMean[i])*(fFeatures[i]-fMean[i])*fCovariance[i];`
for `i = lo, ..., lo + n - 1`, in this order. -/
def subtractTerms (fFeatures fMean fCovariance : List α) (fAcc : α) (lo n : Nat) : α :=
  (List.range' lo n).foldl
    (fun acc i => acc - (vectorAt fFeatures i - vectorAt fMean i)
      * (vectorAt fFeatures i - vectorAt fMean i) * vectorAt fCovariance i) fAcc

/-- The body of the loop over the components in
`computeEmissionProbabilityNearestNeighbor` (source lines 248-297): `fAcc`
starts at `fConstant`, the 39 statements for the dimensions 0 to 38 follow, and
`fLogLikelihood = max(fAcc,fLogLikelihood)`. -/
def nearestNeighborStep (fFeatures : List α) (fLogLikelihood : α) (g : GaussianDecoding α) : α :=
  cMax (subtractTerms fFeatures g.fMean g.fCovariance g.fConstant 0 39) fLogLikelihood

/-- The value computed on a cache miss by
`computeEmissionProbabilityNearestNeighbor` (source lines 243-298). -/
def nearestNeighborScore (b : DecodingBuild α) (st : HMMStateDecoding α) (fFeatures : List α) :
    α :=
  st.m_gaussians.foldl (nearestNeighborStep fFeatures) b.logLikelihoodFloor

/-- `HMMStateDecoding::computeEmissionProbabilityNearestNeighbor` (source lines
236-306): the returned value and the state after the call. -/
def computeEmissionProbabilityNearestNeighbor (b : DecodingBuild α) (st : HMMStateDecoding α)
    (fFeatures : List α) (iTime : Int) : α × HMMStateDecoding α :=
  if iTime = st.m_iTimestamp then (st.m_fProbabilityCached, st)
  else
    let fLogLikelihood := nearestNeighborScore b st fFeatures
    (fLogLikelihood,
      { st with m_iTimestamp := iTime, m_fProbabilityCached := fLogLikelihood })

/-- The body of the loop over the components in
`computeEmissionProbabilityNearestNeighborPDE` (source lines 324-374): the
dimensions 0 to 12, then 13 to 25 if `fAcc > fLogLikelihood`, then 26 to 38 and
the update of `fLogLikelihood` if `fAcc > fLogLikelihood` again. -/
def nearestNeighborPDEStep (fFeatures : List α) (fLogLikelihood : α) (g : GaussianDecoding α) :
    α :=
  let fAcc13 := subtractTerms fFeatures g.fMean g.fCovariance g.fConstant 0 13
  if fAcc13 > fLogLikelihood then
    let fAcc26 := subtractTerms fFeatures g.fMean g.fCovariance fAcc13 13 13
    if fAcc26 > fLogLikelihood then
      let fAcc39 := subtractTerms fFeatures g.fMean g.fCovariance fAcc26 26 13
      cMax fAcc39 fLogLikelihood
    else fLogLikelihood
  else fLogLikelihood

/-- The value computed on a cache miss by
`computeEmissionProbabilityNearestNeighborPDE` (source lines 319-375). -/
def nearestNeighborPDEScore (b : DecodingBuild α) (st : HMMStateDecoding α)
    (fFeatures : List α) : α :=
  st.m_gaussians.foldl (nearestNeighborPDEStep fFeatures) b.logLikelihoodFloor

/-- `HMMStateDecoding::computeEmissionProbabilityNearestNeighborPDE` (source
lines 312-383). -/
def computeEmissionProbabilityNearestNeighborPDE (b : DecodingBuild α)
    (st : HMMStateDecoding α) (fFeatures : List α) (iTime : Int) : α × HMMStateDecoding α :=
  if iTime = st.m_iTimestamp then (st.m_fProbabilityCached, st)
  else
    let fLogLikelihood := nearestNeighborPDEScore b st fFeatures
    (fLogLikelihood,
      { st with m_iTimestamp := iTime, m_fProbabilityCached := fLogLikelihood })

/-- The loop over the components in `getBestScoringGaussian` (source lines
671-731), from component `iGaussian` on: the pair of `fLogLikelihood` and
`gaussianBest`, the latter as the index of the component pointed to, `none` for
`NULL`. -/
def bestGaussianLoop (fFeatures : List α) :
    List (GaussianDecoding α) → Nat → α → Option Nat → α × Option Nat
  | [], _, fLogLikelihood, gaussianBest => (fLogLikelihood, gaussianBest)
  | g :: gs, iGaussian, fLogLikelihood, gaussianBest =>
    let fAcc13 := subtractTerms fFeatures g.fMean g.fCovariance g.fConstant 0 13
    if fAcc13 > fLogLikelihood then
      let fAcc26 := subtractTerms fFeatures g.fMean g.fCovariance fAcc13 13 13
      if fAcc26 > fLogLikelihood then
        let fAcc39 := subtractTerms fFeatures g.fMean g.fCovariance fAcc26 26 13
        if cMax fAcc39 fLogLikelihood = fAcc39 then
          bestGaussianLoop fFeatures gs (iGaussian + 1) (cMax fAcc39 fLogLikelihood)
            (some iGaussian)
        else
          bestGaussianLoop fFeatures gs (iGaussian + 1) (cMax fAcc39 fLogLikelihood)
            gaussianBest
      else bestGaussianLoop fFeatures gs (iGaussian + 1) fLogLikelihood gaussianBest
    else bestGaussianLoop fFeatures gs (iGaussian + 1) fLogLikelihood gaussianBest

/-- `HMMStateDecoding::getBestScoringGaussian` (source lines 666-742): the index
of the component returned (`none` for a `NULL` pointer) and `*fScore`. -/
def getBestScoringGaussian (b : DecodingBuild α) (st : HMMStateDecoding α)
    (fFeatures : List α) : Except SADError (Option Nat × α) := do
  let r := bestGaussianLoop fFeatures st.m_gaussians 0 b.logLikelihoodFloor none
  cAssert b.ndebug 732 (r.2.isSome || decide (r.1 = b.logLikelihoodFloor))
  if r.1 = b.logLikelihoodFloor then .ok (some 0, r.1) else .ok (r.2, r.1)

/-- The first loop over the dimensions in `initialize` (source lines 97-101),
over the indices of the list: `dDeterminant *= fCovariance[i]` and the
assertion that the entry is not 0. -/
def covarianceDeterminant (ndebug : Bool) (fCovariance : List α) :
    List Nat → α → Except SADError α
  | [], dDeterminant => .ok dDeterminant
  | i :: rest, dDeterminant => do
    cAssert ndebug 100 (decide (vectorAt fCovariance i ≠ 0))
    covarianceDeterminant ndebug fCovariance rest (dDeterminant * vectorAt fCovariance i)

/-- The second loop over the dimensions in `initialize` (source lines 105-107):
`fCovariance[i] = 1.0/(2.0*fCovariance[i])` for every `i` of the list. -/
def invertCovariance (fCovariance : List α) (indices : List Nat) : List α :=
  indices.foldl (fun cov i => cov.set i (1 / (2 * vectorAt cov i))) fCovariance

/-- The test `finite(fConstant)` of source line 103, the constant being
`log(fWeight / (m_fConstant * sqrt(dDeterminant)))`.  In the C library `sqrt`
of a negative number is not a number, a quotient by 0 is infinite or not a
number, `log` of 0 is minus infinity, `log` of a negative number is not a
number, and what is not a number stays so; so the constant is finite when
`dDeterminant` is not negative and the quotient is positive. -/
def finiteConstant (b : DecodingBuild α) (fConstantState fWeight dDeterminant : α) : Bool :=
  decide (0 ≤ dDeterminant ∧ 0 < fWeight / (fConstantState * b.sqrt dDeterminant))

/-- The body of the loop over the components in `initialize` (source lines
96-107), `fConstantState` being the member `m_fConstant`: the determinant, the
constant with the assertion that it is finite, and the covariance. -/
def initializeGaussian (b : DecodingBuild α) (fConstantState : α) (g : GaussianDecoding α) :
    Except SADError (GaussianDecoding α) := do
  let dDeterminant ← covarianceDeterminant b.ndebug g.fCovariance
    (List.range b.dimensionality) 1
  cAssert b.ndebug 103 (finiteConstant b fConstantState g.fWeight dDeterminant)
  .ok { g with
    fConstant := b.log (g.fWeight / (fConstantState * b.sqrt dDeterminant)),
    fCovariance := invertCovariance g.fCovariance (List.range b.dimensionality) }

/-- The loop over the components in `initialize` (source lines 95-108). -/
def initializeGaussians (b : DecodingBuild α) (fConstantState : α) :
    List (GaussianDecoding α) → Except SADError (List (GaussianDecoding α))
  | [] => .ok []
  | g :: gs => do
    let g2 ← initializeGaussian b fConstantState g
    let rest ← initializeGaussians b fConstantState gs
    .ok (g2 :: rest)

/-- `HMMStateDecoding::initialize` (source lines 89-113): `m_fConstant` is set;
the components are rewritten and the flag is cleared only in a build that
defines `OPTIMIZED_COMPUTATION`. -/
def initializeDecoding (b : DecodingBuild α) (st : HMMStateDecoding α) :
    Except SADError (HMMStateDecoding α) :=
  let fConstantState := b.powf (b.piNumber * 2) ((b.dimensionality : α) / 2)
  if b.optimizedComputation then do
    let gs ← initializeGaussians b fConstantState st.m_gaussians
    .ok { st with m_fConstant := fConstantState, m_gaussians := gs,
                  m_bCovarianceOriginal := false }
  else .ok { st with m_fConstant := fConstantState }

end Decoding

/-! ## The component score of the specification -/

/-- The score of one component as the specification words it: the constant
minus the sum over the dimensions of `(x_i - mean_i)^2 * precovar_i`.  The code
is written out for 39 dimensions, the value of `DIMENSIONALITY` it
presupposes. -/
def componentLogScore {α : Type} [LinearOrderedField α] (x : List α) (g : GaussianDecoding α) :
    α :=
  g.fConstant - ((List.range 39).map
    (fun i => (vectorAt x i - vectorAt g.fMean i) ^ 2 * vectorAt g.fCovariance i)).sum

/-! ## The binary format of a state

`IOBase.h`, `FileInput.h`, `FileOutput.h` and `PhoneSet.h` are not part of the
sources at hand.  The two functions of `PhoneSet` that `store` and `load` call
are the fields of the structure `PhoneSet`; the read and write functions of
`IOBase` are modelled from the specification. -/

/-- One unit of a file: a byte, or the representation of a `float`, which takes
four bytes. -/
inductive FileCell (α : Type) where
  | byte (v : Nat)
  | float (x : α)
  deriving DecidableEq

/-- The functions of the phone set that `store` and `load` call:
`getStrPhone(iPhone)`, a string without its closing NUL, when there is such a
phone, and `getPhoneIndex(strPhone)`, which is `UCHAR_MAX` for an unknown
name. -/
structure PhoneSet where
  getStrPhone : Nat → Option (List Nat)
  getPhoneIndex : List Nat → Nat

section Codec

variable {α : Type} [LinearOrderedField α]

/-- The number of bytes a cell takes in the file. -/
def FileCell.size (c : FileCell α) : Nat :=
  match c with
  | .byte _ => 1
  | .float _ => 4

/-- Modelled from the spec: `IOBase::writeBytes` (IOBase.h is missing) writes
the bytes as they are. -/
def writeBytes (bytes : List Nat) : List (FileCell α) :=
  bytes.map .byte

/-- Modelled from the spec: `IOBase::write` of an `unsigned char` (IOBase.h is
missing) writes one byte (type u8). -/
def writeUChar (v : Nat) : List (FileCell α) :=
  [.byte (v % 256)]

/-- Modelled from the spec: `IOBase::write` of an `int` (IOBase.h is missing)
writes four bytes, little-endian (type i32). -/
def writeInt (n : Int) : List (FileCell α) :=
  let u := (n % 2 ^ 32).toNat
  [.byte (u % 256), .byte (u / 256 % 256), .byte (u / 65536 % 256), .byte (u / 16777216 % 256)]

/-- Modelled from the spec: `IOBase::write` of a `float` (IOBase.h is missing)
writes its four bytes (type f32). -/
def writeFloat (x : α) : List (FileCell α) :=
  [.float x]

/-- Modelled from the spec: `IOBase::readBytes` (IOBase.h is missing) reads `n`
bytes; reading past the end of the file, or reading part of a `float` as a
byte, is an error. -/
def readBytes : Nat → List (FileCell α) → Except SADError (List Nat × List (FileCell α))
  | 0, file => .ok ([], file)
  | n + 1, .byte v :: file => do
    let r ← readBytes n file
    .ok (v :: r.1, r.2)
  | _ + 1, _ => .error .outOfBounds

/-- Modelled from the spec: `IOBase::read` of an `unsigned char` (IOBase.h is
missing) reads one byte. -/
def readUChar : List (FileCell α) → Except SADError (Nat × List (FileCell α))
  | .byte v :: file => .ok (v, file)
  | _ => .error .outOfBounds

/-- Modelled from the spec: `IOBase::read` of an `int` (IOBase.h is missing)
reads four bytes, little-endian, as a two's complement number. -/
def readInt (file : List (FileCell α)) : Except SADError (Int × List (FileCell α)) := do
  let r ← readBytes 4 file
  .ok (uintToInt (r.1.getD 0 0 + 256 * r.1.getD 1 0 + 65536 * r.1.getD 2 0
    + 16777216 * r.1.getD 3 0), r.2)

/-- Modelled from the spec: `IOBase::read` of a `float` (IOBase.h is missing)
reads the four bytes of one `float`. -/
def readFloat : List (FileCell α) → Except SADError (α × List (FileCell α))
  | .float x :: file => .ok (x, file)
  | _ => .error .outOfBounds

/-- Modelled from the spec: `IOBase::readBytes` (IOBase.h is missing) into an
array of `float`, `4 * n` bytes: the representations of `n` values. -/
def readFloats : Nat → List (FileCell α) → Except SADError (List α × List (FileCell α))
  | 0, file => .ok ([], file)
  | n + 1, file => do
    let x ← readFloat file
    let r ← readFloats n x.2
    .ok (x.1 :: r.1, r.2)

/-- The array `strPhone` after `strcpy(strPhone, str)`: the characters of the
string and a NUL, then what the array held before. -/
def strcpy (strPhone str : List Nat) : List Nat :=
  str ++ 0 :: strPhone.drop (str.length + 1)

/-- The string that a `char` array holds: the characters before the first
NUL. -/
def cString (strPhone : List Nat) : List Nat :=
  strPhone.takeWhile (fun c => decide (c ≠ 0))

/-- The body of the loop over the components in `store` (source lines
132-140): the weight, `m_iDim` values of the mean, and `DIMENSIONALITY` values
of the covariance, each of them replaced by `1.0/(2.0*f)` in a build that
defines `OPTIMIZED_COMPUTATION`. -/
def storeGaussian (b : DecodingBuild α) (iDim : Nat) (g : GaussianDecoding α) :
    List (FileCell α) :=
  writeFloat g.fWeight
    ++ (List.range iDim).map (fun i => FileCell.float (vectorAt g.fMean i))
    ++ (List.range b.dimensionality).map (fun i =>
      FileCell.float (if b.optimizedComputation then 1 / (2 * vectorAt g.fCovariance i)
        else vectorAt g.fCovariance i))

/-- `HMMStateDecoding::store` (source lines 116-142): the bytes written.
`strPhone` is the indeterminate content of the local array of
`MAX_PHONETIC_SYMBOL_LENGTH + 1` characters; a name that does not fit in it
with its NUL overruns the array. -/
def store (b : DecodingBuild α) (phoneSet : PhoneSet) (strPhone : List Nat)
    (st : HMMStateDecoding α) : Except SADError (List (FileCell α)) := do
  let str ← orOutOfBounds (phoneSet.getStrPhone st.m_iPhone)
  if b.maxPhoneticSymbolLength < str.length then .error .outOfBounds
  else
    .ok (writeBytes ((strcpy strPhone str).take (b.maxPhoneticSymbolLength + 1))
      ++ writeUChar st.m_iState
      ++ writeUChar st.m_iPosition
      ++ writeInt (st.m_gaussians.length : Int)
      ++ st.m_gaussians.flatMap (storeGaussian b st.m_iDim))

/-- The loop over the components in `load` (source lines 174-184), with `n`
components left to read.  `fresh` is the indeterminate content of a component
that has just been allocated; `m_iDim` values are read into its mean and into
its covariance. -/
def loadGaussians (fresh : GaussianDecoding α) (iDim : Nat) :
    Nat → List (FileCell α) → Except SADError (List (GaussianDecoding α) × List (FileCell α))
  | 0, file => .ok ([], file)
  | n + 1, file => do
    let fWeight ← readFloat file
    let fMean ← readFloats iDim fWeight.2
    let fCovariance ← readFloats iDim fMean.2
    let r ← loadGaussians fresh iDim n fCovariance.2
    .ok ({ fresh with
        iId := -1, fWeight := fWeight.1, fMean := fMean.1 ++ fresh.fMean.drop iDim,
        fCovariance := fCovariance.1 ++ fresh.fCovariance.drop iDim } :: r.1, r.2)

/-- `HMMStateDecoding::load` (source lines 145-187) on the object `st`: the
object after the call and the rest of the file.  With a negative number of
components, which only a build with `NDEBUG` lets through, the allocation
`new GaussianDecoding[m_iGaussianComponents]` of line 170 fails. -/
def load (b : DecodingBuild α) (phoneSet : PhoneSet) (fresh : GaussianDecoding α)
    (st : HMMStateDecoding α) (file : List (FileCell α)) :
    Except SADError (HMMStateDecoding α × List (FileCell α)) := do
  let strPhone ← readBytes (b.maxPhoneticSymbolLength + 1) file
  let iPhone := phoneSet.getPhoneIndex (cString strPhone.1)
  cAssert b.ndebug 151 (decide (iPhone ≠ 255))
  let iState ← readUChar strPhone.2
  cAssert b.ndebug 155 (decide (iState.1 < b.numberHmmStates))
  let iPosition ← readUChar iState.2
  let iGaussianComponents ← readInt iPosition.2
  cAssert b.ndebug 162 (decide (iGaussianComponents.1 > 0))
  if iGaussianComponents.1 < 0 then .error .allocation
  else do
    let gaussians ← loadGaussians fresh st.m_iDim iGaussianComponents.1.toNat
      iGaussianComponents.2
    .ok ({ st with
        m_iPhone := iPhone, m_iState := iState.1, m_iPosition := iPosition.1,
        m_gaussians := gaussians.1, m_bCovarianceOriginal := true }, gaussians.2)

end Codec

/-- A phone set with the two phones `sil` and `a`. -/
def samplePhoneSet : PhoneSet where
  getStrPhone := fun i => [[115, 105, 108], [97]][i]?
  getPhoneIndex := fun str =>
    if str ∈ [[115, 105, 108], [97]] then [[115, 105, 108], [97]].indexOf str else 255

/-! ## Concrete states for the evaluator -/

/-- A build with rational numbers as values, floor `-10^10`, and assertions
compiled in.  The functions `powf`, `sqrt` and `log` have no rational
counterpart; the stand-ins here make the build a concrete value.  They are
positive where `powf` and `sqrt` are, which is all that the assertion of
`initialize` on the constant looks at; what is evaluated on the build depends
on nothing else of them. -/
def sampleBuild (dimensionality : Nat) (optimizedComputation : Bool) : DecodingBuild ℚ where
  dimensionality := dimensionality
  logLikelihoodFloor := -10000000000
  optimizedComputation := optimizedComputation
  ndebug := false
  numberHmmStates := 3
  maxPhoneticSymbolLength := 10
  piNumber := 355 / 113
  powf := fun x _ => x
  sqrt := fun x => x
  log := fun x => x

/-- A state of two components in 39 dimensions, covariance precomputed from
unit variances: means `(0, 0, 0, ...)` and `(5, 5, 0, ...)`, constants `-36`
and `-37`, nothing cached. -/
def sampleState : HMMStateDecoding ℚ where
  m_iDim := 39
  m_iPhone := 0
  m_iState := 0
  m_iPosition := 0
  m_iId := 0
  m_gaussians :=
    [⟨0, 1 / 2, -36, List.replicate 39 0, List.replicate 39 (1 / 2)⟩,
     ⟨1, 1 / 2, -37, 5 :: 5 :: List.replicate 37 0, List.replicate 39 (1 / 2)⟩]
  m_bCovarianceOriginal := false
  m_iTimestamp := -1
  m_fProbabilityCached := 0
  m_fConstant := 0

/-- A feature vector near the second mean: `(4, 5, 0, ...)`. -/
def sampleFeatures : List ℚ :=
  4 :: 5 :: List.replicate 37 0

/-- A state of two components in two dimensions with its covariance in
original form: variances `(1, 4)` and `(1/2, 2)`, phone 1, state 2. -/
def sampleStateOriginal : HMMStateDecoding ℚ where
  m_iDim := 2
  m_iPhone := 1
  m_iState := 2
  m_iPosition := 0
  m_iId := 7
  m_gaussians := [⟨-1, 1 / 4, 0, [0, 0], [1, 4]⟩, ⟨-1, 3 / 4, 0, [5, 5], [1 / 2, 2]⟩]
  m_bCovarianceOriginal := true
  m_iTimestamp := -1
  m_fProbabilityCached := 0
  m_fConstant := 0

/-- The same state with its covariance in precomputed form, `1/(2v)` for each
variance `v`: `(1/2, 1/8)` and `(1, 1/4)`. -/
def sampleStatePrecomputed : HMMStateDecoding ℚ :=
  { sampleStateOriginal with
    m_gaussians := [⟨-1, 1 / 4, 0, [0, 0], [1 / 2, 1 / 8]⟩, ⟨-1, 3 / 4, 0, [5, 5], [1, 1 / 4]⟩],
    m_bCovarianceOriginal := false }

/-- A component as allocation leaves it, and an object without components to
call `load` on, both for two dimensions. -/
def sampleFresh : GaussianDecoding ℚ :=
  ⟨0, 0, 0, [9, 9], [9, 9]⟩

/-- An object for two dimensions that has no components yet, to call `load`
on. -/
def sampleTarget : HMMStateDecoding ℚ :=
  { sampleStateOriginal with m_iPhone := 0, m_iState := 0, m_gaussians := [] }

/-! ## The layout of the specification -/

/-- The payload of one state as the specification lays it out: the field of
the phone name, the state index, the position, the number of components on four
bytes, and for each component its weight, its mean and its covariance as
`float` values.  A component is given as the triple of these. -/
def statePayload {α : Type} (strPhone : List Nat) (iState iPosition : Nat)
    (components : List (α × List α × List α)) : List (FileCell α) :=
  writeBytes strPhone ++ writeUChar iState ++ writeUChar iPosition
    ++ writeInt (components.length : Int)
    ++ components.flatMap (fun c =>
      FileCell.float c.1 :: (c.2.1.map FileCell.float ++ c.2.2.map FileCell.float))

/-- The number of bytes of a file. -/
def fileSize {α : Type} (file : List (FileCell α)) : Nat :=
  (file.map FileCell.size).sum

/-- A well-formed payload for two dimensions: the phone `a` in a field of 11
bytes padded with NUL, state 2, position 0, and two components with the
variances `(1, 4)` and `(1/2, 2)`. -/
def samplePayload : List (FileCell ℚ) :=
  statePayload (97 :: List.replicate 10 0) 2 0
    [(1 / 4, [0, 0], [1, 4]), (3 / 4, [5, 5], [1 / 2, 2])]

/-! ## The text files of `SADModule.cpp` and `Mappings.cpp`

A text file is the list of its characters.  `IOBase.h` and `FileInput.h` are
not part of the sources at hand; what the code calls from them is modelled from
the specification. -/

/-- What can go wrong in `SADModule::load`: the `BVC_ERROR` of line 185, or a
number that cannot be read. -/
inductive SegmentFileError where
  | inconsistentSegment
  | readError
  deriving DecidableEq

/-- The white space that separates the tokens of a line, as `std::isspace`
has it for a stream in the classic locale: space, horizontal tab, line feed,
vertical tab, form feed and carriage return. -/
def isSpace (c : Char) : Bool :=
  c = ' ' || c = '\t' || c = '\n' || c = '\x0b' || c = '\x0c' || c = '\r'

/-- The lines of a text that end with a newline, without the newline, and the
text after the last newline. -/
def splitLines : List Char → List (List Char) × List Char
  | [] => ([], [])
  | c :: cs =>
    if c = '\n' then ([] :: (splitLines cs).1, (splitLines cs).2)
    else
      match (splitLines cs).1 with
      | [] => ([], c :: (splitLines cs).2)
      | l :: ls => ((c :: l) :: ls, (splitLines cs).2)

/-- The lines that `while (std::getline(stream, strLine))` reads: every line
that ends with a newline, and the text after the last newline when there is
some. -/
def getLines (file : List Char) : List (List Char) :=
  (splitLines file).1 ++ (if (splitLines file).2 = [] then [] else [(splitLines file).2])

/-- The lines that `while (std::getline(stream, strLine).good())` reads: only
the lines that end with a newline, since reading the text after the last
newline reaches the end of the file. -/
def getLinesGood (file : List Char) : List (List Char) :=
  (splitLines file).1

/-- Modelled from the spec: `IOBase::read` of an `unsigned int` from a text
stream (IOBase.h is missing) skips white space and reads a decimal integer; the
result is the number and the rest of the stream. -/
def readUnsigned (s : List Char) : Except SegmentFileError (Nat × List Char) :=
  let digits := (s.dropWhile isSpace).takeWhile Char.isDigit
  let value := digits.foldl (fun acc c => 10 * acc + (c.toNat - 48)) 0
  if digits = [] ∨ 2 ^ 32 ≤ value then .error .readError
  else .ok (value, (s.dropWhile isSpace).dropWhile Char.isDigit)

/-- The text that `ostream << int` writes: decimal digits, after a minus sign
for a negative number. -/
def intText (i : Int) : List Char :=
  if i < 0 then '-' :: Nat.toDigits 10 i.natAbs else Nat.toDigits 10 i.toNat

/-- `SADModule::store` (source lines 152-165): the text written for the
segments, one line `iFrameStart iFrameEnd` for each. -/
def SADModule.store (vSpeechSegment : List SpeechSegment) : List Char :=
  vSpeechSegment.flatMap (fun seg =>
    intText seg.iFrameStart ++ ' ' :: (intText seg.iFrameEnd ++ ['\n']))

/-- The body of the loop of `SADModule::load` after the test for an empty line
(source lines 181-187): two numbers are read, the `BVC_ERROR` is raised when
`iFrameStart <= iFrameEnd`, and the segment is made otherwise, of the two
`unsigned int` values converted to `int`. -/
def SADModule.loadLine (strLine : List Char) : Except SegmentFileError SpeechSegment := do
  let iFrameStart ← readUnsigned strLine
  let iFrameEnd ← readUnsigned iFrameStart.2
  if iFrameStart.1 ≤ iFrameEnd.1 then .error .inconsistentSegment
  else .ok ⟨uintToInt iFrameStart.1, uintToInt iFrameEnd.1⟩

/-- The loop of `SADModule::load` (source lines 177-188) over the lines read:
it ends at the first empty line. -/
def SADModule.loadLines : List (List Char) → Except SegmentFileError (List SpeechSegment)
  | [] => .ok []
  | strLine :: rest =>
    if strLine = [] then .ok []
    else do
      let seg ← SADModule.loadLine strLine
      let v ← SADModule.loadLines rest
      .ok (seg :: v)

/-- `SADModule::load` (source lines 168-195) on the text of the file. -/
def SADModule.load (file : List Char) : Except SegmentFileError (List SpeechSegment) :=
  SADModule.loadLines (getLines file)

/-- What can go wrong in `Mappings::load`: a string that cannot be read. -/
inductive MappingsError where
  | readError
  deriving DecidableEq

/-- The token that `stream >> str` reads: the characters after the leading
white space, up to the next white space.  It is empty when the stream holds
nothing but white space. -/
def tokenOf (s : List Char) : List Char :=
  (s.dropWhile isSpace).takeWhile (fun c => !isSpace c)

/-- The stream after `stream >> str`. -/
def afterToken (s : List Char) : List Char :=
  (s.dropWhile isSpace).dropWhile (fun c => !isSpace c)

/-- Modelled from the spec: `IOBase::readString` from a text stream (IOBase.h
is missing) reads a token separated by white space.  The specification does
not say what happens when there is no token left: with `bRaise` the call
raises, without it the string stays empty, as after `stream >> str`. -/
def readString (bRaise : Bool) (s : List Char) :
    Except MappingsError (List Char × List Char) :=
  if tokenOf s = [] ∧ bRaise = true then .error .readError
  else .ok (tokenOf s, afterToken s)

/-- Whether the map has an element with the key `str`. -/
def hasKey (m : List (List Char × List Char)) (str : List Char) : Bool :=
  m.any (fun p => decide (p.1 = str))

/-- The call `m_mMappings.insert(value_type(str1,str2))` of a `std::map`, which
is kept here as the list of its elements: the pair is added unless the map
already has an element with that key. -/
def mapInsert (m : List (List Char × List Char)) (str1 str2 : List Char) :
    List (List Char × List Char) :=
  if hasKey m str1 then m else m ++ [(str1, str2)]

/-- The loop of `Mappings::load` (source lines 44-50) over the lines read: two
strings are read from each line and inserted. -/
def Mappings.loadLines (bRaise : Bool) :
    List (List Char) → List (List Char × List Char) →
    Except MappingsError (List (List Char × List Char))
  | [], m => .ok m
  | strLine :: rest, m => do
    let str1 ← readString bRaise strLine
    let str2 ← readString bRaise str1.2
    Mappings.loadLines bRaise rest (mapInsert m str1.1 str2.1)

/-- `Mappings::load` (source lines 38-53) on the text of the file: the member
`m_mMappings` after the call. -/
def Mappings.load (bRaise : Bool) (file : List Char) :
    Except MappingsError (List (List Char × List Char)) :=
  Mappings.loadLines bRaise (getLinesGood file) []

/-- `Mappings::operator[]` (source lines 56-63): the string itself when `find`
finds no element with that key, the second string of the element otherwise. -/
def Mappings.lookup (m : List (List Char × List Char)) (str : List Char) : List Char :=
  match m.find? (fun p => decide (p.1 = str)) with
  | none => str
  | some p => p.2

/-! ## Pooling the components: `SADModule::initialize`

`HMMManager.h`, `PhoneSet.h` and `HMMStateDecoding.h` are not part of the
sources at hand.  What the function reads through them is kept in the
structure `SADModuleMembers`; the two static helpers of `HMMStateDecoding`
that it calls are modelled from the specification. -/

/-- What `SADModule::initialize` reads: the members set by the constructor, the
array of states that `m_hmmManager->getHMMStatesDecoding` returns, the index
that `m_phoneSet->getPhoneIndexSilence` returns, and the indeterminate content
of what is allocated: an element of `new GaussianDecoding[n]`, and the members
of a state that its constructor does not set. -/
structure SADModuleMembers (α : Type) where
  m_iDim : Nat
  m_iMaxGaussianComponentsSilence : Int
  m_iMaxGaussianComponentsSpeech : Int
  hmmStates : List (HMMStateDecoding α)
  iPhoneSil : Nat
  freshGaussian : GaussianDecoding α
  freshState : HMMStateDecoding α

/-- The local variables of the pooling loop (source lines 80-86): the two
arrays, the number of elements written to each, and the accumulated weights. -/
structure PoolState (α : Type) where
  gaussiansSilence : List (GaussianDecoding α)
  iComponentsSilenceFound : Nat
  fWeightAccumulatedSilence : α
  gaussiansSpeech : List (GaussianDecoding α)
  iComponentsSpeechFound : Nat
  fWeightAccumulatedSpeech : α

/-- Conversion of an `int` to `unsigned int`. -/
def intToUInt (i : Int) : Nat :=
  (i % 2 ^ 32).toNat

section Pooling

variable {α : Type} [LinearOrderedField α]

/-- Modelled from the spec: `HMMStateDecoding::compareGaussianByWeight`
(HMMStateDecoding.h is missing) is the order of "sorting by descending weight":
the first component goes before the second when its weight is the higher
one. -/
def compareGaussianByWeight (a b : GaussianDecoding α) : Bool :=
  decide (b.fWeight < a.fWeight)

/-- Modelled from the spec: `HMMStateDecoding::copyGaussian(dest,src,iDim)`
(HMMStateDecoding.h is missing) makes the destination a copy of a component
of `iDim` dimensions: identifier, weight, constant, and the `iDim` entries of
the mean and of the covariance. -/
def copyGaussian (_gaussianDest gaussianSource : GaussianDecoding α) (iDim : Nat) :
    GaussianDecoding α where
  iId := gaussianSource.iId
  fWeight := gaussianSource.fWeight
  fConstant := gaussianSource.fConstant
  fMean := gaussianSource.fMean.take iDim
  fCovariance := gaussianSource.fCovariance.take iDim

/-- One element put in its place in a sorted list: after the elements that the
comparison puts before it, and before the others. -/
def insertSorted {β : Type} (comp : β → β → Bool) (a : β) : List β → List β
  | [] => [a]
  | b :: l => if comp b a then b :: insertSorted comp a l else a :: b :: l

/-- The call `std::list::sort(comp)`: a stable sort, elements that the comparison
does not order keep their order. -/
def listSort {β : Type} (comp : β → β → Bool) : List β → List β
  | [] => []
  | a :: l => insertSorted comp a (listSort comp l)

/-- The estimate of the number of components (source lines 68-77): all the
components of a state of the silence phone, and of any other state at most
`(unsigned int)m_iMaxGaussianComponentsSpeech`.  The counts are kept as
natural numbers: they count elements of arrays in memory and stay below
`2^32`. -/
def estimateComponents (mdl : SADModuleMembers α) :
    List (HMMStateDecoding α) → Nat × Nat → Nat × Nat
  | [], n => n
  | st :: rest, (iComponentsSilence, iComponentsSpeech) =>
    if st.m_iPhone = mdl.iPhoneSil then
      estimateComponents mdl rest (iComponentsSilence + st.m_gaussians.length, iComponentsSpeech)
    else
      estimateComponents mdl rest (iComponentsSilence,
        iComponentsSpeech
          + min st.m_gaussians.length (intToUInt mdl.m_iMaxGaussianComponentsSpeech))

/-- The loop that keeps the best components of one state (source lines 104-108
and 114-118) from the element `it` of the sorted list on: while
`iCount < iMax` or `iMax == -1` the component is copied to the element
`iFound` of the array and its weight is accumulated.  A write past the end of
the array is the out-of-bounds error. -/
def poolLoop (iDim : Nat) (iMax : Int) :
    List (GaussianDecoding α) → Int → List (GaussianDecoding α) × Nat × α →
    Except SADError (List (GaussianDecoding α) × Nat × α)
  | [], _, s => .ok s
  | g :: rest, iCount, (gaussians, iFound, fWeightAccumulated) =>
    if iCount < iMax ∨ iMax = -1 then do
      let dest ← orOutOfBounds gaussians[iFound]?
      poolLoop iDim iMax rest (iCount + 1)
        (gaussians.set iFound (copyGaussian dest g iDim), iFound + 1,
          fWeightAccumulated + g.fWeight)
    else .ok (gaussians, iFound, fWeightAccumulated)

/-- The loop over the states (source lines 87-121): the components of a state
are sorted by weight, and the best are copied to the array of silence when
the state is of the silence phone, to the array of speech otherwise. -/
def poolStates (mdl : SADModuleMembers α) :
    List (HMMStateDecoding α) → PoolState α → Except SADError (PoolState α)
  | [], p => .ok p
  | st :: rest, p =>
    let lGaussian := listSort compareGaussianByWeight st.m_gaussians
    if st.m_iPhone = mdl.iPhoneSil then do
      let r ← poolLoop mdl.m_iDim mdl.m_iMaxGaussianComponentsSilence lGaussian 0
        (p.gaussiansSilence, p.iComponentsSilenceFound, p.fWeightAccumulatedSilence)
      poolStates mdl rest { p with
        gaussiansSilence := r.1, iComponentsSilenceFound := r.2.1,
        fWeightAccumulatedSilence := r.2.2 }
    else do
      let r ← poolLoop mdl.m_iDim mdl.m_iMaxGaussianComponentsSpeech lGaussian 0
        (p.gaussiansSpeech, p.iComponentsSpeechFound, p.fWeightAccumulatedSpeech)
      poolStates mdl rest { p with
        gaussiansSpeech := r.1, iComponentsSpeechFound := r.2.1,
        fWeightAccumulatedSpeech := r.2.2 }

/-- The loops that readjust the weights (source lines 124-129): the weight of
each of the first `iFound` elements is divided by the accumulated weight. -/
def readjustWeights (gaussians : List (GaussianDecoding α)) (iFound : Nat)
    (fWeightAccumulated : α) : List (GaussianDecoding α) :=
  (gaussians.take iFound).map (fun g => { g with fWeight := g.fWeight / fWeightAccumulated })
    ++ gaussians.drop iFound

/-- The constructor of `HMMStateDecoding` with eight arguments (source lines
42-54).  The mixture of the object is the first `iGaussians` elements of the
array; the members that the constructor does not set are those of `fresh`. -/
def newHMMStateDecoding (fresh : HMMStateDecoding α) (iDim iPhone iState iPosition : Nat)
    (iId : Int) (iGaussians : Nat) (gaussians : List (GaussianDecoding α)) :
    HMMStateDecoding α :=
  { fresh with
    m_iDim := iDim, m_iPhone := iPhone, m_iState := iState, m_iPosition := iPosition,
    m_iId := iId, m_gaussians := gaussians.take iGaussians, m_bCovarianceOriginal := true }

/-- `SADModule::initialize` (source lines 60-140): the members
`m_hmmStateSilence` and `m_hmmStateSpeech` after the call.  The state of
silence is made of the `iComponentsSilenceFound` elements written, the state of
speech of the `iComponentsSpeech` elements estimated; 255 is `UCHAR_MAX`.  The
assertion of line 65 is on the pointer to the array of states, which is the
list `hmmStates` here. -/
def initializeSAD (b : DecodingBuild α) (mdl : SADModuleMembers α) :
    Except SADError (HMMStateDecoding α × HMMStateDecoding α) := do
  let iHMMStates : Int := mdl.hmmStates.length
  let n := estimateComponents mdl mdl.hmmStates (0, 0)
  let p ← poolStates mdl mdl.hmmStates
    ⟨List.replicate n.1 mdl.freshGaussian, 0, 0, List.replicate n.2 mdl.freshGaussian, 0, 0⟩
  let gaussiansSilence :=
    readjustWeights p.gaussiansSilence p.iComponentsSilenceFound p.fWeightAccumulatedSilence
  let gaussiansSpeech :=
    readjustWeights p.gaussiansSpeech p.iComponentsSpeechFound p.fWeightAccumulatedSpeech
  let hmmStateSilence ← initializeDecoding b
    (newHMMStateDecoding mdl.freshState mdl.m_iDim 255 255 255 iHMMStates
      p.iComponentsSilenceFound gaussiansSilence)
  let hmmStateSpeech ← initializeDecoding b
    (newHMMStateDecoding mdl.freshState mdl.m_iDim 255 255 255 (iHMMStates + 1)
      n.2 gaussiansSpeech)
  .ok (hmmStateSilence, hmmStateSpeech)

/-- The components that the loop of source lines 104-108 (or 114-118) visits
from the element `it` of the sorted list on. -/
def keepBest (iMax : Int) : List (GaussianDecoding α) → Int → List (GaussianDecoding α)
  | [], _ => []
  | g :: rest, iCount =>
    if iCount < iMax ∨ iMax = -1 then g :: keepBest iMax rest (iCount + 1) else []

/-- The components of one state that are kept: the first of its components
sorted by weight, as many as the limit of its class allows. -/
def keptComponents (mdl : SADModuleMembers α) (st : HMMStateDecoding α) :
    List (GaussianDecoding α) :=
  keepBest
    (if st.m_iPhone = mdl.iPhoneSil then mdl.m_iMaxGaussianComponentsSilence
      else mdl.m_iMaxGaussianComponentsSpeech)
    (listSort compareGaussianByWeight st.m_gaussians) 0

/-- The components kept of the states of one class, silence or speech, in the
order of the states. -/
def keptOfClass (mdl : SADModuleMembers α) (bSilence : Bool)
    (hmmStates : List (HMMStateDecoding α)) : List (GaussianDecoding α) :=
  (hmmStates.filter (fun st => decide (st.m_iPhone = mdl.iPhoneSil) == bSilence)).flatMap
    (keptComponents mdl)

end Pooling

/-- A model of three states in two dimensions, the first of the silence phone
0; at most one component of a state of silence and two of another state are
kept. -/
def sampleMembers : SADModuleMembers ℚ where
  m_iDim := 2
  m_iMaxGaussianComponentsSilence := 1
  m_iMaxGaussianComponentsSpeech := 2
  hmmStates :=
    [{ sampleStateOriginal with
        m_iPhone := 0,
        m_gaussians := [⟨0, 1 / 4, 0, [0, 0], [1, 1]⟩, ⟨1, 3 / 4, 0, [1, 1], [1, 2]⟩] },
     { sampleStateOriginal with
        m_iPhone := 1,
        m_gaussians := [⟨2, 1 / 5, 0, [5, 5], [1, 1]⟩, ⟨3, 1 / 2, 0, [6, 6], [2, 2]⟩,
                        ⟨4, 3 / 10, 0, [7, 7], [1, 4]⟩] },
     { sampleStateOriginal with
        m_iPhone := 2,
        m_gaussians := [⟨5, 1, 0, [9, 9], [1, 1]⟩] }]
  iPhoneSil := 0
  freshGaussian := sampleFresh
  freshState := sampleTarget

/-- The pooled mixture as the specification describes it: the components kept,
each with its weight divided by the total weight of the components kept. -/
def pooledMixture {α : Type} [LinearOrderedField α] (iDim : Nat)
    (kept : List (GaussianDecoding α)) : List (GaussianDecoding α) :=
  kept.map (fun g =>
    { copyGaussian g g iDim with fWeight := g.fWeight / (kept.map (fun k => k.fWeight)).sum })

/-! ## The keys of the physical accumulators: `Accumulator.h` -/

/-- `Accumulator::getPhysicalAccumulatorKey` (source lines 256-263).  The
expression `iHMMState*65536+iGaussianComponent` is formed in `int` and
converted to `unsigned int`; from `iHMMState = 32768` on the product is above
`INT_MAX`, and the key is the value modulo `2^32`, as two's complement
arithmetic gives it.  The assertion of line 258 on the size of `unsigned int`
holds. -/
def getPhysicalAccumulatorKey (ndebug : Bool) (iHMMState iGaussianComponent : Int) :
    Except SADError Nat := do
  cAssert ndebug 259 (decide (iHMMState ≥ 0 ∧ iHMMState < 65536))
  .ok (intToUInt (iHMMState * 65536 + iGaussianComponent))

/-- `Accumulator::getPhysicalAccumulatorValues` (source lines 249-253): the
values stored in `iHMMState` and `iGaussianComponent`, in this order. -/
def getPhysicalAccumulatorValues (iKey : Nat) : Int × Int :=
  (uintToInt (iKey / 65536), uintToInt (iKey % 65536))

/-! ## Two sessions on one module object -/

/-- The calls of two sessions in a row on one module object whose members are
`s` at the start: `beginSession`, `processFeatures(X)`, `recoverSpeechSegments`,
`endSession`, then `beginSession`, `processFeatures(Y)`,
`recoverSpeechSegments`.  The result is what the last call returns. -/
def twoSessions {α F : Type} [Add α] [LT α] [DecidableRel (fun a b : α => a < b)]
    (m : SADModule α F) (s : SADSession α) (X Y : List F) :
    Except SADError (List SpeechSegment) := do
  let s1 ← processFeatures m (beginSession s) X
  let _ ← recoverSpeechSegments m s1
  let s2 ← processFeatures m (beginSession (endSession s1)) Y
  recoverSpeechSegments m s2

/-! ## The brute-force evaluator

`computeEmissionProbabilityBruteForce` calls `exp` and `pow` of the C library,
which are parameters here, next to `powf` and `log` of `DecodingBuild`.  Its sum
runs over probabilities, not over their logarithms, in variables of type
`float`, where a small probability underflows to 0; so the conversion to
`float` is a parameter too, `toFloat`. -/

section BruteForce

variable {α : Type} [LinearOrderedField α]

/-- A conversion to `float` that loses nothing but what underflows: a value
whose magnitude is below `2^-150`, half the least positive `float`, becomes 0,
as rounding to the nearest `float` makes it; every other value is kept. -/
def floatUnderflow (v : α) : α :=
  if |v| < 1 / 2 ^ 150 then 0 else v

/-- The body of the loop over the components in
`computeEmissionProbabilityBruteForce` (source lines 204-218).  The inner loop
over the dimensions carries `fDeterminant` and `fExponent`, which start at 1
and 0; `0.5` is written `1/2`.  `fExponent` and `fProbability` are `float`
variables and the terms added to them are cast to `float` (source lines 214,
217): the terms and the sums go through `toFloat`.  `fDeterminant` and `fAcc`
are `double` variables, taken as exact. -/
def bruteForceStep (b : DecodingBuild α) (exp : α → α) (pow : α → α → α) (toFloat : α → α)
    (fConstant : α) (fFeatures : List α) (fProbability : α) (g : GaussianDecoding α) : α :=
  let r := (List.range b.dimensionality).foldl
    (fun (acc : α × α) j =>
      (acc.1 * vectorAt g.fCovariance j,
        toFloat (acc.2 + toFloat ((vectorAt fFeatures j - vectorAt g.fMean j)
          * (vectorAt fFeatures j - vectorAt g.fMean j) * (1 / vectorAt g.fCovariance j)))))
    (1, 0)
  toFloat (fProbability
    + toFloat (g.fWeight * exp (-(1 / 2) * r.2) / (fConstant * pow r.1 (1 / 2))))

/-- The value computed on a cache miss by
`computeEmissionProbabilityBruteForce` (source lines 197-223).  In the C
library `log` is minus infinity at 0 and not a number below 0; either way
`std::max<double>(LOG_LIKELIHOOD_FLOOR, log(fProbability))` is the floor then,
and `b.log` is only applied to a positive number.  The constant of line 201 and
the result of line 220 are cast to `float`.  The values being finite, the test
of `finite` (source line 221) changes nothing. -/
def bruteForceScore (b : DecodingBuild α) (exp : α → α) (pow : α → α → α) (toFloat : α → α)
    (st : HMMStateDecoding α) (fFeatures : List α) : α :=
  let fConstant := toFloat (b.powf (b.piNumber * 2) ((b.dimensionality : α) / 2))
  let fProbability :=
    st.m_gaussians.foldl (bruteForceStep b exp pow toFloat fConstant fFeatures) 0
  if fProbability ≤ 0 then b.logLikelihoodFloor
  else toFloat (cMax b.logLikelihoodFloor (b.log fProbability))

/-- `HMMStateDecoding::computeEmissionProbabilityBruteForce` (source lines
191-230): the returned value and the state after the call. -/
def computeEmissionProbabilityBruteForce (b : DecodingBuild α) (exp : α → α)
    (pow : α → α → α) (toFloat : α → α) (st : HMMStateDecoding α) (fFeatures : List α)
    (iTime : Int) : α × HMMStateDecoding α :=
  if iTime = st.m_iTimestamp then (st.m_fProbabilityCached, st)
  else
    let fProbability := bruteForceScore b exp pow toFloat st fFeatures
    (fProbability, { st with m_iTimestamp := iTime, m_fProbabilityCached := fProbability })

end BruteForce

/-- A build for any field of values, with the number `π` and the library
functions given: 39 dimensions, `OPTIMIZED_COMPUTATION` defined, assertions
compiled in, floor `-10^10`. -/
def sampleBuildWith {α : Type} [LinearOrderedField α] (piNumber : α) (powf : α → α → α)
    (sqrt log : α → α) : DecodingBuild α where
  dimensionality := 39
  logLikelihoodFloor := -10000000000
  optimizedComputation := true
  ndebug := false
  numberHmmStates := 3
  maxPhoneticSymbolLength := 10
  piNumber := piNumber
  powf := powf
  sqrt := sqrt
  log := log

/-- A state of two components in 39 dimensions in original form, over any field
of values: weights `1/2`, means `(0, 0, 0, ...)` and `(5, 5, 0, ...)`,
variances 1 and 2, nothing cached. -/
def sampleStateIn (α : Type) [LinearOrderedField α] : HMMStateDecoding α where
  m_iDim := 39
  m_iPhone := 0
  m_iState := 0
  m_iPosition := 0
  m_iId := 0
  m_gaussians :=
    [⟨0, 1 / 2, 0, List.replicate 39 0, List.replicate 39 1⟩,
     ⟨1, 1 / 2, 0, 5 :: 5 :: List.replicate 37 0, List.replicate 39 2⟩]
  m_bCovarianceOriginal := true
  m_iTimestamp := -1
  m_fProbabilityCached := 0
  m_fConstant := 0

/-- A state of one component in 39 dimensions in original form, over any field
of values: weight 1, mean `(0, 0, ...)`, variances 1, nothing cached. -/
def unitStateIn (α : Type) [LinearOrderedField α] : HMMStateDecoding α where
  m_iDim := 39
  m_iPhone := 0
  m_iState := 0
  m_iPosition := 0
  m_iId := 0
  m_gaussians := [⟨0, 1, 0, List.replicate 39 0, List.replicate 39 1⟩]
  m_bCovarianceOriginal := true
  m_iTimestamp := -1
  m_fProbabilityCached := 0
  m_fConstant := 0

/-! ## The state sequences of the specification

The paths over which the specification takes its maximum, written from its
words to compare the grid with.  A state sequence `q(0), ..., q(t)` is a list of
state indices; the recursive definitions run over the list with the latest
state first. -/

/-- The emission of the class of the state `s` for a feature vector. -/
def classEmission {α F : Type} (m : SADModule α F) (s : Nat) (f : F) : α :=
  if s < m.hmmStatesClass then m.emitSilence f else m.emitSpeech f

/-- A step of a state sequence from the state `p` to the state `s`: a
self-loop, a forward step within the class, or a step from the last state of a
class to the first state of the other class. -/
def ValidStep (H p s : Nat) : Prop :=
  s = p ∨ (s = p + 1 ∧ (p + 1 < H ∨ (H ≤ p ∧ p + 1 < 2 * H))) ∨
    (p + 1 = H ∧ s = H) ∨ (p + 1 = 2 * H ∧ s = 0)

/-- A state sequence, latest state first: it starts in the first state of a
class and every step is a `ValidStep`. -/
def ValidPathBack (H : Nat) : List Nat → Prop
  | [] => False
  | [s] => s = 0 ∨ s = H
  | s :: p :: rest => ValidStep H p s ∧ ValidPathBack H (p :: rest)

/-- The score of a state sequence, latest state first: the emissions of the
classes of its states, frame by frame, and the penalty for every entry into the
state `HMM_STATES_CLASS`, that of column 0 included.  The terms are added in the
order of the frames. -/
def pathScoreBack {α F : Type} [Add α] (m : SADModule α F) (feat : Nat → F) : List Nat → α
  | [] => m.negFltMax
  | [s] =>
    if s = m.hmmStatesClass then m.emitSpeech (feat 0) + m.fPenaltySilenceToSpeech
    else classEmission m s (feat 0)
  | s :: p :: rest =>
    (if s = m.hmmStatesClass ∧ p ≠ m.hmmStatesClass then
        pathScoreBack m feat (p :: rest) + m.fPenaltySilenceToSpeech
      else pathScoreBack m feat (p :: rest))
      + classEmission m s (feat (rest.length + 1))

/-- A state sequence, latest state first, that follows the back-pointers of the
grid: the cell of each of its states, in the column of its frame, points to the
state before. -/
def FollowsPointersBack {α : Type} (grid : List (List (GridElementSAD α))) : List Nat → Prop
  | s :: p :: rest =>
    (∃ c, gridGet grid (rest.length + 1) (s : Int) = some c ∧ c.iPrev = (p : Int)) ∧
      FollowsPointersBack grid (p :: rest)
  | _ => True

/-- A state sequence `q(0), ..., q(t)` of the specification. -/
def ValidPath (H : Nat) (q : List Nat) : Prop :=
  ValidPathBack H q.reverse

/-- The score of the state sequence `q(0), ..., q(t)`, the feature vector of
frame `u` being `feat u`. -/
def pathScore {α F : Type} [Add α] (m : SADModule α F) (feat : Nat → F) (q : List Nat) : α :=
  pathScoreBack m feat q.reverse

/-- The state sequence `q(0), ..., q(t)` follows the back-pointers of the
grid. -/
def FollowsPointers {α : Type} (grid : List (List (GridElementSAD α))) (q : List Nat) : Prop :=
  FollowsPointersBack grid q.reverse

/-- The score that the left predecessor of the state `c` brings, read in the
column before: the state before it in the class, or for the first state of a
class the last state of the other class, with the penalty on the way into
speech. -/
def leftValue {α F : Type} [Add α] (m : SADModule α F) (prevRow : List (GridElementSAD α))
    (c : Nat) : α :=
  if 0 < classOffset m.hmmStatesClass c then (rowGet m prevRow (c - 1)).fScore
  else if c < m.hmmStatesClass then (rowGet m prevRow (2 * m.hmmStatesClass - 1)).fScore
  else (rowGet m prevRow (m.hmmStatesClass - 1)).fScore + m.fPenaltySilenceToSpeech

/-- The index of the left predecessor of the state `c`. -/
def leftIndex (H c : Nat) : Nat :=
  if 0 < classOffset H c then c - 1 else if c < H then 2 * H - 1 else H - 1

/-! ## Theorems -/

/-- C1 (evaluation at the failing input).  Scenario 1 (`HMM_STATES_CLASS = 1`,
no padding, frames `(0,0),(0,0),(5,5),(5,5),(0,0)`): the path of the
specification has the single run of speech states `[2,3]`, but
`recoverSpeechSegments` returns `[3,3]`, because after its first step the loop
reads row `iFrame - 1` of the grid where the path is in row `iFrame`.  With
`HMM_STATES_CLASS = 3` and three frames of silence, three of speech and three
of silence, the path has the run `[3,5]` and the code returns no segment. -/
theorem recoverSpeechSegments_scenario1 :
    detect (scenarioModule 1 0 false) [(0, 0), (0, 0), (5, 5), (5, 5), (0, 0)]
        = .ok [⟨3, 3⟩] ∧
      (runSession (scenarioModule 1 0 false) [(0, 0), (0, 0), (5, 5), (5, 5), (0, 0)]).map
        (specSegments 1) = .ok [⟨2, 3⟩] ∧
      detect (scenarioModule 3 0 false)
        [(0, 0), (0, 0), (0, 0), (5, 5), (5, 5), (5, 5), (0, 0), (0, 0), (0, 0)] = .ok [] ∧
      (runSession (scenarioModule 3 0 false)
        [(0, 0), (0, 0), (0, 0), (5, 5), (5, 5), (5, 5), (0, 0), (0, 0), (0, 0)]).map
        (specSegments 3) = .ok [⟨3, 5⟩] := by
  refine ⟨?_, ?_, ?_, ?_⟩ <;> decide!

section Errors

variable {α F : Type} {ε β γ : Type}

theorem ok_bind {ε β γ : Type} (a : β) (f : β → Except ε γ) :
    ((Except.ok a : Except ε β) >>= f) = f a := rfl

theorem bind_eq_ok {x : Except ε β} {f : β → Except ε γ} {c : γ} :
    (x >>= f) = .ok c ↔ ∃ a, x = .ok a ∧ f a = .ok c := by
  cases x with
  | error e => simp [bind, Except.bind]
  | ok a => simp [bind, Except.bind]

theorem bind_eq_error {x : Except ε β} {f : β → Except ε γ} {e : ε} :
    (x >>= f) = .error e ↔ x = .error e ∨ ∃ a, x = .ok a ∧ f a = .error e := by
  cases x with
  | error e => simp [bind, Except.bind]
  | ok a => simp [bind, Except.bind]

theorem orOutOfBounds_ok {x : Option β} {b : β} : orOutOfBounds x = .ok b ↔ x = some b := by
  cases x <;> simp [orOutOfBounds]

theorem orOutOfBounds_error {x : Option β} {e : SADError} (h : orOutOfBounds x = .error e) :
    e = .outOfBounds := by
  cases x with
  | none => simp only [orOutOfBounds, Except.error.injEq] at h; exact h.symm
  | some b => simp [orOutOfBounds] at h

theorem cAssert_error {ndebug : Bool} {line : Nat} {c : Bool} {e : SADError}
    (h : cAssert ndebug line c = .error e) : e = .assertion line := by
  unfold cAssert at h
  split at h
  · cases h
  · cases h; rfl

theorem cAssert_true (ndebug : Bool) (line : Nat) : cAssert ndebug line true = .ok () := by
  simp [cAssert]

theorem cAssert_ok {ndebug : Bool} {line : Nat} {c : Bool}
    (h : cAssert ndebug line c = .ok ()) : ndebug = true ∨ c = true := by
  unfold cAssert at h
  split at h
  · rename_i hc
    simpa using hc
  · cases h

theorem closeSegment_error {m : SADModule α F} {f : Nat} {tb ty : AudioSegment} {en : Int}
    {v : List SpeechSegment} {e : SADError}
    (h : closeSegment m f tb ty en v = .error e) : e = .assertion 335 := by
  unfold closeSegment at h
  split at h
  · rcases bind_eq_error.mp h with h1 | ⟨_, _, h1⟩
    · exact cAssert_error h1
    · cases h1
  · cases h

theorem backtrack_zero (m : SADModule α F) (grid : List (List (GridElementSAD α)))
    (el : GridElementSAD α) (ty : AudioSegment) (en : Int) (v : List SpeechSegment) :
    backtrack m grid 0 el ty en v =
      if el.iPrev = -1 then .ok (ty, en, v)
      else closeSegment m 0 (audioType m el.iPrev) ty en v >>= fun _ =>
        .error .outOfBounds := by
  rw [backtrack]

theorem backtrack_succ (m : SADModule α F) (grid : List (List (GridElementSAD α)))
    (f : Nat) (el : GridElementSAD α) (ty : AudioSegment) (en : Int) (v : List SpeechSegment) :
    backtrack m grid (f + 1) el ty en v =
      if el.iPrev = -1 then .ok (ty, en, v)
      else closeSegment m (f + 1) (audioType m el.iPrev) ty en v >>= fun st =>
        orOutOfBounds (gridGet grid f el.iPrev) >>= fun el2 =>
          backtrack m grid f el2 st.1 st.2.1 st.2.2 := by
  rw [backtrack]

theorem backtrack_error (m : SADModule α F) (grid : List (List (GridElementSAD α)))
    (f : Nat) (el : GridElementSAD α) (ty : AudioSegment) (en : Int) (v : List SpeechSegment)
    (e : SADError) (h : backtrack m grid f el ty en v = .error e) :
    e = .outOfBounds ∨ e = .assertion 335 := by
  induction f generalizing el ty en v with
  | zero =>
    rw [backtrack_zero] at h
    split at h
    · cases h
    · rcases bind_eq_error.mp h with h1 | ⟨_, _, h1⟩
      · exact Or.inr (closeSegment_error h1)
      · cases h1; exact Or.inl rfl
  | succ f ih =>
    rw [backtrack_succ] at h
    split at h
    · cases h
    · rcases bind_eq_error.mp h with h1 | ⟨_, _, h1⟩
      · exact Or.inr (closeSegment_error h1)
      · rcases bind_eq_error.mp h1 with h2 | ⟨_, _, h2⟩
        · exact Or.inl (orOutOfBounds_error h2)
        · exact ih _ _ _ _ h2

theorem padLeft_error {m : SADModule α F} {p : Option SpeechSegment} {seg : SpeechSegment}
    {e : SADError} (h : padLeft m p seg = .error e) : e = .assertion 381 := by
  unfold padLeft at h
  split at h
  · cases h
  · rcases bind_eq_error.mp h with h1 | ⟨_, _, h1⟩
    · exact cAssert_error h1
    · cases h1

theorem padRight_error {m : SADModule α F} {T : Int} {seg : SpeechSegment}
    {rest : List SpeechSegment} {e : SADError} (h : padRight m T seg rest = .error e) :
    e = .assertion 396 ∨ e = .assertion 402 := by
  unfold padRight at h
  split at h
  · cases h
  · rcases bind_eq_error.mp h with h1 | ⟨_, _, h1⟩
    · exact Or.inl (cAssert_error h1)
    · rcases bind_eq_error.mp h1 with h2 | ⟨_, _, h2⟩
      · exact Or.inr (cAssert_error h2)
      · cases h2

theorem applyPadding_cons (m : SADModule α F) (T : Int) (p : Option SpeechSegment)
    (seg : SpeechSegment) (rest : List SpeechSegment) :
    applyPadding m T p (seg :: rest) =
      padLeft m p seg >>= fun st => padRight m T seg rest >>= fun en =>
        applyPadding m T (some ⟨st, en⟩) rest >>= fun out => .ok (⟨st, en⟩ :: out) := by
  rw [applyPadding]

theorem applyPadding_error (m : SADModule α F) (T : Int) (p : Option SpeechSegment)
    (segs : List SpeechSegment) (e : SADError) (h : applyPadding m T p segs = .error e) :
    e = .assertion 381 ∨ e = .assertion 396 ∨ e = .assertion 402 := by
  induction segs generalizing p with
  | nil => simp [applyPadding] at h
  | cons seg rest ih =>
    rw [applyPadding_cons] at h
    rcases bind_eq_error.mp h with h1 | ⟨_, _, h1⟩
    · exact Or.inl (padLeft_error h1)
    · rcases bind_eq_error.mp h1 with h2 | ⟨_, _, h2⟩
      · exact Or.inr (padRight_error h2)
      · rcases bind_eq_error.mp h2 with h3 | ⟨_, _, h3⟩
        · exact ih _ h3
        · cases h3

end Errors

section Padding

variable {α F : Type}

theorem padLeft_none {m : SADModule α F} {seg : SpeechSegment} {st : Int}
    (h : padLeft m none seg = .ok st) : st = max 0 (seg.iFrameStart - m.iFramesPadding) := by
  simp only [padLeft, Except.ok.injEq] at h
  subst h
  split <;> omega

theorem padLeft_some {m : SADModule α F} {prev seg : SpeechSegment} {st : Int}
    (h : padLeft m (some prev) seg = .ok st) :
    st = max (prev.iFrameEnd + 1) (seg.iFrameStart - m.iFramesPadding) := by
  simp only [padLeft] at h
  obtain ⟨_, _, h1⟩ := bind_eq_ok.mp h
  cases h1
  split <;> omega

theorem padRight_last {m : SADModule α F} {T : Int} {seg : SpeechSegment} {en : Int}
    (h : padRight m T seg [] = .ok en) : en = min (T - 1) (seg.iFrameEnd + m.iFramesPadding) := by
  simp only [padRight, Except.ok.injEq] at h
  subst h
  split <;> omega

theorem padRight_next {m : SADModule α F} {T : Int} {seg jt : SpeechSegment}
    {rest : List SpeechSegment} {en : Int} (h : padRight m T seg (jt :: rest) = .ok en) :
    en = if seg.iFrameEnd + m.iFramesPadding
          < jt.iFrameStart - (jt.iFrameStart - seg.iFrameEnd - 1).tdiv 2 + 1 then
        seg.iFrameEnd + m.iFramesPadding
      else seg.iFrameEnd + (jt.iFrameStart - seg.iFrameEnd - 1).tdiv 2 + 1 := by
  simp only [padRight] at h
  obtain ⟨_, _, h1⟩ := bind_eq_ok.mp h
  obtain ⟨_, _, h2⟩ := bind_eq_ok.mp h1
  cases h2
  rfl

/-- What `applyPadding` returns, segment by segment: the start of segment `i`
is the left padding against the padded segment before it, its end the right
padding against the unpadded segments after it. -/
theorem applyPadding_get (m : SADModule α F) (T : Int) (p : Option SpeechSegment)
    (segs out : List SpeechSegment) (h : applyPadding m T p segs = .ok out) :
    out.length = segs.length ∧
      ∀ i si oi, segs[i]? = some si → out[i]? = some oi →
        padLeft m (if i = 0 then p else out[i - 1]?) si = .ok oi.iFrameStart ∧
        padRight m T si (segs.drop (i + 1)) = .ok oi.iFrameEnd := by
  induction segs generalizing p out with
  | nil =>
    simp only [applyPadding, Except.ok.injEq] at h
    subst h
    simp
  | cons seg rest ih =>
    rw [applyPadding_cons] at h
    obtain ⟨st, hst, h1⟩ := bind_eq_ok.mp h
    obtain ⟨en, hen, h2⟩ := bind_eq_ok.mp h1
    obtain ⟨out2, hrec, h3⟩ := bind_eq_ok.mp h2
    cases h3
    obtain ⟨hlen, hget⟩ := ih _ _ hrec
    refine ⟨by simp [hlen], ?_⟩
    intro i si oi hsi hoi
    cases i with
    | zero =>
      simp only [List.getElem?_cons_zero, Option.some.injEq] at hsi hoi
      subst hsi; subst hoi
      simpa using ⟨hst, hen⟩
    | succ k =>
      simp only [List.getElem?_cons_succ] at hsi hoi
      have := hget k si oi hsi hoi
      cases k with
      | zero => simpa using this
      | succ k2 => simpa using this

/-- C6.  Whenever the padding loop returns, the padded start of segment 0 is
`max 0 (frameStart - framesPadding)` and the padded start of every later
segment is `max (prevEnd + 1) (frameStart - framesPadding)`, where `prevEnd` is
the already padded end of the segment before it.  No segment is added or
dropped. -/
theorem applyPadding_frameStart (m : SADModule α F) (T : Int) (segs out : List SpeechSegment)
    (h : applyPadding m T none segs = .ok out) :
    out.length = segs.length ∧
      (∀ s0 o0, segs[0]? = some s0 → out[0]? = some o0 →
        o0.iFrameStart = max 0 (s0.iFrameStart - m.iFramesPadding)) ∧
      (∀ i si oi op, segs[i + 1]? = some si → out[i + 1]? = some oi → out[i]? = some op →
        oi.iFrameStart = max (op.iFrameEnd + 1) (si.iFrameStart - m.iFramesPadding)) := by
  obtain ⟨hlen, hget⟩ := applyPadding_get m T none segs out h
  refine ⟨hlen, ?_, ?_⟩
  · intro s0 o0 hs ho
    have := (hget 0 s0 o0 hs ho).1
    exact padLeft_none (by simpa using this)
  · intro i si oi op hs ho hp
    have := (hget (i + 1) si oi hs ho).1
    simp only [Nat.add_one_ne_zero, if_false, Nat.add_sub_cancel, hp] at this
    exact padLeft_some this

/-- Scenario 4 for C6: `[5,10]` and `[14,20]` with padding 2 start at
`max 0 (5 - 2) = 3` and at `max (12 + 1) (14 - 2) = 13`. -/
theorem applyPadding_frameStart_witness :
    applyPadding (scenarioModule 3 2 false) 25 none [⟨5, 10⟩, ⟨14, 20⟩]
        = .ok [⟨3, 12⟩, ⟨13, 22⟩] ∧
      (3 : Int) = max 0 (5 - 2) ∧ (13 : Int) = max (12 + 1) (14 - 2) :=
  have h : applyPadding (scenarioModule 3 2 false) 25 none [⟨5, 10⟩, ⟨14, 20⟩]
      = .ok [⟨3, 12⟩, ⟨13, 22⟩] := by decide!
  ⟨h, (applyPadding_frameStart _ _ _ _ h).2.1 ⟨5, 10⟩ ⟨3, 12⟩ rfl rfl,
    (applyPadding_frameStart _ _ _ _ h).2.2 0 ⟨14, 20⟩ ⟨13, 22⟩ ⟨3, 12⟩ rfl rfl rfl⟩

/-- C7.  Whenever the padding loop returns on a non-empty list, the padded end
of the last segment is `min (T - 1) (frameEnd + framesPadding)`. -/
theorem applyPadding_last_frameEnd (m : SADModule α F) (T : Int)
    (segs out : List SpeechSegment) (sl ol : SpeechSegment)
    (h : applyPadding m T none segs = .ok out)
    (hs : segs.getLast? = some sl) (ho : out.getLast? = some ol) :
    ol.iFrameEnd = min (T - 1) (sl.iFrameEnd + m.iFramesPadding) := by
  obtain ⟨hlen, hget⟩ := applyPadding_get m T none segs out h
  rw [List.getLast?_eq_getElem?] at hs ho
  rw [hlen] at ho
  have hpos : 0 < segs.length := by
    rcases Nat.eq_zero_or_pos segs.length with h0 | h0
    · rw [List.getElem?_eq_none (by omega)] at hs
      cases hs
    · exact h0
  have := (hget _ sl ol hs ho).2
  rw [List.drop_eq_nil_of_le (by omega)] at this
  exact padRight_last this

/-- Scenario 4 for C7: in a session of 25 frames the last segment `[14,20]`
with padding 2 ends at `min 24 22 = 22`. -/
theorem applyPadding_last_frameEnd_witness :
    applyPadding (scenarioModule 3 2 false) 25 none [⟨5, 10⟩, ⟨14, 20⟩]
        = .ok [⟨3, 12⟩, ⟨13, 22⟩] ∧
      (22 : Int) = min (25 - 1) (20 + 2) :=
  have h : applyPadding (scenarioModule 3 2 false) 25 none [⟨5, 10⟩, ⟨14, 20⟩]
      = .ok [⟨3, 12⟩, ⟨13, 22⟩] := by decide!
  ⟨h, applyPadding_last_frameEnd _ _ _ _ ⟨14, 20⟩ ⟨13, 22⟩ h rfl rfl⟩

/-- C5 (the claim fails).  Scenario 4: `HMM_STATES_CLASS = 3`, padding 2,
segments `[5,10]` and `[14,20]` in 25 frames.  The gap is 3; the code pads the
first segment to `[3,12]`, not to `[3, 10 + min 2 (3/2)] = [3,11]`. -/
theorem applyPadding_scenario4 :
    applyPadding (scenarioModule 3 2 false) 25 none [⟨5, 10⟩, ⟨14, 20⟩]
        = .ok [⟨3, 12⟩, ⟨13, 22⟩] ∧
      (12 : Int) ≠ 10 + min 2 ((14 - 10 - 1 : Int).tdiv 2) := by
  constructor <;> decide!

/-- The end that the padding loop gives to a segment that is followed by
another one, exactly as the code computes it. -/
theorem applyPadding_inner_exact (m : SADModule α F) (T : Int)
    (segs out : List SpeechSegment) (i : Nat) (si sn oi : SpeechSegment)
    (h : applyPadding m T none segs = .ok out)
    (hs : segs[i]? = some si) (hn : segs[i + 1]? = some sn) (ho : out[i]? = some oi) :
    oi.iFrameEnd = if si.iFrameEnd + m.iFramesPadding
          < sn.iFrameStart - (sn.iFrameStart - si.iFrameEnd - 1).tdiv 2 + 1 then
        si.iFrameEnd + m.iFramesPadding
      else si.iFrameEnd + (sn.iFrameStart - si.iFrameEnd - 1).tdiv 2 + 1 := by
  obtain ⟨_, hget⟩ := applyPadding_get m T none segs out h
  have hr := (hget i si oi hs ho).2
  obtain ⟨hlt, hsn⟩ := List.getElem?_eq_some.mp hn
  have hdrop : segs.drop (i + 1) = sn :: segs.drop (i + 1 + 1) := by
    rw [← hsn]
    exact List.drop_eq_getElem_cons hlt
  rw [hdrop] at hr
  exact padRight_next hr

/-- C5 (amended).  Whenever the padding loop returns, for every segment `i`
that is followed by another one, with `gap = next.frameStart - frameEnd - 1 ≥ 0`
on the unpadded values: the padded end is
`frameEnd + min framesPadding (gap/2 + 1)`, the case of an odd gap with
`framesPadding = gap/2 + 2` left aside. -/
theorem applyPadding_inner_frameEnd (m : SADModule α F) (T : Int)
    (segs out : List SpeechSegment) (i : Nat) (si sn oi : SpeechSegment)
    (h : applyPadding m T none segs = .ok out)
    (hs : segs[i]? = some si) (hn : segs[i + 1]? = some sn) (ho : out[i]? = some oi)
    (hgap : 0 ≤ sn.iFrameStart - si.iFrameEnd - 1)
    (hodd : ¬ ((sn.iFrameStart - si.iFrameEnd - 1) % 2 = 1 ∧
      m.iFramesPadding = (sn.iFrameStart - si.iFrameEnd - 1) / 2 + 2)) :
    oi.iFrameEnd
      = si.iFrameEnd + min m.iFramesPadding ((sn.iFrameStart - si.iFrameEnd - 1) / 2 + 1) := by
  have hex := applyPadding_inner_exact m T segs out i si sn oi h hs hn ho
  rw [Int.tdiv_eq_ediv hgap (by decide)] at hex
  rw [hex]
  split <;> omega

/-- Scenario 4 for the amended C5: the gap is 3, the padding 2, and the first
segment ends at `10 + min 2 (3/2 + 1) = 12`. -/
theorem applyPadding_inner_frameEnd_witness :
    applyPadding (scenarioModule 3 2 false) 25 none [⟨5, 10⟩, ⟨14, 20⟩]
        = .ok [⟨3, 12⟩, ⟨13, 22⟩] ∧
      (0 : Int) ≤ 14 - 10 - 1 ∧
      ¬ ((14 - 10 - 1 : Int) % 2 = 1 ∧ (2 : Int) = (14 - 10 - 1) / 2 + 2) ∧
      (12 : Int) = 10 + min 2 ((14 - 10 - 1) / 2 + 1) :=
  have h : applyPadding (scenarioModule 3 2 false) 25 none [⟨5, 10⟩, ⟨14, 20⟩]
      = .ok [⟨3, 12⟩, ⟨13, 22⟩] := by decide!
  ⟨h, by decide, by decide,
    applyPadding_inner_frameEnd _ _ _ _ 0 ⟨5, 10⟩ ⟨14, 20⟩ ⟨3, 12⟩ h rfl rfl rfl (by decide)
      (by decide)⟩

end Padding

section Session

variable {α F : Type}

theorem lastElement_error [LT α] [DecidableRel (fun a b : α => a < b)]
    {m : SADModule α F} {s : SADSession α} {e : SADError}
    (h : lastElement m s = .error e) : e = .outOfBounds := by
  unfold lastElement at h
  rcases bind_eq_error.mp h with h1 | ⟨_, _, h1⟩
  · exact orOutOfBounds_error h1
  · rcases bind_eq_error.mp h1 with h2 | ⟨_, _, h2⟩
    · exact orOutOfBounds_error h2
    · rcases bind_eq_error.mp h2 with h3 | ⟨_, _, h3⟩
      · exact orOutOfBounds_error h3
      · split at h3 <;> cases h3

theorem finishSegments_error {m : SADModule α F} {st : AudioSegment × Int × List SpeechSegment}
    {e : SADError} (h : finishSegments m st = .error e) : e = .assertion 348 := by
  unfold finishSegments at h
  rcases bind_eq_error.mp h with h1 | ⟨_, _, h1⟩
  · exact cAssert_error h1
  · cases h1

theorem recoverSegmentsUnpadded_error [LT α] [DecidableRel (fun a b : α => a < b)]
    (m : SADModule α F) (s : SADSession α) (e : SADError)
    (hT : ¬ s.m_iTimeFrame < m.hmmStatesClass)
    (h : recoverSegmentsUnpadded m s = .error e) :
    e = .outOfBounds ∨ e = .assertion 335 ∨ e = .assertion 348 := by
  unfold recoverSegmentsUnpadded at h
  rw [if_neg hT] at h
  rcases bind_eq_error.mp h with h1 | ⟨_, _, h1⟩
  · exact Or.inl (lastElement_error h1)
  · rcases bind_eq_error.mp h1 with h2 | ⟨_, _, h2⟩
    · rcases backtrack_error _ _ _ _ _ _ _ _ h2 with h3 | h3
      · exact Or.inl h3
      · exact Or.inr (Or.inl h3)
    · exact Or.inr (Or.inr (finishSegments_error h2))

/-- C8.  `recoverSpeechSegments` raises the insufficient-frames error exactly
when the session time is below `HMM_STATES_CLASS`; so it does for the empty
session, whatever positive value `HMM_STATES_CLASS` has. -/
theorem recoverSpeechSegments_insufficient_iff [LT α] [DecidableRel (fun a b : α => a < b)]
    (m : SADModule α F) (s : SADSession α) :
    (recoverSpeechSegments m s = .error .insufficientFrames ↔
        s.m_iTimeFrame < m.hmmStatesClass) ∧
      (0 < m.hmmStatesClass →
        recoverSpeechSegments m (beginSession SADSession.fresh) = .error .insufficientFrames) := by
  have hback : ∀ s2 : SADSession α, s2.m_iTimeFrame < m.hmmStatesClass →
      recoverSpeechSegments m s2 = .error .insufficientFrames := by
    intro s2 h2
    simp [recoverSpeechSegments, recoverSegmentsUnpadded, h2, bind, Except.bind]
  refine ⟨⟨?_, hback s⟩, fun hpos => hback _ (by simpa [beginSession, SADSession.fresh] using hpos)⟩
  intro h
  by_contra hT
  unfold recoverSpeechSegments at h
  rcases bind_eq_error.mp h with h1 | ⟨_, _, h1⟩
  · rcases recoverSegmentsUnpadded_error m s _ hT h1 with h2 | h2 | h2 <;> cases h2
  · rcases applyPadding_error _ _ _ _ _ h1 with h2 | h2 | h2 <;> cases h2

theorem fillGrid_succ [Add α] [LT α] [DecidableRel (fun a b : α => a < b)]
    (m : SADModule α F) (mFeatures : List F) (n i k : Nat)
    (grid : List (List (GridElementSAD α))) (ps pl : Int) :
    fillGrid m mFeatures (n + 1) i k grid ps pl =
      orOutOfBounds mFeatures[k]? >>= fun feat =>
      orOutOfBounds grid[i - 1]? >>= fun prevRow =>
      orOutOfBounds grid[i]? >>= fun curRow =>
        fillGrid m mFeatures n (i + 1) (k + 1)
          (grid.set i (fillColumn m i prevRow curRow feat ps pl).1)
          (fillColumn m i prevRow curRow feat ps pl).2.1
          (fillColumn m i prevRow curRow feat ps pl).2.2 := by
  rw [fillGrid]

theorem fillGrid_error [Add α] [LT α] [DecidableRel (fun a b : α => a < b)]
    (m : SADModule α F) (mFeatures : List F) (n i k : Nat)
    (grid : List (List (GridElementSAD α))) (ps pl : Int) (e : SADError)
    (h : fillGrid m mFeatures n i k grid ps pl = .error e) : e = .outOfBounds := by
  induction n generalizing i k grid ps pl with
  | zero => simp [fillGrid] at h
  | succ n ih =>
    rw [fillGrid_succ] at h
    rcases bind_eq_error.mp h with h1 | ⟨_, _, h1⟩
    · exact orOutOfBounds_error h1
    · rcases bind_eq_error.mp h1 with h2 | ⟨_, _, h2⟩
      · exact orOutOfBounds_error h2
      · rcases bind_eq_error.mp h2 with h3 | ⟨_, _, h3⟩
        · exact orOutOfBounds_error h3
        · exact ih _ _ _ _ _ h3

theorem fillGrid_ok_features [Add α] [LT α] [DecidableRel (fun a b : α => a < b)]
    (m : SADModule α F) (mFeatures : List F) (n i k : Nat)
    (grid g : List (List (GridElementSAD α))) (ps pl : Int)
    (h : fillGrid m mFeatures n i k grid ps pl = .ok g) : n = 0 ∨ k + n ≤ mFeatures.length := by
  induction n generalizing i k grid ps pl with
  | zero => exact Or.inl rfl
  | succ n ih =>
    rw [fillGrid_succ] at h
    obtain ⟨feat, hf, h1⟩ := bind_eq_ok.mp h
    obtain ⟨_, _, h2⟩ := bind_eq_ok.mp h1
    obtain ⟨_, _, h3⟩ := bind_eq_ok.mp h2
    have hk : k < mFeatures.length := (List.getElem?_eq_some.mp (orOutOfBounds_ok.mp hf)).1
    rcases ih _ _ _ _ _ h3 with h0 | h0
    · right; omega
    · right; omega

/-- C2 (the defect in general).  A call of `processFeatures` that is not the
first of its session (the session time is not 0) and that brings at least one
frame reads one row past the end of its feature matrix: `iFeatureVector` starts
at 1 in every call, so the `n` rows of the batch are read as rows `1 .. n`. -/
theorem processFeatures_later_batch [Add α] [LT α] [DecidableRel (fun a b : α => a < b)]
    (m : SADModule α F) (s : SADSession α) (mFeatures : List F)
    (hT : s.m_iTimeFrame ≠ 0) (hB : mFeatures ≠ []) :
    processFeatures m s mFeatures = .error .outOfBounds := by
  have hlen : 0 < mFeatures.length := List.length_pos.mpr hB
  cases hres : processFeatures m s mFeatures with
  | error e =>
    unfold processFeatures at hres
    simp only [if_neg hT] at hres
    rcases bind_eq_error.mp hres with h1 | ⟨_, _, h1⟩
    · rw [fillGrid_error _ _ _ _ _ _ _ _ _ h1]
    · cases h1
  | ok s2 =>
    unfold processFeatures at hres
    simp only [if_neg hT] at hres
    obtain ⟨g, hg, _⟩ := bind_eq_ok.mp hres
    rcases fillGrid_ok_features _ _ _ _ _ _ _ _ _ hg with h0 | h0 <;> omega

/-- C2 (evaluation at the failing input).  With the models of scenario 1, the
frame `(0,0)` is fed in a first call, which leaves a lattice of one column and
the session time 1; a second call with the frame `(5,5)` then reads row 1 of a
matrix of one row, while a single call with both frames succeeds and leaves
the session time 2. -/
theorem processFeatures_later_batch_witness :
    runSession (scenarioModule 1 0 false) [(0, 0)]
        = .ok ⟨[[⟨-18379, -1⟩, ⟨-268379, -1⟩]], 1⟩ ∧
      processFeatures (scenarioModule 1 0 false) ⟨[[⟨-18379, -1⟩, ⟨-268379, -1⟩]], 1⟩ [(5, 5)]
        = .error .outOfBounds ∧
      (runSession (scenarioModule 1 0 false) [(0, 0), (5, 5)]).map (fun s => s.m_iTimeFrame)
        = .ok 2 :=
  ⟨by decide!,
    processFeatures_later_batch (scenarioModule 1 0 false)
      ⟨[[⟨-18379, -1⟩, ⟨-268379, -1⟩]], 1⟩ [(5, 5)] (by decide) (List.cons_ne_nil _ _),
    by decide!⟩

/-- C3 (evaluation at the failing input).  `HMM_STATES_CLASS = 1`, padding 2,
the models of scenario 1 and the frames `(5,5),(5,5),(0,0),(5,5)`: back-tracking
gives the segments `[0,1]` and `[3,3]`, one frame apart.  The right padding of
the first one reaches frame 3, so the assertion of source line 402 fails; in a
build with `NDEBUG` the call returns `[0,3]` and `[4,3]`, a segment that ends
before it starts. -/
theorem recoverSpeechSegments_padding_overlap :
    (runSession (scenarioModule 1 2 false) [(5, 5), (5, 5), (0, 0), (5, 5)]).bind
        (recoverSegmentsUnpadded (scenarioModule 1 2 false)) = .ok [⟨0, 1⟩, ⟨3, 3⟩] ∧
      detect (scenarioModule 1 2 false) [(5, 5), (5, 5), (0, 0), (5, 5)]
        = .error (.assertion 402) ∧
      detect (scenarioModule 1 2 true) [(5, 5), (5, 5), (0, 0), (5, 5)]
        = .ok [⟨0, 3⟩, ⟨4, 3⟩] := by
  refine ⟨?_, ?_, ?_⟩ <;> decide!

/-- C9 (evaluation at the failing input).  `HMM_STATES_CLASS = 2` and two
speech-like frames: the speech state wins in the last column and the path of
the specification is the single run `[0,1]`, but the back-tracking loop asks
for row `iFrame - 1` with `iFrame = 0` and returns nothing.  With
`HMM_STATES_CLASS = 3` and three such frames the result is `[0,2]`. -/
theorem recoverSpeechSegments_two_frames :
    detect (scenarioModule 2 0 false) [(5, 5), (5, 5)] = .error .outOfBounds ∧
      (runSession (scenarioModule 2 0 false) [(5, 5), (5, 5)]).map (specSegments 2)
        = .ok [⟨0, 1⟩] ∧
      detect (scenarioModule 3 0 false) [(5, 5), (5, 5), (5, 5)] = .ok [⟨0, 2⟩] := by
  refine ⟨?_, ?_, ?_⟩ <;> decide!

/-- C10 (evaluation at the failing input).  `HMM_STATES_CLASS = 1`, penalty 0
and two frames `(0,0)`, each with a silence emission above its speech emission:
the back-tracking loop asks for row `iFrame - 1` with `iFrame = 0` and returns
nothing.  With three such frames the result is the empty list. -/
theorem recoverSpeechSegments_two_silent_frames :
    (∀ f ∈ [((0 : Int), (0 : Int)), (0, 0)],
        (scenarioModule 1 0 false).emitSpeech f < (scenarioModule 1 0 false).emitSilence f) ∧
      (scenarioModule 1 0 false).fPenaltySilenceToSpeech ≤ 0 ∧
      detect (scenarioModule 1 0 false) [(0, 0), (0, 0)] = .error .outOfBounds ∧
      detect (scenarioModule 1 0 false) [(0, 0), (0, 0), (0, 0)] = .ok [] := by
  refine ⟨?_, ?_, ?_, ?_⟩ <;> decide!

end Session

section Pointers

variable {α F : Type}

theorem rowGet_eq {m : SADModule α F} {row : List (GridElementSAD α)} {j : Nat}
    {c : GridElementSAD α} (h : row[j]? = some c) : rowGet m row j = c := by
  simp [rowGet, List.getD_eq_getElem?_getD, h]

theorem set_get_self {β : Type} {l : List β} {j : Nat} {a : β} (h : j < l.length) :
    (l.set j a)[j]? = some a := by
  simp [List.getElem?_set, h]

theorem set_get_ne {β : Type} {l : List β} {j k : Nat} {a : β} (h : k ≠ j) :
    (l.set j a)[k]? = l[k]? := by
  simp [List.getElem?_set, Ne.symm h]

theorem silenceStep_spec [Add α] [LT α] [DecidableRel (fun a b : α => a < b)]
    (m : SADModule α F) (i : Nat) (prevRow : List (GridElementSAD α)) (e : α)
    (st : List (GridElementSAD α) × Int × Int) (j : Nat)
    (hi : 1 ≤ i) (hj : j < m.hmmStatesClass)
    (hfl : ¬ (rowGet m prevRow 0).fScore < m.negFltMax)
    (hlen : st.1.length = 2 * m.hmmStatesClass)
    (hps : 1 ≤ j → 0 ≤ st.2.1 ∧ st.2.1 < (m.hmmStatesClass : Int)) :
    (silenceStep m i prevRow e st j).1.length = 2 * m.hmmStatesClass ∧
      (∃ c, (silenceStep m i prevRow e st j).1[j]? = some c ∧
        SilencePointer m.hmmStatesClass i j c.iPrev) ∧
      (∀ k, k ≠ j → (silenceStep m i prevRow e st j).1[k]? = st.1[k]?) ∧
      (0 ≤ (silenceStep m i prevRow e st j).2.1 ∧
        (silenceStep m i prevRow e st j).2.1 < (m.hmmStatesClass : Int)) := by
  have hjl : j < st.1.length := by omega
  have hi0 : 0 < i := hi
  unfold silenceStep
  simp only []
  by_cases hj0 : 0 < j
  · have hps2 := hps hj0
    by_cases hji : j < i
    · simp only [hj0, hi0, hji, and_self, if_true]
      split
      · refine ⟨by simp [hlen], ⟨_, set_get_self hjl, Or.inl ?_⟩,
          fun k hk => set_get_ne hk, ?_⟩ <;> simp only [] <;> omega
      · refine ⟨by simp [hlen], ⟨_, set_get_self hjl, Or.inl ?_⟩,
          fun k hk => set_get_ne hk, ?_⟩ <;> simp only [] <;> omega
    · simp only [hj0, hi0, hji, and_self, if_true, if_false]
      split
      · refine ⟨by simp [hlen], ⟨_, set_get_self hjl, Or.inl ?_⟩,
          fun k hk => set_get_ne hk, ?_⟩ <;> simp only [] <;> omega
      · refine ⟨by simp [hlen], ⟨_, set_get_self hjl, Or.inl ?_⟩,
          fun k hk => set_get_ne hk, ?_⟩ <;> simp only [] <;> omega
  · have hj0 : j = 0 := by omega
    subst hj0
    simp only [Nat.lt_irrefl, false_and, if_false, hi0, if_true, true_and]
    by_cases hHi : m.hmmStatesClass ≤ i
    · simp only [hHi, if_true]
      split
      · refine ⟨by simp [hlen], ⟨_, set_get_self hjl, Or.inr ?_⟩,
          fun k hk => set_get_ne hk, ?_⟩
        · refine ⟨rfl, hHi, ?_⟩
          simp only []
          omega
        · simp only []; omega
      · refine ⟨by simp [hlen], ⟨_, set_get_self hjl, Or.inl ?_⟩,
          fun k hk => set_get_ne hk, ?_⟩ <;> simp only [] <;> omega
    · simp only [hHi, if_false]
      rw [if_neg hfl]
      refine ⟨by simp [hlen], ⟨_, set_get_self hjl, Or.inl ?_⟩,
          fun k hk => set_get_ne hk, ?_⟩ <;> simp only [] <;> omega

theorem speechStep_spec [Add α] [LT α] [DecidableRel (fun a b : α => a < b)]
    (m : SADModule α F) (i : Nat) (prevRow : List (GridElementSAD α)) (e : α)
    (st : List (GridElementSAD α) × Int × Int) (j : Nat)
    (hi : 1 ≤ i) (hj : j < m.hmmStatesClass)
    (hfl : ¬ (rowGet m prevRow m.hmmStatesClass).fScore < m.negFltMax)
    (hlen : st.1.length = 2 * m.hmmStatesClass)
    (hps : 1 ≤ j → (m.hmmStatesClass : Int) ≤ st.2.1 ∧ st.2.1 < 2 * (m.hmmStatesClass : Int)) :
    (speechStep m i prevRow e st j).1.length = 2 * m.hmmStatesClass ∧
      (∃ c, (speechStep m i prevRow e st j).1[j + m.hmmStatesClass]? = some c ∧
        SpeechPointer m.hmmStatesClass i j c.iPrev) ∧
      (∀ k, k ≠ j + m.hmmStatesClass → (speechStep m i prevRow e st j).1[k]? = st.1[k]?) ∧
      ((m.hmmStatesClass : Int) ≤ (speechStep m i prevRow e st j).2.1 ∧
        (speechStep m i prevRow e st j).2.1 < 2 * (m.hmmStatesClass : Int)) := by
  have hjl : j + m.hmmStatesClass < st.1.length := by omega
  have hi0 : 0 < i := hi
  unfold speechStep
  simp only []
  by_cases hj0 : 0 < j
  · have hps2 := hps hj0
    by_cases hji : j < i
    · simp only [hj0, hi0, hji, and_self, if_true]
      split
      · refine ⟨by simp [hlen], ⟨_, set_get_self hjl, Or.inl ?_⟩,
          fun k hk => set_get_ne hk, ?_⟩ <;> simp only [] <;> omega
      · refine ⟨by simp [hlen], ⟨_, set_get_self hjl, Or.inl ?_⟩,
          fun k hk => set_get_ne hk, ?_⟩ <;> simp only [] <;> omega
    · simp only [hj0, hi0, hji, and_self, if_true, if_false]
      split
      · refine ⟨by simp [hlen], ⟨_, set_get_self hjl, Or.inl ?_⟩,
          fun k hk => set_get_ne hk, ?_⟩ <;> simp only [] <;> omega
      · refine ⟨by simp [hlen], ⟨_, set_get_self hjl, Or.inl ?_⟩,
          fun k hk => set_get_ne hk, ?_⟩ <;> simp only [] <;> omega
  · have hj0 : j = 0 := by omega
    subst hj0
    simp only [Nat.lt_irrefl, false_and, if_false, hi0, if_true, true_and, Nat.zero_add] at hjl ⊢
    by_cases hHi : m.hmmStatesClass ≤ i
    · simp only [hHi, if_true]
      split
      · refine ⟨by simp [hlen], ⟨_, set_get_self hjl, Or.inr ?_⟩,
          fun k hk => set_get_ne hk, ?_⟩
        · refine ⟨rfl, hHi, ?_⟩
          simp only []
          omega
        · simp only []; omega
      · refine ⟨by simp [hlen], ⟨_, set_get_self hjl, Or.inl ?_⟩,
          fun k hk => set_get_ne hk, ?_⟩ <;> simp only [] <;> omega
    · simp only [hHi, if_false]
      rw [if_neg hfl]
      refine ⟨by simp [hlen], ⟨_, set_get_self hjl, Or.inl ?_⟩,
          fun k hk => set_get_ne hk, ?_⟩ <;> simp only [] <;> omega

theorem silence_fold [Add α] [LT α] [DecidableRel (fun a b : α => a < b)]
    (m : SADModule α F) (i : Nat) (prevRow : List (GridElementSAD α)) (e : α)
    (st0 : List (GridElementSAD α) × Int × Int)
    (hi : 1 ≤ i) (hfl : ¬ (rowGet m prevRow 0).fScore < m.negFltMax)
    (hlen : st0.1.length = 2 * m.hmmStatesClass) (n : Nat) (hn : n ≤ m.hmmStatesClass) :
    ((List.range n).foldl (silenceStep m i prevRow e) st0).1.length = 2 * m.hmmStatesClass ∧
      (∀ j, j < n → ∃ c, ((List.range n).foldl (silenceStep m i prevRow e) st0).1[j]? = some c ∧
        SilencePointer m.hmmStatesClass i j c.iPrev) ∧
      (∀ k, n ≤ k → ((List.range n).foldl (silenceStep m i prevRow e) st0).1[k]? = st0.1[k]?) ∧
      (1 ≤ n → 0 ≤ ((List.range n).foldl (silenceStep m i prevRow e) st0).2.1 ∧
        ((List.range n).foldl (silenceStep m i prevRow e) st0).2.1 < (m.hmmStatesClass : Int)) := by
  induction n with
  | zero => simp [hlen]
  | succ n ih =>
    obtain ⟨h1, h2, h3, h4⟩ := ih (by omega)
    rw [List.range_succ, List.foldl_append]
    simp only [List.foldl_cons, List.foldl_nil]
    obtain ⟨g1, g2, g3, g4⟩ := silenceStep_spec m i prevRow e
      ((List.range n).foldl (silenceStep m i prevRow e) st0) n hi (by omega) hfl h1 h4
    refine ⟨g1, ?_, ?_, fun _ => g4⟩
    · intro j hj
      rcases Nat.lt_succ_iff_lt_or_eq.mp hj with hlt | heq
      · rw [g3 j (by omega)]
        exact h2 j hlt
      · subst heq
        exact g2
    · intro k hk
      rw [g3 k (by omega)]
      exact h3 k (by omega)

theorem speech_fold [Add α] [LT α] [DecidableRel (fun a b : α => a < b)]
    (m : SADModule α F) (i : Nat) (prevRow : List (GridElementSAD α)) (e : α)
    (st0 : List (GridElementSAD α) × Int × Int)
    (hi : 1 ≤ i) (hfl : ¬ (rowGet m prevRow m.hmmStatesClass).fScore < m.negFltMax)
    (hlen : st0.1.length = 2 * m.hmmStatesClass) (n : Nat) (hn : n ≤ m.hmmStatesClass) :
    ((List.range n).foldl (speechStep m i prevRow e) st0).1.length = 2 * m.hmmStatesClass ∧
      (∀ j, j < n → ∃ c, ((List.range n).foldl (speechStep m i prevRow e) st0).1[
          j + m.hmmStatesClass]? = some c ∧
        SpeechPointer m.hmmStatesClass i j c.iPrev) ∧
      (∀ k, k < m.hmmStatesClass ∨ n + m.hmmStatesClass ≤ k →
        ((List.range n).foldl (speechStep m i prevRow e) st0).1[k]? = st0.1[k]?) ∧
      (1 ≤ n → (m.hmmStatesClass : Int) ≤
          ((List.range n).foldl (speechStep m i prevRow e) st0).2.1 ∧
        ((List.range n).foldl (speechStep m i prevRow e) st0).2.1
          < 2 * (m.hmmStatesClass : Int)) := by
  induction n with
  | zero => simp [hlen]
  | succ n ih =>
    obtain ⟨h1, h2, h3, h4⟩ := ih (by omega)
    rw [List.range_succ, List.foldl_append]
    simp only [List.foldl_cons, List.foldl_nil]
    obtain ⟨g1, g2, g3, g4⟩ := speechStep_spec m i prevRow e
      ((List.range n).foldl (speechStep m i prevRow e) st0) n hi (by omega) hfl h1 h4
    refine ⟨g1, ?_, ?_, fun _ => g4⟩
    · intro j hj
      rcases Nat.lt_succ_iff_lt_or_eq.mp hj with hlt | heq
      · rw [g3 _ (by omega)]
        exact h2 j hlt
      · subst heq
        exact g2
    · intro k hk
      rw [g3 k (by omega)]
      exact h3 k (by omega)

/-- The back-pointers of a column `i ≥ 1` as `fillColumn` writes it, when no
score of the two first states of the column before is below `-FLT_MAX`. -/
theorem fillColumn_pointers [Add α] [LT α] [DecidableRel (fun a b : α => a < b)]
    (m : SADModule α F) (i : Nat) (prevRow curRow : List (GridElementSAD α)) (feat : F)
    (ps pl : Int) (hi : 1 ≤ i)
    (hfl0 : ¬ (rowGet m prevRow 0).fScore < m.negFltMax)
    (hflH : ¬ (rowGet m prevRow m.hmmStatesClass).fScore < m.negFltMax)
    (hlen : curRow.length = 2 * m.hmmStatesClass) :
    (fillColumn m i prevRow curRow feat ps pl).1.length = 2 * m.hmmStatesClass ∧
      (∀ j, j < m.hmmStatesClass →
        ∃ c, (fillColumn m i prevRow curRow feat ps pl).1[j]? = some c ∧
          SilencePointer m.hmmStatesClass i j c.iPrev) ∧
      (∀ j, j < m.hmmStatesClass →
        ∃ c, (fillColumn m i prevRow curRow feat ps pl).1[j + m.hmmStatesClass]? = some c ∧
          SpeechPointer m.hmmStatesClass i j c.iPrev) := by
  unfold fillColumn
  simp only []
  obtain ⟨h1, h2, _, _⟩ := silence_fold m i prevRow (m.emitSilence feat) (curRow, ps, pl) hi hfl0
    hlen m.hmmStatesClass (le_refl _)
  obtain ⟨g1, g2, g3, _⟩ := speech_fold m i prevRow (m.emitSpeech feat)
    ((List.range m.hmmStatesClass).foldl (silenceStep m i prevRow (m.emitSilence feat))
      (curRow, ps, pl)) hi hflH h1 m.hmmStatesClass (le_refl _)
  refine ⟨g1, ?_, g2⟩
  intro j hj
  rw [g3 j (Or.inl hj)]
  exact h2 j hj

theorem fillGrid_rows [Add α] [LT α] [DecidableRel (fun a b : α => a < b)]
    (m : SADModule α F) (mFeatures : List F) (n i k : Nat)
    (grid g : List (List (GridElementSAD α))) (ps pl : Int)
    (h : fillGrid m mFeatures n i k grid ps pl = .ok g) (hi : 1 ≤ i) :
    g.length = grid.length ∧
      (∀ r, r < i → g[r]? = grid[r]?) ∧
      (∀ r, i ≤ r → r < i + n → ∃ prevRow curRow feat ps2 pl2,
        g[r - 1]? = some prevRow ∧ grid[r]? = some curRow ∧
        g[r]? = some (fillColumn m r prevRow curRow feat ps2 pl2).1) ∧
      (∀ r, i + n ≤ r → g[r]? = grid[r]?) := by
  induction n generalizing i k grid ps pl with
  | zero =>
    simp only [fillGrid, Except.ok.injEq] at h
    subst h
    exact ⟨rfl, fun _ _ => rfl, fun r h1 h2 => by omega, fun _ _ => rfl⟩
  | succ n ih =>
    rw [fillGrid_succ] at h
    obtain ⟨feat, _, h1⟩ := bind_eq_ok.mp h
    obtain ⟨prevRow, hprev, h2⟩ := bind_eq_ok.mp h1
    obtain ⟨curRow, hcur, h3⟩ := bind_eq_ok.mp h2
    have hprev := orOutOfBounds_ok.mp hprev
    have hcur := orOutOfBounds_ok.mp hcur
    have hil : i < grid.length := (List.getElem?_eq_some.mp hcur).1
    obtain ⟨g1, g2, g3, g4⟩ := ih _ _ _ _ _ h3 (by omega)
    refine ⟨by simpa using g1, ?_, ?_, ?_⟩
    · intro r hr
      rw [g2 r (by omega), set_get_ne (by omega)]
    · intro r hr1 hr2
      rcases Nat.eq_or_lt_of_le hr1 with heq | hlt
      · subst heq
        refine ⟨prevRow, curRow, feat, ps, pl, ?_, hcur, ?_⟩
        · rw [g2 _ (by omega), set_get_ne (by omega)]
          exact hprev
        · rw [g2 _ (by omega)]
          exact set_get_self hil
      · obtain ⟨pr, cr, ft, a, b, e1, e2, e3⟩ := g3 r (by omega) (by omega)
        rw [set_get_ne (by omega)] at e2
        exact ⟨pr, cr, ft, a, b, e1, e2, e3⟩
    · intro r hr
      rw [g4 r (by omega), set_get_ne (by omega)]

theorem firstColumn_cells [Add α] (m : SADModule α F) (feat : F) :
    (firstColumn m feat).length = 2 * m.hmmStatesClass ∧
      ∀ (s : Nat) (c : GridElementSAD α), (firstColumn m feat)[s]? = some c → c.iPrev = -1 := by
  refine ⟨by simp [firstColumn], ?_⟩
  intro s c h
  unfold firstColumn at h
  rw [List.getElem?_set] at h
  split at h
  · split at h
    · cases h; rfl
    · cases h
  · rw [List.getElem?_set] at h
    split at h
    · split at h
      · cases h; rfl
      · cases h
    · rw [List.getElem?_replicate] at h
      split at h
      · cases h; rfl
      · cases h

/-- The grid of a session of one call: as many columns as frames, column 0 as
`firstColumn` leaves it, and every later column written by `fillColumn` from
the column before it. -/
theorem runSession_grid [Add α] [LT α] [DecidableRel (fun a b : α => a < b)]
    (m : SADModule α F) (mFeatures : List F) (s : SADSession α)
    (h : runSession m mFeatures = .ok s) :
    s.m_iTimeFrame = mFeatures.length ∧ s.m_grid.length = mFeatures.length ∧
      1 ≤ mFeatures.length ∧
      (∃ feat, s.m_grid[0]? = some (firstColumn m feat)) ∧
      (∀ r, 1 ≤ r → r < mFeatures.length → ∃ prevRow curRow feat ps pl,
        s.m_grid[r - 1]? = some prevRow ∧ curRow.length = 2 * m.hmmStatesClass ∧
        s.m_grid[r]? = some (fillColumn m r prevRow curRow feat ps pl).1) := by
  unfold runSession processFeatures at h
  simp only [beginSession, SADSession.fresh, if_true, List.nil_append, Nat.zero_add] at h
  obtain ⟨_, h0, h1⟩ := bind_eq_ok.mp h
  obtain ⟨feat, _, h2⟩ := bind_eq_ok.mp h1
  obtain ⟨g, hg, h3⟩ := bind_eq_ok.mp h2
  cases h3
  have hpos : 0 < mFeatures.length := by
    have := (List.getElem?_eq_some.mp (orOutOfBounds_ok.mp h0)).1
    simpa using this
  obtain ⟨g1, g2, g3, _⟩ := fillGrid_rows _ _ _ _ _ _ _ _ _ hg (le_refl 1)
  simp only [List.length_set, List.length_replicate] at g1
  refine ⟨by simp only []; omega, g1, hpos, ⟨feat, ?_⟩, ?_⟩
  · simp only []
    rw [g2 0 (by omega)]
    exact set_get_self (by simpa using hpos)
  · intro r hr1 hr2
    obtain ⟨pr, cr, ft, a, b, e1, e2, e3⟩ := g3 r hr1 (by omega)
    refine ⟨pr, cr, ft, a, b, e1, ?_, e3⟩
    rw [set_get_ne (by omega), List.getElem?_replicate] at e2
    split at e2 <;> cases e2 <;> simp

theorem silence_fold_length [Add α] [LT α] [DecidableRel (fun a b : α => a < b)]
    (m : SADModule α F) (i : Nat) (prevRow : List (GridElementSAD α)) (e : α)
    (st0 : List (GridElementSAD α) × Int × Int) (l : List Nat) :
    (l.foldl (silenceStep m i prevRow e) st0).1.length = st0.1.length := by
  induction l generalizing st0 with
  | nil => rfl
  | cons j l ih =>
    rw [List.foldl_cons, ih]
    unfold silenceStep
    simp only []
    split_ifs <;> simp

theorem speech_fold_length [Add α] [LT α] [DecidableRel (fun a b : α => a < b)]
    (m : SADModule α F) (i : Nat) (prevRow : List (GridElementSAD α)) (e : α)
    (st0 : List (GridElementSAD α) × Int × Int) (l : List Nat) :
    (l.foldl (speechStep m i prevRow e) st0).1.length = st0.1.length := by
  induction l generalizing st0 with
  | nil => rfl
  | cons j l ih =>
    rw [List.foldl_cons, ih]
    unfold speechStep
    simp only []
    split_ifs <;> simp

theorem fillColumn_length [Add α] [LT α] [DecidableRel (fun a b : α => a < b)]
    (m : SADModule α F) (i : Nat) (prevRow curRow : List (GridElementSAD α)) (feat : F)
    (ps pl : Int) : (fillColumn m i prevRow curRow feat ps pl).1.length = curRow.length := by
  unfold fillColumn
  simp only []
  rw [speech_fold_length, silence_fold_length]

theorem gridGet_natCast {grid : List (List (GridElementSAD α))} {r j : Nat}
    {row : List (GridElementSAD α)} (h : grid[r]? = some row) :
    gridGet grid r (j : Int) = row[j]? := by
  simp [gridGet, h]

theorem rowGet_mem {m : SADModule α F} {row : List (GridElementSAD α)} {j : Nat}
    (h : j < row.length) : rowGet m row j ∈ row := by
  rw [rowGet_eq (List.getElem?_eq_getElem h)]
  exact List.getElem_mem h

/-- The back-pointers of the grid of a session of one call, when no score of
the grid is below `-FLT_MAX`. -/
theorem runSession_pointers [Add α] [LT α] [DecidableRel (fun a b : α => a < b)]
    (m : SADModule α F) (mFeatures : List F) (s : SADSession α)
    (hH : 1 ≤ m.hmmStatesClass) (h : runSession m mFeatures = .ok s)
    (hfloor : ∀ row ∈ s.m_grid, ∀ c ∈ row, ¬ c.fScore < m.negFltMax) :
    GridPointers m.hmmStatesClass s.m_grid mFeatures.length := by
  obtain ⟨_, hlen, hpos, ⟨feat, h0⟩, hrows⟩ := runSession_grid m mFeatures s h
  have hrowlen : ∀ r, r < mFeatures.length → ∃ row, s.m_grid[r]? = some row ∧
      row.length = 2 * m.hmmStatesClass := by
    intro r hr
    rcases Nat.eq_zero_or_pos r with h1 | h1
    · subst h1
      exact ⟨_, h0, (firstColumn_cells m feat).1⟩
    · obtain ⟨pr, cr, ft, a, b, _, e2, e3⟩ := hrows r h1 hr
      exact ⟨_, e3, by rw [fillColumn_length, e2]⟩
  constructor
  · intro st hst
    rw [gridGet_natCast h0]
    have hl := (firstColumn_cells m feat).1
    refine ⟨(firstColumn m feat)[st], List.getElem?_eq_getElem (by omega), ?_⟩
    exact (firstColumn_cells m feat).2 st _ (List.getElem?_eq_getElem (by omega))
  · intro r j hr1 hr2 hj
    obtain ⟨pr, cr, ft, a, b, e1, e2, e3⟩ := hrows r hr1 hr2
    obtain ⟨pr2, e4, e5⟩ := hrowlen (r - 1) (by omega)
    rw [e1] at e4
    cases e4
    have hmem : pr ∈ s.m_grid := by
      obtain ⟨hlt, heq⟩ := List.getElem?_eq_some.mp e1
      rw [← heq]
      exact List.getElem_mem hlt
    have hfl0 : ¬ (rowGet m pr 0).fScore < m.negFltMax :=
      hfloor pr hmem _ (rowGet_mem (by omega))
    have hflH : ¬ (rowGet m pr m.hmmStatesClass).fScore < m.negFltMax :=
      hfloor pr hmem _ (rowGet_mem (by omega))
    obtain ⟨_, p1, p2⟩ := fillColumn_pointers m r pr cr ft a b hr1 hfl0 hflH e2
    rw [gridGet_natCast e3, gridGet_natCast e3]
    exact ⟨p1 j hj, p2 j hj⟩

end Pointers

section Trace

variable {α F : Type}

theorem gridPointers_cell {H T : Nat} {grid : List (List (GridElementSAD α))}
    (hH : 1 ≤ H) (hp : GridPointers H grid T) (r s : Nat) (hr : r < T) (hs : s < 2 * H) :
    ∃ c, gridGet grid r (s : Int) = some c ∧ (r = 0 → c.iPrev = -1) ∧
      (1 ≤ r → PointerOK H r s c.iPrev) := by
  rcases Nat.eq_zero_or_pos r with h0 | h0
  · subst h0
    obtain ⟨c, e1, e2⟩ := hp.1 s hs
    exact ⟨c, e1, fun _ => e2, fun h => by omega⟩
  · by_cases hsH : s < H
    · obtain ⟨⟨c, e1, e2⟩, _⟩ := hp.2 r s h0 hr hsH
      refine ⟨c, e1, fun h => by omega, fun _ => ?_⟩
      rcases e2 with ⟨p1, p2, p3⟩ | ⟨p1, p2, p3⟩
      · refine ⟨c.iPrev.toNat, by omega, by omega, Or.inl ⟨by omega, ?_⟩⟩
        unfold classOffset
        intro hlt
        rw [if_pos hsH] at hlt ⊢
        rw [if_pos (by omega)]
        have := p3 hlt
        omega
      · refine ⟨2 * H - 1, by omega, by omega, Or.inr ⟨by omega, ?_, p2, ?_⟩⟩
        · unfold classOffset
          rw [if_pos hsH]
          exact p1
        · unfold classOffset
          rw [if_neg (by omega)]
          omega
    · obtain ⟨_, ⟨c, e1, e2⟩⟩ := hp.2 r (s - H) h0 hr (by omega)
      rw [show s - H + H = s by omega] at e1
      refine ⟨c, e1, fun h => by omega, fun _ => ?_⟩
      rcases e2 with ⟨p1, p2, p3⟩ | ⟨p1, p2, p3⟩
      · refine ⟨c.iPrev.toNat, by omega, by omega, Or.inl ⟨by omega, ?_⟩⟩
        unfold classOffset
        intro hlt
        rw [if_neg hsH] at hlt ⊢
        rw [if_neg (by omega)]
        have := p3 hlt
        omega
      · refine ⟨H - 1, by omega, by omega, Or.inr ⟨by omega, ?_, p2, ?_⟩⟩
        · unfold classOffset
          rw [if_neg hsH]
          exact p1
        · unfold classOffset
          rw [if_pos (by omega)]

theorem uintToInt_small {n : Nat} (h : n < 2 ^ 31) : uintToInt n = (n : Int) := by
  unfold uintToInt
  have h1 : n % 2 ^ 32 = n := Nat.mod_eq_of_lt (by omega)
  rw [h1, if_pos h]

theorem audioType_natCast (m : SADModule α F) (s : Nat) :
    audioType m (s : Int) = if s < m.hmmStatesClass then .silence else .speech := by
  unfold audioType
  by_cases h : s < m.hmmStatesClass
  · rw [if_neg (by omega), if_pos h]
  · rw [if_pos (by omega), if_neg h]

theorem closeSegment_same (m : SADModule α F) (f : Nat) (ty : AudioSegment) (e : Int)
    (v : List SpeechSegment) : closeSegment m f ty ty e v = .ok (ty, e, v) := by
  simp [closeSegment]

theorem closeSegment_change (m : SADModule α F) (f : Nat) (tb ty : AudioSegment) (e : Int)
    (v : List SpeechSegment) (hne : tb ≠ ty)
    (hlen : e - uintToInt (f + 1) ≥ (m.hmmStatesClass : Int) - 1) :
    closeSegment m f tb ty e v =
      .ok (tb, uintToInt f,
        if ty = .speech then v ++ [⟨uintToInt (f + 1), e⟩] else v) := by
  unfold closeSegment
  rw [if_pos hne, decide_eq_true hlen, cAssert_true]
  rfl

/-- One pass through the body of the back-tracking loop keeps what is known
about the segment being built and about the vector. -/
theorem closeSegment_step (m : SADModule α F) (T f c s pn : Nat) (ty : AudioSegment) (e : Int)
    (v : List SpeechSegment) (hH : 1 ≤ m.hmmStatesClass) (hT : T < 2 ^ 31) (hc : c < T)
    (hfc : c = f ∨ c = f + 1) (hs : s < 2 * m.hmmStatesClass)
    (hty : ty = audioType m (s : Int))
    (hcase : ((pn < m.hmmStatesClass ↔ s < m.hmmStatesClass) ∧
        (classOffset m.hmmStatesClass s < c →
          classOffset m.hmmStatesClass s ≤ classOffset m.hmmStatesClass pn + 1)) ∨
      (¬ (pn < m.hmmStatesClass ↔ s < m.hmmStatesClass) ∧ classOffset m.hmmStatesClass s = 0 ∧
        m.hmmStatesClass ≤ c ∧ classOffset m.hmmStatesClass pn = m.hmmStatesClass - 1))
    (hI2 : m.hmmStatesClass ≤ c →
      e - ((f : Int) + 1) ≥ (m.hmmStatesClass : Int) - 1 - classOffset m.hmmStatesClass s)
    (hI3 : e ≥ (m.hmmStatesClass : Int) - 1)
    (hv : TraceVec m.hmmStatesClass v.reverse e ty) :
    ∃ e2 v2, closeSegment m f (audioType m (pn : Int)) ty e v
        = .ok (audioType m (pn : Int), e2, v2) ∧
      e2 ≥ (m.hmmStatesClass : Int) - 1 ∧
      TraceVec m.hmmStatesClass v2.reverse e2 (audioType m (pn : Int)) ∧
      (∀ f2, f = f2 + 1 → m.hmmStatesClass ≤ f2 →
        e2 - ((f2 : Int) + 1) ≥ (m.hmmStatesClass : Int) - 1 - classOffset m.hmmStatesClass pn) := by
  have hoff : classOffset m.hmmStatesClass s < m.hmmStatesClass := by
    unfold classOffset; split_ifs <;> omega
  rcases hcase with ⟨hsame, hstep⟩ | ⟨hdiff, hoff0, hHc, hoffp⟩
  · have htyp : audioType m (pn : Int) = ty := by
      rw [hty, audioType_natCast, audioType_natCast]
      by_cases h : s < m.hmmStatesClass
      · rw [if_pos h, if_pos (hsame.mpr h)]
      · rw [if_neg h, if_neg (fun h2 => h (hsame.mp h2))]
    rw [htyp]
    refine ⟨e, v, closeSegment_same m f ty e v, hI3, hv, ?_⟩
    intro f2 hf2 hHf
    have h1 := hI2 (by omega)
    have h2 := hstep (by omega)
    omega
  · have hne : audioType m (pn : Int) ≠ ty := by
      rw [hty, audioType_natCast, audioType_natCast]
      by_cases h : s < m.hmmStatesClass
      · rw [if_pos h, if_neg (fun h2 => hdiff ⟨fun _ => h, fun _ => h2⟩)]
        simp
      · rw [if_neg h, if_pos (by
          by_contra h2
          exact hdiff ⟨fun h3 => absurd h3 h2, fun h3 => absurd h3 h⟩)]
        simp
    have hu1 : uintToInt (f + 1) = ((f + 1 : Nat) : Int) := uintToInt_small (by omega)
    have hu0 : uintToInt f = (f : Int) := uintToInt_small (by omega)
    have hlen := hI2 hHc
    rw [hoff0] at hlen
    have hcs := closeSegment_change m f (audioType m (pn : Int)) ty e v hne
      (by rw [hu1]; push_cast; omega)
    rw [hu1, hu0] at hcs
    refine ⟨_, _, hcs, by omega, ?_, ?_⟩
    · obtain ⟨⟨hmem, hchain⟩, hhead⟩ := hv
      cases ty with
      | speech =>
        simp only [if_true, List.reverse_append, List.reverse_cons, List.reverse_nil,
          List.nil_append, List.singleton_append]
        refine ⟨⟨?_, ?_⟩, ?_⟩
        · intro seg hseg
          rcases List.mem_cons.mp hseg with h1 | h1
          · subst h1
            simp only []
            push_cast
            omega
          · exact hmem seg h1
        · rw [List.chain'_cons']
          refine ⟨?_, hchain⟩
          intro b hb
          have := (hhead b hb).2 rfl
          simp only []
          omega
        · intro b hb
          simp only [List.head?_cons, Option.some.injEq] at hb
          subst hb
          simp only []
          refine ⟨by push_cast; omega, fun h => absurd h hne⟩
      | silence =>
        simp only [reduceCtorEq, if_false]
        refine ⟨⟨hmem, hchain⟩, ?_⟩
        intro b hb
        have := (hhead b hb).1
        exact ⟨by omega, fun _ => by omega⟩
    · intro f2 hf2 hHf
      rw [hoffp]
      subst hf2
      push_cast
      omega

theorem backtrack_done (m : SADModule α F) (grid : List (List (GridElementSAD α))) (f : Nat)
    (el : GridElementSAD α) (ty : AudioSegment) (e : Int) (v : List SpeechSegment)
    (h : el.iPrev = -1) : backtrack m grid f el ty e v = .ok (ty, e, v) := by
  cases f with
  | zero => rw [backtrack_zero, if_pos h]
  | succ f => rw [backtrack_succ, if_pos h]

/-- The back-tracking loop on a grid with pointers of the right shape: it can
only stop on an index out of range, never on the assertion of line 335, and
when it ends the segment being built and the vector are as `TraceVec` says. -/
theorem backtrack_inv (m : SADModule α F) (grid : List (List (GridElementSAD α))) (T : Nat)
    (hH : 1 ≤ m.hmmStatesClass) (hT : T < 2 ^ 31)
    (hp : GridPointers m.hmmStatesClass grid T)
    (f c s : Nat) (el : GridElementSAD α) (ty : AudioSegment) (e : Int)
    (v : List SpeechSegment) (hc : c < T) (hfc : c = f ∨ c = f + 1)
    (hs : s < 2 * m.hmmStatesClass) (hel : gridGet grid c (s : Int) = some el)
    (hty : ty = audioType m (s : Int))
    (hI2 : m.hmmStatesClass ≤ c →
      e - ((f : Int) + 1) ≥ (m.hmmStatesClass : Int) - 1 - classOffset m.hmmStatesClass s)
    (hI3 : e ≥ (m.hmmStatesClass : Int) - 1)
    (hv : TraceVec m.hmmStatesClass v.reverse e ty) :
    (∀ err, backtrack m grid f el ty e v = .error err → err = .outOfBounds) ∧
      (∀ st, backtrack m grid f el ty e v = .ok st →
        st.2.1 ≥ (m.hmmStatesClass : Int) - 1 ∧
        TraceVec m.hmmStatesClass st.2.2.reverse st.2.1 st.1) := by
  induction f generalizing c s el ty e v with
  | zero =>
    obtain ⟨el2, e1, e2, e3⟩ := gridPointers_cell hH hp c s hc hs
    rw [hel] at e1
    cases e1
    rcases Nat.eq_zero_or_pos c with h0 | h0
    · rw [backtrack_done _ _ _ _ _ _ _ (e2 h0)]
      exact ⟨fun err h => (by cases h), fun st h => (by cases h; exact ⟨hI3, hv⟩)⟩
    · obtain ⟨pn, hpn1, hpn2, hcase⟩ := e3 h0
      obtain ⟨e2, v2, hcs, _, _, _⟩ := closeSegment_step m T 0 c s pn ty e v hH hT hc hfc hs hty
        hcase hI2 hI3 hv
      rw [backtrack_zero, if_neg (by omega), hpn1, hcs]
      exact ⟨fun err h => (by cases h; rfl), fun st h => (by cases h)⟩
  | succ f ih =>
    obtain ⟨el2, e1, e2, e3⟩ := gridPointers_cell hH hp c s hc hs
    rw [hel] at e1
    cases e1
    rcases Nat.eq_zero_or_pos c with h0 | h0
    · rw [backtrack_done _ _ _ _ _ _ _ (e2 h0)]
      exact ⟨fun err h => (by cases h), fun st h => (by cases h; exact ⟨hI3, hv⟩)⟩
    · obtain ⟨pn, hpn1, hpn2, hcase⟩ := e3 h0
      obtain ⟨e2, v2, hcs, g1, g2, g3⟩ := closeSegment_step m T (f + 1) c s pn ty e v hH hT hc
        hfc hs hty hcase hI2 hI3 hv
      obtain ⟨el3, k1, _, _⟩ := gridPointers_cell hH hp f pn (by omega) hpn2
      rw [backtrack_succ, if_neg (by omega), hpn1, hcs]
      have hb : (Except.ok (audioType m (pn : Int), e2, v2) >>= fun st =>
          orOutOfBounds (gridGet grid f (pn : Int)) >>= fun el2 =>
            backtrack m grid f el2 st.1 st.2.1 st.2.2)
          = backtrack m grid f el3 (audioType m (pn : Int)) e2 v2 := by
        rw [k1]
        rfl
      rw [hb]
      exact ih f pn el3 (audioType m (pn : Int)) e2 v2 (by omega) (Or.inl rfl) hpn2 k1 rfl
        (g3 f rfl) g1 g2

theorem padRight_gap {m : SADModule α F} {T : Int} {seg : SpeechSegment}
    {rest : List SpeechSegment} {e : SADError}
    (hgap : ∀ jt, rest.head? = some jt →
      jt.iFrameStart - seg.iFrameEnd - 1 ≥ (m.hmmStatesClass : Int))
    (h : padRight m T seg rest = .error e) : e = .assertion 402 := by
  cases rest with
  | nil => simp [padRight] at h
  | cons jt rest =>
    simp only [padRight] at h
    rw [decide_eq_true (hgap jt rfl), cAssert_true] at h
    rcases bind_eq_error.mp h with h1 | ⟨_, _, h1⟩
    · cases h1
    · rcases bind_eq_error.mp h1 with h2 | ⟨_, _, h2⟩
      · exact cAssert_error h2
      · cases h2

theorem applyPadding_gap (m : SADModule α F) (T : Int) (p : Option SpeechSegment)
    (segs : List SpeechSegment) (e : SADError)
    (hgap : List.Chain' (fun a b : SpeechSegment =>
      b.iFrameStart - a.iFrameEnd - 1 ≥ (m.hmmStatesClass : Int)) segs)
    (h : applyPadding m T p segs = .error e) : e = .assertion 381 ∨ e = .assertion 402 := by
  induction segs generalizing p with
  | nil => simp [applyPadding] at h
  | cons seg rest ih =>
    rw [List.chain'_cons'] at hgap
    rw [applyPadding_cons] at h
    rcases bind_eq_error.mp h with h1 | ⟨_, _, h1⟩
    · exact Or.inl (padLeft_error h1)
    · rcases bind_eq_error.mp h1 with h2 | ⟨_, _, h2⟩
      · exact Or.inr (padRight_gap (fun jt hjt => hgap.1 jt hjt) h2)
      · rcases bind_eq_error.mp h2 with h3 | ⟨_, _, h3⟩
        · exact ih _ hgap.2 h3
        · cases h3

theorem lastElement_cell [LT α] [DecidableRel (fun a b : α => a < b)]
    (m : SADModule α F) (s : SADSession α) (last : AudioSegment × GridElementSAD α)
    (hH : 1 ≤ m.hmmStatesClass) (h : lastElement m s = .ok last) :
    ∃ st : Nat, st < 2 * m.hmmStatesClass ∧
      gridGet s.m_grid (s.m_grid.length - 1) (st : Int) = some last.2 ∧
      last.1 = audioType m (st : Int) ∧
      classOffset m.hmmStatesClass st = m.hmmStatesClass - 1 := by
  unfold lastElement at h
  obtain ⟨row, h0, h1⟩ := bind_eq_ok.mp h
  obtain ⟨a, ha, h2⟩ := bind_eq_ok.mp h1
  obtain ⟨b, hb, h3⟩ := bind_eq_ok.mp h2
  have h0 := orOutOfBounds_ok.mp h0
  have ha := orOutOfBounds_ok.mp ha
  have hb := orOutOfBounds_ok.mp hb
  rw [List.getLast?_eq_getElem?] at h0
  split at h3
  · cases h3
    refine ⟨m.hmmStatesClass - 1, by omega, ?_, ?_, ?_⟩
    · rw [gridGet_natCast h0]; exact ha
    · rw [audioType_natCast, if_pos (by omega)]
    · unfold classOffset; rw [if_pos (by omega)]
  · cases h3
    refine ⟨2 * m.hmmStatesClass - 1, by omega, ?_, ?_, ?_⟩
    · rw [gridGet_natCast h0]; exact hb
    · rw [audioType_natCast, if_neg (by omega)]
    · unfold classOffset; rw [if_neg (by omega)]; omega

theorem initialFrame_eq {T : Nat} (h1 : 2 ≤ T) (h2 : T < 2 ^ 31) : initialFrame T = T - 2 := by
  unfold initialFrame
  have : T + 2 ^ 32 - 2 = (T - 2) + 2 ^ 32 := by omega
  rw [this, Nat.add_mod_right, Nat.mod_eq_of_lt (by omega)]

/-- Back-tracking on the grid of a session of one call, when no score of the
grid is below `-FLT_MAX`: the only way to fail, apart from too few frames, is an
index out of range, and the segments returned are a `GapChain`. -/
theorem recoverSegmentsUnpadded_inv [Add α] [LT α] [DecidableRel (fun a b : α => a < b)]
    (m : SADModule α F) (mFeatures : List F) (s : SADSession α)
    (hH : 1 ≤ m.hmmStatesClass) (hrun : runSession m mFeatures = .ok s)
    (hT : s.m_iTimeFrame < 2 ^ 31)
    (hfloor : ∀ row ∈ s.m_grid, ∀ c ∈ row, ¬ c.fScore < m.negFltMax) :
    (∀ err, recoverSegmentsUnpadded m s = .error err →
        err = .outOfBounds ∨ err = .insufficientFrames) ∧
      (∀ w, recoverSegmentsUnpadded m s = .ok w → GapChain m.hmmStatesClass w) := by
  have hp := runSession_pointers m mFeatures s hH hrun hfloor
  obtain ⟨hT1, hlen, hpos, _, _⟩ := runSession_grid m mFeatures s hrun
  rw [← hT1] at hp hlen hpos
  unfold recoverSegmentsUnpadded
  by_cases hlt : s.m_iTimeFrame < m.hmmStatesClass
  · rw [if_pos hlt]
    exact ⟨fun err h => (by cases h; exact Or.inr rfl), fun w h => (by cases h)⟩
  rw [if_neg hlt]
  have hinv : ∀ last, lastElement m s = .ok last →
      (∀ err, backtrack m s.m_grid (initialFrame s.m_iTimeFrame) last.2 last.1
          ((s.m_iTimeFrame : Int) - 1) [] = .error err → err = .outOfBounds) ∧
      (∀ r, backtrack m s.m_grid (initialFrame s.m_iTimeFrame) last.2 last.1
          ((s.m_iTimeFrame : Int) - 1) [] = .ok r →
        r.2.1 ≥ (m.hmmStatesClass : Int) - 1 ∧
        TraceVec m.hmmStatesClass r.2.2.reverse r.2.1 r.1) := by
    intro last hlast
    obtain ⟨st, hst, hcell, hty, hoff⟩ := lastElement_cell m s last hH hlast
    rw [hlen] at hcell
    have hv0 : TraceVec m.hmmStatesClass ([] : List SpeechSegment).reverse
        ((s.m_iTimeFrame : Int) - 1) last.1 :=
      ⟨⟨fun seg h => (by cases h), List.chain'_nil⟩, fun b h => (by cases h)⟩
    rcases Nat.lt_or_ge s.m_iTimeFrame 2 with h2 | h2
    · have h1 : s.m_iTimeFrame = 1 := by omega
      obtain ⟨el2, e1, e2, _⟩ := gridPointers_cell hH hp (s.m_iTimeFrame - 1) st (by omega) hst
      rw [hcell] at e1
      cases e1
      rw [backtrack_done _ _ _ _ _ _ _ (e2 (by omega))]
      refine ⟨fun err h => (by cases h), fun r h => ?_⟩
      cases h
      exact ⟨by simp only []; omega, hv0⟩
    · rw [initialFrame_eq h2 hT]
      exact backtrack_inv m s.m_grid s.m_iTimeFrame hH hT hp (s.m_iTimeFrame - 2)
        (s.m_iTimeFrame - 1) st last.2 last.1 _ [] (by omega) (Or.inr (by omega)) hst hcell
        hty (fun _ => by rw [hoff]; omega) (by omega) hv0
  have hfin : ∀ r : AudioSegment × Int × List SpeechSegment,
      r.2.1 ≥ (m.hmmStatesClass : Int) - 1 → finishSegments m r
        = .ok (if r.1 = .speech then r.2.2 ++ [⟨0, r.2.1⟩] else r.2.2).reverse := by
    intro r hr
    unfold finishSegments
    rw [decide_eq_true (by omega), cAssert_true]
    rfl
  refine ⟨fun err h => ?_, fun w h => ?_⟩
  · rcases bind_eq_error.mp h with h1 | ⟨last, hlast, h1⟩
    · exact Or.inl (lastElement_error h1)
    · rcases bind_eq_error.mp h1 with h2 | ⟨r, hr, h2⟩
      · exact Or.inl ((hinv last hlast).1 _ h2)
      · rw [hfin r ((hinv last hlast).2 r hr).1] at h2
        cases h2
  · obtain ⟨last, hlast, h1⟩ := bind_eq_ok.mp h
    obtain ⟨r, hr, h2⟩ := bind_eq_ok.mp h1
    obtain ⟨g1, ⟨⟨hmem, hchain⟩, hhead⟩⟩ := (hinv last hlast).2 r hr
    rw [hfin r g1] at h2
    cases h2
    by_cases hsp : r.1 = .speech
    · rw [if_pos hsp]
      simp only [List.reverse_append, List.reverse_cons, List.reverse_nil, List.nil_append,
        List.singleton_append]
      refine ⟨?_, ?_⟩
      · intro seg hseg
        rcases List.mem_cons.mp hseg with h1 | h1
        · subst h1
          simp only []
          omega
        · exact hmem seg h1
      · rw [List.chain'_cons']
        refine ⟨?_, hchain⟩
        intro b hbh
        have := (hhead b hbh).2 hsp
        simp only []
        omega
    · rw [if_neg hsp]
      exact ⟨hmem, hchain⟩

/-- C4.  In a session of one call in which no score of the grid is below
`-FLT_MAX` (and with less than `2^31` frames): `recoverSpeechSegments` never
stops on the assertion of lines 335 and 348 (every segment of the back-trace,
speech or silence, has `frameEnd - frameStart ≥ HMM_STATES_CLASS - 1`) nor on
the assertion of line 396 (the gap between two consecutive speech segments has
at least `HMM_STATES_CLASS` frames); and the speech segments handed to the
padding have these two properties whether or not assertions are compiled in. -/
theorem recoverSpeechSegments_assertions [Add α] [LT α] [DecidableRel (fun a b : α => a < b)]
    (m : SADModule α F) (mFeatures : List F) (s : SADSession α)
    (hH : 1 ≤ m.hmmStatesClass) (hrun : runSession m mFeatures = .ok s)
    (hT : s.m_iTimeFrame < 2 ^ 31)
    (hfloor : ∀ row ∈ s.m_grid, ∀ c ∈ row, ¬ c.fScore < m.negFltMax) :
    recoverSpeechSegments m s ≠ .error (.assertion 335) ∧
      recoverSpeechSegments m s ≠ .error (.assertion 348) ∧
      recoverSpeechSegments m s ≠ .error (.assertion 396) ∧
      ∀ v, recoverSegmentsUnpadded m s = .ok v →
        (∀ seg ∈ v, seg.iFrameEnd - seg.iFrameStart ≥ (m.hmmStatesClass : Int) - 1) ∧
        List.Chain' (fun a b : SpeechSegment =>
          b.iFrameStart - a.iFrameEnd - 1 ≥ (m.hmmStatesClass : Int)) v := by
  obtain ⟨herr, hok⟩ := recoverSegmentsUnpadded_inv m mFeatures s hH hrun hT hfloor
  have key : ∀ err, recoverSpeechSegments m s = .error err →
      err = .outOfBounds ∨ err = .insufficientFrames ∨ err = .assertion 381 ∨
        err = .assertion 402 := by
    intro err h
    unfold recoverSpeechSegments at h
    rcases bind_eq_error.mp h with h1 | ⟨w, hw, h1⟩
    · rcases herr err h1 with h2 | h2
      · exact Or.inl h2
      · exact Or.inr (Or.inl h2)
    · rcases applyPadding_gap m _ _ _ _ (hok w hw).2 h1 with h2 | h2
      · exact Or.inr (Or.inr (Or.inl h2))
      · exact Or.inr (Or.inr (Or.inr h2))
  refine ⟨fun h => ?_, fun h => ?_, fun h => ?_, fun v hv => hok v hv⟩
  · rcases key _ h with h2 | h2 | h2 | h2 <;> cases h2
  · rcases key _ h with h2 | h2 | h2 | h2 <;> cases h2
  · rcases key _ h with h2 | h2 | h2 | h2 <;> cases h2

/-- C4 at a concrete session: two states a class, scores in `WithBot ℤ`, frames
`(0,0),(0,0),(5,5),(5,5)`.  No score is below `⊥`, and the call ends without a
failed assertion. -/
theorem recoverSpeechSegments_assertions_witness :
    1 ≤ (absorbingModule 2 0 false).hmmStatesClass ∧
      runSession (absorbingModule 2 0 false) [(0, 0), (0, 0), (5, 5), (5, 5)]
        = .ok ⟨absorbingGrid, 4⟩ ∧
      (∀ row ∈ absorbingGrid, ∀ c ∈ row, ¬ c.fScore < (absorbingModule 2 0 false).negFltMax) ∧
      recoverSpeechSegments (absorbingModule 2 0 false) ⟨absorbingGrid, 4⟩
        ≠ .error (.assertion 335) ∧
      recoverSpeechSegments (absorbingModule 2 0 false) ⟨absorbingGrid, 4⟩
        ≠ .error (.assertion 348) ∧
      recoverSpeechSegments (absorbingModule 2 0 false) ⟨absorbingGrid, 4⟩
        ≠ .error (.assertion 396) :=
  have h1 : 1 ≤ (absorbingModule 2 0 false).hmmStatesClass := by decide
  have h2 : runSession (absorbingModule 2 0 false) [(0, 0), (0, 0), (5, 5), (5, 5)]
      = .ok ⟨absorbingGrid, 4⟩ := by decide!
  have h3 : ∀ row ∈ absorbingGrid, ∀ c ∈ row,
      ¬ c.fScore < (absorbingModule 2 0 false).negFltMax := fun _ _ _ _ => not_lt_bot
  have h := recoverSpeechSegments_assertions (absorbingModule 2 0 false)
    [(0, 0), (0, 0), (5, 5), (5, 5)] ⟨absorbingGrid, 4⟩ h1 h2 (by decide) h3
  ⟨h1, h2, h3, h.1, h.2.1, h.2.2.1⟩

end Trace

section Columns

variable {α F : Type}

/-- C11 (evaluation at the failing input).  Three states a class and the two
frames `(0,0),(0,0)`.  In column 1 the silence state 2 has no self-loop yet and
its only available predecessor is state 1, which holds `-FLT_MAX` in column 0;
the cell of the specification has the back-pointer 1.  The code compares with
`fLeft > fSelf`, both `-FLT_MAX`, takes the other branch and writes the value
that `iPrevSelf` still has from state 0 of the same column: the back-pointer is
0, which is no predecessor of state 2.  The same happens at the speech state 5
(pointer 3 where the specification has 4).  The four other cells of the column
are the cells of the specification. -/
theorem processFeatures_unreachable_cell :
    (runSession (scenarioModule 3 0 false) [(0, 0), (0, 0)]).map
        (fun s => (gridGet s.m_grid 1 2, gridGet s.m_grid 1 5))
        = .ok (some ⟨-(2 ^ 128 - 2 ^ 104) - 18379, 0⟩,
            some ⟨-(2 ^ 128 - 2 ^ 104) - 268379, 3⟩) ∧
      (runSession (scenarioModule 3 0 false) [(0, 0), (0, 0)]).map
        (fun s => (s.m_grid[0]?).map (fun prevRow =>
          (specCell (scenarioModule 3 0 false) prevRow (0, 0) 1 2,
            specCell (scenarioModule 3 0 false) prevRow (0, 0) 1 5)))
        = .ok (some (⟨-(2 ^ 128 - 2 ^ 104) - 18379, 1⟩,
            ⟨-(2 ^ 128 - 2 ^ 104) - 268379, 4⟩)) ∧
      (runSession (scenarioModule 3 0 false) [(0, 0), (0, 0)]).map
        (fun s => (s.m_grid[0]?).map (fun prevRow =>
          [0, 1, 3, 4].map (fun k : Nat => decide (gridGet s.m_grid 1 (k : Int)
            = some (specCell (scenarioModule 3 0 false) prevRow (0, 0) 1 k)))))
        = .ok (some [true, true, true, true]) := by
  refine ⟨?_, ?_, ?_⟩ <;> decide!

/-- C12.  After the first call of `processFeatures` in a session, made with at
least one feature vector, column 0 of the grid has `2 * HMM_STATES_CLASS`
cells: state 0 holds the silence emission of the first vector, state
`HMM_STATES_CLASS` holds its speech emission plus the penalty, every other
state holds `-FLT_MAX`, and the back-pointer of every cell is `-1`. -/
theorem processFeatures_first_column [Add α] [LT α] [DecidableRel (fun a b : α => a < b)]
    (m : SADModule α F) (mFeatures : List F) (s : SADSession α)
    (hrun : runSession m mFeatures = .ok s) :
    ∃ f0 row, mFeatures[0]? = some f0 ∧ s.m_grid[0]? = some row ∧
      row.length = 2 * m.hmmStatesClass ∧
      ∀ k : Nat, k < 2 * m.hmmStatesClass →
        row[k]? = some ⟨if k = 0 then m.emitSilence f0
          else if k = m.hmmStatesClass then m.emitSpeech f0 + m.fPenaltySilenceToSpeech
          else m.negFltMax, -1⟩ := by
  unfold runSession processFeatures at hrun
  simp only [beginSession, SADSession.fresh, if_true, List.nil_append, Nat.zero_add] at hrun
  obtain ⟨_, h0, h1⟩ := bind_eq_ok.mp hrun
  obtain ⟨feat, hfeat, h2⟩ := bind_eq_ok.mp h1
  obtain ⟨g, hg, h3⟩ := bind_eq_ok.mp h2
  cases h3
  have hpos : 0 < mFeatures.length := by
    have := (List.getElem?_eq_some.mp (orOutOfBounds_ok.mp h0)).1
    simpa using this
  obtain ⟨_, g2, _, _⟩ := fillGrid_rows _ _ _ _ _ _ _ _ _ hg (le_refl 1)
  refine ⟨feat, firstColumn m feat, orOutOfBounds_ok.mp hfeat, ?_,
    (firstColumn_cells m feat).1, ?_⟩
  · simp only []
    rw [g2 0 (by omega)]
    exact set_get_self (by simpa using hpos)
  · intro k hk
    unfold firstColumn
    by_cases hkH : k = m.hmmStatesClass
    · have hk0 : ¬ k = 0 := by omega
      rw [if_neg hk0, if_pos hkH, hkH, set_get_self (by simp; omega)]
    · rw [set_get_ne hkH, if_neg hkH]
      by_cases hk0 : k = 0
      · rw [if_pos hk0, hk0, set_get_self (by simp; omega)]
      · rw [set_get_ne hk0, List.getElem?_replicate, if_pos hk, if_neg hk0]

/-- C12 at a concrete session: two states a class, the frames
`(0,0),(0,0),(5,5),(5,5)`. -/
theorem processFeatures_first_column_witness :
    ∃ f0 row, [((0 : Int), (0 : Int)), (0, 0), (5, 5), (5, 5)][0]? = some f0 ∧
      absorbingGrid[0]? = some row ∧ row.length = 2 * 2 ∧
      ∀ k : Nat, k < 2 * 2 →
        row[k]? = some ⟨if k = 0 then finiteScore (unitGaussian (0, 0) f0)
          else if k = 2 then finiteScore (unitGaussian (5, 5) f0) + 0
          else ⊥, -1⟩ :=
  processFeatures_first_column (absorbingModule 2 0 false) [(0, 0), (0, 0), (5, 5), (5, 5)]
    ⟨absorbingGrid, 4⟩ (by decide!)

end Columns

section Evaluator

variable {α : Type} [LinearOrderedField α]

theorem cMax_eq_max (a b : α) : cMax a b = max a b := by
  unfold cMax
  split
  · rename_i h
    exact (max_eq_right (le_of_lt h)).symm
  · rename_i h
    exact (max_eq_left (not_lt.mp h)).symm

theorem subtractTerms_eq (x mean cov : List α) (fAcc : α) (lo n : Nat) :
    subtractTerms x mean cov fAcc lo n = fAcc - ((List.range' lo n).map
      (fun i => (vectorAt x i - vectorAt mean i) ^ 2 * vectorAt cov i)).sum := by
  unfold subtractTerms
  induction n generalizing lo fAcc with
  | zero => simp
  | succ n ih =>
    rw [List.range'_succ, List.foldl_cons, ih, List.map_cons, List.sum_cons]
    ring

theorem subtractTerms_append (x mean cov : List α) (fAcc : α) (lo n1 n2 : Nat) :
    subtractTerms x mean cov (subtractTerms x mean cov fAcc lo n1) (lo + n1) n2
      = subtractTerms x mean cov fAcc lo (n1 + n2) := by
  unfold subtractTerms
  rw [← List.foldl_append]
  congr 1
  rw [Nat.add_comm n1 n2]
  simp

theorem subtractTerms_le (x mean cov : List α) (fAcc : α) (lo n : Nat)
    (hcov : ∀ c ∈ cov, 0 ≤ c) : subtractTerms x mean cov fAcc lo n ≤ fAcc := by
  rw [subtractTerms_eq]
  have hnn : 0 ≤ ((List.range' lo n).map
      (fun i => (vectorAt x i - vectorAt mean i) ^ 2 * vectorAt cov i)).sum := by
    apply List.sum_nonneg
    intro t ht
    obtain ⟨i, _, rfl⟩ := List.mem_map.mp ht
    apply mul_nonneg (sq_nonneg _)
    unfold vectorAt
    rw [List.getD_eq_getElem?_getD]
    cases h : cov[i]? with
    | none => simp
    | some c =>
      obtain ⟨hlt, heq⟩ := List.getElem?_eq_some.mp h
      simpa using hcov c (heq ▸ List.getElem_mem hlt)
  linarith

theorem nearestNeighborStep_eq (x : List α) (L : α) (g : GaussianDecoding α) :
    nearestNeighborStep x L g = max (componentLogScore x g) L := by
  unfold nearestNeighborStep componentLogScore
  rw [cMax_eq_max, subtractTerms_eq, List.range_eq_range']

/-- With covariance entries that are not negative, the loop body with partial
distance elimination computes what the loop body without it computes. -/
theorem nearestNeighborPDEStep_eq (x : List α) (L : α) (g : GaussianDecoding α)
    (hcov : ∀ c ∈ g.fCovariance, 0 ≤ c) :
    nearestNeighborPDEStep x L g = nearestNeighborStep x L g := by
  have h26 : subtractTerms x g.fMean g.fCovariance
      (subtractTerms x g.fMean g.fCovariance g.fConstant 0 13) 13 13
      = subtractTerms x g.fMean g.fCovariance g.fConstant 0 26 :=
    subtractTerms_append x g.fMean g.fCovariance g.fConstant 0 13 13
  have h39 : subtractTerms x g.fMean g.fCovariance
      (subtractTerms x g.fMean g.fCovariance g.fConstant 0 26) 26 13
      = subtractTerms x g.fMean g.fCovariance g.fConstant 0 39 :=
    subtractTerms_append x g.fMean g.fCovariance g.fConstant 0 26 13
  have l26 : subtractTerms x g.fMean g.fCovariance g.fConstant 0 26
      ≤ subtractTerms x g.fMean g.fCovariance g.fConstant 0 13 := by
    rw [← h26]
    exact subtractTerms_le _ _ _ _ _ _ hcov
  have l39 : subtractTerms x g.fMean g.fCovariance g.fConstant 0 39
      ≤ subtractTerms x g.fMean g.fCovariance g.fConstant 0 26 := by
    rw [← h39]
    exact subtractTerms_le _ _ _ _ _ _ hcov
  unfold nearestNeighborPDEStep nearestNeighborStep
  simp only [h26, h39]
  rw [cMax_eq_max]
  split
  · split
    · rfl
    · rename_i h1 h2
      exact (max_eq_right (by linarith [not_lt.mp h2])).symm
  · rename_i h1
    exact (max_eq_right (by linarith [not_lt.mp h1])).symm

theorem nearestNeighborPDE_fold (x : List α) (gs : List (GaussianDecoding α)) (L : α)
    (hcov : ∀ g ∈ gs, ∀ c ∈ g.fCovariance, 0 ≤ c) :
    gs.foldl (nearestNeighborPDEStep x) L = gs.foldl (nearestNeighborStep x) L := by
  induction gs generalizing L with
  | nil => rfl
  | cons g gs ih =>
    rw [List.foldl_cons, List.foldl_cons,
      nearestNeighborPDEStep_eq x L g (hcov g (List.mem_cons_self _ _))]
    exact ih _ (fun g2 hg2 => hcov g2 (List.mem_cons_of_mem _ hg2))

theorem nearestNeighborPDEScore_eq (b : DecodingBuild α) (st : HMMStateDecoding α)
    (x : List α) (hcov : ∀ g ∈ st.m_gaussians, ∀ c ∈ g.fCovariance, 0 ≤ c) :
    nearestNeighborPDEScore b st x = nearestNeighborScore b st x :=
  nearestNeighborPDE_fold x st.m_gaussians b.logLikelihoodFloor hcov

/-- The running maximum over a list, started at `L`: it is at least `L` and at
least every score, and it is `L` or one of the scores. -/
theorem foldl_max_spec {β : Type} (f : β → α) (l : List β) (L : α) :
    L ≤ l.foldl (fun acc g => max (f g) acc) L ∧
      (∀ g ∈ l, f g ≤ l.foldl (fun acc g => max (f g) acc) L) ∧
      (l.foldl (fun acc g => max (f g) acc) L = L ∨
        ∃ g ∈ l, l.foldl (fun acc g => max (f g) acc) L = f g) := by
  induction l generalizing L with
  | nil => simp
  | cons a l ih =>
    rw [List.foldl_cons]
    obtain ⟨h1, h2, h3⟩ := ih (max (f a) L)
    refine ⟨le_trans (le_max_right _ _) h1, ?_, ?_⟩
    · intro g hg
      rcases List.mem_cons.mp hg with rfl | hg
      · exact le_trans (le_max_left _ _) h1
      · exact h2 g hg
    · rcases h3 with h3 | ⟨g, hg, h3⟩
      · rcases max_cases (f a) L with ⟨h4, _⟩ | ⟨h4, _⟩
        · exact Or.inr ⟨a, List.mem_cons_self _ _, by rw [h3, h4]⟩
        · exact Or.inl (by rw [h3, h4])
      · exact Or.inr ⟨g, List.mem_cons_of_mem _ hg, h3⟩

theorem nearestNeighborScore_spec (b : DecodingBuild α) (st : HMMStateDecoding α)
    (x : List α) :
    b.logLikelihoodFloor ≤ nearestNeighborScore b st x ∧
      (∀ g ∈ st.m_gaussians, componentLogScore x g ≤ nearestNeighborScore b st x) ∧
      (nearestNeighborScore b st x = b.logLikelihoodFloor ∨
        ∃ g ∈ st.m_gaussians, nearestNeighborScore b st x = componentLogScore x g) := by
  have h : nearestNeighborScore b st x = st.m_gaussians.foldl
      (fun acc g => max (componentLogScore x g) acc) b.logLikelihoodFloor := by
    unfold nearestNeighborScore
    congr 1
    funext L g
    exact nearestNeighborStep_eq x L g
  rw [h]
  exact foldl_max_spec _ _ _

end Evaluator

section EvaluatorClaims

variable {α : Type} [LinearOrderedField α]

/-- C14.  On a time stamp that misses the cache,
`computeEmissionProbabilityNearestNeighbor` returns the maximum of
`LOG_LIKELIHOOD_FLOOR` and the component scores
`constant_c - sum_i (x_i - mean_c,i)^2 * precovar_c,i`: the value is not below
the floor, not below any component score, and it is the floor or the score of
one of the components. -/
theorem computeEmissionProbabilityNearestNeighbor_miss (b : DecodingBuild α)
    (st : HMMStateDecoding α) (x : List α) (iTime : Int) (hmiss : iTime ≠ st.m_iTimestamp) :
    b.logLikelihoodFloor ≤ (computeEmissionProbabilityNearestNeighbor b st x iTime).1 ∧
      (∀ g ∈ st.m_gaussians,
        componentLogScore x g ≤ (computeEmissionProbabilityNearestNeighbor b st x iTime).1) ∧
      ((computeEmissionProbabilityNearestNeighbor b st x iTime).1 = b.logLikelihoodFloor ∨
        ∃ g ∈ st.m_gaussians,
          (computeEmissionProbabilityNearestNeighbor b st x iTime).1 = componentLogScore x g) := by
  unfold computeEmissionProbabilityNearestNeighbor
  rw [if_neg hmiss]
  exact nearestNeighborScore_spec b st x

/-- C14 at a concrete state: two components in 39 dimensions, the vector
`(4, 5, 0, ...)` at time 0 with nothing cached.  The scores of the components
are `-36 - 41/2` and `-37 - 1/2`, and the call returns `-75/2`. -/
theorem computeEmissionProbabilityNearestNeighbor_miss_witness :
    (computeEmissionProbabilityNearestNeighbor (sampleBuild 39 true) sampleState
        sampleFeatures 0).1 = -75 / 2 ∧
      (sampleBuild 39 true).logLikelihoodFloor
        ≤ (computeEmissionProbabilityNearestNeighbor (sampleBuild 39 true) sampleState
          sampleFeatures 0).1 ∧
      (∀ g ∈ sampleState.m_gaussians, componentLogScore sampleFeatures g
        ≤ (computeEmissionProbabilityNearestNeighbor (sampleBuild 39 true) sampleState
          sampleFeatures 0).1) :=
  have h := computeEmissionProbabilityNearestNeighbor_miss (sampleBuild 39 true) sampleState
    sampleFeatures 0 (by decide)
  ⟨by decide!, h.1, h.2.1⟩

/-- C15 (counterexample).  The state of two components in 39 dimensions, after
a call at time 0 with the vector `(0, 0, ...)`, which stores the score `-36`:
two consecutive calls at time 0 with the vector `(4, 5, 0, ...)` both return
`-36`, the stored score, while the fresh score of `(4, 5, 0, ...)` is `-75/2`;
so with the other entry point. -/
theorem computeEmissionProbability_stale_hit :
    (computeEmissionProbabilityNearestNeighbor (sampleBuild 39 true)
        (computeEmissionProbabilityNearestNeighbor (sampleBuild 39 true) sampleState
          (List.replicate 39 0) 0).2 sampleFeatures 0).1 = -36
    ∧ (computeEmissionProbabilityNearestNeighbor (sampleBuild 39 true)
        (computeEmissionProbabilityNearestNeighbor (sampleBuild 39 true)
          (computeEmissionProbabilityNearestNeighbor (sampleBuild 39 true) sampleState
            (List.replicate 39 0) 0).2 sampleFeatures 0).2 sampleFeatures 0).1 = -36
    ∧ nearestNeighborScore (sampleBuild 39 true)
        (computeEmissionProbabilityNearestNeighbor (sampleBuild 39 true) sampleState
          (List.replicate 39 0) 0).2 sampleFeatures = -75 / 2
    ∧ (computeEmissionProbabilityNearestNeighborPDE (sampleBuild 39 true)
        (computeEmissionProbabilityNearestNeighborPDE (sampleBuild 39 true)
          (computeEmissionProbabilityNearestNeighborPDE (sampleBuild 39 true) sampleState
            (List.replicate 39 0) 0).2 sampleFeatures 0).2 sampleFeatures 0).1 = -36
    ∧ nearestNeighborPDEScore (sampleBuild 39 true)
        (computeEmissionProbabilityNearestNeighborPDE (sampleBuild 39 true) sampleState
          (List.replicate 39 0) 0).2 sampleFeatures = -75 / 2 := by
  refine ⟨?_, ?_, ?_, ?_, ?_⟩ <;> decide!

/-- C15 (amended).  For both nearest-neighbour entry points: a call whose time
stamp is the stored one returns the stored score and leaves the state as it
is, whatever the feature vector; any other call returns the freshly computed
score and stores the time stamp and that score.  A second call with the same
vector and time stamp returns what the first one returned: the fresh score of
the vector when the first call missed the cache, the score that was stored
before when it did not. -/
theorem computeEmissionProbability_cache (b : DecodingBuild α) (st : HMMStateDecoding α)
    (x : List α) (iTime : Int) :
    (iTime = st.m_iTimestamp →
      computeEmissionProbabilityNearestNeighbor b st x iTime = (st.m_fProbabilityCached, st) ∧
      computeEmissionProbabilityNearestNeighborPDE b st x iTime
        = (st.m_fProbabilityCached, st)) ∧
    (iTime ≠ st.m_iTimestamp →
      computeEmissionProbabilityNearestNeighbor b st x iTime
        = (nearestNeighborScore b st x,
          { st with m_iTimestamp := iTime, m_fProbabilityCached := nearestNeighborScore b st x }) ∧
      computeEmissionProbabilityNearestNeighborPDE b st x iTime
        = (nearestNeighborPDEScore b st x,
          { st with m_iTimestamp := iTime,
                    m_fProbabilityCached := nearestNeighborPDEScore b st x })) ∧
    (computeEmissionProbabilityNearestNeighbor b
        (computeEmissionProbabilityNearestNeighbor b st x iTime).2 x iTime).1
      = (computeEmissionProbabilityNearestNeighbor b st x iTime).1 ∧
    (computeEmissionProbabilityNearestNeighborPDE b
        (computeEmissionProbabilityNearestNeighborPDE b st x iTime).2 x iTime).1
      = (computeEmissionProbabilityNearestNeighborPDE b st x iTime).1 ∧
    (iTime ≠ st.m_iTimestamp →
      (computeEmissionProbabilityNearestNeighbor b
          (computeEmissionProbabilityNearestNeighbor b st x iTime).2 x iTime).1
        = nearestNeighborScore b st x ∧
      (computeEmissionProbabilityNearestNeighborPDE b
          (computeEmissionProbabilityNearestNeighborPDE b st x iTime).2 x iTime).1
        = nearestNeighborPDEScore b st x) ∧
    (iTime = st.m_iTimestamp →
      (computeEmissionProbabilityNearestNeighbor b
          (computeEmissionProbabilityNearestNeighbor b st x iTime).2 x iTime).1
        = st.m_fProbabilityCached ∧
      (computeEmissionProbabilityNearestNeighborPDE b
          (computeEmissionProbabilityNearestNeighborPDE b st x iTime).2 x iTime).1
        = st.m_fProbabilityCached) := by
  unfold computeEmissionProbabilityNearestNeighbor computeEmissionProbabilityNearestNeighborPDE
  by_cases h : iTime = st.m_iTimestamp
  · simp [h]
  · simp [h]

/-- Witness of C15 (amended): the state of two components in 39 dimensions,
whose stored time stamp is `-1`, and the vector `(4, 5, 0, ...)` at time 0.
The first call misses the cache, and the second call returns the fresh score
of the vector, `-75/2`. -/
theorem computeEmissionProbability_cache_witness :
    (0 : Int) ≠ sampleState.m_iTimestamp
      ∧ (computeEmissionProbabilityNearestNeighbor (sampleBuild 39 true)
          (computeEmissionProbabilityNearestNeighbor (sampleBuild 39 true) sampleState
            sampleFeatures 0).2 sampleFeatures 0).1
        = nearestNeighborScore (sampleBuild 39 true) sampleState sampleFeatures
      ∧ nearestNeighborScore (sampleBuild 39 true) sampleState sampleFeatures = -75 / 2 :=
  ⟨by decide,
    ((computeEmissionProbability_cache (sampleBuild 39 true) sampleState sampleFeatures
      0).2.2.2.2.1 (by decide)).1,
    by decide!⟩

/-- C16.  With covariance entries that are not negative, on a time stamp that
misses the cache, `computeEmissionProbabilityNearestNeighborPDE` returns what
`computeEmissionProbabilityNearestNeighbor` returns, and leaves the same
state. -/
theorem computeEmissionProbabilityNearestNeighborPDE_eq (b : DecodingBuild α)
    (st : HMMStateDecoding α) (x : List α) (iTime : Int)
    (hcov : ∀ g ∈ st.m_gaussians, ∀ c ∈ g.fCovariance, 0 ≤ c)
    (hmiss : iTime ≠ st.m_iTimestamp) :
    computeEmissionProbabilityNearestNeighborPDE b st x iTime
      = computeEmissionProbabilityNearestNeighbor b st x iTime := by
  unfold computeEmissionProbabilityNearestNeighbor computeEmissionProbabilityNearestNeighborPDE
  rw [if_neg hmiss, if_neg hmiss, nearestNeighborPDEScore_eq b st x hcov]

/-- C16 at a concrete state: two components in 39 dimensions with the
precomputed covariance `1/2` throughout, the vector `(4, 5, 0, ...)` at time 0.
The first component is abandoned after 13 dimensions behind the second. -/
theorem computeEmissionProbabilityNearestNeighborPDE_eq_witness :
    (computeEmissionProbabilityNearestNeighborPDE (sampleBuild 39 true)
        { sampleState with m_gaussians := sampleState.m_gaussians.reverse }
        sampleFeatures 0).1 = -75 / 2 ∧
      computeEmissionProbabilityNearestNeighborPDE (sampleBuild 39 true)
        { sampleState with m_gaussians := sampleState.m_gaussians.reverse } sampleFeatures 0
      = computeEmissionProbabilityNearestNeighbor (sampleBuild 39 true)
        { sampleState with m_gaussians := sampleState.m_gaussians.reverse } sampleFeatures 0 :=
  ⟨by decide!,
    computeEmissionProbabilityNearestNeighborPDE_eq (sampleBuild 39 true)
      { sampleState with m_gaussians := sampleState.m_gaussians.reverse } sampleFeatures 0
      (by decide!) (by decide)⟩

end EvaluatorClaims

section BestGaussian

variable {α : Type} [LinearOrderedField α]

theorem cMax_ne_left {a b : α} (h : ¬ cMax a b = a) : cMax a b = b := by
  unfold cMax at h ⊢
  split
  · rfl
  · rename_i h2
    rw [if_neg h2] at h
    exact absurd rfl h

theorem subtractTerms_full (x : List α) (g : GaussianDecoding α) :
    subtractTerms x g.fMean g.fCovariance
      (subtractTerms x g.fMean g.fCovariance
        (subtractTerms x g.fMean g.fCovariance g.fConstant 0 13) 13 13) 26 13
      = componentLogScore x g := by
  have h26 := subtractTerms_append x g.fMean g.fCovariance g.fConstant 0 13 13
  have h39 := subtractTerms_append x g.fMean g.fCovariance g.fConstant 0 26 13
  simp only [Nat.zero_add, Nat.reduceAdd] at h26 h39
  rw [h26, h39, subtractTerms_eq]
  unfold componentLogScore
  rw [List.range_eq_range']

/-- The loop of `getBestScoringGaussian`: the score it ends with is the one of
the loop with partial distance elimination, and either nothing was updated, or
`gaussianBest` points to a component whose full score is that score. -/
theorem bestGaussianLoop_spec (x : List α) (gs : List (GaussianDecoding α)) (i : Nat) (L : α)
    (best : Option Nat) :
    (bestGaussianLoop x gs i L best).1 = gs.foldl (nearestNeighborPDEStep x) L ∧
      (((bestGaussianLoop x gs i L best).2 = best ∧ (bestGaussianLoop x gs i L best).1 = L) ∨
        ∃ k g, (bestGaussianLoop x gs i L best).2 = some (i + k) ∧ gs[k]? = some g ∧
          componentLogScore x g = (bestGaussianLoop x gs i L best).1) := by
  induction gs generalizing i L best with
  | nil => exact ⟨rfl, Or.inl ⟨rfl, rfl⟩⟩
  | cons g gs ih =>
    have shift : ∀ (L2 : α) (b2 : Option Nat),
        (∃ k g2, (bestGaussianLoop x gs (i + 1) L2 b2).2 = some (i + 1 + k) ∧
          gs[k]? = some g2 ∧ componentLogScore x g2 = (bestGaussianLoop x gs (i + 1) L2 b2).1) →
        ∃ k g2, (bestGaussianLoop x gs (i + 1) L2 b2).2 = some (i + k) ∧
          (g :: gs)[k]? = some g2 ∧
          componentLogScore x g2 = (bestGaussianLoop x gs (i + 1) L2 b2).1 := by
      rintro L2 b2 ⟨k, g2, e1, e2, e3⟩
      exact ⟨k + 1, g2, by rw [e1]; congr 1; omega, by simpa using e2, e3⟩
    rw [List.foldl_cons]
    unfold bestGaussianLoop nearestNeighborPDEStep
    simp only []
    split
    · split
      · split
        · rename_i hupd
          obtain ⟨h1, h2⟩ := ih (i + 1) (cMax (subtractTerms x g.fMean g.fCovariance
            (subtractTerms x g.fMean g.fCovariance
              (subtractTerms x g.fMean g.fCovariance g.fConstant 0 13) 13 13) 26 13) L)
            (some i)
          refine ⟨h1, Or.inr ?_⟩
          rcases h2 with ⟨e1, e2⟩ | h2
          · exact ⟨0, g, by simpa using e1, by simp, by rw [e2, hupd, subtractTerms_full]⟩
          · exact shift _ _ h2
        · rename_i hupd
          obtain ⟨h1, h2⟩ := ih (i + 1) (cMax (subtractTerms x g.fMean g.fCovariance
            (subtractTerms x g.fMean g.fCovariance
              (subtractTerms x g.fMean g.fCovariance g.fConstant 0 13) 13 13) 26 13) L) best
          refine ⟨h1, ?_⟩
          rcases h2 with ⟨e1, e2⟩ | h2
          · exact Or.inl ⟨e1, by rw [e2, cMax_ne_left hupd]⟩
          · exact Or.inr (shift _ _ h2)
      · obtain ⟨h1, h2⟩ := ih (i + 1) L best
        refine ⟨h1, ?_⟩
        rcases h2 with h2 | h2
        · exact Or.inl h2
        · exact Or.inr (shift _ _ h2)
    · obtain ⟨h1, h2⟩ := ih (i + 1) L best
      refine ⟨h1, ?_⟩
      rcases h2 with h2 | h2
      · exact Or.inl h2
      · exact Or.inr (shift _ _ h2)

/-- C17.  For a state with at least one component and covariance entries that
are not negative, `getBestScoringGaussian` returns a component (no assertion
fails, the pointer is not `NULL`) and the score `m`, where `m` is the maximum
of `LOG_LIKELIHOOD_FLOOR` and the component scores.  When `m` is above the
floor the score of the returned component is `m`; when `m` is the floor the
returned component is the first one. -/
theorem getBestScoringGaussian_spec (b : DecodingBuild α) (st : HMMStateDecoding α)
    (x : List α) (hne : st.m_gaussians ≠ [])
    (hcov : ∀ g ∈ st.m_gaussians, ∀ c ∈ g.fCovariance, 0 ≤ c) :
    ∃ (i : Nat) (m : α) (g : GaussianDecoding α),
      getBestScoringGaussian b st x = .ok (some i, m) ∧ st.m_gaussians[i]? = some g ∧
      b.logLikelihoodFloor ≤ m ∧ (∀ g2 ∈ st.m_gaussians, componentLogScore x g2 ≤ m) ∧
      (m = b.logLikelihoodFloor ∨ ∃ g2 ∈ st.m_gaussians, m = componentLogScore x g2) ∧
      (b.logLikelihoodFloor < m → componentLogScore x g = m) ∧
      (m = b.logLikelihoodFloor → i = 0) := by
  obtain ⟨h1, h2⟩ := bestGaussianLoop_spec x st.m_gaussians 0 b.logLikelihoodFloor none
  have hm : (bestGaussianLoop x st.m_gaussians 0 b.logLikelihoodFloor none).1
      = nearestNeighborScore b st x := by
    rw [h1]
    exact nearestNeighborPDE_fold x st.m_gaussians _ hcov
  obtain ⟨s1, s2, s3⟩ := nearestNeighborScore_spec b st x
  rw [← hm] at s1 s2 s3
  obtain ⟨g0, hg0⟩ : ∃ g0, st.m_gaussians[0]? = some g0 := by
    cases hgs : st.m_gaussians with
    | nil => exact absurd hgs hne
    | cons a l => exact ⟨a, by simp⟩
  unfold getBestScoringGaussian
  simp only []
  by_cases hfl : (bestGaussianLoop x st.m_gaussians 0 b.logLikelihoodFloor none).1
      = b.logLikelihoodFloor
  · refine ⟨0, _, g0, ?_, hg0, s1, s2, s3, fun h => absurd hfl (ne_of_gt h), fun _ => rfl⟩
    have hc : ((bestGaussianLoop x st.m_gaussians 0 b.logLikelihoodFloor none).2.isSome ||
        decide ((bestGaussianLoop x st.m_gaussians 0 b.logLikelihoodFloor none).1
          = b.logLikelihoodFloor)) = true := by simp [hfl]
    rw [hc, cAssert_true]
    show (if _ then _ else _) = _
    rw [if_pos hfl]
  · rcases h2 with ⟨_, e2⟩ | ⟨k, g, e1, e2, e3⟩
    · exact absurd e2 hfl
    · rw [Nat.zero_add] at e1
      refine ⟨k, _, g, ?_, e2, s1, s2, s3, fun _ => e3, fun h => absurd h hfl⟩
      have hc : ((bestGaussianLoop x st.m_gaussians 0 b.logLikelihoodFloor none).2.isSome ||
          decide ((bestGaussianLoop x st.m_gaussians 0 b.logLikelihoodFloor none).1
            = b.logLikelihoodFloor)) = true := by simp [e1]
      rw [hc, cAssert_true]
      show (if _ then _ else _) = _
      rw [if_neg hfl, e1]

/-- C17 at a concrete state: two components in 39 dimensions, the vector
`(4, 5, 0, ...)`.  The second component (index 1) is returned with its score
`-75/2`. -/
theorem getBestScoringGaussian_spec_witness :
    getBestScoringGaussian (sampleBuild 39 true) sampleState sampleFeatures
        = .ok (some 1, -75 / 2) ∧
      ∃ (i : Nat) (m : ℚ) (g : GaussianDecoding ℚ),
        getBestScoringGaussian (sampleBuild 39 true) sampleState sampleFeatures
          = .ok (some i, m) ∧ sampleState.m_gaussians[i]? = some g ∧
        (sampleBuild 39 true).logLikelihoodFloor ≤ m ∧
        (∀ g2 ∈ sampleState.m_gaussians, componentLogScore sampleFeatures g2 ≤ m) ∧
        (m = (sampleBuild 39 true).logLikelihoodFloor ∨
          ∃ g2 ∈ sampleState.m_gaussians, m = componentLogScore sampleFeatures g2) ∧
        ((sampleBuild 39 true).logLikelihoodFloor < m → componentLogScore sampleFeatures g = m) ∧
        (m = (sampleBuild 39 true).logLikelihoodFloor → i = 0) :=
  ⟨by decide!,
    getBestScoringGaussian_spec (sampleBuild 39 true) sampleState sampleFeatures (by decide)
      (by decide!)⟩

end BestGaussian

section Precomputation

variable {α : Type} [LinearOrderedField α]

theorem vectorAt_range (v : List α) : (List.range v.length).map (vectorAt v) = v := by
  apply List.ext_getElem
  · simp
  · intro i h1 h2
    simp [vectorAt, List.getD_eq_getElem?_getD, List.getElem?_eq_getElem h2]

theorem covarianceDeterminant_ok (ndebug : Bool) (cov : List α) (indices : List Nat) (d : α)
    (hnz : ∀ i ∈ indices, vectorAt cov i ≠ 0) :
    covarianceDeterminant ndebug cov indices d
      = .ok (d * (indices.map (vectorAt cov)).prod) := by
  induction indices generalizing d with
  | nil => simp [covarianceDeterminant]
  | cons i rest ih =>
    unfold covarianceDeterminant
    have hc : decide (vectorAt cov i ≠ 0) = true := by
      simpa using hnz i (List.mem_cons_self _ _)
    rw [hc, cAssert_true]
    show covarianceDeterminant ndebug cov rest (d * vectorAt cov i) = _
    rw [ih _ (fun j hj => hnz j (List.mem_cons_of_mem _ hj)), List.map_cons, List.prod_cons,
      mul_assoc]

theorem invertCovariance_take (cov : List α) (n : Nat) (hn : n ≤ cov.length) :
    invertCovariance cov (List.range n)
      = (cov.take n).map (fun v => 1 / (2 * v)) ++ cov.drop n := by
  induction n with
  | zero => simp [invertCovariance]
  | succ n ih =>
    have hlt : n < cov.length := hn
    have hd : cov.drop n = cov[n] :: cov.drop (n + 1) := List.drop_eq_getElem_cons hlt
    have hl : ((cov.take n).map (fun v => 1 / (2 * v))).length = n := by
      simp [Nat.min_eq_left (le_of_lt hlt)]
    unfold invertCovariance at ih ⊢
    rw [List.range_succ, List.foldl_append, ih (by omega)]
    simp only [List.foldl_cons, List.foldl_nil]
    have hv : vectorAt ((cov.take n).map (fun v => 1 / (2 * v)) ++ cov.drop n) n = cov[n] := by
      unfold vectorAt
      rw [List.getD_eq_getElem?_getD, List.getElem?_append_right (by omega), hl, hd,
        Nat.sub_self, List.getElem?_cons_zero, Option.getD_some]
    rw [hv, List.set_append_right _ _ (by omega), hl, hd, Nat.sub_self, List.set_cons_zero,
      List.take_succ, List.getElem?_eq_getElem hlt, List.map_append, List.append_assoc]
    rfl

theorem invertCovariance_map (cov : List α) :
    invertCovariance cov (List.range cov.length) = cov.map (fun v => 1 / (2 * v)) := by
  rw [invertCovariance_take cov cov.length (le_refl _)]
  simp

theorem covarianceDeterminant_inv (ndebug : Bool) (cov : List α) (indices : List Nat) (d r : α)
    (h : covarianceDeterminant ndebug cov indices d = .ok r) :
    r = d * (indices.map (vectorAt cov)).prod := by
  induction indices generalizing d with
  | nil =>
    simp only [covarianceDeterminant, Except.ok.injEq] at h
    simp [h]
  | cons i rest ih =>
    unfold covarianceDeterminant at h
    obtain ⟨_, _, h2⟩ := bind_eq_ok.mp h
    rw [ih _ h2, List.map_cons, List.prod_cons, mul_assoc]

/-- The assertion of source line 103 passes for a positive weight and a
positive determinant, `m_fConstant` and the square root being positive. -/
theorem finiteConstant_pos (b : DecodingBuild α) (c w d : α) (hc : 0 < c)
    (hsqrt : ∀ x, 0 < x → 0 < b.sqrt x) (hw : 0 < w) (hd : 0 < d) :
    finiteConstant b c w d = true := by
  unfold finiteConstant
  rw [decide_eq_true_eq]
  exact ⟨le_of_lt hd, div_pos hw (mul_pos hc (hsqrt d hd))⟩

theorem initializeGaussian_ok (b : DecodingBuild α) (c : α) (g : GaussianDecoding α)
    (hlen : g.fCovariance.length = b.dimensionality) (hnz : ∀ v ∈ g.fCovariance, v ≠ 0)
    (hfin : finiteConstant b c g.fWeight g.fCovariance.prod = true) :
    initializeGaussian b c g = .ok { g with
      fConstant := b.log (g.fWeight / (c * b.sqrt g.fCovariance.prod)),
      fCovariance := g.fCovariance.map (fun v => 1 / (2 * v)) } := by
  unfold initializeGaussian
  rw [← hlen, covarianceDeterminant_ok, vectorAt_range, invertCovariance_map, one_mul, ok_bind,
    hfin, cAssert_true]
  · rfl
  · intro i hi
    have hi2 : i < g.fCovariance.length := List.mem_range.mp hi
    apply hnz
    unfold vectorAt
    rw [List.getD_eq_getElem?_getD, List.getElem?_eq_getElem hi2]
    exact List.getElem_mem hi2

theorem initializeGaussian_inv (b : DecodingBuild α) (c : α) (g g2 : GaussianDecoding α)
    (hlen : g.fCovariance.length = b.dimensionality)
    (h : initializeGaussian b c g = .ok g2) :
    g2 = { g with
      fConstant := b.log (g.fWeight / (c * b.sqrt g.fCovariance.prod)),
      fCovariance := g.fCovariance.map (fun v => 1 / (2 * v)) } := by
  unfold initializeGaussian at h
  obtain ⟨d, hd, h2⟩ := bind_eq_ok.mp h
  obtain ⟨_, _, h3⟩ := bind_eq_ok.mp h2
  have hd2 := covarianceDeterminant_inv _ _ _ _ _ hd
  rw [← hlen, vectorAt_range, one_mul] at hd2
  rw [← hlen, invertCovariance_map, hd2] at h3
  simp only [Except.ok.injEq] at h3
  exact h3.symm

theorem initializeGaussians_ok (b : DecodingBuild α) (c : α) (gs : List (GaussianDecoding α))
    (hlen : ∀ g ∈ gs, g.fCovariance.length = b.dimensionality)
    (hnz : ∀ g ∈ gs, ∀ v ∈ g.fCovariance, v ≠ 0)
    (hfin : ∀ g ∈ gs, finiteConstant b c g.fWeight g.fCovariance.prod = true) :
    initializeGaussians b c gs = .ok (gs.map (fun g => { g with
      fConstant := b.log (g.fWeight / (c * b.sqrt g.fCovariance.prod)),
      fCovariance := g.fCovariance.map (fun v => 1 / (2 * v)) })) := by
  induction gs with
  | nil => rfl
  | cons g gs ih =>
    unfold initializeGaussians
    rw [initializeGaussian_ok b c g (hlen g (List.mem_cons_self _ _))
        (hnz g (List.mem_cons_self _ _)) (hfin g (List.mem_cons_self _ _)),
      ih (fun g2 h2 => hlen g2 (List.mem_cons_of_mem _ h2))
        (fun g2 h2 => hnz g2 (List.mem_cons_of_mem _ h2))
        (fun g2 h2 => hfin g2 (List.mem_cons_of_mem _ h2))]
    rfl

theorem initializeGaussians_inv (b : DecodingBuild α) (c : α)
    (gs r : List (GaussianDecoding α))
    (hlen : ∀ g ∈ gs, g.fCovariance.length = b.dimensionality)
    (h : initializeGaussians b c gs = .ok r) :
    r = gs.map (fun g => { g with
      fConstant := b.log (g.fWeight / (c * b.sqrt g.fCovariance.prod)),
      fCovariance := g.fCovariance.map (fun v => 1 / (2 * v)) }) := by
  induction gs generalizing r with
  | nil =>
    simp only [initializeGaussians, Except.ok.injEq] at h
    simp [← h]
  | cons g gs ih =>
    unfold initializeGaussians at h
    obtain ⟨g2, hg2, h2⟩ := bind_eq_ok.mp h
    obtain ⟨rest, hrest, h3⟩ := bind_eq_ok.mp h2
    simp only [Except.ok.injEq] at h3
    rw [← h3, initializeGaussian_inv b c g g2 (hlen g (List.mem_cons_self _ _)) hg2,
      ih rest (fun g2 h2 => hlen g2 (List.mem_cons_of_mem _ h2)) hrest]
    rfl

/-- What `initialize` does in a build with `OPTIMIZED_COMPUTATION` to a state
whose covariance vectors have `DIMENSIONALITY` entries, none of them 0, and
whose constants are finite, whatever the flag `m_bCovarianceOriginal` says. -/
theorem initializeDecoding_ok (b : DecodingBuild α) (st : HMMStateDecoding α)
    (hopt : b.optimizedComputation = true)
    (hlen : ∀ g ∈ st.m_gaussians, g.fCovariance.length = b.dimensionality)
    (hnz : ∀ g ∈ st.m_gaussians, ∀ v ∈ g.fCovariance, v ≠ 0)
    (hfin : ∀ g ∈ st.m_gaussians, finiteConstant b
      (b.powf (b.piNumber * 2) ((b.dimensionality : α) / 2)) g.fWeight g.fCovariance.prod
        = true) :
    initializeDecoding b st = .ok { st with
      m_fConstant := b.powf (b.piNumber * 2) ((b.dimensionality : α) / 2),
      m_gaussians := st.m_gaussians.map (fun g => { g with
        fConstant := b.log (g.fWeight /
          (b.powf (b.piNumber * 2) ((b.dimensionality : α) / 2) * b.sqrt g.fCovariance.prod)),
        fCovariance := g.fCovariance.map (fun v => 1 / (2 * v)) }),
      m_bCovarianceOriginal := false } := by
  unfold initializeDecoding
  simp only [hopt, if_true]
  rw [initializeGaussians_ok b _ st.m_gaussians hlen hnz hfin]
  rfl

/-- What `initialize` has done in a build with `OPTIMIZED_COMPUTATION` when it
returns. -/
theorem initializeDecoding_inv (b : DecodingBuild α) (st st2 : HMMStateDecoding α)
    (hopt : b.optimizedComputation = true)
    (hlen : ∀ g ∈ st.m_gaussians, g.fCovariance.length = b.dimensionality)
    (h : initializeDecoding b st = .ok st2) :
    st2 = { st with
      m_fConstant := b.powf (b.piNumber * 2) ((b.dimensionality : α) / 2),
      m_gaussians := st.m_gaussians.map (fun g => { g with
        fConstant := b.log (g.fWeight /
          (b.powf (b.piNumber * 2) ((b.dimensionality : α) / 2) * b.sqrt g.fCovariance.prod)),
        fCovariance := g.fCovariance.map (fun v => 1 / (2 * v)) }),
      m_bCovarianceOriginal := false } := by
  unfold initializeDecoding at h
  simp only [hopt, if_true] at h
  obtain ⟨gs, hgs, h2⟩ := bind_eq_ok.mp h
  simp only [Except.ok.injEq] at h2
  rw [← h2, initializeGaussians_inv b _ st.m_gaussians gs hlen hgs]

/-- The assertions of `initialize` pass on components with positive weights and
positive variances, `m_fConstant` and the square root being positive. -/
theorem finiteConstant_of_positive (b : DecodingBuild α) (gs : List (GaussianDecoding α))
    (hc : 0 < b.powf (b.piNumber * 2) ((b.dimensionality : α) / 2))
    (hsqrt : ∀ x, 0 < x → 0 < b.sqrt x)
    (hw : ∀ g ∈ gs, 0 < g.fWeight) (hv : ∀ g ∈ gs, ∀ v ∈ g.fCovariance, 0 < v) :
    (∀ g ∈ gs, ∀ v ∈ g.fCovariance, v ≠ 0) ∧
      ∀ g ∈ gs, finiteConstant b (b.powf (b.piNumber * 2) ((b.dimensionality : α) / 2))
        g.fWeight g.fCovariance.prod = true :=
  ⟨fun g hg v hvm => ne_of_gt (hv g hg v hvm),
    fun g hg => finiteConstant_pos b _ _ _ hc hsqrt (hw g hg)
      (List.prod_pos (fun v hvm => hv g hg v hvm))⟩

/-- C18 (counterexample).  A build with assertions and `OPTIMIZED_COMPUTATION`,
and two states in original covariance form whose variances are not 0: one has
a component of weight 0 with the variances `(1, 4)`, the other a component of
weight 1 with the variances `(-1, 4)`.  `initialize` does not replace anything:
it stops on the assertion of source line 103, the constant not being finite. -/
theorem initializeDecoding_not_finite :
    initializeDecoding (sampleBuild 2 true)
        { sampleStateOriginal with m_gaussians := [⟨0, 0, 0, [0, 0], [1, 4]⟩] }
      = .error (.assertion 103)
    ∧ initializeDecoding (sampleBuild 2 true)
        { sampleStateOriginal with m_gaussians := [⟨0, 1, 0, [0, 0], [-1, 4]⟩] }
      = .error (.assertion 103) := by
  refine ⟨?_, ?_⟩ <;> decide!

/-- C18 (amended).  In a build with `OPTIMIZED_COMPUTATION`, for a state in
original covariance form whose weights are positive and whose variances are not
0 and have a positive product (`(2π)^(D/2)` and the square root of a positive
number being positive), `initialize` returns without a failed assertion; the
flag then says that the covariance is not original, and every component keeps
its weight and mean, has each covariance entry `v` replaced by `1/(2v)`, and
has the constant `log(weight / ((2π)^(D/2) * sqrt(product of the variances)))`. -/
theorem initializeDecoding_precomputes (b : DecodingBuild α) (st : HMMStateDecoding α)
    (hopt : b.optimizedComputation = true) (_horig : st.m_bCovarianceOriginal = true)
    (hlen : ∀ g ∈ st.m_gaussians, g.fCovariance.length = b.dimensionality)
    (hnz : ∀ g ∈ st.m_gaussians, ∀ v ∈ g.fCovariance, v ≠ 0)
    (hpos : ∀ g ∈ st.m_gaussians, 0 < g.fWeight ∧ 0 < g.fCovariance.prod)
    (hc : 0 < b.powf (b.piNumber * 2) ((b.dimensionality : α) / 2))
    (hsqrt : ∀ x, 0 < x → 0 < b.sqrt x) :
    ∃ st2, initializeDecoding b st = .ok st2 ∧ st2.m_bCovarianceOriginal = false ∧
      st2.m_gaussians.length = st.m_gaussians.length ∧
      ∀ (k : Nat) (g : GaussianDecoding α), st.m_gaussians[k]? = some g →
        ∃ g2, st2.m_gaussians[k]? = some g2 ∧ g2.fWeight = g.fWeight ∧ g2.fMean = g.fMean ∧
          g2.fCovariance = g.fCovariance.map (fun v => 1 / (2 * v)) ∧
          g2.fConstant = b.log (g.fWeight /
            (b.powf (b.piNumber * 2) ((b.dimensionality : α) / 2)
              * b.sqrt g.fCovariance.prod)) := by
  refine ⟨_, initializeDecoding_ok b st hopt hlen hnz
    (fun g hg => finiteConstant_pos b _ _ _ hc hsqrt (hpos g hg).1 (hpos g hg).2),
    rfl, by simp, ?_⟩
  intro k g hk
  simp only [List.getElem?_map, hk, Option.map_some']
  exact ⟨_, rfl, rfl, rfl, rfl, rfl⟩

/-- C18 (amended) at a concrete state: two components in two dimensions with
the weights `1/4` and `3/4` and the variances `(1, 4)` and `(1/2, 2)`, which
become `(1/2, 1/8)` and `(1, 1/4)`. -/
theorem initializeDecoding_precomputes_witness :
    (initializeDecoding (sampleBuild 2 true) sampleStateOriginal).map
        (fun s => (s.m_gaussians.map (fun g => g.fCovariance), s.m_bCovarianceOriginal))
        = .ok ([[1 / 2, 1 / 8], [1, 1 / 4]], false) ∧
      ∃ st2, initializeDecoding (sampleBuild 2 true) sampleStateOriginal = .ok st2 ∧
        st2.m_bCovarianceOriginal = false ∧
        st2.m_gaussians.length = sampleStateOriginal.m_gaussians.length ∧
        ∀ (k : Nat) (g : GaussianDecoding ℚ), sampleStateOriginal.m_gaussians[k]? = some g →
          ∃ g2, st2.m_gaussians[k]? = some g2 ∧ g2.fWeight = g.fWeight ∧ g2.fMean = g.fMean ∧
            g2.fCovariance = g.fCovariance.map (fun v => 1 / (2 * v)) ∧
            g2.fConstant = (sampleBuild 2 true).log (g.fWeight /
              ((sampleBuild 2 true).powf ((sampleBuild 2 true).piNumber * 2)
                (((sampleBuild 2 true).dimensionality : ℚ) / 2)
                * (sampleBuild 2 true).sqrt g.fCovariance.prod)) :=
  ⟨by decide!,
    initializeDecoding_precomputes (sampleBuild 2 true) sampleStateOriginal rfl rfl
      (by decide!) (by decide!) (by decide!) (by decide!) (fun _ hx => hx)⟩

/-- C19 (counterexample).  The state of two components in two dimensions whose
covariance is already precomputed, `(1/2, 1/8)` and `(1, 1/4)`, with the flag
saying so: `initialize` does not fail, and the covariance is not what it was
but `(1, 4)` and `(1/2, 2)`. -/
theorem initializeDecoding_twice :
    sampleStatePrecomputed.m_bCovarianceOriginal = false ∧
      (initializeDecoding (sampleBuild 2 true) sampleStatePrecomputed).map
        (fun s => (s.m_gaussians.map (fun g => g.fCovariance), s.m_bCovarianceOriginal))
        = .ok ([[1, 4], [1 / 2, 2]], false) ∧
      sampleStatePrecomputed.m_gaussians.map (fun g => g.fCovariance)
        = [[1 / 2, 1 / 8], [1, 1 / 4]] := by
  refine ⟨rfl, ?_, ?_⟩ <;> decide!

/-- C19 (amended).  In a build with `OPTIMIZED_COMPUTATION`, `initialize` on a
state whose covariance is already precomputed, with positive weights and
entries that are not 0 and have a positive product (`(2π)^(D/2)` and the square
root of a positive number being positive), is not an error: the call returns,
every entry `p` is replaced by `1/(2p)` (and `1/(2p)` of the new entries are
the old ones, so the entries `1/(2v)` of a state initialized once are the
variances `v` again), every constant is computed anew from the entries `p`,
weights and means stay, and the flag still says that the covariance is not
original. -/
theorem initializeDecoding_precomputed_again (b : DecodingBuild α) (st : HMMStateDecoding α)
    (hopt : b.optimizedComputation = true) (_hpre : st.m_bCovarianceOriginal = false)
    (hlen : ∀ g ∈ st.m_gaussians, g.fCovariance.length = b.dimensionality)
    (hnz : ∀ g ∈ st.m_gaussians, ∀ p ∈ g.fCovariance, p ≠ 0)
    (hpos : ∀ g ∈ st.m_gaussians, 0 < g.fWeight ∧ 0 < g.fCovariance.prod)
    (hc : 0 < b.powf (b.piNumber * 2) ((b.dimensionality : α) / 2))
    (hsqrt : ∀ x, 0 < x → 0 < b.sqrt x) :
    ∃ st2, initializeDecoding b st = .ok st2 ∧ st2.m_bCovarianceOriginal = false ∧
      st2.m_gaussians.length = st.m_gaussians.length ∧
      ∀ (k : Nat) (g : GaussianDecoding α), st.m_gaussians[k]? = some g →
        ∃ g2, st2.m_gaussians[k]? = some g2 ∧ g2.fWeight = g.fWeight ∧ g2.fMean = g.fMean ∧
          g2.fCovariance = g.fCovariance.map (fun p => 1 / (2 * p)) ∧
          g2.fCovariance.map (fun p => 1 / (2 * p)) = g.fCovariance ∧
          g2.fConstant = b.log (g.fWeight /
            (b.powf (b.piNumber * 2) ((b.dimensionality : α) / 2)
              * b.sqrt g.fCovariance.prod)) := by
  refine ⟨_, initializeDecoding_ok b st hopt hlen hnz
    (fun g hg => finiteConstant_pos b _ _ _ hc hsqrt (hpos g hg).1 (hpos g hg).2),
    rfl, by simp, ?_⟩
  intro k g hk
  simp only [List.getElem?_map, hk, Option.map_some']
  refine ⟨_, rfl, rfl, rfl, rfl, ?_, rfl⟩
  have hmem : g ∈ st.m_gaussians := by
    obtain ⟨hlt, heq⟩ := List.getElem?_eq_some.mp hk
    exact heq ▸ List.getElem_mem hlt
  simp only [List.map_map]
  conv_rhs => rw [← List.map_id g.fCovariance]
  apply List.map_congr_left
  intro p hp
  have hp0 : p ≠ 0 := hnz g hmem p hp
  simp only [Function.comp, id]
  field_simp

/-- C19 (amended) at the concrete state with the weights `1/4` and `3/4` and
the precomputed covariance `(1/2, 1/8)` and `(1, 1/4)`. -/
theorem initializeDecoding_precomputed_again_witness :
    ∃ st2, initializeDecoding (sampleBuild 2 true) sampleStatePrecomputed = .ok st2 ∧
      st2.m_bCovarianceOriginal = false ∧
      st2.m_gaussians.length = sampleStatePrecomputed.m_gaussians.length ∧
      ∀ (k : Nat) (g : GaussianDecoding ℚ), sampleStatePrecomputed.m_gaussians[k]? = some g →
        ∃ g2, st2.m_gaussians[k]? = some g2 ∧ g2.fWeight = g.fWeight ∧ g2.fMean = g.fMean ∧
          g2.fCovariance = g.fCovariance.map (fun p => 1 / (2 * p)) ∧
          g2.fCovariance.map (fun p => 1 / (2 * p)) = g.fCovariance ∧
          g2.fConstant = (sampleBuild 2 true).log (g.fWeight /
            ((sampleBuild 2 true).powf ((sampleBuild 2 true).piNumber * 2)
              (((sampleBuild 2 true).dimensionality : ℚ) / 2)
              * (sampleBuild 2 true).sqrt g.fCovariance.prod)) :=
  initializeDecoding_precomputed_again (sampleBuild 2 true) sampleStatePrecomputed rfl rfl
    (by decide!) (by decide!) (by decide!) (by decide!) (fun _ hx => hx)

end Precomputation

section CodecLemmas

variable {α : Type}

theorem readBytes_writeBytes (bytes : List Nat) (rest : List (FileCell α)) :
    readBytes bytes.length (writeBytes bytes ++ rest) = .ok (bytes, rest) := by
  induction bytes with
  | nil => rfl
  | cons v bytes ih =>
    show (readBytes bytes.length (writeBytes bytes ++ rest) >>= fun r => _) = _
    rw [ih]
    rfl

theorem readFloats_map (xs : List α) (rest : List (FileCell α)) :
    readFloats xs.length (xs.map FileCell.float ++ rest) = .ok (xs, rest) := by
  induction xs with
  | nil => rfl
  | cons x xs ih =>
    show (readFloat (FileCell.float x :: (xs.map FileCell.float ++ rest)) >>= fun x =>
      readFloats xs.length x.2 >>= fun r => _) = _
    show (readFloats xs.length (xs.map FileCell.float ++ rest) >>= fun r => _) = _
    rw [ih]
    rfl

theorem readUChar_writeUChar (v : Nat) (h : v < 256) (rest : List (FileCell α)) :
    readUChar (writeUChar v ++ rest) = .ok (v, rest) := by
  simp [writeUChar, readUChar, Nat.mod_eq_of_lt h]

theorem readInt_writeInt (n : Nat) (h : n < 2 ^ 31) (rest : List (FileCell α)) :
    readInt (writeInt (n : Int) ++ rest) = .ok ((n : Int), rest) := by
  have hu : ((n : Int) % 2 ^ 32).toNat = n := by
    have : (n : Int) % 2 ^ 32 = (n : Int) := Int.emod_eq_of_lt (by omega) (by omega)
    rw [this]
    rfl
  unfold readInt writeInt
  simp only [hu]
  show (readBytes 4 (writeBytes [n % 256, n / 256 % 256, n / 65536 % 256, n / 16777216 % 256]
    ++ rest) >>= fun r => _) = _
  rw [show (4 : Nat) = [n % 256, n / 256 % 256, n / 65536 % 256, n / 16777216 % 256].length
    from rfl, readBytes_writeBytes]
  show Except.ok (uintToInt _, rest) = _
  have hsum : n % 256 + 256 * (n / 256 % 256) + 65536 * (n / 65536 % 256)
      + 16777216 * (n / 16777216 % 256) = n := by omega
  simp only [List.getD_cons_zero, List.getD_cons_succ]
  rw [hsum, uintToInt_small h]

theorem cString_append (str rest : List Nat) (hnul : ∀ c ∈ str, c ≠ 0) :
    cString (str ++ 0 :: rest) = str := by
  unfold cString
  induction str with
  | nil => simp
  | cons c str ih =>
    have hc : c ≠ 0 := hnul c (List.mem_cons_self _ _)
    simp only [List.cons_append, List.takeWhile_cons, hc, ne_eq, not_false_eq_true,
      decide_True, if_true]
    rw [ih (fun d hd => hnul d (List.mem_cons_of_mem _ hd))]

theorem strcpy_take (strPhone str : List Nat) (n : Nat) (hfit : str.length ≤ n)
    (hbuf : strPhone.length = n + 1) :
    (strcpy strPhone str).take (n + 1) = strcpy strPhone str ∧
      (strcpy strPhone str).length = n + 1 := by
  have hl : (strcpy strPhone str).length = n + 1 := by
    simp [strcpy]
    omega
  exact ⟨List.take_of_length_le (by omega), hl⟩

theorem map_vectorAt_range [LinearOrderedField α] (f : α → FileCell α) (v : List α) :
    (List.range v.length).map (fun i => f (vectorAt v i)) = v.map f := by
  have h := congrArg (List.map f) (vectorAt_range v)
  rw [List.map_map] at h
  exact h



theorem readFloats_length (n : Nat) (xs : List α) (rest : List (FileCell α))
    (h : xs.length = n) : readFloats n (xs.map FileCell.float ++ rest) = .ok (xs, rest) := by
  subst h
  exact readFloats_map xs rest

theorem loadGaussians_cons (fresh : GaussianDecoding α) (iDim n : Nat) (w : α)
    (mean cov : List α) (rest : List (FileCell α)) (hm : mean.length = iDim)
    (hc : cov.length = iDim) :
    loadGaussians fresh iDim (n + 1)
        (FileCell.float w :: (mean.map FileCell.float ++ (cov.map FileCell.float ++ rest)))
      = (loadGaussians fresh iDim n rest >>= fun r =>
          .ok ({ fresh with
            iId := -1, fWeight := w, fMean := mean ++ fresh.fMean.drop iDim,
            fCovariance := cov ++ fresh.fCovariance.drop iDim } :: r.1, r.2)) := by
  rw [loadGaussians]
  show (readFloats iDim (mean.map FileCell.float ++ _) >>= fun fMean => _) = _
  rw [readFloats_length iDim mean _ hm]
  show (readFloats iDim (cov.map FileCell.float ++ _) >>= fun fCov => _) = _
  rw [readFloats_length iDim cov _ hc]
  rfl

/-- What `load` makes of a component that `store` has written: the weight and
the mean as they were, every covariance entry `v` as `1/(2v)` in a build with
`OPTIMIZED_COMPUTATION` and as it was otherwise. -/
theorem loadGaussians_store [LinearOrderedField α] (b : DecodingBuild α)
    (fresh : GaussianDecoding α) (gs : List (GaussianDecoding α)) (rest : List (FileCell α))
    (hvec : ∀ g ∈ gs, g.fMean.length = b.dimensionality ∧
      g.fCovariance.length = b.dimensionality)
    (hfresh : fresh.fMean.length = b.dimensionality ∧
      fresh.fCovariance.length = b.dimensionality) :
    loadGaussians fresh b.dimensionality gs.length
        (gs.flatMap (storeGaussian b b.dimensionality) ++ rest)
      = .ok (gs.map (fun g => { fresh with
          iId := -1, fWeight := g.fWeight, fMean := g.fMean,
          fCovariance := g.fCovariance.map
            (fun v => if b.optimizedComputation then 1 / (2 * v) else v) }), rest) := by
  induction gs with
  | nil => rfl
  | cons g gs ih =>
    obtain ⟨hm, hc⟩ := hvec g (List.mem_cons_self _ _)
    have e1 : (List.range b.dimensionality).map (fun i => FileCell.float (vectorAt g.fMean i))
        = g.fMean.map FileCell.float := by
      rw [← hm]
      exact map_vectorAt_range FileCell.float g.fMean
    have e2 : (List.range b.dimensionality).map (fun i => FileCell.float
          (if b.optimizedComputation then 1 / (2 * vectorAt g.fCovariance i)
            else vectorAt g.fCovariance i))
        = (g.fCovariance.map (fun v => if b.optimizedComputation then 1 / (2 * v) else v)).map
          FileCell.float := by
      rw [← hc, List.map_map]
      exact map_vectorAt_range (fun v => FileCell.float
        (if b.optimizedComputation then 1 / (2 * v) else v)) g.fCovariance
    have e3 : storeGaussian b b.dimensionality g
        = FileCell.float g.fWeight :: (g.fMean.map FileCell.float
          ++ (g.fCovariance.map
            (fun v => if b.optimizedComputation then 1 / (2 * v) else v)).map
              FileCell.float) := by
      unfold storeGaussian
      rw [e1, e2]
      rfl
    rw [List.flatMap_cons, List.length_cons, e3]
    simp only [List.cons_append, List.append_assoc]
    rw [loadGaussians_cons fresh _ _ _ _ _ _ hm (by simp [hc]),
      ih (fun g2 h2 => hvec g2 (List.mem_cons_of_mem _ h2))]
    show Except.ok _ = _
    rw [List.drop_of_length_le (le_of_eq hfresh.1),
      List.drop_of_length_le (le_of_eq hfresh.2), List.append_nil, List.append_nil]
    rfl

end CodecLemmas

section CodecClaims

variable {α : Type}

theorem readBytes_length (n : Nat) (bytes : List Nat) (rest : List (FileCell α))
    (h : bytes.length = n) : readBytes n (writeBytes bytes ++ rest) = .ok (bytes, rest) := by
  subst h
  exact readBytes_writeBytes bytes rest

/-- The file that `store` writes for a state with a known phone whose name
fits, and what `load` makes of it: the phone, the state, the position, and the
components as `loadGaussians_store` describes them. -/
theorem load_store_state [LinearOrderedField α] (b : DecodingBuild α) (phoneSet : PhoneSet)
    (strPhone : List Nat) (fresh : GaussianDecoding α) (target st : HMMStateDecoding α)
    (str : List Nat)
    (hname : phoneSet.getStrPhone st.m_iPhone = some str)
    (hindex : phoneSet.getPhoneIndex str = st.m_iPhone)
    (hknown : st.m_iPhone ≠ 255) (hnul : ∀ c ∈ str, c ≠ 0)
    (hfit : str.length ≤ b.maxPhoneticSymbolLength)
    (hbuf : strPhone.length = b.maxPhoneticSymbolLength + 1)
    (hstate : st.m_iState < b.numberHmmStates) (hstate8 : st.m_iState < 256)
    (hpos : st.m_iPosition < 256)
    (hcount : 0 < st.m_gaussians.length) (hcount31 : st.m_gaussians.length < 2 ^ 31)
    (hdim : st.m_iDim = b.dimensionality) (htarget : target.m_iDim = b.dimensionality)
    (hvec : ∀ g ∈ st.m_gaussians, g.fMean.length = b.dimensionality ∧
      g.fCovariance.length = b.dimensionality)
    (hfresh : fresh.fMean.length = b.dimensionality ∧
      fresh.fCovariance.length = b.dimensionality) :
    ∃ file, store b phoneSet strPhone st = .ok file ∧
      load b phoneSet fresh target file = .ok ({ target with
        m_iPhone := st.m_iPhone, m_iState := st.m_iState, m_iPosition := st.m_iPosition,
        m_gaussians := st.m_gaussians.map (fun g => { fresh with
          iId := -1, fWeight := g.fWeight, fMean := g.fMean,
          fCovariance := g.fCovariance.map
            (fun v => if b.optimizedComputation then 1 / (2 * v) else v) }),
        m_bCovarianceOriginal := true }, []) := by
  obtain ⟨ht, hl⟩ := strcpy_take strPhone str b.maxPhoneticSymbolLength hfit hbuf
  refine ⟨writeBytes (strcpy strPhone str) ++ writeUChar st.m_iState
    ++ writeUChar st.m_iPosition ++ writeInt (st.m_gaussians.length : Int)
    ++ st.m_gaussians.flatMap (storeGaussian b st.m_iDim), ?_, ?_⟩
  · unfold store
    rw [hname]
    show (if _ then _ else _) = _
    rw [if_neg (not_lt.mpr hfit), ht]
  · unfold load
    simp only [List.append_assoc]
    rw [readBytes_length _ _ _ hl, ok_bind]
    simp only []
    have hs : cString (strcpy strPhone str) = str := cString_append str _ hnul
    rw [hs, hindex]
    have h1 : decide (st.m_iPhone ≠ 255) = true := by simpa using hknown
    rw [h1, cAssert_true, ok_bind, readUChar_writeUChar _ hstate8, ok_bind]
    simp only []
    have h2 : decide (st.m_iState < b.numberHmmStates) = true := by simpa using hstate
    rw [h2, cAssert_true, ok_bind, readUChar_writeUChar _ hpos, ok_bind]
    simp only []
    rw [readInt_writeInt _ hcount31, ok_bind]
    simp only []
    have h3 : decide ((st.m_gaussians.length : Int) > 0) = true := by
      simp only [gt_iff_lt, decide_eq_true_eq]
      omega
    rw [h3, cAssert_true, ok_bind, Int.toNat_ofNat, htarget, hdim]
    have h4 := loadGaussians_store b fresh st.m_gaussians [] hvec hfresh
    rw [List.append_nil] at h4
    rw [h4, ok_bind, if_neg (by omega)]

end CodecClaims

section RoundTrip

variable {α : Type}

/-- C20 (counterexample).  In a build with `OPTIMIZED_COMPUTATION`, the state
of two components in two dimensions whose covariance is in original form,
variances `(1, 4)` and `(1/2, 2)`, phone `a`, state 2: `store` divides each
variance as if it were precomputed, and `load` of what `store` wrote has the
covariance `(1/2, 1/8)` and `(1, 1/4)`. -/
theorem load_store_original_covariance :
    sampleStateOriginal.m_bCovarianceOriginal = true ∧
      sampleStateOriginal.m_gaussians.map (fun g => g.fCovariance) = [[1, 4], [1 / 2, 2]] ∧
      ((store (sampleBuild 2 true) samplePhoneSet (List.replicate 11 204) sampleStateOriginal
          >>= load (sampleBuild 2 true) samplePhoneSet sampleFresh sampleTarget).map
        (fun r => r.1.m_gaussians.map (fun g => g.fCovariance)))
        = .ok [[1 / 2, 1 / 8], [1, 1 / 4]] := by
  refine ⟨rfl, ?_, ?_⟩ <;> decide!

/-- C20 (amended).  For a state whose covariance is in original form, with a
known phone whose name fits the field, a state index below
`NUMBER_HMM_STATES` and at least one component, `load` of what `store` wrote
reads the whole file and yields the same phone, state index, position and
number of components, and for each component the same weight and mean.  The
covariance vector is the same in a build without `OPTIMIZED_COMPUTATION`; in a
build with it every entry `v` comes back as `1/(2v)`. -/
theorem load_store_fields [LinearOrderedField α] (b : DecodingBuild α) (phoneSet : PhoneSet)
    (strPhone : List Nat) (fresh : GaussianDecoding α) (target st : HMMStateDecoding α)
    (str : List Nat) (_horig : st.m_bCovarianceOriginal = true)
    (hname : phoneSet.getStrPhone st.m_iPhone = some str)
    (hindex : phoneSet.getPhoneIndex str = st.m_iPhone)
    (hknown : st.m_iPhone ≠ 255) (hnul : ∀ c ∈ str, c ≠ 0)
    (hfit : str.length ≤ b.maxPhoneticSymbolLength)
    (hbuf : strPhone.length = b.maxPhoneticSymbolLength + 1)
    (hstate : st.m_iState < b.numberHmmStates) (hstate8 : st.m_iState < 256)
    (hpos : st.m_iPosition < 256)
    (hcount : 0 < st.m_gaussians.length) (hcount31 : st.m_gaussians.length < 2 ^ 31)
    (hdim : st.m_iDim = b.dimensionality) (htarget : target.m_iDim = b.dimensionality)
    (hvec : ∀ g ∈ st.m_gaussians, g.fMean.length = b.dimensionality ∧
      g.fCovariance.length = b.dimensionality)
    (hfresh : fresh.fMean.length = b.dimensionality ∧
      fresh.fCovariance.length = b.dimensionality) :
    ∃ file st2, store b phoneSet strPhone st = .ok file ∧
      load b phoneSet fresh target file = .ok (st2, []) ∧
      st2.m_iPhone = st.m_iPhone ∧ st2.m_iState = st.m_iState ∧
      st2.m_iPosition = st.m_iPosition ∧
      st2.m_gaussians.length = st.m_gaussians.length ∧ st2.m_bCovarianceOriginal = true ∧
      ∀ (k : Nat) (g : GaussianDecoding α), st.m_gaussians[k]? = some g →
        ∃ g2, st2.m_gaussians[k]? = some g2 ∧ g2.fWeight = g.fWeight ∧ g2.fMean = g.fMean ∧
          (b.optimizedComputation = false → g2.fCovariance = g.fCovariance) ∧
          (b.optimizedComputation = true →
            g2.fCovariance = g.fCovariance.map (fun v => 1 / (2 * v))) := by
  obtain ⟨file, h1, h2⟩ := load_store_state b phoneSet strPhone fresh target st str hname hindex
    hknown hnul hfit hbuf hstate hstate8 hpos hcount hcount31 hdim htarget hvec hfresh
  refine ⟨file, _, h1, h2, rfl, rfl, rfl, by simp, rfl, ?_⟩
  intro k g hk
  simp only [List.getElem?_map, hk, Option.map_some']
  refine ⟨_, rfl, rfl, rfl, fun h => ?_, fun h => ?_⟩
  · simp [h]
  · simp [h]

/-- C20 (amended) at the concrete state of two components in two dimensions,
in a build with `OPTIMIZED_COMPUTATION`. -/
theorem load_store_fields_witness :
    ∃ file st2, store (sampleBuild 2 true) samplePhoneSet (List.replicate 11 204)
        sampleStateOriginal = .ok file ∧
      load (sampleBuild 2 true) samplePhoneSet sampleFresh sampleTarget file = .ok (st2, []) ∧
      st2.m_iPhone = sampleStateOriginal.m_iPhone ∧
      st2.m_iState = sampleStateOriginal.m_iState ∧
      st2.m_iPosition = sampleStateOriginal.m_iPosition ∧
      st2.m_gaussians.length = sampleStateOriginal.m_gaussians.length ∧
      st2.m_bCovarianceOriginal = true ∧
      ∀ (k : Nat) (g : GaussianDecoding ℚ), sampleStateOriginal.m_gaussians[k]? = some g →
        ∃ g2, st2.m_gaussians[k]? = some g2 ∧ g2.fWeight = g.fWeight ∧ g2.fMean = g.fMean ∧
          ((sampleBuild 2 true).optimizedComputation = false →
            g2.fCovariance = g.fCovariance) ∧
          ((sampleBuild 2 true).optimizedComputation = true →
            g2.fCovariance = g.fCovariance.map (fun v => 1 / (2 * v))) :=
  load_store_fields (sampleBuild 2 true) samplePhoneSet (List.replicate 11 204) sampleFresh
    sampleTarget sampleStateOriginal [97] rfl (by decide) (by decide) (by decide) (by decide)
    (by decide) (by decide) (by decide) (by decide) (by decide) (by decide) (by decide)
    rfl rfl (by decide!) (by decide)

end RoundTrip

section PointerRange

variable {α F : Type}

/-- One step of the loop over the silence states writes a back-pointer from 0
to `2 * HMM_STATES_CLASS - 1`, the stale value of `iPrevLeft` being written only
into state 0 before column `HMM_STATES_CLASS` and only when the score of state 0
in the column before is below `-FLT_MAX`. -/
theorem silenceStep_range [Add α] [LT α] [DecidableRel (fun a b : α => a < b)]
    (m : SADModule α F) (i : Nat) (prevRow : List (GridElementSAD α)) (e : α)
    (st : List (GridElementSAD α) × Int × Int) (j : Nat)
    (hi : 1 ≤ i) (hj : j < m.hmmStatesClass)
    (hlen : st.1.length = 2 * m.hmmStatesClass)
    (hps : 1 ≤ j → 0 ≤ st.2.1 ∧ st.2.1 < 2 * (m.hmmStatesClass : Int))
    (hpl : j = 0 → m.hmmStatesClass ≤ i ∨ ¬ (rowGet m prevRow 0).fScore < m.negFltMax ∨
      (0 ≤ st.2.2 ∧ st.2.2 < 2 * (m.hmmStatesClass : Int))) :
    (silenceStep m i prevRow e st j).1.length = 2 * m.hmmStatesClass ∧
      (∃ c, (silenceStep m i prevRow e st j).1[j]? = some c ∧
        0 ≤ c.iPrev ∧ c.iPrev < 2 * (m.hmmStatesClass : Int)) ∧
      (∀ k, k ≠ j → (silenceStep m i prevRow e st j).1[k]? = st.1[k]?) ∧
      (0 ≤ (silenceStep m i prevRow e st j).2.1 ∧
        (silenceStep m i prevRow e st j).2.1 < 2 * (m.hmmStatesClass : Int)) ∧
      ((1 ≤ j ∨ m.hmmStatesClass ≤ i ∨
          (0 ≤ st.2.2 ∧ st.2.2 < 2 * (m.hmmStatesClass : Int))) →
        0 ≤ (silenceStep m i prevRow e st j).2.2 ∧
          (silenceStep m i prevRow e st j).2.2 < 2 * (m.hmmStatesClass : Int)) := by
  have hjl : j < st.1.length := by omega
  have hi0 : 0 < i := hi
  unfold silenceStep
  simp only []
  by_cases hj0 : 0 < j
  · have hps2 := hps hj0
    by_cases hji : j < i
    · simp only [hj0, hi0, hji, and_self, if_true]
      split
      · refine ⟨by simp [hlen], ⟨_, set_get_self hjl, ?_, ?_⟩,
          fun k hk => set_get_ne hk, ?_, fun _ => ?_⟩ <;> simp only [] <;> omega
      · refine ⟨by simp [hlen], ⟨_, set_get_self hjl, ?_, ?_⟩,
          fun k hk => set_get_ne hk, ?_, fun _ => ?_⟩ <;> simp only [] <;> omega
    · simp only [hj0, hi0, hji, and_self, if_true, if_false]
      split
      · refine ⟨by simp [hlen], ⟨_, set_get_self hjl, ?_, ?_⟩,
          fun k hk => set_get_ne hk, ?_, fun _ => ?_⟩ <;> simp only [] <;> omega
      · refine ⟨by simp [hlen], ⟨_, set_get_self hjl, ?_, ?_⟩,
          fun k hk => set_get_ne hk, ?_, fun _ => ?_⟩ <;> simp only [] <;> omega
  · have hj0 : j = 0 := by omega
    subst hj0
    simp only [Nat.lt_irrefl, false_and, if_false, hi0, if_true, true_and]
    by_cases hHi : m.hmmStatesClass ≤ i
    · simp only [hHi, if_true]
      split
      · refine ⟨by simp [hlen], ⟨_, set_get_self hjl, ?_, ?_⟩,
          fun k hk => set_get_ne hk, ?_, fun _ => ?_⟩ <;> simp only [] <;> omega
      · refine ⟨by simp [hlen], ⟨_, set_get_self hjl, ?_, ?_⟩,
          fun k hk => set_get_ne hk, ?_, fun _ => ?_⟩ <;> simp only [] <;> omega
    · simp only [hHi, if_false]
      split
      · rename_i hlt
        rcases hpl rfl with h | h | h
        · exact absurd h hHi
        · exact absurd hlt h
        · refine ⟨by simp [hlen], ⟨_, set_get_self hjl, ?_, ?_⟩,
            fun k hk => set_get_ne hk, ?_, fun _ => ?_⟩ <;> simp only [] <;> omega
      · refine ⟨by simp [hlen], ⟨_, set_get_self hjl, ?_, ?_⟩,
          fun k hk => set_get_ne hk, ?_, fun h => ?_⟩
        · simp only []; omega
        · simp only []; omega
        · simp only []; omega
        · simp only []
          rcases h with h | h | h
          · omega
          · exact h.elim
          · exact h

/-- One step of the loop over the speech states writes a back-pointer from 0
to `2 * HMM_STATES_CLASS - 1` when `iPrevLeft` comes in with such a value. -/
theorem speechStep_range [Add α] [LT α] [DecidableRel (fun a b : α => a < b)]
    (m : SADModule α F) (i : Nat) (prevRow : List (GridElementSAD α)) (e : α)
    (st : List (GridElementSAD α) × Int × Int) (j : Nat)
    (hi : 1 ≤ i) (hj : j < m.hmmStatesClass)
    (hlen : st.1.length = 2 * m.hmmStatesClass)
    (hps : 1 ≤ j → 0 ≤ st.2.1 ∧ st.2.1 < 2 * (m.hmmStatesClass : Int))
    (hpl : 0 ≤ st.2.2 ∧ st.2.2 < 2 * (m.hmmStatesClass : Int)) :
    (speechStep m i prevRow e st j).1.length = 2 * m.hmmStatesClass ∧
      (∃ c, (speechStep m i prevRow e st j).1[j + m.hmmStatesClass]? = some c ∧
        0 ≤ c.iPrev ∧ c.iPrev < 2 * (m.hmmStatesClass : Int)) ∧
      (∀ k, k ≠ j + m.hmmStatesClass → (speechStep m i prevRow e st j).1[k]? = st.1[k]?) ∧
      (0 ≤ (speechStep m i prevRow e st j).2.1 ∧
        (speechStep m i prevRow e st j).2.1 < 2 * (m.hmmStatesClass : Int)) ∧
      (0 ≤ (speechStep m i prevRow e st j).2.2 ∧
        (speechStep m i prevRow e st j).2.2 < 2 * (m.hmmStatesClass : Int)) := by
  have hjl : j + m.hmmStatesClass < st.1.length := by omega
  have hi0 : 0 < i := hi
  unfold speechStep
  simp only []
  by_cases hj0 : 0 < j
  · have hps2 := hps hj0
    by_cases hji : j < i
    · simp only [hj0, hi0, hji, and_self, if_true]
      split
      · refine ⟨by simp [hlen], ⟨_, set_get_self hjl, ?_, ?_⟩,
          fun k hk => set_get_ne hk, ?_, ?_⟩ <;> simp only [] <;> omega
      · refine ⟨by simp [hlen], ⟨_, set_get_self hjl, ?_, ?_⟩,
          fun k hk => set_get_ne hk, ?_, ?_⟩ <;> simp only [] <;> omega
    · simp only [hj0, hi0, hji, and_self, if_true, if_false]
      split
      · refine ⟨by simp [hlen], ⟨_, set_get_self hjl, ?_, ?_⟩,
          fun k hk => set_get_ne hk, ?_, ?_⟩ <;> simp only [] <;> omega
      · refine ⟨by simp [hlen], ⟨_, set_get_self hjl, ?_, ?_⟩,
          fun k hk => set_get_ne hk, ?_, ?_⟩ <;> simp only [] <;> omega
  · have hj0 : j = 0 := by omega
    subst hj0
    simp only [Nat.lt_irrefl, false_and, if_false, hi0, if_true, true_and]
    by_cases hHi : m.hmmStatesClass ≤ i
    · simp only [hHi, if_true]
      split
      · refine ⟨by simp [hlen], ⟨_, set_get_self hjl, ?_, ?_⟩,
          fun k hk => set_get_ne hk, ?_, ?_⟩ <;> simp only [] <;> omega
      · refine ⟨by simp [hlen], ⟨_, set_get_self hjl, ?_, ?_⟩,
          fun k hk => set_get_ne hk, ?_, ?_⟩ <;> simp only [] <;> omega
    · simp only [hHi, if_false]
      split
      · refine ⟨by simp [hlen], ⟨_, set_get_self hjl, ?_, ?_⟩,
          fun k hk => set_get_ne hk, ?_, ?_⟩ <;> simp only [] <;> omega
      · refine ⟨by simp [hlen], ⟨_, set_get_self hjl, ?_, ?_⟩,
          fun k hk => set_get_ne hk, ?_, ?_⟩ <;> simp only [] <;> omega


theorem silence_fold_range [Add α] [LT α] [DecidableRel (fun a b : α => a < b)]
    (m : SADModule α F) (i : Nat) (prevRow : List (GridElementSAD α)) (e : α)
    (st0 : List (GridElementSAD α) × Int × Int)
    (hi : 1 ≤ i) (hlen : st0.1.length = 2 * m.hmmStatesClass)
    (hpl : m.hmmStatesClass ≤ i ∨ ¬ (rowGet m prevRow 0).fScore < m.negFltMax ∨
      (0 ≤ st0.2.2 ∧ st0.2.2 < 2 * (m.hmmStatesClass : Int)))
    (n : Nat) (hn : n ≤ m.hmmStatesClass) :
    ((List.range n).foldl (silenceStep m i prevRow e) st0).1.length = 2 * m.hmmStatesClass ∧
      (∀ j, j < n → ∃ c, ((List.range n).foldl (silenceStep m i prevRow e) st0).1[j]? = some c ∧
        0 ≤ c.iPrev ∧ c.iPrev < 2 * (m.hmmStatesClass : Int)) ∧
      (∀ k, n ≤ k → ((List.range n).foldl (silenceStep m i prevRow e) st0).1[k]? = st0.1[k]?) ∧
      (1 ≤ n → 0 ≤ ((List.range n).foldl (silenceStep m i prevRow e) st0).2.1 ∧
        ((List.range n).foldl (silenceStep m i prevRow e) st0).2.1
          < 2 * (m.hmmStatesClass : Int)) ∧
      ((2 ≤ n ∨ (1 ≤ n ∧ m.hmmStatesClass ≤ i) ∨
          (0 ≤ st0.2.2 ∧ st0.2.2 < 2 * (m.hmmStatesClass : Int))) →
        0 ≤ ((List.range n).foldl (silenceStep m i prevRow e) st0).2.2 ∧
          ((List.range n).foldl (silenceStep m i prevRow e) st0).2.2
            < 2 * (m.hmmStatesClass : Int)) := by
  induction n with
  | zero =>
    refine ⟨by simp [hlen], fun j hj => by omega, fun _ _ => rfl, fun h => by omega, ?_⟩
    rintro (h | h | h)
    · omega
    · omega
    · exact h
  | succ n ih =>
    obtain ⟨h1, h2, h3, h4, h5⟩ := ih (by omega)
    rw [List.range_succ, List.foldl_append]
    simp only [List.foldl_cons, List.foldl_nil]
    have hpl2 : n = 0 → m.hmmStatesClass ≤ i ∨ ¬ (rowGet m prevRow 0).fScore < m.negFltMax ∨
        (0 ≤ ((List.range n).foldl (silenceStep m i prevRow e) st0).2.2 ∧
          ((List.range n).foldl (silenceStep m i prevRow e) st0).2.2
            < 2 * (m.hmmStatesClass : Int)) := by
      intro hn0
      subst hn0
      exact hpl
    obtain ⟨g1, g2, g3, g4, g5⟩ := silenceStep_range m i prevRow e
      ((List.range n).foldl (silenceStep m i prevRow e) st0) n hi (by omega) h1 h4 hpl2
    refine ⟨g1, ?_, ?_, fun _ => g4, ?_⟩
    · intro j hj
      rcases Nat.lt_succ_iff_lt_or_eq.mp hj with hlt | heq
      · rw [g3 j (by omega)]
        exact h2 j hlt
      · subst heq
        exact g2
    · intro k hk
      rw [g3 k (by omega)]
      exact h3 k (by omega)
    · intro h
      apply g5
      rcases h with h | h | h
      · exact Or.inl (by omega)
      · exact Or.inr (Or.inl h.2)
      · rcases Nat.eq_zero_or_pos n with hn0 | hn0
        · subst hn0
          exact Or.inr (Or.inr h)
        · exact Or.inl hn0

theorem speech_fold_range [Add α] [LT α] [DecidableRel (fun a b : α => a < b)]
    (m : SADModule α F) (i : Nat) (prevRow : List (GridElementSAD α)) (e : α)
    (st0 : List (GridElementSAD α) × Int × Int)
    (hi : 1 ≤ i) (hlen : st0.1.length = 2 * m.hmmStatesClass)
    (hpl : 0 ≤ st0.2.2 ∧ st0.2.2 < 2 * (m.hmmStatesClass : Int))
    (n : Nat) (hn : n ≤ m.hmmStatesClass) :
    ((List.range n).foldl (speechStep m i prevRow e) st0).1.length = 2 * m.hmmStatesClass ∧
      (∀ j, j < n → ∃ c, ((List.range n).foldl (speechStep m i prevRow e) st0).1[
          j + m.hmmStatesClass]? = some c ∧
        0 ≤ c.iPrev ∧ c.iPrev < 2 * (m.hmmStatesClass : Int)) ∧
      (∀ k, k < m.hmmStatesClass ∨ n + m.hmmStatesClass ≤ k →
        ((List.range n).foldl (speechStep m i prevRow e) st0).1[k]? = st0.1[k]?) ∧
      (1 ≤ n → 0 ≤ ((List.range n).foldl (speechStep m i prevRow e) st0).2.1 ∧
        ((List.range n).foldl (speechStep m i prevRow e) st0).2.1
          < 2 * (m.hmmStatesClass : Int)) ∧
      (0 ≤ ((List.range n).foldl (speechStep m i prevRow e) st0).2.2 ∧
        ((List.range n).foldl (speechStep m i prevRow e) st0).2.2
          < 2 * (m.hmmStatesClass : Int)) := by
  induction n with
  | zero =>
    exact ⟨by simp [hlen], fun j hj => by omega, fun _ _ => rfl, fun h => by omega, hpl⟩
  | succ n ih =>
    obtain ⟨h1, h2, h3, h4, h5⟩ := ih (by omega)
    rw [List.range_succ, List.foldl_append]
    simp only [List.foldl_cons, List.foldl_nil]
    obtain ⟨g1, g2, g3, g4, g5⟩ := speechStep_range m i prevRow e
      ((List.range n).foldl (speechStep m i prevRow e) st0) n hi (by omega) h1 h4 h5
    refine ⟨g1, ?_, ?_, fun _ => g4, g5⟩
    · intro j hj
      rcases Nat.lt_succ_iff_lt_or_eq.mp hj with hlt | heq
      · rw [g3 _ (by omega)]
        exact h2 j hlt
      · subst heq
        exact g2
    · intro k hk
      rw [g3 k (by omega)]
      exact h3 k (by omega)

/-- The back-pointers of a column `i ≥ 1` as `fillColumn` writes it are from 0
to `2 * HMM_STATES_CLASS - 1`, and so is the value that `iPrevLeft` has after
it, unless the stale `iPrevLeft` that comes in is out of that range, the column
is before `HMM_STATES_CLASS` and state 0 of the column before scores below
`-FLT_MAX`. -/
theorem fillColumn_range [Add α] [LT α] [DecidableRel (fun a b : α => a < b)]
    (m : SADModule α F) (i : Nat) (prevRow curRow : List (GridElementSAD α)) (feat : F)
    (ps pl : Int) (hi : 1 ≤ i) (hH : 1 ≤ m.hmmStatesClass)
    (hlen : curRow.length = 2 * m.hmmStatesClass)
    (hpl : m.hmmStatesClass ≤ i ∨ ¬ (rowGet m prevRow 0).fScore < m.negFltMax ∨
      (0 ≤ pl ∧ pl < 2 * (m.hmmStatesClass : Int))) :
    (fillColumn m i prevRow curRow feat ps pl).1.length = 2 * m.hmmStatesClass ∧
      (∀ k, k < 2 * m.hmmStatesClass →
        ∃ c, (fillColumn m i prevRow curRow feat ps pl).1[k]? = some c ∧
          0 ≤ c.iPrev ∧ c.iPrev < 2 * (m.hmmStatesClass : Int)) ∧
      (0 ≤ (fillColumn m i prevRow curRow feat ps pl).2.2 ∧
        (fillColumn m i prevRow curRow feat ps pl).2.2 < 2 * (m.hmmStatesClass : Int)) := by
  unfold fillColumn
  simp only []
  obtain ⟨h1, h2, _, _, h5⟩ := silence_fold_range m i prevRow (m.emitSilence feat)
    (curRow, ps, pl) hi hlen hpl m.hmmStatesClass (le_refl _)
  have hpl2 : 0 ≤ ((List.range m.hmmStatesClass).foldl
        (silenceStep m i prevRow (m.emitSilence feat)) (curRow, ps, pl)).2.2 ∧
      ((List.range m.hmmStatesClass).foldl
        (silenceStep m i prevRow (m.emitSilence feat)) (curRow, ps, pl)).2.2
        < 2 * (m.hmmStatesClass : Int) := by
    apply h5
    rcases Nat.lt_or_ge 1 m.hmmStatesClass with hlt | hge
    · exact Or.inl hlt
    · exact Or.inr (Or.inl ⟨hH, by omega⟩)
  obtain ⟨g1, g2, g3, _, g5⟩ := speech_fold_range m i prevRow (m.emitSpeech feat)
    ((List.range m.hmmStatesClass).foldl (silenceStep m i prevRow (m.emitSilence feat))
      (curRow, ps, pl)) hi h1 hpl2 m.hmmStatesClass (le_refl _)
  refine ⟨g1, ?_, g5⟩
  intro k hk
  by_cases hkH : k < m.hmmStatesClass
  · rw [g3 k (Or.inl hkH)]
    exact h2 k hkH
  · have := g2 (k - m.hmmStatesClass) (by omega)
    rwa [show k - m.hmmStatesClass + m.hmmStatesClass = k by omega] at this

end PointerRange

section PointerRangeGrid

variable {α F : Type}

theorem fillGrid_range [Add α] [LT α] [DecidableRel (fun a b : α => a < b)]
    (m : SADModule α F) (mFeatures : List F) (n i k : Nat)
    (grid g : List (List (GridElementSAD α))) (ps pl : Int)
    (h : fillGrid m mFeatures n i k grid ps pl = .ok g) (hi : 1 ≤ i)
    (hH : 1 ≤ m.hmmStatesClass)
    (hrows : ∀ (r : Nat) (row : List (GridElementSAD α)), i ≤ r → grid[r]? = some row →
      row.length = 2 * m.hmmStatesClass)
    (hpl : (∀ prevRow, grid[i - 1]? = some prevRow →
        m.hmmStatesClass ≤ i ∨ ¬ (rowGet m prevRow 0).fScore < m.negFltMax) ∨
      (0 ≤ pl ∧ pl < 2 * (m.hmmStatesClass : Int))) :
    ∀ r, i ≤ r → r < i + n → ∃ row, g[r]? = some row ∧
      ∀ c, c < 2 * m.hmmStatesClass →
        ∃ el, row[c]? = some el ∧ 0 ≤ el.iPrev ∧ el.iPrev < 2 * (m.hmmStatesClass : Int) := by
  induction n generalizing i k grid ps pl with
  | zero => intro r h1 h2; omega
  | succ n ih =>
    rw [fillGrid_succ] at h
    obtain ⟨feat, _, h1⟩ := bind_eq_ok.mp h
    obtain ⟨prevRow, hprev, h2⟩ := bind_eq_ok.mp h1
    obtain ⟨curRow, hcur, h3⟩ := bind_eq_ok.mp h2
    have hprev := orOutOfBounds_ok.mp hprev
    have hcur := orOutOfBounds_ok.mp hcur
    have hil : i < grid.length := (List.getElem?_eq_some.mp hcur).1
    have hcond : m.hmmStatesClass ≤ i ∨ ¬ (rowGet m prevRow 0).fScore < m.negFltMax ∨
        (0 ≤ pl ∧ pl < 2 * (m.hmmStatesClass : Int)) := by
      rcases hpl with hpl | hpl
      · rcases hpl prevRow hprev with h4 | h4
        · exact Or.inl h4
        · exact Or.inr (Or.inl h4)
      · exact Or.inr (Or.inr hpl)
    obtain ⟨_, c2, c3⟩ := fillColumn_range m i prevRow curRow feat ps pl hi hH
      (hrows i curRow (le_refl _) hcur) hcond
    obtain ⟨_, g2, _, _⟩ := fillGrid_rows _ _ _ _ _ _ _ _ _ h3 (by omega)
    intro r hr1 hr2
    rcases Nat.eq_or_lt_of_le hr1 with heq | hlt
    · subst heq
      refine ⟨_, ?_, c2⟩
      rw [g2 _ (by omega)]
      exact set_get_self hil
    · refine ih _ _ _ _ _ h3 (by omega) ?_ (Or.inr c3) r (by omega) (by omega)
      intro r2 row hr2 hrow
      rw [set_get_ne (by omega)] at hrow
      exact hrows r2 row (by omega) hrow

/-- C13.  In the grid of a session, when the silence emission of the first
frame is not below `-FLT_MAX`: every cell of column 0 has the back-pointer
`-1`, and every cell of every later column, reachable or not, has a
back-pointer from 0 to `2 * HMM_STATES_CLASS - 1`, so none of them holds
`-1`. -/
theorem processFeatures_back_pointer_range [Add α] [LT α]
    [DecidableRel (fun a b : α => a < b)]
    (m : SADModule α F) (mFeatures : List F) (s : SADSession α)
    (hH : 1 ≤ m.hmmStatesClass) (hrun : runSession m mFeatures = .ok s)
    (h0 : ∀ f0, mFeatures[0]? = some f0 → ¬ m.emitSilence f0 < m.negFltMax) :
    ∀ t k : Nat, t < mFeatures.length → k < 2 * m.hmmStatesClass →
      ∃ c, gridGet s.m_grid t (k : Int) = some c ∧ (t = 0 → c.iPrev = -1) ∧
        (1 ≤ t → 0 ≤ c.iPrev ∧ c.iPrev < 2 * (m.hmmStatesClass : Int) ∧ c.iPrev ≠ -1) := by
  unfold runSession processFeatures at hrun
  simp only [beginSession, SADSession.fresh, if_true, List.nil_append, Nat.zero_add] at hrun
  obtain ⟨_, hg0, h1⟩ := bind_eq_ok.mp hrun
  obtain ⟨feat, hfeat, h2⟩ := bind_eq_ok.mp h1
  obtain ⟨g, hg, h3⟩ := bind_eq_ok.mp h2
  cases h3
  have hfeat := orOutOfBounds_ok.mp hfeat
  have hpos : 0 < mFeatures.length := by
    have := (List.getElem?_eq_some.mp (orOutOfBounds_ok.mp hg0)).1
    simpa using this
  have hrow0 : ((List.replicate mFeatures.length
      (List.replicate (2 * m.hmmStatesClass) m.garbage)).set 0 (firstColumn m feat))[0]?
      = some (firstColumn m feat) := set_get_self (by simpa using hpos)
  obtain ⟨_, g2, _, _⟩ := fillGrid_rows _ _ _ _ _ _ _ _ _ hg (le_refl 1)
  have hcell0 : (firstColumn m feat)[0]? = some ⟨m.emitSilence feat, -1⟩ := by
    unfold firstColumn
    rw [set_get_ne (by omega), set_get_self (by simp; omega)]
  have hrange := fillGrid_range m mFeatures _ 1 1 _ g (-1) (-1) hg (le_refl 1) hH
    (by
      intro r row hr hrow
      rw [set_get_ne (by omega), List.getElem?_replicate] at hrow
      split at hrow
      · cases hrow
        simp
      · cases hrow)
    (Or.inl (by
      intro prevRow hprev
      rw [hrow0] at hprev
      cases hprev
      refine Or.inr ?_
      rw [rowGet_eq hcell0]
      exact h0 feat hfeat))
  intro t k ht hk
  rcases Nat.eq_zero_or_pos t with ht0 | ht0
  · subst ht0
    have hr : g[0]? = some (firstColumn m feat) := by
      rw [g2 0 (by omega)]
      exact hrow0
    have hl := (firstColumn_cells m feat).1
    refine ⟨(firstColumn m feat)[k], ?_, fun _ => ?_, fun h => by omega⟩
    · simp only []
      rw [gridGet_natCast hr]
      exact List.getElem?_eq_getElem (by omega)
    · exact (firstColumn_cells m feat).2 k _ (List.getElem?_eq_getElem (by omega))
  · obtain ⟨row, hr, hc⟩ := hrange t ht0 (by omega)
    obtain ⟨el, he, p1, p2⟩ := hc k hk
    refine ⟨el, ?_, fun h => by omega, fun _ => ⟨p1, p2, by omega⟩⟩
    simp only []
    rw [gridGet_natCast hr]
    exact he

/-- C13 at a concrete session: three states a class, exact integer scores, the
frames `(0,0),(0,0)`; the unreachable cell of state 2 in column 1, and the cell
of state 1 in column 0. -/
theorem processFeatures_back_pointer_range_witness :
    (∃ c, gridGet shortGrid 1 ((2 : Nat) : Int) = some c ∧ (1 = 0 → c.iPrev = -1) ∧
        (1 ≤ 1 → 0 ≤ c.iPrev ∧ c.iPrev < 2 * ((3 : Nat) : Int) ∧ c.iPrev ≠ -1)) ∧
      (∃ c, gridGet shortGrid 0 ((1 : Nat) : Int) = some c ∧ (0 = 0 → c.iPrev = -1) ∧
        (1 ≤ 0 → 0 ≤ c.iPrev ∧ c.iPrev < 2 * ((3 : Nat) : Int) ∧ c.iPrev ≠ -1)) :=
  have hrun : runSession (scenarioModule 3 0 false) [(0, 0), (0, 0)] = .ok ⟨shortGrid, 2⟩ := by
    decide!
  have h0 : ∀ f0 : Int × Int, [((0 : Int), (0 : Int)), (0, 0)][0]? = some f0 →
      ¬ (scenarioModule 3 0 false).emitSilence f0 < (scenarioModule 3 0 false).negFltMax := by
    intro f0 hf
    have hf0 : f0 = (0, 0) := by simpa using hf.symm
    subst hf0
    decide!
  ⟨processFeatures_back_pointer_range (scenarioModule 3 0 false) [(0, 0), (0, 0)]
      ⟨shortGrid, 2⟩ (by decide) hrun h0 1 2 (by decide) (by decide),
    processFeatures_back_pointer_range (scenarioModule 3 0 false) [(0, 0), (0, 0)]
      ⟨shortGrid, 2⟩ (by decide) hrun h0 0 1 (by decide) (by decide)⟩

end PointerRangeGrid

section Recursion

variable {α F : Type}

/-- The cell that one step of the loop over the silence states writes is the
cell of the specification, when the cell is settled. -/
theorem silenceStep_cell [Add α] [LT α] [DecidableRel (fun a b : α => a < b)]
    (m : SADModule α F) (i : Nat) (prevRow : List (GridElementSAD α)) (feat : F)
    (st : List (GridElementSAD α) × Int × Int) (j : Nat)
    (hi : 1 ≤ i) (hj : j < m.hmmStatesClass)
    (hlen : st.1.length = 2 * m.hmmStatesClass)
    (hset : CellSettled m prevRow i j) :
    (silenceStep m i prevRow (m.emitSilence feat) st j).1[j]?
      = some (specCell m prevRow feat i j) := by
  have hjl : j < st.1.length := by omega
  have hi0 : 0 < i := hi
  obtain ⟨hs1, hs2⟩ := hset
  unfold classOffset at hs1 hs2
  rw [if_pos hj] at hs1 hs2
  unfold silenceStep specCell classOffset
  simp only [hj, if_true]
  by_cases hj0 : 0 < j
  · by_cases hji : j < i
    · simp only [hj0, hi0, hji, and_self, if_true, gt_iff_lt]
      split
      · rw [set_get_self hjl]
      · rw [set_get_self hjl]
    · simp only [hj0, hi0, hji, and_self, if_true, if_false, gt_iff_lt]
      rcases hs1 with h | h
      · exact absurd h hji
      · rw [if_pos h, set_get_self hjl]
  · have hj0 : j = 0 := by omega
    subst hj0
    simp only [Nat.lt_irrefl, false_and, if_false, hi0, if_true, true_and, gt_iff_lt]
    by_cases hHi : m.hmmStatesClass ≤ i
    · simp only [hHi, if_true]
      split
      · rw [set_get_self hjl]
      · rw [set_get_self hjl]
    · simp only [hHi, if_false]
      rcases hs2 with h | h | h
      · omega
      · exact absurd h hHi
      · rw [if_neg h, set_get_self hjl]

/-- The cell that one step of the loop over the speech states writes is the
cell of the specification, when the cell is settled. -/
theorem speechStep_cell [Add α] [LT α] [DecidableRel (fun a b : α => a < b)]
    (m : SADModule α F) (i : Nat) (prevRow : List (GridElementSAD α)) (feat : F)
    (st : List (GridElementSAD α) × Int × Int) (j : Nat)
    (hi : 1 ≤ i) (hj : j < m.hmmStatesClass)
    (hlen : st.1.length = 2 * m.hmmStatesClass)
    (hset : CellSettled m prevRow i (j + m.hmmStatesClass)) :
    (speechStep m i prevRow (m.emitSpeech feat) st j).1[j + m.hmmStatesClass]?
      = some (specCell m prevRow feat i (j + m.hmmStatesClass)) := by
  have hjl : j + m.hmmStatesClass < st.1.length := by omega
  have hi0 : 0 < i := hi
  have hnot : ¬ j + m.hmmStatesClass < m.hmmStatesClass := by omega
  obtain ⟨hs1, hs2⟩ := hset
  unfold classOffset at hs1 hs2
  rw [if_neg hnot, Nat.add_sub_cancel] at hs1 hs2
  unfold speechStep specCell classOffset
  simp only [hnot, if_false, Nat.add_sub_cancel]
  by_cases hj0 : 0 < j
  · have e1 : j - 1 + m.hmmStatesClass = j + m.hmmStatesClass - 1 := by omega
    by_cases hji : j < i
    · simp only [hj0, hi0, hji, and_self, if_true, gt_iff_lt, e1]
      split
      · rw [set_get_self hjl]
      · rw [set_get_self hjl]
    · simp only [hj0, hi0, hji, and_self, if_true, if_false, gt_iff_lt, e1]
      rcases hs1 with h | h
      · exact absurd h hji
      · rw [if_pos h, set_get_self hjl]
  · have hj0 : j = 0 := by omega
    subst hj0
    rw [Nat.zero_add] at hs2
    simp only [Nat.lt_irrefl, false_and, if_false, hi0, if_true, true_and, gt_iff_lt,
      Nat.zero_add]
    by_cases hHi : m.hmmStatesClass ≤ i
    · simp only [hHi, if_true]
      split
      · rw [set_get_self (by omega)]
      · rw [set_get_self (by omega)]
    · simp only [hHi, if_false]
      rcases hs2 with h | h | h
      · omega
      · exact absurd h hHi
      · rw [if_neg h, set_get_self (by omega)]


theorem silenceStep_other [Add α] [LT α] [DecidableRel (fun a b : α => a < b)]
    (m : SADModule α F) (i : Nat) (prevRow : List (GridElementSAD α)) (e : α)
    (st : List (GridElementSAD α) × Int × Int) (j k : Nat) (hk : k ≠ j) :
    (silenceStep m i prevRow e st j).1[k]? = st.1[k]? := by
  unfold silenceStep
  simp only []
  split_ifs <;> exact set_get_ne hk

theorem speechStep_other [Add α] [LT α] [DecidableRel (fun a b : α => a < b)]
    (m : SADModule α F) (i : Nat) (prevRow : List (GridElementSAD α)) (e : α)
    (st : List (GridElementSAD α) × Int × Int) (j k : Nat) (hk : k ≠ j + m.hmmStatesClass) :
    (speechStep m i prevRow e st j).1[k]? = st.1[k]? := by
  unfold speechStep
  simp only []
  split_ifs <;> exact set_get_ne hk

theorem silence_fold_cell [Add α] [LT α] [DecidableRel (fun a b : α => a < b)]
    (m : SADModule α F) (i : Nat) (prevRow : List (GridElementSAD α)) (feat : F)
    (st0 : List (GridElementSAD α) × Int × Int)
    (hi : 1 ≤ i) (hlen : st0.1.length = 2 * m.hmmStatesClass)
    (n : Nat) (hn : n ≤ m.hmmStatesClass) :
    ∀ j, j < n → CellSettled m prevRow i j →
      ((List.range n).foldl (silenceStep m i prevRow (m.emitSilence feat)) st0).1[j]?
        = some (specCell m prevRow feat i j) := by
  induction n with
  | zero => intro j hj; omega
  | succ n ih =>
    intro j hj hset
    rw [List.range_succ, List.foldl_append]
    simp only [List.foldl_cons, List.foldl_nil]
    rcases Nat.lt_succ_iff_lt_or_eq.mp hj with hlt | heq
    · rw [silenceStep_other _ _ _ _ _ _ _ (by omega)]
      exact ih (by omega) j hlt hset
    · subst heq
      exact silenceStep_cell m i prevRow feat _ j hi (by omega)
        (by rw [silence_fold_length, hlen]) hset

theorem speech_fold_cell [Add α] [LT α] [DecidableRel (fun a b : α => a < b)]
    (m : SADModule α F) (i : Nat) (prevRow : List (GridElementSAD α)) (feat : F)
    (st0 : List (GridElementSAD α) × Int × Int)
    (hi : 1 ≤ i) (hlen : st0.1.length = 2 * m.hmmStatesClass)
    (n : Nat) (hn : n ≤ m.hmmStatesClass) :
    (∀ k, k < m.hmmStatesClass →
      ((List.range n).foldl (speechStep m i prevRow (m.emitSpeech feat)) st0).1[k]?
        = st0.1[k]?) ∧
    ∀ j, j < n → CellSettled m prevRow i (j + m.hmmStatesClass) →
      ((List.range n).foldl (speechStep m i prevRow (m.emitSpeech feat)) st0).1[
          j + m.hmmStatesClass]?
        = some (specCell m prevRow feat i (j + m.hmmStatesClass)) := by
  induction n with
  | zero => exact ⟨fun _ _ => rfl, fun j hj => by omega⟩
  | succ n ih =>
    obtain ⟨ih1, ih2⟩ := ih (by omega)
    rw [List.range_succ, List.foldl_append]
    simp only [List.foldl_cons, List.foldl_nil]
    refine ⟨fun k hk => ?_, fun j hj hset => ?_⟩
    · rw [speechStep_other _ _ _ _ _ _ _ (by omega)]
      exact ih1 k hk
    · rcases Nat.lt_succ_iff_lt_or_eq.mp hj with hlt | heq
      · rw [speechStep_other _ _ _ _ _ _ _ (by omega)]
        exact ih2 j hlt hset
      · subst heq
        exact speechStep_cell m i prevRow feat _ j hi (by omega)
          (by rw [speech_fold_length, hlen]) hset

/-- Every settled cell of a column `i ≥ 1` as `fillColumn` writes it is the
cell of the specification. -/
theorem fillColumn_cell [Add α] [LT α] [DecidableRel (fun a b : α => a < b)]
    (m : SADModule α F) (i : Nat) (prevRow curRow : List (GridElementSAD α)) (feat : F)
    (ps pl : Int) (hi : 1 ≤ i) (hlen : curRow.length = 2 * m.hmmStatesClass)
    (k : Nat) (hk : k < 2 * m.hmmStatesClass) (hset : CellSettled m prevRow i k) :
    (fillColumn m i prevRow curRow feat ps pl).1[k]? = some (specCell m prevRow feat i k) := by
  unfold fillColumn
  simp only []
  have hl : ((List.range m.hmmStatesClass).foldl
      (silenceStep m i prevRow (m.emitSilence feat)) (curRow, ps, pl)).1.length
      = 2 * m.hmmStatesClass := by rw [silence_fold_length, hlen]
  obtain ⟨g1, g2⟩ := speech_fold_cell m i prevRow feat
    ((List.range m.hmmStatesClass).foldl (silenceStep m i prevRow (m.emitSilence feat))
      (curRow, ps, pl)) hi hl m.hmmStatesClass (le_refl _)
  by_cases hkH : k < m.hmmStatesClass
  · rw [g1 k hkH]
    exact silence_fold_cell m i prevRow feat (curRow, ps, pl) hi hlen m.hmmStatesClass
      (le_refl _) k hkH hset
  · have hk2 : k - m.hmmStatesClass + m.hmmStatesClass = k := by omega
    have := g2 (k - m.hmmStatesClass) (by omega) (by rw [hk2]; exact hset)
    rwa [hk2] at this

theorem fillGrid_cells [Add α] [LT α] [DecidableRel (fun a b : α => a < b)]
    (m : SADModule α F) (mFeatures : List F) (n i k : Nat)
    (grid g : List (List (GridElementSAD α))) (ps pl : Int)
    (h : fillGrid m mFeatures n i k grid ps pl = .ok g) (hi : 1 ≤ i)
    (hrows : ∀ (r : Nat) (row : List (GridElementSAD α)), i ≤ r → grid[r]? = some row →
      row.length = 2 * m.hmmStatesClass) :
    ∀ r, i ≤ r → r < i + n → ∃ prevRow feat row, g[r - 1]? = some prevRow ∧
      mFeatures[k + (r - i)]? = some feat ∧ g[r]? = some row ∧
      ∀ c, c < 2 * m.hmmStatesClass → CellSettled m prevRow r c →
        row[c]? = some (specCell m prevRow feat r c) := by
  induction n generalizing i k grid ps pl with
  | zero => intro r h1 h2; omega
  | succ n ih =>
    rw [fillGrid_succ] at h
    obtain ⟨feat, hfeat, h1⟩ := bind_eq_ok.mp h
    obtain ⟨prevRow, hprev, h2⟩ := bind_eq_ok.mp h1
    obtain ⟨curRow, hcur, h3⟩ := bind_eq_ok.mp h2
    have hfeat := orOutOfBounds_ok.mp hfeat
    have hprev := orOutOfBounds_ok.mp hprev
    have hcur := orOutOfBounds_ok.mp hcur
    have hil : i < grid.length := (List.getElem?_eq_some.mp hcur).1
    obtain ⟨_, g2, _, _⟩ := fillGrid_rows _ _ _ _ _ _ _ _ _ h3 (by omega)
    intro r hr1 hr2
    rcases Nat.eq_or_lt_of_le hr1 with heq | hlt
    · subst heq
      refine ⟨prevRow, feat, _, ?_, ?_, ?_, fun c hc hset =>
        fillColumn_cell m i prevRow curRow feat ps pl hi (hrows i curRow (le_refl _) hcur)
          c hc hset⟩
      · rw [g2 _ (by omega), set_get_ne (by omega)]
        exact hprev
      · rw [Nat.sub_self, Nat.add_zero]
        exact hfeat
      · rw [g2 _ (by omega)]
        exact set_get_self hil
    · have := ih _ _ _ _ _ h3 (by omega) (by
        intro r2 row hr2 hrow
        rw [set_get_ne (by omega)] at hrow
        exact hrows r2 row (by omega) hrow) r (by omega) (by omega)
      rwa [show k + 1 + (r - (i + 1)) = k + (r - i) by omega] at this

/-- The recursion of the grid against the specification: in a session of one
call, every settled cell of every column `t ≥ 1` is the cell of the
specification, computed from column `t - 1` and the feature vector of frame
`t`. -/
theorem runSession_cells [Add α] [LT α] [DecidableRel (fun a b : α => a < b)]
    (m : SADModule α F) (mFeatures : List F) (s : SADSession α)
    (hrun : runSession m mFeatures = .ok s) :
    ∀ t c : Nat, 1 ≤ t → t < mFeatures.length → c < 2 * m.hmmStatesClass →
      ∃ prevRow feat, s.m_grid[t - 1]? = some prevRow ∧ mFeatures[t]? = some feat ∧
        (CellSettled m prevRow t c →
          gridGet s.m_grid t (c : Int) = some (specCell m prevRow feat t c)) := by
  unfold runSession processFeatures at hrun
  simp only [beginSession, SADSession.fresh, if_true, List.nil_append, Nat.zero_add] at hrun
  obtain ⟨_, _, h1⟩ := bind_eq_ok.mp hrun
  obtain ⟨feat0, _, h2⟩ := bind_eq_ok.mp h1
  obtain ⟨g, hg, h3⟩ := bind_eq_ok.mp h2
  cases h3
  have hcells := fillGrid_cells m mFeatures _ 1 1 _ g (-1) (-1) hg (le_refl 1)
    (by
      intro r row hr hrow
      rw [set_get_ne (by omega), List.getElem?_replicate] at hrow
      split at hrow
      · cases hrow
        simp
      · cases hrow)
  intro t c ht1 ht2 hc
  obtain ⟨prevRow, feat, row, e1, e2, e3, e4⟩ := hcells t ht1 (by omega)
  rw [show 1 + (t - 1) = t by omega] at e2
  refine ⟨prevRow, feat, e1, e2, fun hset => ?_⟩
  simp only []
  rw [gridGet_natCast e3]
  exact e4 c hc hset

end Recursion

section Layout

variable {α : Type}

theorem storeGaussian_eq [LinearOrderedField α] (b : DecodingBuild α) (g : GaussianDecoding α)
    (hm : g.fMean.length = b.dimensionality) (hc : g.fCovariance.length = b.dimensionality) :
    storeGaussian b b.dimensionality g
      = FileCell.float g.fWeight :: (g.fMean.map FileCell.float
        ++ (g.fCovariance.map
          (fun v => if b.optimizedComputation then 1 / (2 * v) else v)).map FileCell.float) := by
  have e1 : (List.range b.dimensionality).map (fun i => FileCell.float (vectorAt g.fMean i))
      = g.fMean.map FileCell.float := by
    rw [← hm]
    exact map_vectorAt_range FileCell.float g.fMean
  have e2 : (List.range b.dimensionality).map (fun i => FileCell.float
        (if b.optimizedComputation then 1 / (2 * vectorAt g.fCovariance i)
          else vectorAt g.fCovariance i))
      = (g.fCovariance.map (fun v => if b.optimizedComputation then 1 / (2 * v) else v)).map
        FileCell.float := by
    rw [← hc, List.map_map]
    exact map_vectorAt_range (fun v => FileCell.float
      (if b.optimizedComputation then 1 / (2 * v) else v)) g.fCovariance
  unfold storeGaussian
  rw [e1, e2]
  rfl

theorem flatMap_storeGaussian [LinearOrderedField α] (b : DecodingBuild α)
    (gs : List (GaussianDecoding α))
    (hvec : ∀ g ∈ gs, g.fMean.length = b.dimensionality ∧
      g.fCovariance.length = b.dimensionality) :
    gs.flatMap (storeGaussian b b.dimensionality)
      = (gs.map (fun g => (g.fWeight, g.fMean, g.fCovariance.map
          (fun v => if b.optimizedComputation then 1 / (2 * v) else v)))).flatMap
        (fun c => FileCell.float c.1 :: (c.2.1.map FileCell.float ++ c.2.2.map FileCell.float)) := by
  induction gs with
  | nil => rfl
  | cons g gs ih =>
    obtain ⟨hm, hc⟩ := hvec g (List.mem_cons_self _ _)
    rw [List.flatMap_cons, List.map_cons, List.flatMap_cons, storeGaussian_eq b g hm hc,
      ih (fun g2 h2 => hvec g2 (List.mem_cons_of_mem _ h2))]

/-- What `store` writes, whatever the flag `m_bCovarianceOriginal` says: the
layout of the specification, with the array `strPhone` after `strcpy` as the
field of the name, and with each covariance entry `v` written as `1/(2v)` in a
build with `OPTIMIZED_COMPUTATION` and as it is otherwise. -/
theorem store_eq [LinearOrderedField α] (b : DecodingBuild α) (phoneSet : PhoneSet)
    (strPhone : List Nat) (st : HMMStateDecoding α) (str : List Nat)
    (hname : phoneSet.getStrPhone st.m_iPhone = some str)
    (hfit : str.length ≤ b.maxPhoneticSymbolLength)
    (hbuf : strPhone.length = b.maxPhoneticSymbolLength + 1)
    (hdim : st.m_iDim = b.dimensionality)
    (hvec : ∀ g ∈ st.m_gaussians, g.fMean.length = b.dimensionality ∧
      g.fCovariance.length = b.dimensionality) :
    store b phoneSet strPhone st = .ok (statePayload (strcpy strPhone str) st.m_iState
      st.m_iPosition (st.m_gaussians.map (fun g => (g.fWeight, g.fMean, g.fCovariance.map
        (fun v => if b.optimizedComputation then 1 / (2 * v) else v))))) := by
  obtain ⟨ht, _⟩ := strcpy_take strPhone str b.maxPhoneticSymbolLength hfit hbuf
  unfold store statePayload
  rw [hname]
  show (if _ then _ else _) = _
  rw [if_neg (not_lt.mpr hfit), ht, hdim, flatMap_storeGaussian b _ hvec, List.length_map]

theorem fileSize_append (f g : List (FileCell α)) :
    fileSize (f ++ g) = fileSize f + fileSize g := by
  simp [fileSize]

theorem fileSize_floats (xs : List α) : fileSize (xs.map FileCell.float) = 4 * xs.length := by
  induction xs with
  | nil => rfl
  | cons x xs ih =>
    have : fileSize (FileCell.float x :: xs.map FileCell.float)
        = 4 + fileSize (xs.map FileCell.float) := by simp [fileSize, FileCell.size]
    rw [List.map_cons, this, ih, List.length_cons]
    omega

theorem fileSize_bytes (bytes : List Nat) :
    fileSize (writeBytes bytes : List (FileCell α)) = bytes.length := by
  induction bytes with
  | nil => rfl
  | cons x xs ih =>
    have : fileSize (writeBytes (x :: xs) : List (FileCell α))
        = 1 + fileSize (writeBytes xs : List (FileCell α)) := by
      simp [fileSize, writeBytes, FileCell.size]
    rw [this, ih, List.length_cons]
    omega

/-- The number of bytes of a payload whose components all have `d` values of
mean and `d` values of covariance. -/
theorem fileSize_statePayload (strPhone : List Nat) (iState iPosition d : Nat)
    (components : List (α × List α × List α))
    (hvec : ∀ c ∈ components, c.2.1.length = d ∧ c.2.2.length = d) :
    fileSize (statePayload strPhone iState iPosition components)
      = strPhone.length + 1 + 1 + 4 + 4 * components.length * (2 * d + 1) := by
  have hc : fileSize (components.flatMap (fun c =>
      FileCell.float c.1 :: (c.2.1.map FileCell.float ++ c.2.2.map FileCell.float)))
      = 4 * components.length * (2 * d + 1) := by
    induction components with
    | nil => simp [fileSize]
    | cons c cs ih =>
      obtain ⟨h1, h2⟩ := hvec c (List.mem_cons_self _ _)
      have h3 : fileSize (FileCell.float c.1 :: (c.2.1.map FileCell.float
          ++ c.2.2.map FileCell.float)) = 4 * (2 * d + 1) := by
        have : fileSize (FileCell.float c.1 :: (c.2.1.map FileCell.float
            ++ c.2.2.map FileCell.float))
            = 4 + fileSize (c.2.1.map FileCell.float ++ c.2.2.map FileCell.float) := by
          simp [fileSize, FileCell.size]
        rw [this, fileSize_append, fileSize_floats, fileSize_floats, h1, h2]
        omega
      rw [List.flatMap_cons, fileSize_append, h3,
        ih (fun c2 hc2 => hvec c2 (List.mem_cons_of_mem _ hc2)), List.length_cons]
      ring
  unfold statePayload
  rw [fileSize_append, fileSize_append, fileSize_append, fileSize_append, fileSize_bytes, hc]
  have h1 : fileSize (writeUChar iState : List (FileCell α)) = 1 := rfl
  have h2 : fileSize (writeUChar iPosition : List (FileCell α)) = 1 := rfl
  have h3 : fileSize (writeInt (components.length : Int) : List (FileCell α)) = 4 := rfl
  rw [h1, h2, h3]

end Layout

section LoadStore

variable {α : Type}

theorem loadGaussians_payload (fresh : GaussianDecoding α) (d : Nat)
    (components : List (α × List α × List α)) (rest : List (FileCell α))
    (hvec : ∀ c ∈ components, c.2.1.length = d ∧ c.2.2.length = d)
    (hfresh : fresh.fMean.length = d ∧ fresh.fCovariance.length = d) :
    loadGaussians fresh d components.length
        (components.flatMap (fun c =>
          FileCell.float c.1 :: (c.2.1.map FileCell.float ++ c.2.2.map FileCell.float)) ++ rest)
      = .ok (components.map (fun c => { fresh with
          iId := -1, fWeight := c.1, fMean := c.2.1, fCovariance := c.2.2 }), rest) := by
  induction components with
  | nil => rfl
  | cons c cs ih =>
    obtain ⟨hm, hc⟩ := hvec c (List.mem_cons_self _ _)
    rw [List.flatMap_cons, List.length_cons]
    simp only [List.cons_append, List.append_assoc]
    rw [loadGaussians_cons fresh _ _ _ _ _ _ hm hc,
      ih (fun c2 h2 => hvec c2 (List.mem_cons_of_mem _ h2))]
    show Except.ok _ = _
    rw [List.drop_of_length_le (le_of_eq hfresh.1),
      List.drop_of_length_le (le_of_eq hfresh.2), List.append_nil, List.append_nil]
    rfl

/-- What `load` makes of a payload laid out as the specification says, with a
known phone name closed by a NUL in the field of the name. -/
theorem load_payload (b : DecodingBuild α) (phoneSet : PhoneSet)
    (fresh : GaussianDecoding α) (target : HMMStateDecoding α)
    (str pad : List Nat) (iState iPosition : Nat) (components : List (α × List α × List α))
    (hnul : ∀ c ∈ str, c ≠ 0)
    (hfield : str.length + 1 + pad.length = b.maxPhoneticSymbolLength + 1)
    (hknown : phoneSet.getPhoneIndex str ≠ 255)
    (hstate : iState < b.numberHmmStates) (hstate8 : iState < 256) (hpos : iPosition < 256)
    (hcount : 0 < components.length) (hcount31 : components.length < 2 ^ 31)
    (htarget : target.m_iDim = b.dimensionality)
    (hvec : ∀ c ∈ components, c.2.1.length = b.dimensionality ∧
      c.2.2.length = b.dimensionality)
    (hfresh : fresh.fMean.length = b.dimensionality ∧
      fresh.fCovariance.length = b.dimensionality) :
    load b phoneSet fresh target (statePayload (str ++ 0 :: pad) iState iPosition components)
      = .ok ({ target with
        m_iPhone := phoneSet.getPhoneIndex str, m_iState := iState, m_iPosition := iPosition,
        m_gaussians := components.map (fun c => { fresh with
          iId := -1, fWeight := c.1, fMean := c.2.1, fCovariance := c.2.2 }),
        m_bCovarianceOriginal := true }, []) := by
  have hl : (str ++ 0 :: pad).length = b.maxPhoneticSymbolLength + 1 := by
    simp only [List.length_append, List.length_cons]
    omega
  unfold load statePayload
  simp only [List.append_assoc]
  rw [readBytes_length _ _ _ hl, ok_bind]
  simp only []
  rw [cString_append str _ hnul]
  have h1 : decide (phoneSet.getPhoneIndex str ≠ 255) = true := by simpa using hknown
  rw [h1, cAssert_true, ok_bind, readUChar_writeUChar _ hstate8, ok_bind]
  simp only []
  have h2 : decide (iState < b.numberHmmStates) = true := by simpa using hstate
  rw [h2, cAssert_true, ok_bind, readUChar_writeUChar _ hpos, ok_bind]
  simp only []
  rw [readInt_writeInt _ hcount31, ok_bind]
  simp only []
  have h3 : decide ((components.length : Int) > 0) = true := by
    simp only [gt_iff_lt, decide_eq_true_eq]
    omega
  rw [h3, cAssert_true, ok_bind, Int.toNat_ofNat, htarget]
  have h4 := loadGaussians_payload fresh b.dimensionality components [] hvec hfresh
  rw [List.append_nil] at h4
  rw [h4, ok_bind, if_neg (by omega)]

end LoadStore

section CodecBytes

variable {α : Type}

/-- C21 (counterexample).  In a build with `OPTIMIZED_COMPUTATION`, the
well-formed payload with the phone `a`, NUL padding, and two components with
the variances `(1, 4)` and `(1/2, 2)`: `load` succeeds, and `store` of the
loaded state, from a buffer that holds NUL bytes, does not write the payload
again but the same bytes with the covariance values `(1/2, 1/8)` and
`(1, 1/4)`. -/
theorem store_load_not_identical :
    (load (sampleBuild 2 true) samplePhoneSet sampleFresh sampleTarget samplePayload
        >>= fun r => store (sampleBuild 2 true) samplePhoneSet (List.replicate 11 0) r.1)
      = .ok (statePayload (97 :: List.replicate 10 0) 2 0
          [(1 / 4, [0, 0], [1 / 2, 1 / 8]), (3 / 4, [5, 5], [1, 1 / 4])]) ∧
    (load (sampleBuild 2 true) samplePhoneSet sampleFresh sampleTarget samplePayload
        >>= fun r => store (sampleBuild 2 true) samplePhoneSet (List.replicate 11 0) r.1)
      ≠ .ok samplePayload := by
  refine ⟨?_, ?_⟩ <;> decide!

/-- C21 (amended).  For a payload laid out as the specification says, with a
known phone, a state index below `NUMBER_HMM_STATES` and at least one
component, `load` reads the whole payload, and `store` of the loaded state,
without `initialize` in between, writes the same name with its NUL, state
index, position, number of components, weights and means.  The covariance
values are written as they were in a build without `OPTIMIZED_COMPUTATION`; in
a build with it each of them, `v`, is written as `1/(2v)`.  The bytes of the
name field after the NUL are those of the local array `strPhone`. -/
theorem store_load_payload [LinearOrderedField α] (b : DecodingBuild α) (phoneSet : PhoneSet)
    (strPhone : List Nat) (fresh : GaussianDecoding α) (target : HMMStateDecoding α)
    (str pad : List Nat) (iState iPosition : Nat) (components : List (α × List α × List α))
    (hnul : ∀ c ∈ str, c ≠ 0)
    (hfield : str.length + 1 + pad.length = b.maxPhoneticSymbolLength + 1)
    (hknown : phoneSet.getPhoneIndex str ≠ 255)
    (hname : phoneSet.getStrPhone (phoneSet.getPhoneIndex str) = some str)
    (hbuf : strPhone.length = b.maxPhoneticSymbolLength + 1)
    (hstate : iState < b.numberHmmStates) (hstate8 : iState < 256) (hpos : iPosition < 256)
    (hcount : 0 < components.length) (hcount31 : components.length < 2 ^ 31)
    (htarget : target.m_iDim = b.dimensionality)
    (hvec : ∀ c ∈ components, c.2.1.length = b.dimensionality ∧
      c.2.2.length = b.dimensionality)
    (hfresh : fresh.fMean.length = b.dimensionality ∧
      fresh.fCovariance.length = b.dimensionality) :
    ∃ st, load b phoneSet fresh target
        (statePayload (str ++ 0 :: pad) iState iPosition components) = .ok (st, []) ∧
      store b phoneSet strPhone st
        = .ok (statePayload (str ++ 0 :: strPhone.drop (str.length + 1)) iState iPosition
          (components.map (fun c => (c.1, c.2.1, c.2.2.map
            (fun v => if b.optimizedComputation then 1 / (2 * v) else v))))) := by
  obtain ⟨st, hl, e1, e2, e3, e4, e5⟩ : ∃ st : HMMStateDecoding α,
      load b phoneSet fresh target
        (statePayload (str ++ 0 :: pad) iState iPosition components) = .ok (st, []) ∧
      st.m_iPhone = phoneSet.getPhoneIndex str ∧ st.m_iState = iState ∧
      st.m_iPosition = iPosition ∧ st.m_iDim = target.m_iDim ∧
      st.m_gaussians = components.map (fun c => { fresh with
        iId := -1, fWeight := c.1, fMean := c.2.1, fCovariance := c.2.2 }) :=
    ⟨_, load_payload b phoneSet fresh target str pad iState iPosition components hnul
      hfield hknown hstate hstate8 hpos hcount hcount31 htarget hvec hfresh,
      rfl, rfl, rfl, rfl, rfl⟩
  refine ⟨st, hl, ?_⟩
  rw [store_eq b phoneSet strPhone st str (by rw [e1]; exact hname) (by omega) hbuf
    (by rw [e4]; exact htarget) (by
      intro g hg
      rw [e5] at hg
      obtain ⟨c, hc, rfl⟩ := List.mem_map.mp hg
      exact hvec c hc), e2, e3, e5]
  simp only [List.map_map]
  rfl

/-- C21 (amended) at the payload with the phone `a` and two components in two
dimensions, in a build with `OPTIMIZED_COMPUTATION`, the local array holding
the bytes 204. -/
theorem store_load_payload_witness :
    ∃ st, load (sampleBuild 2 true) samplePhoneSet sampleFresh sampleTarget
        (statePayload ([97] ++ 0 :: List.replicate 9 0) 2 0
          [(1 / 4, [0, 0], [1, 4]), (3 / 4, [5, 5], [1 / 2, 2])]) = .ok (st, []) ∧
      store (sampleBuild 2 true) samplePhoneSet (List.replicate 11 204) st
        = .ok (statePayload ([97] ++ 0 :: (List.replicate 11 204).drop ([97].length + 1)) 2 0
          ([((1 : ℚ) / 4, [(0 : ℚ), 0], [(1 : ℚ), 4]), (3 / 4, [5, 5], [1 / 2, 2])].map
            (fun c => (c.1, c.2.1, c.2.2.map
              (fun v => if (sampleBuild 2 true).optimizedComputation then 1 / (2 * v)
                else v))))) :=
  store_load_payload (sampleBuild 2 true) samplePhoneSet (List.replicate 11 204) sampleFresh
    sampleTarget [97] (List.replicate 9 0) 2 0
    [(1 / 4, [0, 0], [1, 4]), (3 / 4, [5, 5], [1 / 2, 2])]
    (by decide) (by decide) (by decide) (by decide) (by decide) (by decide) (by decide)
    (by decide) (by decide) (by decide) rfl (by decide) (by decide)

/-- C22 (counterexample).  In a build with `OPTIMIZED_COMPUTATION`, the state
of two components whose flag says that the covariance is original, variances
`(1, 4)` and `(1/2, 2)`: `store` does not write the entries unchanged but
`(1/2, 1/8)` and `(1, 1/4)`, and `store` after `initialize` writes other
covariance values, `(1, 4)` and `(1/2, 2)`. -/
theorem store_original_flag :
    sampleStateOriginal.m_bCovarianceOriginal = true ∧
      store (sampleBuild 2 true) samplePhoneSet (List.replicate 11 0) sampleStateOriginal
        = .ok (statePayload (97 :: List.replicate 10 0) 2 0
          [(1 / 4, [0, 0], [1 / 2, 1 / 8]), (3 / 4, [5, 5], [1, 1 / 4])]) ∧
      (initializeDecoding (sampleBuild 2 true) sampleStateOriginal
          >>= store (sampleBuild 2 true) samplePhoneSet (List.replicate 11 0))
        = .ok (statePayload (97 :: List.replicate 10 0) 2 0
          [(1 / 4, [0, 0], [1, 4]), (3 / 4, [5, 5], [1 / 2, 2])]) := by
  refine ⟨rfl, ?_, ?_⟩ <;> decide!

/-- C22 (amended).  `store` does not read the flag of the covariance.  In a
build with `OPTIMIZED_COMPUTATION` it writes `1/(2p)` for every entry `p`,
whatever the flag, so `store` after `initialize` writes the entries that the
state had before `initialize` (when they are not 0 and `initialize` passes its
assertions: positive weights and a positive product of the entries), while
`store` of a state that was not initialized writes `1/(2v)` for its variances
`v`.  In a build without `OPTIMIZED_COMPUTATION` it writes every entry
unchanged, and `initialize` leaves the components as they are. -/
theorem store_covariance [LinearOrderedField α] (b : DecodingBuild α) (phoneSet : PhoneSet)
    (strPhone : List Nat) (st : HMMStateDecoding α) (str : List Nat)
    (hname : phoneSet.getStrPhone st.m_iPhone = some str)
    (hfit : str.length ≤ b.maxPhoneticSymbolLength)
    (hbuf : strPhone.length = b.maxPhoneticSymbolLength + 1)
    (hdim : st.m_iDim = b.dimensionality)
    (hvec : ∀ g ∈ st.m_gaussians, g.fMean.length = b.dimensionality ∧
      g.fCovariance.length = b.dimensionality)
    (hnz : ∀ g ∈ st.m_gaussians, ∀ v ∈ g.fCovariance, v ≠ 0) :
    (b.optimizedComputation = true →
      store b phoneSet strPhone st = .ok (statePayload (strcpy strPhone str) st.m_iState
        st.m_iPosition (st.m_gaussians.map (fun g => (g.fWeight, g.fMean,
          g.fCovariance.map (fun p => 1 / (2 * p)))))) ∧
      ((∀ g ∈ st.m_gaussians, 0 < g.fWeight ∧ 0 < g.fCovariance.prod) →
        0 < b.powf (b.piNumber * 2) ((b.dimensionality : α) / 2) →
        (∀ x, 0 < x → 0 < b.sqrt x) →
        (initializeDecoding b st >>= store b phoneSet strPhone)
          = .ok (statePayload (strcpy strPhone str) st.m_iState st.m_iPosition
            (st.m_gaussians.map (fun g => (g.fWeight, g.fMean, g.fCovariance)))))) ∧
    (b.optimizedComputation = false →
      store b phoneSet strPhone st = .ok (statePayload (strcpy strPhone str) st.m_iState
        st.m_iPosition (st.m_gaussians.map (fun g => (g.fWeight, g.fMean, g.fCovariance)))) ∧
      (initializeDecoding b st >>= store b phoneSet strPhone)
        = store b phoneSet strPhone st) := by
  have hs := store_eq b phoneSet strPhone st str hname hfit hbuf hdim hvec
  constructor
  · intro hopt
    simp only [hopt, if_true] at hs
    refine ⟨hs, ?_⟩
    intro hpos hc hsqrt
    obtain ⟨st2, h2, e1, e2, e3, e4, e5⟩ : ∃ st2 : HMMStateDecoding α,
        initializeDecoding b st = .ok st2 ∧ st2.m_iPhone = st.m_iPhone ∧
        st2.m_iState = st.m_iState ∧ st2.m_iPosition = st.m_iPosition ∧
        st2.m_iDim = st.m_iDim ∧
        st2.m_gaussians = st.m_gaussians.map (fun g => { g with
          fConstant := b.log (g.fWeight /
            (b.powf (b.piNumber * 2) ((b.dimensionality : α) / 2) * b.sqrt g.fCovariance.prod)),
          fCovariance := g.fCovariance.map (fun v => 1 / (2 * v)) }) :=
      ⟨_, initializeDecoding_ok b st hopt (fun g hg => (hvec g hg).2) hnz
          (fun g hg => finiteConstant_pos b _ _ _ hc hsqrt (hpos g hg).1 (hpos g hg).2),
        rfl, rfl, rfl, rfl, rfl⟩
    rw [h2, ok_bind, store_eq b phoneSet strPhone st2 str (by rw [e1]; exact hname) hfit hbuf
      (by rw [e4]; exact hdim) (by
        intro g hg
        rw [e5] at hg
        obtain ⟨g0, hg0, rfl⟩ := List.mem_map.mp hg
        simpa using hvec g0 hg0), e2, e3, e5]
    simp only [hopt, if_true, List.map_map]
    congr 2
    apply List.map_congr_left
    intro g hg
    simp only [Function.comp]
    congr 2
    conv_rhs => rw [← List.map_id g.fCovariance]
    rw [List.map_map]
    apply List.map_congr_left
    intro p hp
    have hp0 : p ≠ 0 := hnz g hg p hp
    simp only [Function.comp, id]
    field_simp
  · intro hopt
    have hb : b.optimizedComputation = false := hopt
    simp only [hb, Bool.false_eq_true, if_false, List.map_id'] at hs
    refine ⟨hs, ?_⟩
    obtain ⟨st2, h2, e1, e2, e3, e4, e5⟩ : ∃ st2 : HMMStateDecoding α,
        initializeDecoding b st = .ok st2 ∧ st2.m_iPhone = st.m_iPhone ∧
        st2.m_iState = st.m_iState ∧ st2.m_iPosition = st.m_iPosition ∧
        st2.m_iDim = st.m_iDim ∧ st2.m_gaussians = st.m_gaussians := by
      unfold initializeDecoding
      simp only [hb, Bool.false_eq_true, if_false]
      exact ⟨_, rfl, rfl, rfl, rfl, rfl, rfl⟩
    rw [h2, ok_bind, hs, store_eq b phoneSet strPhone st2 str (by rw [e1]; exact hname) hfit hbuf
      (by rw [e4]; exact hdim) (by rw [e5]; exact hvec), e2, e3, e5]
    simp only [hb, Bool.false_eq_true, if_false, List.map_id']

/-- C22 (amended) at the state of two components in two dimensions with the
variances `(1, 4)` and `(1/2, 2)`, in a build with `OPTIMIZED_COMPUTATION`. -/
theorem store_covariance_witness :
    store (sampleBuild 2 true) samplePhoneSet (List.replicate 11 204) sampleStateOriginal
        = .ok (statePayload (strcpy (List.replicate 11 204) [97]) sampleStateOriginal.m_iState
          sampleStateOriginal.m_iPosition (sampleStateOriginal.m_gaussians.map
            (fun g => (g.fWeight, g.fMean, g.fCovariance.map (fun p => 1 / (2 * p)))))) ∧
      (initializeDecoding (sampleBuild 2 true) sampleStateOriginal
          >>= store (sampleBuild 2 true) samplePhoneSet (List.replicate 11 204))
        = .ok (statePayload (strcpy (List.replicate 11 204) [97]) sampleStateOriginal.m_iState
          sampleStateOriginal.m_iPosition
          (sampleStateOriginal.m_gaussians.map (fun g => (g.fWeight, g.fMean, g.fCovariance)))) :=
  ⟨((store_covariance (sampleBuild 2 true) samplePhoneSet (List.replicate 11 204)
      sampleStateOriginal [97] rfl (by decide) (by decide) rfl (by decide!)
      (by decide!)).1 rfl).1,
    ((store_covariance (sampleBuild 2 true) samplePhoneSet (List.replicate 11 204)
      sampleStateOriginal [97] rfl (by decide) (by decide) rfl (by decide!)
      (by decide!)).1 rfl).2 (by decide!) (by decide!) (fun _ hx => hx)⟩

/-- C23 (evaluation at the failing input).  The state with the phone `a`, when
the local array `strPhone` of `store` holds the bytes 204 before `strcpy`: the
field of the name is written as `a`, one NUL, and nine bytes 204, where the
claim has NUL bytes up to the end of the field.  The number of bytes,
`11 + 1 + 1 + 4 + 4 * 2 * (2 * 2 + 1) = 57`, and the order of the fields are as
claimed. -/
theorem store_name_field :
    (store (sampleBuild 2 true) samplePhoneSet (List.replicate 11 204) sampleStateOriginal).map
        (fun file => (file.take 11, fileSize file))
      = .ok ([.byte 97, .byte 0, .byte 204, .byte 204, .byte 204, .byte 204, .byte 204,
          .byte 204, .byte 204, .byte 204, .byte 204], 57) ∧
    (store (sampleBuild 2 true) samplePhoneSet (List.replicate 11 204) sampleStateOriginal).map
        (fun file => file.drop 11)
      = .ok [.byte 2, .byte 0, .byte 2, .byte 0, .byte 0, .byte 0,
          .float (1 / 4), .float 0, .float 0, .float (1 / 2), .float (1 / 8),
          .float (3 / 4), .float 5, .float 5, .float 1, .float (1 / 4)] := by
  refine ⟨?_, ?_⟩ <;> decide!

end CodecBytes

section SegmentFile

/-- A line on which two numbers are read raises the error exactly when the
first number is at most the second one, and yields the segment otherwise. -/
theorem loadLine_numbers (strLine r1 r2 : List Char) (a b : Nat)
    (h1 : readUnsigned strLine = .ok (a, r1)) (h2 : readUnsigned r1 = .ok (b, r2)) :
    (SADModule.loadLine strLine = .error .inconsistentSegment ↔ a ≤ b) ∧
      (b < a → SADModule.loadLine strLine = .ok ⟨uintToInt a, uintToInt b⟩) := by
  unfold SADModule.loadLine
  rw [h1, ok_bind]
  simp only []
  rw [h2, ok_bind]
  simp only []
  by_cases h : a ≤ b
  · rw [if_pos h]
    exact ⟨⟨fun _ => h, fun _ => rfl⟩, fun h3 => by omega⟩
  · rw [if_neg h]
    exact ⟨⟨fun h3 => (by cases h3), fun h3 => absurd h3 h⟩, fun _ => rfl⟩

/-- C24 (evaluation at the failing input).  `SADModule::load` raises the error
of line 185 on the file with the one line `3 7`, whose `frameStart` is not
greater than its `frameEnd`, and on the line `5 5`; it accepts the line `7 3`
and returns the segment with `frameStart = 7` and `frameEnd = 3`.  The test of
line 184 is `iFrameStart <= iFrameEnd`. -/
theorem load_segment_order :
    SADModule.load "3 7\n".toList = .error .inconsistentSegment ∧
      SADModule.load "5 5\n".toList = .error .inconsistentSegment ∧
      SADModule.load "7 3\n".toList = .ok [⟨7, 3⟩] := by
  refine ⟨?_, ?_, ?_⟩ <;> decide!

/-- C25 (evaluation at the failing input).  For the two segments `[3,7]` and
`[10,25]`, `SADModule::store` writes the lines `3 7` and `10 25`, and
`SADModule::load` of that text does not return the segments: it raises the
error of line 185 on the first line, as on the text written for the single
segment `[0,0]`.  Only the text written for no segment at all is loaded back. -/
theorem load_store_segments :
    SADModule.store [⟨3, 7⟩, ⟨10, 25⟩] = "3 7\n10 25\n".toList ∧
      SADModule.load (SADModule.store [⟨3, 7⟩, ⟨10, 25⟩]) = .error .inconsistentSegment ∧
      SADModule.load (SADModule.store [⟨0, 0⟩]) = .error .inconsistentSegment ∧
      SADModule.load (SADModule.store []) = .ok [] := by
  refine ⟨?_, ?_, ?_, ?_⟩ <;> decide!

end SegmentFile


/-! ### The mappings file -/

section MappingsLemmas

/-- In a file whose last line ends with a newline, the two ways of reading
lines read the same lines. -/
theorem getLines_eq (file : List Char) (hend : (splitLines file).2 = []) :
    getLines file = getLinesGood file := by
  unfold getLines getLinesGood
  rw [hend]
  simp

theorem readString_ok (bRaise : Bool) (s : List Char) (r : List Char × List Char)
    (h : readString bRaise s = .ok r) :
    r = (tokenOf s, afterToken s) ∧ (bRaise = true → tokenOf s ≠ []) := by
  unfold readString at h
  split_ifs at h with h1
  · simp only [Except.ok.injEq] at h
    exact ⟨h.symm, fun hb e => h1 ⟨e, hb⟩⟩

theorem readString_of (bRaise : Bool) (s : List Char)
    (h : bRaise = true → tokenOf s ≠ []) :
    readString bRaise s = .ok (tokenOf s, afterToken s) := by
  unfold readString
  rw [if_neg (fun hc => h hc.2 hc.1)]

/-- What a line that is read does: its first two tokens are inserted. -/
theorem loadLines_cons (bRaise : Bool) (l : List Char) (rest : List (List Char))
    (m0 m : List (List Char × List Char))
    (h : Mappings.loadLines bRaise (l :: rest) m0 = .ok m) :
    Mappings.loadLines bRaise rest (mapInsert m0 (tokenOf l) (tokenOf (afterToken l))) = .ok m
      ∧ (bRaise = true → tokenOf l ≠ [] ∧ tokenOf (afterToken l) ≠ []) := by
  simp only [Mappings.loadLines] at h
  obtain ⟨str1, h1, h⟩ := bind_eq_ok.mp h
  obtain ⟨str2, h2, h⟩ := bind_eq_ok.mp h
  obtain ⟨e1, n1⟩ := readString_ok _ _ _ h1
  obtain ⟨e2, n2⟩ := readString_ok _ _ _ h2
  subst e1
  subst e2
  exact ⟨h, fun hb => ⟨n1 hb, n2 hb⟩⟩

/-- The element that each line adds: its first two tokens. -/
theorem loadLines_eq (bRaise : Bool) (lines : List (List Char))
    (m0 m : List (List Char × List Char))
    (h : Mappings.loadLines bRaise lines m0 = .ok m) :
    m = lines.foldl (fun t l => mapInsert t (tokenOf l) (tokenOf (afterToken l))) m0 := by
  induction lines generalizing m0 with
  | nil =>
    simp only [Mappings.loadLines] at h
    cases h
    rfl
  | cons l rest ih => exact ih _ (loadLines_cons bRaise l rest m0 m h).1

/-- With a `readString` that raises, a table is returned only when every line
has two tokens. -/
theorem loadLines_raise (lines : List (List Char))
    (m0 m : List (List Char × List Char))
    (h : Mappings.loadLines true lines m0 = .ok m) :
    ∀ l ∈ lines, tokenOf l ≠ [] ∧ tokenOf (afterToken l) ≠ [] := by
  induction lines generalizing m0 with
  | nil => intro l hl; cases hl
  | cons l rest ih =>
    obtain ⟨h1, h2⟩ := loadLines_cons true l rest m0 m h
    intro x hx
    rcases List.mem_cons.mp hx with rfl | hx
    · exact h2 rfl
    · exact ih _ h1 x hx

/-- When every line has two tokens, or `readString` does not raise, the loop
returns a table. -/
theorem loadLines_ok (bRaise : Bool) (lines : List (List Char))
    (m0 : List (List Char × List Char))
    (h : bRaise = true → ∀ l ∈ lines, tokenOf l ≠ [] ∧ tokenOf (afterToken l) ≠ []) :
    Mappings.loadLines bRaise lines m0
      = .ok (lines.foldl (fun t l => mapInsert t (tokenOf l) (tokenOf (afterToken l))) m0) := by
  induction lines generalizing m0 with
  | nil => rfl
  | cons l rest ih =>
    have hl : bRaise = true → tokenOf l ≠ [] ∧ tokenOf (afterToken l) ≠ [] :=
      fun hb => h hb l (List.mem_cons_self _ _)
    simp only [Mappings.loadLines]
    rw [readString_of bRaise l (fun hb => (hl hb).1), ok_bind,
      readString_of bRaise (afterToken l) (fun hb => (hl hb).2), ok_bind]
    exact ih _ (fun hb x hx => h hb x (List.mem_cons_of_mem _ hx))

theorem hasKey_append (m : List (List Char × List Char)) (k v q : List Char) :
    hasKey (m ++ [(k, v)]) q = (hasKey m q || decide (k = q)) := by
  simp [hasKey]

theorem hasKey_mapInsert (m : List (List Char × List Char)) (k v q : List Char) :
    hasKey (mapInsert m k v) q = (hasKey m q || decide (k = q)) := by
  unfold mapInsert
  split_ifs with h
  · by_cases hq : k = q
    · subst hq
      simp [h]
    · simp [hq]
  · exact hasKey_append m k v q

theorem lookup_absent (m : List (List Char × List Char)) (q : List Char)
    (h : hasKey m q = false) : Mappings.lookup m q = q := by
  have hf : m.find? (fun p => decide (p.1 = q)) = none := by
    rw [List.find?_eq_none]
    intro p hp hpq
    have : hasKey m q = true := List.any_eq_true.mpr ⟨p, hp, hpq⟩
    rw [h] at this
    cases this
  simp only [Mappings.lookup, hf]

theorem lookup_append (m : List (List Char × List Char)) (k v q : List Char) :
    Mappings.lookup (m ++ [(k, v)]) q
      = if hasKey m q then Mappings.lookup m q else if k = q then v else q := by
  induction m with
  | nil =>
    by_cases hq : k = q
    · simp [Mappings.lookup, hasKey, hq, List.find?]
    · simp [Mappings.lookup, hasKey, hq, List.find?]
  | cons p rest ih =>
    by_cases hp : p.1 = q
    · simp [Mappings.lookup, hasKey, hp, List.find?]
    · have e1 : Mappings.lookup (p :: rest ++ [(k, v)]) q
          = Mappings.lookup (rest ++ [(k, v)]) q := by
        simp [Mappings.lookup, hp, List.find?]
      have e2 : Mappings.lookup (p :: rest) q = Mappings.lookup rest q := by
        simp [Mappings.lookup, hp, List.find?]
      have e3 : hasKey (p :: rest) q = hasKey rest q := by
        simp [hasKey, hp]
      rw [e1, e2, e3, ih]

theorem lookup_mapInsert (m : List (List Char × List Char)) (k v q : List Char) :
    Mappings.lookup (mapInsert m k v) q
      = if hasKey m q then Mappings.lookup m q else if k = q then v else q := by
  unfold mapInsert
  split_ifs with h h1 h2 h3 h4
  · rfl
  · subst h2
    rw [h] at h1
    exact absurd rfl h1
  · exact lookup_absent m q (by simpa using h1)
  · rw [lookup_append, if_pos h3]
  · rw [lookup_append, if_neg (by simp [*]), if_pos h4]
  · rw [lookup_append]
    simp [*]

/-- The keys of the table that the lines build: those it had, and the first
token of every line. -/
theorem hasKey_foldl (lines : List (List Char)) (m0 : List (List Char × List Char))
    (q : List Char) :
    hasKey (lines.foldl (fun t l => mapInsert t (tokenOf l) (tokenOf (afterToken l))) m0) q
      = (hasKey m0 q || lines.any (fun l => decide (tokenOf l = q))) := by
  induction lines generalizing m0 with
  | nil => simp
  | cons l rest ih =>
    rw [List.foldl_cons, ih, hasKey_mapInsert, List.any_cons, Bool.or_assoc]

/-- The target of a key in the table that the lines build: the one it had, or
the second token of the first line that has the key as first token. -/
theorem lookup_foldl (lines : List (List Char)) (m0 : List (List Char × List Char))
    (q : List Char) :
    Mappings.lookup
        (lines.foldl (fun t l => mapInsert t (tokenOf l) (tokenOf (afterToken l))) m0) q
      = if hasKey m0 q then Mappings.lookup m0 q
        else match lines.find? (fun l => decide (tokenOf l = q)) with
          | none => q
          | some l => tokenOf (afterToken l) := by
  induction lines generalizing m0 with
  | nil =>
    simp only [List.foldl_nil, List.find?_nil]
    split_ifs with h
    · rfl
    · exact lookup_absent m0 q (by simpa using h)
  | cons l rest ih =>
    rw [List.foldl_cons, ih, hasKey_mapInsert, lookup_mapInsert]
    by_cases h : hasKey m0 q = true
    · simp [h]
    · by_cases hq : tokenOf l = q
      · simp [h, hq, List.find?]
      · simp [h, hq, List.find?]

/-- No two elements of the table have the same key. -/
theorem mapInsert_nodup (m : List (List Char × List Char)) (k v : List Char)
    (h : (m.map Prod.fst).Nodup) : ((mapInsert m k v).map Prod.fst).Nodup := by
  unfold mapInsert
  split_ifs with hk
  · exact h
  · rw [List.map_append, List.map_singleton]
    refine List.Nodup.append h (List.nodup_singleton _) ?_
    intro x hx hx2
    rw [List.mem_singleton] at hx2
    subst hx2
    apply hk
    obtain ⟨p, hp, rfl⟩ := List.mem_map.mp hx
    exact List.any_eq_true.mpr ⟨p, hp, by simp⟩

theorem foldl_nodup (lines : List (List Char)) (m0 : List (List Char × List Char))
    (h : (m0.map Prod.fst).Nodup) :
    ((lines.foldl (fun t l => mapInsert t (tokenOf l) (tokenOf (afterToken l))) m0).map
      Prod.fst).Nodup := by
  induction lines generalizing m0 with
  | nil => exact h
  | cons l rest ih => exact ih _ (mapInsert_nodup _ _ _ h)

/-- In a table without two elements of the same key, the lookup of the key of
an element returns the second string of that element. -/
theorem lookup_mem (m : List (List Char × List Char)) (k v : List Char)
    (h : (m.map Prod.fst).Nodup) (hm : (k, v) ∈ m) : Mappings.lookup m k = v := by
  induction m with
  | nil => cases hm
  | cons p rest ih =>
    rw [List.map_cons, List.nodup_cons] at h
    rcases List.mem_cons.mp hm with e | hr
    · subst e
      simp [Mappings.lookup, List.find?]
    · have hp : p.1 ≠ k := by
        intro e
        apply h.1
        rw [e]
        exact List.mem_map.mpr ⟨(k, v), hr, rfl⟩
      have e2 : Mappings.lookup (p :: rest) k = Mappings.lookup rest k := by
        simp [Mappings.lookup, hp, List.find?]
      rw [e2]
      exact ih h.2 hr

theorem hasKey_iff (m : List (List Char × List Char)) (k : List Char) :
    hasKey m k = true ↔ ∃ v, (k, v) ∈ m := by
  unfold hasKey
  rw [List.any_eq_true]
  constructor
  · rintro ⟨p, hp, hk⟩
    refine ⟨p.2, ?_⟩
    have : p.1 = k := by simpa using hk
    rw [← this]
    exact hp
  · rintro ⟨v, hv⟩
    exact ⟨(k, v), hv, by simp⟩

end MappingsLemmas

section MappingsClaims

/-- C26: in the table that `Mappings::load` returns, `operator[]` returns the
string itself when the table has no element with that key, and the stored
target of the key when it has one. -/
theorem Mappings_lookup_spec (bRaise : Bool) (file : List Char)
    (m : List (List Char × List Char)) (k : List Char)
    (h : Mappings.load bRaise file = .ok m) :
    ((∀ v, (k, v) ∉ m) → Mappings.lookup m k = k)
      ∧ (∀ v, (k, v) ∈ m → Mappings.lookup m k = v) := by
  have hm := loadLines_eq bRaise _ _ _ h
  constructor
  · intro hk
    apply lookup_absent
    cases hh : hasKey m k
    · rfl
    · obtain ⟨v, hv⟩ := (hasKey_iff m k).mp hh
      exact absurd hv (hk v)
  · intro v hv
    refine lookup_mem m k v ?_ hv
    rw [hm]
    exact foldl_nodup _ _ List.nodup_nil

/-- Witness of C26: the table {AE → AE0, OW → OW1} read from a file; the lookup
of XX returns XX and the lookup of OW returns OW1. -/
theorem Mappings_lookup_spec_witness :
    Mappings.load true "AE AE0\nOW OW1\n".toList
        = .ok [("AE".toList, "AE0".toList), ("OW".toList, "OW1".toList)]
      ∧ Mappings.lookup [("AE".toList, "AE0".toList), ("OW".toList, "OW1".toList)] "XX".toList
        = "XX".toList
      ∧ Mappings.lookup [("AE".toList, "AE0".toList), ("OW".toList, "OW1".toList)] "OW".toList
        = "OW1".toList :=
  have h : Mappings.load true "AE AE0\nOW OW1\n".toList
      = .ok [("AE".toList, "AE0".toList), ("OW".toList, "OW1".toList)] := by decide!
  ⟨h, (Mappings_lookup_spec true _ _ "XX".toList h).1 (by simp),
    (Mappings_lookup_spec true _ _ "OW".toList h).2 "OW1".toList (by decide!)⟩

/-- C27, as the claim states it, fails: a file with the source key AE on two
lines is not rejected, whether `readString` raises on a failed read or not;
the table has the target of the first of the two lines. -/
theorem Mappings_load_duplicate :
    Mappings.load true "AE AE0\nAE AE1\n".toList = .ok [("AE".toList, "AE0".toList)]
      ∧ Mappings.load false "AE AE0\nAE AE1\n".toList = .ok [("AE".toList, "AE0".toList)] := by
  decide!

/-- C27, amended: for a file whose last line ends with a newline and in which
every line has two tokens (or when `readString` does not raise),
`Mappings::load` returns a table, whether a source key is repeated or not, and
the table maps a key to the second token of the first line that has the key
as first token. -/
theorem Mappings_load_first_wins (bRaise : Bool) (file : List Char)
    (hend : (splitLines file).2 = [])
    (h : bRaise = true →
      ∀ l ∈ getLines file, tokenOf l ≠ [] ∧ tokenOf (afterToken l) ≠ []) :
    ∃ m, Mappings.load bRaise file = .ok m
      ∧ ∀ k, Mappings.lookup m k
          = match (getLines file).find? (fun l => decide (tokenOf l = k)) with
            | none => k
            | some l => tokenOf (afterToken l) := by
  rw [getLines_eq file hend] at h ⊢
  refine ⟨_, loadLines_ok bRaise _ [] h, fun k => ?_⟩
  rw [lookup_foldl]
  rfl

/-- Witness of the amended C27: a file with the key AE on its first and third
line. -/
theorem Mappings_load_first_wins_witness :
    ∃ m, Mappings.load true "AE AE0\nOW OW1\nAE AE1\n".toList = .ok m
      ∧ ∀ k, Mappings.lookup m k
          = match (getLines "AE AE0\nOW OW1\nAE AE1\n".toList).find?
              (fun l => decide (tokenOf l = k)) with
            | none => k
            | some l => tokenOf (afterToken l) :=
  Mappings_load_first_wins true "AE AE0\nOW OW1\nAE AE1\n".toList (by decide!)
    (fun _ => by decide!)

/-- C28, as the claim states it, fails: a blank line and a line of one token
are not skipped.  When `readString` does not raise they add the elements
"" → "" and OW → "", so that the keys are not those of the lines with two
tokens; when it raises the load fails. -/
theorem Mappings_load_short_lines :
    Mappings.load false "AE AE0\n\nOW\n".toList
        = .ok [("AE".toList, "AE0".toList), ([], []), ("OW".toList, [])]
      ∧ Mappings.load true "AE AE0\n\nOW\n".toList = .error .readError := by
  decide!

/-- C28, amended: for a file whose last line ends with a newline, the keys of
the table that `Mappings::load` returns are the first tokens of all the lines,
the empty first token of a blank line included; and when `readString` raises
on a failed read, a table is returned only if every line has two tokens. -/
theorem Mappings_load_keys (bRaise : Bool) (file : List Char)
    (m : List (List Char × List Char)) (hend : (splitLines file).2 = [])
    (h : Mappings.load bRaise file = .ok m) :
    (∀ k, (∃ v, (k, v) ∈ m) ↔ ∃ l ∈ getLines file, tokenOf l = k)
      ∧ (bRaise = true →
          ∀ l ∈ getLines file, tokenOf l ≠ [] ∧ tokenOf (afterToken l) ≠ []) := by
  rw [getLines_eq file hend]
  have hm := loadLines_eq bRaise _ _ _ h
  constructor
  · intro k
    rw [← hasKey_iff, hm, hasKey_foldl]
    simp [hasKey]
  · intro hb
    subst hb
    exact loadLines_raise _ _ _ h

/-- Witness of the amended C28: a file with a blank line and a line of one
token, read without raising. -/
theorem Mappings_load_keys_witness :
    Mappings.load false "AE AE0\n\nOW\n".toList
        = .ok [("AE".toList, "AE0".toList), ([], []), ("OW".toList, [])]
      ∧ (∀ k, (∃ v, (k, v) ∈ [("AE".toList, "AE0".toList), ([], []), ("OW".toList, [])])
          ↔ ∃ l ∈ getLines "AE AE0\n\nOW\n".toList, tokenOf l = k) :=
  have h : Mappings.load false "AE AE0\n\nOW\n".toList
      = .ok [("AE".toList, "AE0".toList), ([], []), ("OW".toList, [])] := by decide!
  ⟨h, (Mappings_load_keys false _ _ (by decide!) h).1⟩

end MappingsClaims

/-! ### Pooling the components -/

section KeepBest

variable {α : Type}

/-- The components that the loop visits are the first of the list. -/
theorem keepBest_prefix (iMax : Int) (l : List (GaussianDecoding α)) (c : Int) :
    l = keepBest iMax l c ++ l.drop (keepBest iMax l c).length := by
  induction l generalizing c with
  | nil => rfl
  | cons g rest ih =>
    unfold keepBest
    split_ifs with h
    · simp only [List.cons_append, List.length_cons, List.drop_succ_cons]
      rw [← ih]
    · rfl

/-- The number of components that the loop visits. -/
theorem keepBest_length (iMax : Int) (l : List (GaussianDecoding α)) (c : Int) :
    (keepBest iMax l c).length
      = if iMax = -1 then l.length else min l.length (iMax - c).toNat := by
  induction l generalizing c with
  | nil => simp [keepBest]
  | cons g rest ih =>
    unfold keepBest
    by_cases h1 : iMax = -1
    · rw [if_pos (Or.inr h1), List.length_cons, ih, if_pos h1, if_pos h1, List.length_cons]
    · by_cases hc : c < iMax
      · rw [if_pos (Or.inl hc), List.length_cons, ih, if_neg h1, if_neg h1, List.length_cons]
        omega
      · rw [if_neg (fun h => h.elim hc h1), if_neg h1, List.length_nil, List.length_cons]
        omega

end KeepBest

section PoolingLemmas

variable {α : Type} [LinearOrderedField α]

theorem sum_map_div (l : List α) (w : α) : (l.map (fun x => x / w)).sum = l.sum / w := by
  induction l with
  | nil => simp
  | cons a l ih => simp [ih, add_div]

theorem insertSorted_perm {β : Type} (comp : β → β → Bool) (a : β) (l : List β) :
    (insertSorted comp a l).Perm (a :: l) := by
  induction l with
  | nil => exact List.Perm.refl _
  | cons b l ih =>
    unfold insertSorted
    split_ifs with h
    · exact (List.Perm.cons b ih).trans (List.Perm.swap a b l)
    · exact List.Perm.refl _

theorem listSort_perm {β : Type} (comp : β → β → Bool) (l : List β) :
    (listSort comp l).Perm l := by
  induction l with
  | nil => exact List.Perm.refl _
  | cons a l ih =>
    unfold listSort
    exact (insertSorted_perm comp a _).trans (List.Perm.cons a ih)

theorem insertSorted_sorted (a : GaussianDecoding α) (l : List (GaussianDecoding α))
    (h : l.Pairwise (fun x y => y.fWeight ≤ x.fWeight)) :
    (insertSorted compareGaussianByWeight a l).Pairwise (fun x y => y.fWeight ≤ x.fWeight) := by
  induction l with
  | nil => exact List.pairwise_singleton _ _
  | cons b l ih =>
    rw [List.pairwise_cons] at h
    unfold insertSorted
    split_ifs with hc
    · have hba : a.fWeight < b.fWeight := by simpa [compareGaussianByWeight] using hc
      rw [List.pairwise_cons]
      refine ⟨fun x hx => ?_, ih h.2⟩
      rcases List.mem_cons.mp ((insertSorted_perm _ a l).mem_iff.mp hx) with rfl | hx
      · exact le_of_lt hba
      · exact h.1 x hx
    · have hab : b.fWeight ≤ a.fWeight := by
        simpa [compareGaussianByWeight] using hc
      rw [List.pairwise_cons]
      refine ⟨fun x hx => ?_, List.pairwise_cons.mpr h⟩
      rcases List.mem_cons.mp hx with rfl | hx
      · exact hab
      · exact le_trans (h.1 x hx) hab

/-- The sorted list is in descending order of weight. -/
theorem listSort_sorted (l : List (GaussianDecoding α)) :
    (listSort compareGaussianByWeight l).Pairwise (fun x y => y.fWeight ≤ x.fWeight) := by
  induction l with
  | nil => exact List.Pairwise.nil
  | cons a l ih =>
    unfold listSort
    exact insertSorted_sorted a _ ih

theorem poolLoop_ok (iDim : Nat) (iMax : Int) (l : List (GaussianDecoding α)) (c : Int)
    (pre suf : List (GaussianDecoding α)) (acc : α)
    (hcap : (keepBest iMax l c).length ≤ suf.length) :
    poolLoop iDim iMax l c (pre ++ suf, pre.length, acc)
      = .ok (pre ++ (keepBest iMax l c).map (fun g => copyGaussian g g iDim)
              ++ suf.drop (keepBest iMax l c).length,
             pre.length + (keepBest iMax l c).length,
             acc + ((keepBest iMax l c).map (fun g => g.fWeight)).sum) := by
  induction l generalizing c pre suf acc with
  | nil => simp [poolLoop, keepBest]
  | cons g rest ih =>
    unfold poolLoop keepBest
    split_ifs with h
    · rw [keepBest, if_pos h, List.length_cons] at hcap
      cases suf with
      | nil => simp at hcap
      | cons d suf2 =>
        have hget : (pre ++ d :: suf2)[pre.length]? = some d := by
          rw [List.getElem?_append_right (le_refl _)]
          simp
        rw [hget]
        simp only [orOutOfBounds, ok_bind]
        have hset : (pre ++ d :: suf2).set pre.length (copyGaussian d g iDim)
            = (pre ++ [copyGaussian g g iDim]) ++ suf2 := by
          simp [copyGaussian]
        have hlen : pre.length + 1 = (pre ++ [copyGaussian g g iDim]).length := by simp
        rw [hset, hlen, ih (c + 1) _ suf2 _ (by simpa using hcap)]
        simp [add_assoc, Nat.add_comm]
    · simp

theorem keptOfClass_silence (mdl : SADModuleMembers α) (st : HMMStateDecoding α)
    (rest : List (HMMStateDecoding α)) (h : st.m_iPhone = mdl.iPhoneSil) :
    keptOfClass mdl true (st :: rest)
        = keepBest mdl.m_iMaxGaussianComponentsSilence
            (listSort compareGaussianByWeight st.m_gaussians) 0 ++ keptOfClass mdl true rest
      ∧ keptOfClass mdl false (st :: rest) = keptOfClass mdl false rest := by
  simp [keptOfClass, keptComponents, h, List.filter_cons]

theorem keptOfClass_speech (mdl : SADModuleMembers α) (st : HMMStateDecoding α)
    (rest : List (HMMStateDecoding α)) (h : ¬ st.m_iPhone = mdl.iPhoneSil) :
    keptOfClass mdl false (st :: rest)
        = keepBest mdl.m_iMaxGaussianComponentsSpeech
            (listSort compareGaussianByWeight st.m_gaussians) 0 ++ keptOfClass mdl false rest
      ∧ keptOfClass mdl true (st :: rest) = keptOfClass mdl true rest := by
  simp [keptOfClass, keptComponents, h, List.filter_cons]

/-- The loop over the states writes the components kept of each class one after
the other into the array of the class, when the arrays have room for them. -/
theorem poolStates_ok (mdl : SADModuleMembers α) (sts : List (HMMStateDecoding α))
    (p : PoolState α) (preS sufS preP sufP : List (GaussianDecoding α))
    (h1 : p.gaussiansSilence = preS ++ sufS) (h2 : p.iComponentsSilenceFound = preS.length)
    (h3 : p.gaussiansSpeech = preP ++ sufP) (h4 : p.iComponentsSpeechFound = preP.length)
    (hS : (keptOfClass mdl true sts).length ≤ sufS.length)
    (hP : (keptOfClass mdl false sts).length ≤ sufP.length) :
    poolStates mdl sts p = .ok
      ⟨preS ++ (keptOfClass mdl true sts).map (fun g => copyGaussian g g mdl.m_iDim)
          ++ sufS.drop (keptOfClass mdl true sts).length,
        preS.length + (keptOfClass mdl true sts).length,
        p.fWeightAccumulatedSilence + ((keptOfClass mdl true sts).map (fun g => g.fWeight)).sum,
        preP ++ (keptOfClass mdl false sts).map (fun g => copyGaussian g g mdl.m_iDim)
          ++ sufP.drop (keptOfClass mdl false sts).length,
        preP.length + (keptOfClass mdl false sts).length,
        p.fWeightAccumulatedSpeech
          + ((keptOfClass mdl false sts).map (fun g => g.fWeight)).sum⟩ := by
  induction sts generalizing p preS sufS preP sufP with
  | nil =>
    obtain ⟨a1, a2, a3, a4, a5, a6⟩ := p
    simp only at h1 h2 h3 h4
    subst h1 h2 h3 h4
    simp [poolStates, keptOfClass]
  | cons st rest ih =>
    unfold poolStates
    by_cases hsil : st.m_iPhone = mdl.iPhoneSil
    · obtain ⟨e1, e2⟩ := keptOfClass_silence mdl st rest hsil
      rw [e1, List.length_append] at hS
      rw [e2] at hP
      simp only [hsil, if_true]
      rw [h1, h2, poolLoop_ok mdl.m_iDim _ _ 0 preS sufS _ (by omega), ok_bind]
      refine (ih _ (preS ++ (keepBest mdl.m_iMaxGaussianComponentsSilence
              (listSort compareGaussianByWeight st.m_gaussians) 0).map
                (fun g => copyGaussian g g mdl.m_iDim))
            (sufS.drop (keepBest mdl.m_iMaxGaussianComponentsSilence
              (listSort compareGaussianByWeight st.m_gaussians) 0).length) preP sufP
            ?_ ?_ ?_ ?_ ?_ hP).trans ?_
      · simp
      · simp
      · exact h3
      · exact h4
      · rw [List.length_drop]
        omega
      · rw [e1, e2]
        simp [add_assoc, Nat.add_assoc, List.drop_drop, Nat.add_comm]
    · obtain ⟨e1, e2⟩ := keptOfClass_speech mdl st rest hsil
      rw [e1, List.length_append] at hP
      rw [e2] at hS
      simp only [hsil, if_false]
      rw [h3, h4, poolLoop_ok mdl.m_iDim _ _ 0 preP sufP _ (by omega), ok_bind]
      refine (ih _ preS sufS (preP ++ (keepBest mdl.m_iMaxGaussianComponentsSpeech
              (listSort compareGaussianByWeight st.m_gaussians) 0).map
                (fun g => copyGaussian g g mdl.m_iDim))
            (sufP.drop (keepBest mdl.m_iMaxGaussianComponentsSpeech
              (listSort compareGaussianByWeight st.m_gaussians) 0).length)
            ?_ ?_ ?_ ?_ hS ?_).trans ?_
      · exact h1
      · exact h2
      · simp
      · simp
      · rw [List.length_drop]
        omega
      · rw [e1, e2]
        simp [add_assoc, Nat.add_assoc, List.drop_drop, Nat.add_comm]

/-- The array of silence has room for the components kept. -/
theorem estimate_silence (mdl : SADModuleMembers α) (sts : List (HMMStateDecoding α))
    (a c : Nat) :
    a + (keptOfClass mdl true sts).length ≤ (estimateComponents mdl sts (a, c)).1 := by
  induction sts generalizing a c with
  | nil => simp [keptOfClass, estimateComponents]
  | cons st rest ih =>
    unfold estimateComponents
    by_cases hsil : st.m_iPhone = mdl.iPhoneSil
    · rw [(keptOfClass_silence mdl st rest hsil).1, if_pos hsil, List.length_append]
      have hk : (keepBest mdl.m_iMaxGaussianComponentsSilence
          (listSort compareGaussianByWeight st.m_gaussians) 0).length
          ≤ st.m_gaussians.length := by
        rw [← (listSort_perm compareGaussianByWeight st.m_gaussians).length_eq,
          keepBest_length]
        split_ifs
        · exact le_refl _
        · exact min_le_left _ _
      have := ih (a + st.m_gaussians.length) c
      omega
    · rw [(keptOfClass_speech mdl st rest hsil).2, if_neg hsil]
      exact ih a _

/-- With a positive limit the estimate for speech is the number of components
kept. -/
theorem estimate_speech (mdl : SADModuleMembers α) (sts : List (HMMStateDecoding α))
    (a c : Nat)
    (hmax : 0 < mdl.m_iMaxGaussianComponentsSpeech ∧ mdl.m_iMaxGaussianComponentsSpeech < 2 ^ 31) :
    (estimateComponents mdl sts (a, c)).2 = c + (keptOfClass mdl false sts).length := by
  induction sts generalizing a c with
  | nil => simp [keptOfClass, estimateComponents]
  | cons st rest ih =>
    unfold estimateComponents
    by_cases hsil : st.m_iPhone = mdl.iPhoneSil
    · rw [(keptOfClass_silence mdl st rest hsil).2, if_pos hsil]
      exact ih _ c
    · rw [(keptOfClass_speech mdl st rest hsil).1, if_neg hsil, List.length_append, ih,
        keepBest_length, if_neg (by omega),
        (listSort_perm compareGaussianByWeight st.m_gaussians).length_eq]
      have hu : intToUInt mdl.m_iMaxGaussianComponentsSpeech
          = (mdl.m_iMaxGaussianComponentsSpeech - 0).toNat := by
        unfold intToUInt
        omega
      rw [hu]
      omega

end PoolingLemmas

section PoolingStates

variable {α : Type} [LinearOrderedField α]

/-- A component kept is a component of one of the states. -/
theorem keptOfClass_mem (mdl : SADModuleMembers α) (bSilence : Bool)
    (sts : List (HMMStateDecoding α)) (g : GaussianDecoding α)
    (h : g ∈ keptOfClass mdl bSilence sts) : ∃ st ∈ sts, g ∈ st.m_gaussians := by
  unfold keptOfClass at h
  obtain ⟨st, hst, hg⟩ := List.mem_flatMap.mp h
  refine ⟨st, (List.mem_filter.mp hst).1, ?_⟩
  unfold keptComponents at hg
  have hp := keepBest_prefix
    (if st.m_iPhone = mdl.iPhoneSil then mdl.m_iMaxGaussianComponentsSilence
      else mdl.m_iMaxGaussianComponentsSpeech)
    (listSort compareGaussianByWeight st.m_gaussians) 0
  have hm : g ∈ listSort compareGaussianByWeight st.m_gaussians := by
    rw [hp]
    exact List.mem_append_left _ hg
  exact (listSort_perm _ _).mem_iff.mp hm

/-- The mixture of a pooled state: the first elements of the array after the
weights are readjusted. -/
theorem pooled_take (iDim : Nat) (kept rest : List (GaussianDecoding α)) (m n : Nat)
    (w : α) (hm : m = kept.length) (hn : n = kept.length)
    (hw : w = (kept.map (fun k => k.fWeight)).sum) :
    (readjustWeights ([] ++ kept.map (fun g => copyGaussian g g iDim) ++ rest) m w).take n
      = pooledMixture iDim kept := by
  subst hm hn hw
  unfold readjustWeights pooledMixture
  simp [List.take_append_eq_append_take, List.map_map, Function.comp, copyGaussian]

/-- What `SADModule::initialize` does with a positive limit for speech: the two
states are made of the pooled mixtures of the components kept, and both are
initialized. -/
theorem initializeSAD_eq (b : DecodingBuild α) (mdl : SADModuleMembers α)
    (hmax : 0 < mdl.m_iMaxGaussianComponentsSpeech ∧ mdl.m_iMaxGaussianComponentsSpeech < 2 ^ 31) :
    initializeSAD b mdl
      = (initializeDecoding b
          { mdl.freshState with
            m_iDim := mdl.m_iDim, m_iPhone := 255, m_iState := 255, m_iPosition := 255,
            m_iId := (mdl.hmmStates.length : Int),
            m_gaussians := pooledMixture mdl.m_iDim (keptOfClass mdl true mdl.hmmStates),
            m_bCovarianceOriginal := true } >>= fun sil =>
        initializeDecoding b
          { mdl.freshState with
            m_iDim := mdl.m_iDim, m_iPhone := 255, m_iState := 255, m_iPosition := 255,
            m_iId := (mdl.hmmStates.length : Int) + 1,
            m_gaussians := pooledMixture mdl.m_iDim (keptOfClass mdl false mdl.hmmStates),
            m_bCovarianceOriginal := true } >>= fun sp =>
        .ok (sil, sp)) := by
  have hS := estimate_silence mdl mdl.hmmStates 0 0
  have hP := estimate_speech mdl mdl.hmmStates 0 0 hmax
  unfold initializeSAD
  simp only []
  rw [poolStates_ok mdl mdl.hmmStates _ [] (List.replicate _ mdl.freshGaussian) []
      (List.replicate _ mdl.freshGaussian) rfl rfl rfl rfl
      (by rw [List.length_replicate]; omega) (by rw [List.length_replicate]; omega), ok_bind]
  unfold newHMMStateDecoding
  simp only []
  rw [pooled_take mdl.m_iDim _ _ _ _ _ (by simp) (by simp) (by simp),
    pooled_take mdl.m_iDim _ _ _ _ _ (by simp) (by rw [hP, Nat.zero_add]) (by simp)]

/-- What `HMMStateDecoding::initialize` has left of the components when it
returns, in either build, the covariance vectors having `DIMENSIONALITY`
entries. -/
theorem initializeDecoding_fields (b : DecodingBuild α) (st st2 : HMMStateDecoding α)
    (hlen : ∀ g ∈ st.m_gaussians, g.fCovariance.length = b.dimensionality)
    (h : initializeDecoding b st = .ok st2) :
    st2.m_gaussians.map (fun g => g.fWeight) = st.m_gaussians.map (fun g => g.fWeight)
      ∧ st2.m_gaussians.map (fun g => g.fMean) = st.m_gaussians.map (fun g => g.fMean)
      ∧ st2.m_gaussians.map (fun g => g.fCovariance)
          = st.m_gaussians.map (fun g => g.fCovariance.map
              (fun v => if b.optimizedComputation then 1 / (2 * v) else v)) := by
  by_cases hopt : b.optimizedComputation = true
  · rw [initializeDecoding_inv b st st2 hopt hlen h]
    refine ⟨?_, ?_, ?_⟩
    · simp [List.map_map, Function.comp]
    · simp [List.map_map, Function.comp]
    · simp [List.map_map, Function.comp, hopt]
  · unfold initializeDecoding at h
    simp only [hopt, Bool.false_eq_true, if_false, Except.ok.injEq] at h
    rw [← h]
    refine ⟨rfl, rfl, ?_⟩
    simp [hopt]

/-- The call of `HMMStateDecoding::initialize` returns, in either build, for
components of `DIMENSIONALITY` dimensions whose variances are not 0 and whose
constants are finite. -/
theorem initializeDecoding_returns (b : DecodingBuild α) (st : HMMStateDecoding α)
    (hlen : ∀ g ∈ st.m_gaussians, g.fCovariance.length = b.dimensionality)
    (hnz : ∀ g ∈ st.m_gaussians, ∀ v ∈ g.fCovariance, v ≠ 0)
    (hfin : ∀ g ∈ st.m_gaussians, finiteConstant b
      (b.powf (b.piNumber * 2) ((b.dimensionality : α) / 2)) g.fWeight g.fCovariance.prod
        = true) :
    ∃ st2, initializeDecoding b st = .ok st2 := by
  by_cases hopt : b.optimizedComputation = true
  · exact ⟨_, initializeDecoding_ok b st hopt hlen hnz hfin⟩
  · unfold initializeDecoding
    simp [hopt]

/-- The components of a pooled mixture in terms of the components kept. -/
theorem pooledMixture_fields (iDim : Nat) (kept : List (GaussianDecoding α))
    (hlen : ∀ g ∈ kept, g.fMean.length = iDim ∧ g.fCovariance.length = iDim) :
    (pooledMixture iDim kept).map (fun g => g.fWeight)
        = kept.map (fun g => g.fWeight / (kept.map (fun k => k.fWeight)).sum)
      ∧ (pooledMixture iDim kept).map (fun g => g.fMean) = kept.map (fun g => g.fMean)
      ∧ (pooledMixture iDim kept).map (fun g => g.fCovariance)
          = kept.map (fun g => g.fCovariance) := by
  unfold pooledMixture
  refine ⟨?_, ?_, ?_⟩
  · simp [List.map_map, Function.comp]
  · rw [List.map_map]
    apply List.map_congr_left
    intro g hg
    simp only [Function.comp, copyGaussian]
    rw [← (hlen g hg).1, List.take_length]
  · rw [List.map_map]
    apply List.map_congr_left
    intro g hg
    simp only [Function.comp, copyGaussian]
    rw [← (hlen g hg).2, List.take_length]

/-- The two states after `SADModule::initialize`, whenever it returns, in
terms of the components kept: weights, means and covariance vectors. -/
theorem initializeSAD_fields (b : DecodingBuild α) (mdl : SADModuleMembers α)
    (hmax : 0 < mdl.m_iMaxGaussianComponentsSpeech ∧ mdl.m_iMaxGaussianComponentsSpeech < 2 ^ 31)
    (hdim : mdl.m_iDim = b.dimensionality)
    (hlen : ∀ st ∈ mdl.hmmStates, ∀ g ∈ st.m_gaussians,
      g.fMean.length = mdl.m_iDim ∧ g.fCovariance.length = mdl.m_iDim)
    (sil sp : HMMStateDecoding α) (h : initializeSAD b mdl = .ok (sil, sp)) :
    ∀ (c : Bool) (st : HMMStateDecoding α), st = (if c then sil else sp) →
      st.m_gaussians.map (fun g => g.fWeight)
          = (keptOfClass mdl c mdl.hmmStates).map (fun g => g.fWeight /
              ((keptOfClass mdl c mdl.hmmStates).map (fun k => k.fWeight)).sum)
        ∧ st.m_gaussians.map (fun g => g.fMean)
          = (keptOfClass mdl c mdl.hmmStates).map (fun g => g.fMean)
        ∧ st.m_gaussians.map (fun g => g.fCovariance)
          = (keptOfClass mdl c mdl.hmmStates).map (fun g => g.fCovariance.map
              (fun v => if b.optimizedComputation then 1 / (2 * v) else v)) := by
  have hk : ∀ (c : Bool), ∀ g ∈ keptOfClass mdl c mdl.hmmStates,
      g.fMean.length = mdl.m_iDim ∧ g.fCovariance.length = mdl.m_iDim := by
    intro c g hg
    obtain ⟨st, hst, hgs⟩ := keptOfClass_mem mdl c mdl.hmmStates g hg
    exact hlen st hst g hgs
  have hf : ∀ (c : Bool), (pooledMixture mdl.m_iDim (keptOfClass mdl c mdl.hmmStates)).map
      (fun g => g.fCovariance) = (keptOfClass mdl c mdl.hmmStates).map (fun g => g.fCovariance) :=
    fun c => (pooledMixture_fields mdl.m_iDim _ (hk c)).2.2
  have hp : ∀ (c : Bool), ∀ g ∈ pooledMixture mdl.m_iDim (keptOfClass mdl c mdl.hmmStates),
      g.fCovariance.length = b.dimensionality := by
    intro c g hg
    have hm : g.fCovariance ∈ (pooledMixture mdl.m_iDim (keptOfClass mdl c mdl.hmmStates)).map
        (fun g => g.fCovariance) := List.mem_map.mpr ⟨g, hg, rfl⟩
    rw [hf c] at hm
    obtain ⟨k, hk1, hk2⟩ := List.mem_map.mp hm
    rw [← hk2, ← hdim]
    exact (hk c k hk1).2
  rw [initializeSAD_eq b mdl hmax] at h
  obtain ⟨sil2, hsil, h2⟩ := bind_eq_ok.mp h
  obtain ⟨sp2, hsp, h3⟩ := bind_eq_ok.mp h2
  simp only [Except.ok.injEq, Prod.mk.injEq] at h3
  obtain ⟨rfl, rfl⟩ := h3
  obtain ⟨s1, s2, s3⟩ := initializeDecoding_fields b _ _ (hp true) hsil
  obtain ⟨p1, p2, p3⟩ := initializeDecoding_fields b _ _ (hp false) hsp
  have hc : ∀ l : List (GaussianDecoding α),
      l.map (fun g => g.fCovariance.map
        (fun v => if b.optimizedComputation then 1 / (2 * v) else v))
      = (l.map (fun g => g.fCovariance)).map
        (List.map (fun v => if b.optimizedComputation then 1 / (2 * v) else v)) := by
    intro l
    rw [List.map_map]
    rfl
  intro c st hst
  obtain ⟨f1, f2, f3⟩ := pooledMixture_fields mdl.m_iDim (keptOfClass mdl c mdl.hmmStates)
    (hk c)
  cases c with
  | true =>
    simp only [if_true] at hst
    subst hst
    simp only [] at s1 s2 s3
    rw [s1, s2, s3, f1, f2]
    refine ⟨rfl, rfl, ?_⟩
    rw [hc, f3, ← hc]
  | false =>
    simp only [Bool.false_eq_true, if_false] at hst
    subst hst
    simp only [] at p1 p2 p3
    rw [p1, p2, p3, f1, f2]
    refine ⟨rfl, rfl, ?_⟩
    rw [hc, f3, ← hc]

/-- The call of `SADModule::initialize` returns when the components kept have
positive weights and positive variances, `(2π)^(D/2)` and the square root of a
positive number being positive: the two calls of
`HMMStateDecoding::initialize` pass their assertions. -/
theorem initializeSAD_returns (b : DecodingBuild α) (mdl : SADModuleMembers α)
    (hmax : 0 < mdl.m_iMaxGaussianComponentsSpeech ∧ mdl.m_iMaxGaussianComponentsSpeech < 2 ^ 31)
    (hdim : mdl.m_iDim = b.dimensionality)
    (hlen : ∀ st ∈ mdl.hmmStates, ∀ g ∈ st.m_gaussians,
      g.fMean.length = mdl.m_iDim ∧ g.fCovariance.length = mdl.m_iDim)
    (hpos : ∀ (c : Bool), ∀ g ∈ keptOfClass mdl c mdl.hmmStates,
      0 < g.fWeight ∧ ∀ v ∈ g.fCovariance, 0 < v)
    (hc : 0 < b.powf (b.piNumber * 2) ((b.dimensionality : α) / 2))
    (hsqrt : ∀ x, 0 < x → 0 < b.sqrt x) :
    ∃ sil sp, initializeSAD b mdl = .ok (sil, sp) := by
  have hp : ∀ (c : Bool), ∀ g ∈ pooledMixture mdl.m_iDim (keptOfClass mdl c mdl.hmmStates),
      g.fCovariance.length = b.dimensionality ∧ 0 < g.fWeight ∧ ∀ v ∈ g.fCovariance, 0 < v := by
    intro c g hg
    unfold pooledMixture at hg
    obtain ⟨k, hk1, rfl⟩ := List.mem_map.mp hg
    obtain ⟨st, hst, hgs⟩ := keptOfClass_mem mdl c mdl.hmmStates k hk1
    have hl := (hlen st hst k hgs).2
    have hcov : (copyGaussian k k mdl.m_iDim).fCovariance = k.fCovariance := by
      simp only [copyGaussian]
      rw [← hl, List.take_length]
    simp only [hcov]
    refine ⟨by rw [hl, hdim], ?_, (hpos c k hk1).2⟩
    refine div_pos (hpos c k hk1).1 (List.sum_pos _ ?_ ?_)
    · intro x hx
      obtain ⟨k2, hk2, rfl⟩ := List.mem_map.mp hx
      exact (hpos c k2 hk2).1
    · intro hnil
      rw [List.map_eq_nil_iff] at hnil
      rw [hnil] at hk1
      cases hk1
  have hret : ∀ (c : Bool) (st : HMMStateDecoding α),
      st.m_gaussians = pooledMixture mdl.m_iDim (keptOfClass mdl c mdl.hmmStates) →
      ∃ st2, initializeDecoding b st = .ok st2 := by
    intro c st hst
    have hf := finiteConstant_of_positive b st.m_gaussians hc hsqrt
      (fun g hg => (hp c g (hst ▸ hg)).2.1) (fun g hg => (hp c g (hst ▸ hg)).2.2)
    exact initializeDecoding_returns b st (fun g hg => (hp c g (hst ▸ hg)).1) hf.1 hf.2
  obtain ⟨sil, hsil⟩ := hret true
    { mdl.freshState with
      m_iDim := mdl.m_iDim, m_iPhone := 255, m_iState := 255, m_iPosition := 255,
      m_iId := (mdl.hmmStates.length : Int),
      m_gaussians := pooledMixture mdl.m_iDim (keptOfClass mdl true mdl.hmmStates),
      m_bCovarianceOriginal := true } rfl
  obtain ⟨sp, hsp⟩ := hret false
    { mdl.freshState with
      m_iDim := mdl.m_iDim, m_iPhone := 255, m_iState := 255, m_iPosition := 255,
      m_iId := (mdl.hmmStates.length : Int) + 1,
      m_gaussians := pooledMixture mdl.m_iDim (keptOfClass mdl false mdl.hmmStates),
      m_bCovarianceOriginal := true } rfl
  exact ⟨sil, sp, by rw [initializeSAD_eq b mdl hmax, hsil, ok_bind, hsp, ok_bind]⟩

/-- The components kept of one state: as many as the limit allows, the first
of the components in descending order of weight. -/
theorem keptComponents_spec (mdl : SADModuleMembers α) (st : HMMStateDecoding α)
    (iMax : Int)
    (hmax : iMax = if st.m_iPhone = mdl.iPhoneSil then mdl.m_iMaxGaussianComponentsSilence
      else mdl.m_iMaxGaussianComponentsSpeech) :
    (keptComponents mdl st).length
        = (if iMax = -1 then st.m_gaussians.length else min st.m_gaussians.length iMax.toNat)
      ∧ (∃ rest, (keptComponents mdl st ++ rest).Perm st.m_gaussians
          ∧ ∀ a ∈ keptComponents mdl st, ∀ c ∈ rest, c.fWeight ≤ a.fWeight)
      ∧ (keptComponents mdl st).Pairwise (fun a c => c.fWeight ≤ a.fWeight) := by
  unfold keptComponents
  rw [← hmax]
  have hp := keepBest_prefix iMax (listSort compareGaussianByWeight st.m_gaussians) 0
  have hs := listSort_sorted st.m_gaussians
  rw [hp, List.pairwise_append] at hs
  refine ⟨?_, ⟨_, ?_, hs.2.2⟩, hs.1⟩
  · rw [keepBest_length, (listSort_perm _ _).length_eq, sub_zero]
  · rw [← hp]
    exact listSort_perm _ _

end PoolingStates

section PoolingClaims

variable {α : Type} [LinearOrderedField α]

/-- C29: on a model whose components kept have a total weight that is not 0
in each class (with the positive limit for speech that the constructor
asserts, and components of `DIMENSIONALITY` dimensions), whenever
`SADModule::initialize` returns, the weights of the pooled mixture of silence
sum to 1, those of the pooled mixture of speech sum to 1, and each pooled
weight is the weight of the source component divided by the total weight of
the components kept of its class.  And it does return when the components
kept have positive weights and positive variances, so that the assertions of
`HMMStateDecoding::initialize` pass. -/
theorem initializeSAD_weights (b : DecodingBuild α) (mdl : SADModuleMembers α)
    (hmax : 0 < mdl.m_iMaxGaussianComponentsSpeech ∧ mdl.m_iMaxGaussianComponentsSpeech < 2 ^ 31)
    (hdim : mdl.m_iDim = b.dimensionality)
    (hlen : ∀ st ∈ mdl.hmmStates, ∀ g ∈ st.m_gaussians,
      g.fMean.length = mdl.m_iDim ∧ g.fCovariance.length = mdl.m_iDim)
    (hsil : ((keptOfClass mdl true mdl.hmmStates).map (fun k => k.fWeight)).sum ≠ 0)
    (hsp : ((keptOfClass mdl false mdl.hmmStates).map (fun k => k.fWeight)).sum ≠ 0) :
    (∀ sil sp, initializeSAD b mdl = .ok (sil, sp) →
      (sil.m_gaussians.map (fun g => g.fWeight)).sum = 1
      ∧ (sp.m_gaussians.map (fun g => g.fWeight)).sum = 1
      ∧ sil.m_gaussians.map (fun g => g.fWeight)
          = (keptOfClass mdl true mdl.hmmStates).map (fun g => g.fWeight /
              ((keptOfClass mdl true mdl.hmmStates).map (fun k => k.fWeight)).sum)
      ∧ sp.m_gaussians.map (fun g => g.fWeight)
          = (keptOfClass mdl false mdl.hmmStates).map (fun g => g.fWeight /
              ((keptOfClass mdl false mdl.hmmStates).map (fun k => k.fWeight)).sum))
    ∧ ((∀ (c : Bool), ∀ g ∈ keptOfClass mdl c mdl.hmmStates,
          0 < g.fWeight ∧ ∀ v ∈ g.fCovariance, 0 < v) →
        0 < b.powf (b.piNumber * 2) ((b.dimensionality : α) / 2) →
        (∀ x, 0 < x → 0 < b.sqrt x) →
        ∃ sil sp, initializeSAD b mdl = .ok (sil, sp)) := by
  refine ⟨?_, fun hpos hc hsqrt => initializeSAD_returns b mdl hmax hdim hlen hpos hc hsqrt⟩
  intro sil sp h
  have hf := initializeSAD_fields b mdl hmax hdim hlen sil sp h
  have hs := (hf true sil rfl).1
  have hp := (hf false sp rfl).1
  have hone : ∀ l : List (GaussianDecoding α), (l.map (fun k => k.fWeight)).sum ≠ 0 →
      (l.map (fun g => g.fWeight / (l.map (fun k => k.fWeight)).sum)).sum = 1 := by
    intro l hl
    have e : l.map (fun g => g.fWeight / (l.map (fun k => k.fWeight)).sum)
        = (l.map (fun k => k.fWeight)).map (fun x => x / (l.map (fun k => k.fWeight)).sum) := by
      rw [List.map_map]
      rfl
    rw [e, sum_map_div, div_self hl]
  refine ⟨?_, ?_, hs, hp⟩
  · rw [hs]
    exact hone _ hsil
  · rw [hp]
    exact hone _ hsp

/-- Witness of C29: a model of three states, of which the first is of the
silence phone, with limits 1 and 2 and positive weights and variances;
`initialize` returns, and the pooled weights are `1` for silence and `5/18`,
`1/6`, `5/9` for speech. -/
theorem initializeSAD_weights_witness :
    (∃ sil sp, initializeSAD (sampleBuild 2 true) sampleMembers = .ok (sil, sp)
      ∧ (sil.m_gaussians.map (fun g => g.fWeight)).sum = 1
      ∧ (sp.m_gaussians.map (fun g => g.fWeight)).sum = 1
      ∧ sil.m_gaussians.map (fun g => g.fWeight)
          = (keptOfClass sampleMembers true sampleMembers.hmmStates).map (fun g => g.fWeight /
              ((keptOfClass sampleMembers true sampleMembers.hmmStates).map
                (fun k => k.fWeight)).sum)
      ∧ sp.m_gaussians.map (fun g => g.fWeight)
          = (keptOfClass sampleMembers false sampleMembers.hmmStates).map (fun g => g.fWeight /
              ((keptOfClass sampleMembers false sampleMembers.hmmStates).map
                (fun k => k.fWeight)).sum))
      ∧ (initializeSAD (sampleBuild 2 true) sampleMembers).map
          (fun r => (r.1.m_gaussians.map (fun g => g.fWeight),
            r.2.m_gaussians.map (fun g => g.fWeight)))
        = .ok ([1], [5 / 18, 1 / 6, 5 / 9]) :=
  have h := initializeSAD_weights (sampleBuild 2 true) sampleMembers (by decide) rfl
    (by decide!) (by decide!) (by decide!)
  have hr := h.2 (by decide!) (by decide!) (fun _ hx => hx)
  ⟨⟨hr.choose, hr.choose_spec.choose,
      hr.choose_spec.choose_spec,
      h.1 _ _ hr.choose_spec.choose_spec⟩, by decide!⟩

/-- C30: whenever `SADModule::initialize` returns, the pooled mixtures of
silence and of speech are made of the components kept of the states of the
silence phone and of the other states, in the order of the states: same means,
covariance as `HMMStateDecoding::initialize` leaves it, weights divided by
their total.  Of each state as many components are kept as it has, or as the
limit of its class when that is less (all of them when the limit is -1); they
are in descending order of weight, and no component of the state that is not
kept has a higher weight than one that is.  And `SADModule::initialize` does
return when the components kept have positive weights and positive variances,
so that the assertions of `HMMStateDecoding::initialize` pass. -/
theorem initializeSAD_pools (b : DecodingBuild α) (mdl : SADModuleMembers α)
    (hmax : 0 < mdl.m_iMaxGaussianComponentsSpeech ∧ mdl.m_iMaxGaussianComponentsSpeech < 2 ^ 31)
    (hdim : mdl.m_iDim = b.dimensionality)
    (hlen : ∀ st ∈ mdl.hmmStates, ∀ g ∈ st.m_gaussians,
      g.fMean.length = mdl.m_iDim ∧ g.fCovariance.length = mdl.m_iDim)
    (_hnz : ∀ st ∈ mdl.hmmStates, ∀ g ∈ st.m_gaussians, ∀ v ∈ g.fCovariance, v ≠ 0) :
    (∀ sil sp, initializeSAD b mdl = .ok (sil, sp) →
      ∀ (c : Bool) (st : HMMStateDecoding α), st = (if c then sil else sp) →
          st.m_gaussians.map (fun g => g.fWeight)
              = (keptOfClass mdl c mdl.hmmStates).map (fun g => g.fWeight /
                  ((keptOfClass mdl c mdl.hmmStates).map (fun k => k.fWeight)).sum)
            ∧ st.m_gaussians.map (fun g => g.fMean)
              = (keptOfClass mdl c mdl.hmmStates).map (fun g => g.fMean)
            ∧ st.m_gaussians.map (fun g => g.fCovariance)
              = (keptOfClass mdl c mdl.hmmStates).map (fun g => g.fCovariance.map
                  (fun v => if b.optimizedComputation then 1 / (2 * v) else v)))
      ∧ ((∀ (c : Bool), ∀ g ∈ keptOfClass mdl c mdl.hmmStates,
            0 < g.fWeight ∧ ∀ v ∈ g.fCovariance, 0 < v) →
          0 < b.powf (b.piNumber * 2) ((b.dimensionality : α) / 2) →
          (∀ x, 0 < x → 0 < b.sqrt x) →
          ∃ sil sp, initializeSAD b mdl = .ok (sil, sp))
      ∧ keptOfClass mdl true mdl.hmmStates
          = (mdl.hmmStates.filter (fun st => decide (st.m_iPhone = mdl.iPhoneSil))).flatMap
              (keptComponents mdl)
      ∧ keptOfClass mdl false mdl.hmmStates
          = (mdl.hmmStates.filter (fun st => !decide (st.m_iPhone = mdl.iPhoneSil))).flatMap
              (keptComponents mdl)
      ∧ ∀ st ∈ mdl.hmmStates, ∀ iMax : Int,
          iMax = (if st.m_iPhone = mdl.iPhoneSil then mdl.m_iMaxGaussianComponentsSilence
            else mdl.m_iMaxGaussianComponentsSpeech) →
          (keptComponents mdl st).length
              = (if iMax = -1 then st.m_gaussians.length
                  else min st.m_gaussians.length iMax.toNat)
            ∧ (∃ rest, (keptComponents mdl st ++ rest).Perm st.m_gaussians
                ∧ ∀ a ∈ keptComponents mdl st, ∀ c ∈ rest, c.fWeight ≤ a.fWeight)
            ∧ (keptComponents mdl st).Pairwise (fun a c => c.fWeight ≤ a.fWeight) := by
  refine ⟨fun sil sp h => initializeSAD_fields b mdl hmax hdim hlen sil sp h,
    fun hpos hc hsqrt => initializeSAD_returns b mdl hmax hdim hlen hpos hc hsqrt, ?_, ?_,
    fun st _ iMax h => keptComponents_spec mdl st iMax h⟩
  · unfold keptOfClass
    congr 2
    funext st
    simp
  · unfold keptOfClass
    congr 2
    funext st
    simp

/-- Witness of C30: the model of three states with limits 1 and 2.  The pooled
mixture of silence is the component of weight 3/4 of the first state; the
pooled mixture of speech is made of the components of weights 1/2 and 3/10 of
the second state and of the component of the third, in this order. -/
theorem initializeSAD_pools_witness :
    (initializeSAD (sampleBuild 2 true) sampleMembers).map
        (fun r => (r.1.m_gaussians.map (fun g => (g.iId, g.fMean)),
          r.2.m_gaussians.map (fun g => (g.iId, g.fMean))))
      = .ok ([(1, [1, 1])], [(3, [6, 6]), (4, [7, 7]), (5, [9, 9])])
    ∧ keptOfClass sampleMembers false sampleMembers.hmmStates
      = [⟨3, 1 / 2, 0, [6, 6], [2, 2]⟩, ⟨4, 3 / 10, 0, [7, 7], [1, 4]⟩, ⟨5, 1, 0, [9, 9], [1, 1]⟩]
    ∧ ∃ sil sp, initializeSAD (sampleBuild 2 true) sampleMembers = .ok (sil, sp)
      ∧ ∀ (c : Bool) (st : HMMStateDecoding ℚ), st = (if c then sil else sp) →
          st.m_gaussians.map (fun g => g.fWeight)
              = (keptOfClass sampleMembers c sampleMembers.hmmStates).map (fun g => g.fWeight /
                  ((keptOfClass sampleMembers c sampleMembers.hmmStates).map
                    (fun k => k.fWeight)).sum)
            ∧ st.m_gaussians.map (fun g => g.fMean)
              = (keptOfClass sampleMembers c sampleMembers.hmmStates).map (fun g => g.fMean)
            ∧ st.m_gaussians.map (fun g => g.fCovariance)
              = (keptOfClass sampleMembers c sampleMembers.hmmStates).map
                  (fun g => g.fCovariance.map
                    (fun v => if (sampleBuild 2 true).optimizedComputation then 1 / (2 * v)
                      else v)) :=
  have h := initializeSAD_pools (sampleBuild 2 true) sampleMembers (by decide) rfl
    (by decide!) (by decide!)
  have hr := h.2.1 (by decide!) (by decide!) (fun _ hx => hx)
  ⟨by decide!, by decide!, hr.choose, hr.choose_spec.choose, hr.choose_spec.choose_spec,
    h.1 _ _ hr.choose_spec.choose_spec⟩

end PoolingClaims

/-! ### The keys of the physical accumulators -/

section AccumulatorKeys

theorem getPhysicalAccumulatorKey_eq (ndebug : Bool) (s g : Int)
    (hs : 0 ≤ s ∧ s < 65536) (hg : 0 ≤ g ∧ g < 65536) :
    getPhysicalAccumulatorKey ndebug s g = .ok (s * 65536 + g).toNat := by
  unfold getPhysicalAccumulatorKey
  have hc : decide (s ≥ 0 ∧ s < 65536) = true := by simp [hs.1, hs.2]
  rw [hc, cAssert_true, ok_bind]
  unfold intToUInt
  congr 1
  omega

/-- C40: for HMM-state numbers and Gaussian-component numbers from 0 to 65535,
`getPhysicalAccumulatorKey` returns a key (below `2^32`) from which
`getPhysicalAccumulatorValues` returns the two numbers, and two pairs with the
same key are the same pair. -/
theorem getPhysicalAccumulatorKey_roundtrip (ndebug : Bool) (s g : Int)
    (hs : 0 ≤ s ∧ s < 65536) (hg : 0 ≤ g ∧ g < 65536) :
    (∃ k, getPhysicalAccumulatorKey ndebug s g = .ok k ∧ k < 2 ^ 32
        ∧ getPhysicalAccumulatorValues k = (s, g))
      ∧ ∀ s2 g2 : Int, 0 ≤ s2 ∧ s2 < 65536 → 0 ≤ g2 ∧ g2 < 65536 →
          getPhysicalAccumulatorKey ndebug s2 g2 = getPhysicalAccumulatorKey ndebug s g →
          s2 = s ∧ g2 = g := by
  constructor
  · refine ⟨_, getPhysicalAccumulatorKey_eq ndebug s g hs hg, by omega, ?_⟩
    unfold getPhysicalAccumulatorValues uintToInt
    have h1 : (s * 65536 + g).toNat / 65536 = s.toNat := by omega
    have h2 : (s * 65536 + g).toNat % 65536 = g.toNat := by omega
    rw [h1, h2]
    have h3 : s.toNat % 2 ^ 32 = s.toNat := by omega
    have h4 : g.toNat % 2 ^ 32 = g.toNat := by omega
    rw [h3, h4, if_pos (by omega), if_pos (by omega)]
    ext
    · simp only []
      omega
    · simp only []
      omega
  · intro s2 g2 hs2 hg2 h
    rw [getPhysicalAccumulatorKey_eq ndebug s g hs hg,
      getPhysicalAccumulatorKey_eq ndebug s2 g2 hs2 hg2] at h
    have h5 : (s2 * 65536 + g2).toNat = (s * 65536 + g).toNat := by
      simpa using h
    omega

/-- Witness of C40: the largest pair, `(65535, 65535)`, whose key is
`2^32 - 1`; the product `65535 * 65536` is above `INT_MAX`. -/
theorem getPhysicalAccumulatorKey_roundtrip_witness :
    getPhysicalAccumulatorKey false 65535 65535 = .ok 4294967295
      ∧ getPhysicalAccumulatorValues 4294967295 = (65535, 65535)
      ∧ ((∃ k, getPhysicalAccumulatorKey false 65535 65535 = .ok k ∧ k < 2 ^ 32
          ∧ getPhysicalAccumulatorValues k = (65535, 65535))
        ∧ ∀ s2 g2 : Int, 0 ≤ s2 ∧ s2 < 65536 → 0 ≤ g2 ∧ g2 < 65536 →
            getPhysicalAccumulatorKey false s2 g2 = getPhysicalAccumulatorKey false 65535 65535 →
            s2 = 65535 ∧ g2 = 65535) :=
  ⟨by decide!, by decide!,
    getPhysicalAccumulatorKey_roundtrip false 65535 65535 (by decide) (by decide)⟩

end AccumulatorKeys

section MappingsFirstLine

theorem prefix_of_short_tail {β : Type} (a tail pre post : List β) (l : β)
    (h : a ++ tail = pre ++ l :: post) (ht : tail.length ≤ 1) (hp : post ≠ []) :
    ∃ post2, a = pre ++ l :: post2 := by
  have hlen : a.length + tail.length = pre.length + (post.length + 1) := by
    have := congrArg List.length h
    simpa using this
  have hpos : 0 < post.length := List.length_pos.mpr hp
  obtain ⟨n, hn⟩ : ∃ n, n = a.length := ⟨_, rfl⟩
  have ha : a = (pre ++ l :: post).take n := by
    rw [← h, hn, List.take_left]
  refine ⟨post.take (n - pre.length - 1), ?_⟩
  have hk : n - pre.length = (n - pre.length - 1) + 1 := by omega
  rw [ha, List.take_append_eq_append_take, List.take_of_length_le (by omega), hk,
    List.take_succ_cons, Nat.add_sub_cancel]

/-- C34: when `Mappings::load` returns a table for a file in which a source key
is the first token of several lines, the lookup of the key returns the second
token of the first of these lines: the later ones are ignored. -/
theorem Mappings_load_first_line (bRaise : Bool) (file : List Char)
    (m : List (List Char × List Char)) (k : List Char)
    (pre post : List (List Char)) (l : List Char)
    (h : Mappings.load bRaise file = .ok m)
    (hlines : getLines file = pre ++ l :: post)
    (hk : tokenOf l = k) (hfirst : ∀ x ∈ pre, tokenOf x ≠ k)
    (hlater : ∃ x ∈ post, tokenOf x = k) :
    Mappings.lookup m k = tokenOf (afterToken l) := by
  have hm := loadLines_eq bRaise _ _ _ h
  have hp : post ≠ [] := by
    obtain ⟨x, hx, _⟩ := hlater
    exact List.ne_nil_of_mem hx
  obtain ⟨post2, hgood⟩ := prefix_of_short_tail (getLinesGood file)
    (if (splitLines file).2 = [] then [] else [(splitLines file).2]) pre post l hlines
    (by split_ifs <;> simp) hp
  rw [hm, lookup_foldl, hgood]
  have hnone : pre.find? (fun x => decide (tokenOf x = k)) = none := by
    rw [List.find?_eq_none]
    intro x hx
    simpa using hfirst x hx
  simp [hasKey, List.find?_append, hnone, hk, List.find?]

/-- Witness of C34: the key AE on the first and on the third line, the first
line with a vertical tab between its tokens and the second with a form feed;
the lookup returns the target of the first line. -/
theorem Mappings_load_first_line_witness :
    Mappings.load true "AE\x0bAE0\nOW\x0cOW1\nAE AE1\n".toList
        = .ok [("AE".toList, "AE0".toList), ("OW".toList, "OW1".toList)]
      ∧ Mappings.lookup [("AE".toList, "AE0".toList), ("OW".toList, "OW1".toList)] "AE".toList
        = tokenOf (afterToken "AE\x0bAE0".toList)
      ∧ tokenOf (afterToken "AE\x0bAE0".toList) = "AE0".toList :=
  have h : Mappings.load true "AE\x0bAE0\nOW\x0cOW1\nAE AE1\n".toList
      = .ok [("AE".toList, "AE0".toList), ("OW".toList, "OW1".toList)] := by decide!
  ⟨h, Mappings_load_first_line true "AE\x0bAE0\nOW\x0cOW1\nAE AE1\n".toList _ "AE".toList
      [] ["OW\x0cOW1".toList, "AE AE1".toList] "AE\x0bAE0".toList h (by decide!) (by decide!)
      (by simp) ⟨"AE AE1".toList, by simp, by decide!⟩,
    by decide!⟩

end MappingsFirstLine

/-! ### The content of fresh memory does not matter -/

section Garbage

variable {α F : Type}

theorem rowGet_garbage (m : SADModule α F) (g : GridElementSAD α)
    (row : List (GridElementSAD α)) (j : Nat) (h : j < row.length) :
    rowGet { m with garbage := g } row j = rowGet m row j := by
  unfold rowGet
  rw [List.getD_eq_getElem?_getD, List.getD_eq_getElem?_getD, List.getElem?_eq_getElem h]
  rfl

theorem silenceStep_garbage [Add α] [LT α] [DecidableRel (fun a b : α => a < b)]
    (m : SADModule α F) (g : GridElementSAD α) (i : Nat) (prevRow : List (GridElementSAD α))
    (e : α) (st : List (GridElementSAD α) × Int × Int) (j : Nat)
    (hlen : prevRow.length = 2 * m.hmmStatesClass) (hj : j < m.hmmStatesClass) :
    silenceStep { m with garbage := g } i prevRow e st j = silenceStep m i prevRow e st j := by
  have e1 := rowGet_garbage m g prevRow j (by omega)
  have e2 := rowGet_garbage m g prevRow (j - 1) (by omega)
  have e3 := rowGet_garbage m g prevRow (2 * m.hmmStatesClass - 1) (by omega)
  unfold silenceStep
  simp only []
  rw [e1, e2, e3]

theorem speechStep_garbage [Add α] [LT α] [DecidableRel (fun a b : α => a < b)]
    (m : SADModule α F) (g : GridElementSAD α) (i : Nat) (prevRow : List (GridElementSAD α))
    (e : α) (st : List (GridElementSAD α) × Int × Int) (j : Nat)
    (hlen : prevRow.length = 2 * m.hmmStatesClass) (hj : j < m.hmmStatesClass) :
    speechStep { m with garbage := g } i prevRow e st j = speechStep m i prevRow e st j := by
  have e1 := rowGet_garbage m g prevRow (j + m.hmmStatesClass) (by omega)
  have e2 := rowGet_garbage m g prevRow (j + m.hmmStatesClass - 1) (by omega)
  have e3 := rowGet_garbage m g prevRow (m.hmmStatesClass - 1) (by omega)
  unfold speechStep
  simp only []
  rw [e1, e2, e3]

theorem fillColumn_garbage [Add α] [LT α] [DecidableRel (fun a b : α => a < b)]
    (m : SADModule α F) (g : GridElementSAD α) (i : Nat)
    (prevRow curRow : List (GridElementSAD α)) (feat : F) (ps pl : Int)
    (hlen : prevRow.length = 2 * m.hmmStatesClass) :
    fillColumn { m with garbage := g } i prevRow curRow feat ps pl
      = fillColumn m i prevRow curRow feat ps pl := by
  unfold fillColumn
  simp only []
  rw [List.foldl_ext _ _ _ (fun st j hj =>
    silenceStep_garbage m g i prevRow (m.emitSilence feat) st j hlen (List.mem_range.mp hj))]
  exact List.foldl_ext _ _ _ (fun st j hj =>
    speechStep_garbage m g i prevRow (m.emitSpeech feat) st j hlen (List.mem_range.mp hj))

/-- One step of the loop over the silence states writes the same cell and
leaves the same `iPrevSelf` and `iPrevLeft`, whatever the row holds. -/
theorem silenceStep_row [Add α] [LT α] [DecidableRel (fun a b : α => a < b)]
    (m : SADModule α F) (i : Nat) (prevRow : List (GridElementSAD α)) (e : α)
    (row row2 : List (GridElementSAD α)) (ps pl : Int) (j : Nat)
    (hj : j < row.length) (hj2 : j < row2.length) :
    (silenceStep m i prevRow e (row, ps, pl) j).2 = (silenceStep m i prevRow e (row2, ps, pl) j).2
      ∧ (silenceStep m i prevRow e (row, ps, pl) j).1[j]?
        = (silenceStep m i prevRow e (row2, ps, pl) j).1[j]? := by
  unfold silenceStep
  simp only []
  split_ifs <;> exact ⟨rfl, by rw [set_get_self hj, set_get_self hj2]⟩

theorem speechStep_row [Add α] [LT α] [DecidableRel (fun a b : α => a < b)]
    (m : SADModule α F) (i : Nat) (prevRow : List (GridElementSAD α)) (e : α)
    (row row2 : List (GridElementSAD α)) (ps pl : Int) (j : Nat)
    (hj : j + m.hmmStatesClass < row.length) (hj2 : j + m.hmmStatesClass < row2.length) :
    (speechStep m i prevRow e (row, ps, pl) j).2 = (speechStep m i prevRow e (row2, ps, pl) j).2
      ∧ (speechStep m i prevRow e (row, ps, pl) j).1[j + m.hmmStatesClass]?
        = (speechStep m i prevRow e (row2, ps, pl) j).1[j + m.hmmStatesClass]? := by
  unfold speechStep
  simp only []
  split_ifs <;> exact ⟨rfl, by rw [set_get_self hj, set_get_self hj2]⟩

theorem silence_fold_row [Add α] [LT α] [DecidableRel (fun a b : α => a < b)]
    (m : SADModule α F) (i : Nat) (prevRow : List (GridElementSAD α)) (e : α)
    (st st2 : List (GridElementSAD α) × Int × Int)
    (hst : st.2 = st2.2) (hlen : st.1.length = 2 * m.hmmStatesClass)
    (hlen2 : st2.1.length = 2 * m.hmmStatesClass) (n : Nat) (hn : n ≤ m.hmmStatesClass) :
    ((List.range n).foldl (silenceStep m i prevRow e) st).2
        = ((List.range n).foldl (silenceStep m i prevRow e) st2).2
      ∧ ∀ k, (k < n ∨ st.1[k]? = st2.1[k]?) →
        ((List.range n).foldl (silenceStep m i prevRow e) st).1[k]?
          = ((List.range n).foldl (silenceStep m i prevRow e) st2).1[k]? := by
  induction n with
  | zero =>
    refine ⟨hst, fun k hk => ?_⟩
    rcases hk with hk | hk
    · omega
    · exact hk
  | succ n ih =>
    obtain ⟨ih1, ih2⟩ := ih (by omega)
    rw [List.range_succ, List.foldl_append, List.foldl_append]
    simp only [List.foldl_cons, List.foldl_nil]
    have hl1 := silence_fold_length m i prevRow e st (List.range n)
    have hl2 := silence_fold_length m i prevRow e st2 (List.range n)
    rw [hlen] at hl1
    rw [hlen2] at hl2
    generalize (List.range n).foldl (silenceStep m i prevRow e) st = x at ih1 ih2 hl1 ⊢
    generalize (List.range n).foldl (silenceStep m i prevRow e) st2 = x2 at ih1 ih2 hl2 ⊢
    obtain ⟨r, a, b⟩ := x
    obtain ⟨r2, a2, b2⟩ := x2
    simp only [] at hl1 hl2
    simp only [Prod.mk.injEq] at ih1
    obtain ⟨rfl, rfl⟩ := ih1
    obtain ⟨s1, s2⟩ := silenceStep_row m i prevRow e r r2 a b n (by omega) (by omega)
    refine ⟨s1, fun k hk => ?_⟩
    by_cases hkn : k = n
    · rw [hkn]
      exact s2
    · rw [silenceStep_other _ _ _ _ _ _ _ hkn, silenceStep_other _ _ _ _ _ _ _ hkn]
      refine ih2 k ?_
      rcases hk with hk | hk
      · exact Or.inl (by omega)
      · exact Or.inr hk

theorem speech_fold_row [Add α] [LT α] [DecidableRel (fun a b : α => a < b)]
    (m : SADModule α F) (i : Nat) (prevRow : List (GridElementSAD α)) (e : α)
    (st st2 : List (GridElementSAD α) × Int × Int)
    (hst : st.2 = st2.2) (hlen : st.1.length = 2 * m.hmmStatesClass)
    (hlen2 : st2.1.length = 2 * m.hmmStatesClass) (n : Nat) (hn : n ≤ m.hmmStatesClass) :
    ((List.range n).foldl (speechStep m i prevRow e) st).2
        = ((List.range n).foldl (speechStep m i prevRow e) st2).2
      ∧ ∀ k, ((m.hmmStatesClass ≤ k ∧ k < n + m.hmmStatesClass) ∨ st.1[k]? = st2.1[k]?) →
        ((List.range n).foldl (speechStep m i prevRow e) st).1[k]?
          = ((List.range n).foldl (speechStep m i prevRow e) st2).1[k]? := by
  induction n with
  | zero =>
    refine ⟨hst, fun k hk => ?_⟩
    rcases hk with hk | hk
    · omega
    · exact hk
  | succ n ih =>
    obtain ⟨ih1, ih2⟩ := ih (by omega)
    rw [List.range_succ, List.foldl_append, List.foldl_append]
    simp only [List.foldl_cons, List.foldl_nil]
    have hl1 := speech_fold_length m i prevRow e st (List.range n)
    have hl2 := speech_fold_length m i prevRow e st2 (List.range n)
    rw [hlen] at hl1
    rw [hlen2] at hl2
    generalize (List.range n).foldl (speechStep m i prevRow e) st = x at ih1 ih2 hl1 ⊢
    generalize (List.range n).foldl (speechStep m i prevRow e) st2 = x2 at ih1 ih2 hl2 ⊢
    obtain ⟨r, a, b⟩ := x
    obtain ⟨r2, a2, b2⟩ := x2
    simp only [] at hl1 hl2
    simp only [Prod.mk.injEq] at ih1
    obtain ⟨rfl, rfl⟩ := ih1
    obtain ⟨s1, s2⟩ := speechStep_row m i prevRow e r r2 a b n (by omega) (by omega)
    refine ⟨s1, fun k hk => ?_⟩
    by_cases hkn : k = n + m.hmmStatesClass
    · rw [hkn]
      exact s2
    · rw [speechStep_other _ _ _ _ _ _ _ hkn, speechStep_other _ _ _ _ _ _ _ hkn]
      refine ih2 k ?_
      rcases hk with hk | hk
      · exact Or.inl (by omega)
      · exact Or.inr hk

/-- The column that `fillColumn` writes does not depend on what the row held
before. -/
theorem fillColumn_row [Add α] [LT α] [DecidableRel (fun a b : α => a < b)]
    (m : SADModule α F) (i : Nat) (prevRow curRow curRow2 : List (GridElementSAD α))
    (feat : F) (ps pl : Int)
    (hlen : curRow.length = 2 * m.hmmStatesClass)
    (hlen2 : curRow2.length = 2 * m.hmmStatesClass) :
    fillColumn m i prevRow curRow feat ps pl = fillColumn m i prevRow curRow2 feat ps pl := by
  unfold fillColumn
  simp only []
  obtain ⟨a1, a2⟩ := silence_fold_row m i prevRow (m.emitSilence feat)
    (curRow, ps, pl) (curRow2, ps, pl) rfl hlen hlen2 m.hmmStatesClass (le_refl _)
  have hl1 := silence_fold_length m i prevRow (m.emitSilence feat) (curRow, ps, pl)
    (List.range m.hmmStatesClass)
  have hl2 := silence_fold_length m i prevRow (m.emitSilence feat) (curRow2, ps, pl)
    (List.range m.hmmStatesClass)
  obtain ⟨b1, b2⟩ := speech_fold_row m i prevRow (m.emitSpeech feat) _ _ a1
    (by rw [hl1]; exact hlen) (by rw [hl2]; exact hlen2) m.hmmStatesClass (le_refl _)
  have hL1 := speech_fold_length m i prevRow (m.emitSpeech feat)
    ((List.range m.hmmStatesClass).foldl (silenceStep m i prevRow (m.emitSilence feat))
      (curRow, ps, pl)) (List.range m.hmmStatesClass)
  have hL2 := speech_fold_length m i prevRow (m.emitSpeech feat)
    ((List.range m.hmmStatesClass).foldl (silenceStep m i prevRow (m.emitSilence feat))
      (curRow2, ps, pl)) (List.range m.hmmStatesClass)
  refine Prod.ext ?_ b1
  apply List.ext_getElem?
  intro k
  by_cases hk : k < 2 * m.hmmStatesClass
  · by_cases hkH : k < m.hmmStatesClass
    · exact b2 k (Or.inr (a2 k (Or.inl hkH)))
    · exact b2 k (Or.inl ⟨by omega, by omega⟩)
  · rw [List.getElem?_eq_none (by rw [hL1, hl1, hlen]; omega),
      List.getElem?_eq_none (by rw [hL2, hl2, hlen2]; omega)]

/-- The loop over time gives the same grid on two grids that agree before
column `i` and have rows of the right length, with either content of fresh
memory, when it runs to the last column. -/
theorem fillGrid_garbage [Add α] [LT α] [DecidableRel (fun a b : α => a < b)]
    (m : SADModule α F) (g : GridElementSAD α) (mFeatures : List F) (n i k : Nat)
    (grid grid2 : List (List (GridElementSAD α))) (ps pl : Int) (hi : 1 ≤ i)
    (hlen : grid2.length = grid.length) (hend : i + n = grid.length)
    (hrows : ∀ (r : Nat) (row : List (GridElementSAD α)), grid[r]? = some row →
      row.length = 2 * m.hmmStatesClass)
    (hrows2 : ∀ (r : Nat) (row : List (GridElementSAD α)), grid2[r]? = some row →
      row.length = 2 * m.hmmStatesClass)
    (hsame : ∀ r, r < i → grid2[r]? = grid[r]?) :
    fillGrid { m with garbage := g } mFeatures n i k grid2 ps pl
      = fillGrid m mFeatures n i k grid ps pl := by
  induction n generalizing i k grid grid2 ps pl with
  | zero =>
    have : grid2 = grid := by
      apply List.ext_getElem?
      intro r
      by_cases hr : r < i
      · exact hsame r hr
      · rw [List.getElem?_eq_none (by omega), List.getElem?_eq_none (by omega)]
    rw [this]
    rfl
  | succ n ih =>
    rw [fillGrid_succ, fillGrid_succ]
    cases hf : mFeatures[k]? with
    | none => rfl
    | some feat =>
      simp only [orOutOfBounds, ok_bind]
      rw [hsame (i - 1) (by omega)]
      cases hp : grid[i - 1]? with
      | none => rfl
      | some prevRow =>
        simp only [ok_bind]
        have hi1 : i < grid.length := by omega
        have hi2 : i < grid2.length := by omega
        rw [List.getElem?_eq_getElem hi1, List.getElem?_eq_getElem hi2]
        simp only [ok_bind]
        have hc1 : grid[i].length = 2 * m.hmmStatesClass :=
          hrows i _ (List.getElem?_eq_getElem hi1)
        have hc2 : grid2[i].length = 2 * m.hmmStatesClass :=
          hrows2 i _ (List.getElem?_eq_getElem hi2)
        rw [fillColumn_garbage m g i prevRow grid2[i] feat ps pl (hrows (i - 1) _ hp),
          fillColumn_row m i prevRow grid2[i] grid[i] feat ps pl hc2 hc1]
        refine ih (i + 1) (k + 1) _ _ _ _ (by omega) (by simp [hlen]) (by simp; omega) ?_ ?_ ?_
        · intro r row hr
          by_cases hri : r = i
          · rw [hri, set_get_self hi1] at hr
            cases hr
            rw [fillColumn_length]
            exact hc1
          · rw [set_get_ne hri] at hr
            exact hrows r row hr
        · intro r row hr
          by_cases hri : r = i
          · rw [hri, set_get_self hi2] at hr
            cases hr
            rw [fillColumn_length]
            exact hc1
          · rw [set_get_ne hri] at hr
            exact hrows2 r row hr
        · intro r hr
          by_cases hri : r = i
          · rw [hri, set_get_self hi1, set_get_self hi2]
          · rw [set_get_ne hri, set_get_ne hri]
            exact hsame r (by omega)

/-- The first call of `processFeatures` in a session leaves the same grid
whatever fresh memory holds. -/
theorem processFeatures_garbage [Add α] [LT α] [DecidableRel (fun a b : α => a < b)]
    (m : SADModule α F) (g : GridElementSAD α) (mFeatures : List F) :
    processFeatures { m with garbage := g } ⟨[], 0⟩ mFeatures
      = processFeatures m ⟨[], 0⟩ mFeatures := by
  unfold processFeatures
  simp only [if_true, List.nil_append, Nat.zero_add]
  cases hf : mFeatures with
  | nil => rfl
  | cons f0 rest =>
    simp only [List.length_cons, List.replicate_succ, List.getElem?_cons_zero, orOutOfBounds,
      ok_bind, List.set_cons_zero, Nat.add_sub_cancel]
    have hfc : firstColumn { m with garbage := g } f0 = firstColumn m f0 := rfl
    rw [hfc, fillGrid_garbage m g (f0 :: rest) rest.length 1 1
      (firstColumn m f0 :: List.replicate rest.length
        (List.replicate (2 * m.hmmStatesClass) m.garbage))
      (firstColumn m f0 :: List.replicate rest.length
        (List.replicate (2 * m.hmmStatesClass) g)) (-1) (-1) (le_refl 1)
      (by simp) (by simp; omega) ?_ ?_ ?_]
    · intro r row hr
      cases r with
      | zero =>
        simp only [List.getElem?_cons_zero, Option.some.injEq] at hr
        rw [← hr]
        exact (firstColumn_cells m f0).1
      | succ r =>
        simp only [List.getElem?_cons_succ] at hr
        rw [List.getElem?_replicate] at hr
        split_ifs at hr
        cases hr
        simp
    · intro r row hr
      cases r with
      | zero =>
        simp only [List.getElem?_cons_zero, Option.some.injEq] at hr
        rw [← hr]
        exact (firstColumn_cells m f0).1
      | succ r =>
        simp only [List.getElem?_cons_succ] at hr
        rw [List.getElem?_replicate] at hr
        split_ifs at hr
        cases hr
        simp
    · intro r hr
      have : r = 0 := by omega
      rw [this]
      simp

theorem backtrack_garbage (m : SADModule α F) (g : GridElementSAD α)
    (grid : List (List (GridElementSAD α))) (f : Nat) (el : GridElementSAD α)
    (ty : AudioSegment) (e : Int) (v : List SpeechSegment) :
    backtrack { m with garbage := g } grid f el ty e v = backtrack m grid f el ty e v := by
  induction f generalizing el ty e v with
  | zero => rw [backtrack_zero, backtrack_zero]; rfl
  | succ f ih =>
    rw [backtrack_succ, backtrack_succ]
    split_ifs
    · rfl
    · have hc : closeSegment { m with garbage := g } (f + 1)
          (audioType { m with garbage := g } el.iPrev) ty e v
          = closeSegment m (f + 1) (audioType m el.iPrev) ty e v := rfl
      rw [hc]
      congr 1
      funext st
      congr 1
      funext el2
      exact ih el2 st.1 st.2.1 st.2.2

theorem applyPadding_garbage (m : SADModule α F) (g : GridElementSAD α) (T : Int)
    (p : Option SpeechSegment) (segs : List SpeechSegment) :
    applyPadding { m with garbage := g } T p segs = applyPadding m T p segs := by
  induction segs generalizing p with
  | nil => rfl
  | cons seg rest ih =>
    rw [applyPadding_cons, applyPadding_cons]
    have h1 : padLeft { m with garbage := g } p seg = padLeft m p seg := rfl
    have h2 : padRight { m with garbage := g } T seg rest = padRight m T seg rest := rfl
    rw [h1, h2]
    congr 1
    funext st
    congr 1
    funext en
    rw [ih]

theorem recoverSpeechSegments_garbage [LT α] [DecidableRel (fun a b : α => a < b)]
    (m : SADModule α F) (g : GridElementSAD α) (s : SADSession α) :
    recoverSpeechSegments { m with garbage := g } s = recoverSpeechSegments m s := by
  have hl : lastElement { m with garbage := g } s = lastElement m s := rfl
  have hb : backtrack { m with garbage := g } = backtrack m := by
    funext grid f el ty e v
    exact backtrack_garbage m g grid f el ty e v
  have hp : applyPadding { m with garbage := g } = applyPadding m := by
    funext T p segs
    exact applyPadding_garbage m g T p segs
  have hf : finishSegments { m with garbage := g } = finishSegments m := rfl
  unfold recoverSpeechSegments recoverSegmentsUnpadded
  rw [hl, hb, hp, hf]

/-- What a fresh module object returns for a session does not depend on what
fresh memory holds. -/
theorem detect_garbage [Add α] [LT α] [DecidableRel (fun a b : α => a < b)]
    (m : SADModule α F) (g : GridElementSAD α) (mFeatures : List F) :
    detect { m with garbage := g } mFeatures = detect m mFeatures := by
  have hr : recoverSpeechSegments { m with garbage := g } = recoverSpeechSegments m := by
    funext s
    exact recoverSpeechSegments_garbage m g s
  have hb : beginSession (SADSession.fresh : SADSession α) = ⟨[], 0⟩ := rfl
  unfold detect runSession
  rw [hb, processFeatures_garbage m g mFeatures, hr]

end Garbage

/-! ### Sessions, batches and the padding step -/

section SessionClaims

variable {α F : Type}

/-- C31: when the calls of a first session on the frames `X` return, a second
session on the same module object, after `endSession` and `beginSession`,
returns for the frames `Y` what a fresh module object returns for `Y` (the
segments, or the same error), whatever the members of the object were before
the first session and whatever the memory of the fresh object held. -/
theorem twoSessions_independent [Add α] [LT α] [DecidableRel (fun a b : α => a < b)]
    (m : SADModule α F) (g : GridElementSAD α) (s0 s1 : SADSession α) (X Y : List F)
    (segsX : List SpeechSegment)
    (hX : processFeatures m (beginSession s0) X = .ok s1)
    (hR : recoverSpeechSegments m s1 = .ok segsX) :
    twoSessions m s0 X Y = detect { m with garbage := g } Y := by
  rw [detect_garbage]
  unfold twoSessions detect runSession
  rw [hX, ok_bind, hR, ok_bind]
  rfl

/-- Witness of C31: scenario 1 with the frames `X` of a first session and other
frames `Y`; the second session returns the segment `[2,3]`, as a fresh module
does whose memory held other values. -/
theorem twoSessions_independent_witness :
    twoSessions (scenarioModule 1 0 false) SADSession.fresh
        [(0, 0), (0, 0), (5, 5), (5, 5), (0, 0)] [(0, 0), (5, 5), (5, 5), (5, 5)]
      = detect { scenarioModule 1 0 false with garbage := ⟨7, 7⟩ }
          [(0, 0), (5, 5), (5, 5), (5, 5)]
    ∧ detect { scenarioModule 1 0 false with garbage := ⟨7, 7⟩ }
        [(0, 0), (5, 5), (5, 5), (5, 5)] = .ok [⟨2, 3⟩] :=
  ⟨twoSessions_independent (scenarioModule 1 0 false) ⟨7, 7⟩ SADSession.fresh
      ⟨[[⟨-18379, -1⟩, ⟨-268379, -1⟩], [⟨-36758, 0⟩, ⟨-286758, 0⟩],
        [⟨-305137, 0⟩, ⟨-55137, 0⟩], [⟨-323516, 1⟩, ⟨-73516, 1⟩],
        [⟨-91895, 1⟩, ⟨-341895, 1⟩]], 5⟩
      [(0, 0), (0, 0), (5, 5), (5, 5), (0, 0)] [(0, 0), (5, 5), (5, 5), (5, 5)] [⟨3, 3⟩]
      (by decide!) (by decide!),
    by decide!⟩

/-- C33 (evaluation at the failing inputs).  After `beginSession`, a call of
`processFeatures` with a batch of no rows addresses column 0 of a grid without
columns and row 0 of a matrix without rows (source lines 220-226), and
increments the session time on the way.  And after a first batch of two rows,
which leaves two columns and the session time 2, a second batch of one row is
read at row 1 of its matrix (source line 238). -/
theorem processFeatures_batches :
    processFeatures (scenarioModule 2 0 false) (beginSession SADSession.fresh) []
        = .error .outOfBounds
      ∧ (runSession (scenarioModule 2 0 false) [(0, 0), (5, 5)]).map
          (fun s => (s.m_iTimeFrame, s.m_grid.length)) = .ok (2, 2)
      ∧ (runSession (scenarioModule 2 0 false) [(0, 0), (5, 5)]).bind
          (fun s => processFeatures (scenarioModule 2 0 false) s [(5, 5)])
        = .error .outOfBounds := by
  refine ⟨?_, ?_, ?_⟩ <;> decide!

/-- C35 (evaluation at the failing input).  Sessions of two frames, with
`HMM_STATES_CLASS = 1` and with `HMM_STATES_CLASS = 2`: the back-tracking loop
starts with `iFrame = 0` at a cell of column 1, whose back-pointer is not `-1`,
and addresses `m_grid[iFrame-1]`, a column that the grid does not have.  With
three frames the loop ends. -/
theorem recoverSpeechSegments_two_frame_session :
    initialFrame 2 = 0
      ∧ detect (scenarioModule 1 0 false) [(0, 0), (5, 5)] = .error .outOfBounds
      ∧ detect (scenarioModule 2 0 true) [(0, 0), (5, 5)] = .error .outOfBounds
      ∧ detect (scenarioModule 1 0 false) [(0, 0), (5, 5), (5, 5)] = .ok [⟨0, 2⟩] := by
  refine ⟨?_, ?_, ?_, ?_⟩ <;> decide!

/-- C36 (evaluation at the failing input).  `HMM_STATES_CLASS = 1`, padding 2
and seven frames: back-tracking gives the segments `[0,3]` and `[5,6]`, in
time order, inside the session and one frame apart.  The right padding of the
first one reaches frame 5, where the second one starts, so the assertion of
source line 402 fails; in a build with `NDEBUG` the second segment comes back
as `[6,6]`: its start has moved from 5 to 6, into the segment. -/
theorem applyPadding_shrinks :
    (runSession (scenarioModule 1 2 false)
        [(5, 5), (5, 5), (5, 5), (0, 0), (0, 0), (5, 5), (5, 5)]).bind
        (recoverSegmentsUnpadded (scenarioModule 1 2 false)) = .ok [⟨0, 3⟩, ⟨5, 6⟩]
      ∧ applyPadding (scenarioModule 1 2 false) 7 none [⟨0, 3⟩, ⟨5, 6⟩]
        = .error (.assertion 402)
      ∧ applyPadding (scenarioModule 1 2 true) 7 none [⟨0, 3⟩, ⟨5, 6⟩]
        = .ok [⟨0, 5⟩, ⟨6, 6⟩] := by
  refine ⟨?_, ?_, ?_⟩ <;> decide!

end SessionClaims

section PaddingZero

variable {α F : Type}

theorem applyPadding_zero_from (m : SADModule α F) (T : Int) (hpad : m.iFramesPadding = 0)
    (segs : List SpeechSegment) (p : Option SpeechSegment)
    (hp : ∀ h, segs.head? = some h →
      (p = none → 0 ≤ h.iFrameStart) ∧ (∀ prev, p = some prev → prev.iFrameEnd < h.iFrameStart))
    (hrange : ∀ seg ∈ segs, seg.iFrameEnd ≤ T - 1)
    (hgap : List.Chain' (fun a b : SpeechSegment =>
      0 ≤ b.iFrameStart - a.iFrameEnd - 1 ∧
        (m.ndebug = true ∨ b.iFrameStart - a.iFrameEnd - 1 ≥ (m.hmmStatesClass : Int))) segs) :
    applyPadding m T p segs = .ok segs := by
  induction segs generalizing p with
  | nil => rfl
  | cons seg rest ih =>
    obtain ⟨hp1, hp2⟩ := hp seg rfl
    have hleft : padLeft m p seg = .ok seg.iFrameStart := by
      unfold padLeft
      cases p with
      | none =>
        have h0 := hp1 rfl
        simp only [hpad, sub_zero]
        congr 1
        split_ifs <;> omega
      | some prev =>
        have h1 := hp2 prev rfl
        simp only [hpad, sub_zero]
        rw [if_pos (by omega)]
        have hc : decide (seg.iFrameStart > prev.iFrameEnd) = true := by simpa using h1
        rw [hc, cAssert_true]
        rfl
    have hright : padRight m T seg rest = .ok seg.iFrameEnd := by
      unfold padRight
      cases rest with
      | nil =>
        have := hrange seg (List.mem_cons_self _ _)
        simp only [hpad, add_zero]
        rw [if_pos this]
      | cons jt rest2 =>
        have hg := (List.chain'_cons.mp hgap).1
        simp only [hpad, add_zero]
        have hassert : cAssert m.ndebug 396
            (decide (jt.iFrameStart - seg.iFrameEnd - 1 ≥ (m.hmmStatesClass : Int))) = .ok () := by
          rcases hg.2 with hn | hn
          · simp [cAssert, hn]
          · simp [cAssert, hn]
        rw [hassert, ok_bind, Int.tdiv_eq_ediv hg.1 (by decide)]
        rw [if_pos (by omega)]
        have hc : decide (jt.iFrameStart > seg.iFrameEnd) = true := by
          simp only [gt_iff_lt, decide_eq_true_eq]
          omega
        rw [hc, cAssert_true]
        rfl
    rw [applyPadding_cons, hleft, ok_bind, hright, ok_bind]
    have heta : (⟨seg.iFrameStart, seg.iFrameEnd⟩ : SpeechSegment) = seg := rfl
    rw [heta, ih (some seg) ?_ (fun x hx => hrange x (List.mem_cons_of_mem _ hx)) ?_, ok_bind]
    · intro h hh
      refine ⟨fun hc => (by cases hc), fun prev hprev => ?_⟩
      cases rest with
      | nil => cases hh
      | cons jt rest2 =>
        have hg := (List.chain'_cons.mp hgap).1
        simp only [List.head?_cons, Option.some.injEq] at hh hprev
        subst hh hprev
        omega
    · cases rest with
      | nil => exact List.chain'_nil
      | cons jt rest2 => exact (List.chain'_cons.mp hgap).2

/-- One pass through `if (iTypeBack != iTypeCurrent)` keeps the segments inside
the frames 0 to `B`. -/
theorem closeSegment_range (m : SADModule α F) (B : Int) (hB : B < 2 ^ 31) (f : Nat)
    (tb ty : AudioSegment) (e : Int) (v : List SpeechSegment)
    (st : AudioSegment × Int × List SpeechSegment)
    (h : closeSegment m f tb ty e v = .ok st) (hf : (f : Int) + 1 ≤ B) (he : e ≤ B)
    (hv : ∀ seg ∈ v, 0 ≤ seg.iFrameStart ∧ seg.iFrameEnd ≤ B) :
    st.2.1 ≤ B ∧ ∀ seg ∈ st.2.2, 0 ≤ seg.iFrameStart ∧ seg.iFrameEnd ≤ B := by
  unfold closeSegment at h
  by_cases hne : tb ≠ ty
  · rw [if_pos hne] at h
    obtain ⟨_, _, h2⟩ := bind_eq_ok.mp h
    cases h2
    have h1 : uintToInt f = (f : Int) := uintToInt_small (by omega)
    have h3 : uintToInt (f + 1) = ((f + 1 : Nat) : Int) := uintToInt_small (by omega)
    refine ⟨by simp only []; omega, ?_⟩
    intro seg hseg
    simp only [] at hseg
    split_ifs at hseg
    · rcases List.mem_append.mp hseg with hm | hm
      · exact hv seg hm
      · rw [List.mem_singleton] at hm
        subst hm
        simp only []
        omega
    · exact hv seg hseg
  · rw [if_neg hne] at h
    cases h
    exact ⟨he, hv⟩

/-- The back-tracking loop keeps the segments inside the frames 0 to `B`, when
it starts at a cell of column 0 or below frame `B`. -/
theorem backtrack_range (m : SADModule α F) (grid : List (List (GridElementSAD α))) (B : Int)
    (hB : B < 2 ^ 31) (f : Nat) (el : GridElementSAD α) (ty : AudioSegment) (e : Int)
    (v : List SpeechSegment) (st : AudioSegment × Int × List SpeechSegment)
    (h : backtrack m grid f el ty e v = .ok st)
    (hf : el.iPrev = -1 ∨ (f : Int) + 1 ≤ B) (he : e ≤ B)
    (hv : ∀ seg ∈ v, 0 ≤ seg.iFrameStart ∧ seg.iFrameEnd ≤ B) :
    st.2.1 ≤ B ∧ ∀ seg ∈ st.2.2, 0 ≤ seg.iFrameStart ∧ seg.iFrameEnd ≤ B := by
  induction f generalizing el ty e v with
  | zero =>
    rw [backtrack_zero] at h
    split_ifs at h
    · cases h
      exact ⟨he, hv⟩
    · obtain ⟨_, _, h2⟩ := bind_eq_ok.mp h
      cases h2
  | succ f ih =>
    rw [backtrack_succ] at h
    split_ifs at h with hp
    · cases h
      exact ⟨he, hv⟩
    · have hf2 : ((f + 1 : Nat) : Int) + 1 ≤ B := by
        rcases hf with hf | hf
        · exact absurd hf hp
        · exact hf
      obtain ⟨st1, hc, h2⟩ := bind_eq_ok.mp h
      obtain ⟨el2, _, h3⟩ := bind_eq_ok.mp h2
      obtain ⟨g1, g2⟩ := closeSegment_range m B hB (f + 1) _ ty e v st1 hc hf2 he hv
      exact ih el2 st1.1 st1.2.1 st1.2.2 h3 (Or.inr (by omega)) g1 g2

/-- The segments that back-tracking returns for a session of one call lie
inside the session. -/
theorem recoverSegmentsUnpadded_range [Add α] [LT α] [DecidableRel (fun a b : α => a < b)]
    (m : SADModule α F) (mFeatures : List F) (s : SADSession α) (v : List SpeechSegment)
    (hH : 1 ≤ m.hmmStatesClass) (hrun : runSession m mFeatures = .ok s)
    (hT : s.m_iTimeFrame < 2 ^ 31)
    (hfloor : ∀ row ∈ s.m_grid, ∀ c ∈ row, ¬ c.fScore < m.negFltMax)
    (h : recoverSegmentsUnpadded m s = .ok v) :
    ∀ seg ∈ v, 0 ≤ seg.iFrameStart ∧ seg.iFrameEnd ≤ (s.m_iTimeFrame : Int) - 1 := by
  have hp := runSession_pointers m mFeatures s hH hrun hfloor
  obtain ⟨hT1, hlen, hpos, _, _⟩ := runSession_grid m mFeatures s hrun
  rw [← hT1] at hp hlen hpos
  unfold recoverSegmentsUnpadded at h
  split_ifs at h
  obtain ⟨last, hlast, h1⟩ := bind_eq_ok.mp h
  obtain ⟨r, hr, h2⟩ := bind_eq_ok.mp h1
  have hf : last.2.iPrev = -1
      ∨ ((initialFrame s.m_iTimeFrame : Nat) : Int) + 1 ≤ (s.m_iTimeFrame : Int) - 1 := by
    rcases Nat.lt_or_ge s.m_iTimeFrame 2 with h2 | h2
    · left
      obtain ⟨st, hst, hcell, _, _⟩ := lastElement_cell m s last hH hlast
      rw [hlen] at hcell
      obtain ⟨el2, e1, e2, _⟩ := gridPointers_cell hH hp (s.m_iTimeFrame - 1) st (by omega) hst
      rw [hcell] at e1
      cases e1
      exact e2 (by omega)
    · right
      rw [initialFrame_eq h2 hT]
      omega
  obtain ⟨g1, g2⟩ := backtrack_range m s.m_grid ((s.m_iTimeFrame : Int) - 1) (by omega) _ _ _ _
    _ r hr hf (le_refl _) (fun seg hseg => by cases hseg)
  unfold finishSegments at h2
  obtain ⟨_, _, h3⟩ := bind_eq_ok.mp h2
  cases h3
  intro seg hseg
  rw [List.mem_reverse] at hseg
  split_ifs at hseg
  · rcases List.mem_append.mp hseg with hm | hm
    · exact g2 seg hm
    · rw [List.mem_singleton] at hm
      subst hm
      exact ⟨le_refl _, g1⟩
  · exact g2 seg hseg

/-- C37: with `framesPadding = 0` the padding loop returns every segment
unchanged.  It does so for every list of segments in time order that start at
frame 0 or later, end at frame `T - 1` or earlier and have at least
`HMM_STATES_CLASS` frames between one and the next (in a build with `NDEBUG` it
is enough that they do not overlap); and the lists that the padding loop
receives are of this kind: in a session of one call in which no score of the
grid is below `-FLT_MAX`, the segments that back-tracking returns lie inside
the session, in time order, at least `HMM_STATES_CLASS` frames apart, and
`recoverSpeechSegments` returns them as they are. -/
theorem applyPadding_zero [Add α] [LT α] [DecidableRel (fun a b : α => a < b)]
    (m : SADModule α F) (hpad : m.iFramesPadding = 0) :
    (∀ (T : Int) (segs : List SpeechSegment),
      (∀ seg ∈ segs,
        0 ≤ seg.iFrameStart ∧ seg.iFrameStart ≤ seg.iFrameEnd ∧ seg.iFrameEnd ≤ T - 1) →
      List.Chain' (fun a b : SpeechSegment =>
        0 ≤ b.iFrameStart - a.iFrameEnd - 1 ∧
          (m.ndebug = true ∨ b.iFrameStart - a.iFrameEnd - 1 ≥ (m.hmmStatesClass : Int))) segs →
      applyPadding m T none segs = .ok segs)
    ∧ (∀ (mFeatures : List F) (s : SADSession α) (v : List SpeechSegment),
      1 ≤ m.hmmStatesClass → runSession m mFeatures = .ok s → s.m_iTimeFrame < 2 ^ 31 →
      (∀ row ∈ s.m_grid, ∀ c ∈ row, ¬ c.fScore < m.negFltMax) →
      recoverSegmentsUnpadded m s = .ok v →
      (∀ seg ∈ v, 0 ≤ seg.iFrameStart ∧ seg.iFrameStart ≤ seg.iFrameEnd
          ∧ seg.iFrameEnd ≤ (s.m_iTimeFrame : Int) - 1)
        ∧ List.Chain' (fun a b : SpeechSegment =>
            b.iFrameStart - a.iFrameEnd - 1 ≥ (m.hmmStatesClass : Int)) v
        ∧ applyPadding m (s.m_iTimeFrame : Int) none v = .ok v
        ∧ recoverSpeechSegments m s = .ok v) := by
  have hgen : ∀ (T : Int) (segs : List SpeechSegment),
      (∀ seg ∈ segs,
        0 ≤ seg.iFrameStart ∧ seg.iFrameStart ≤ seg.iFrameEnd ∧ seg.iFrameEnd ≤ T - 1) →
      List.Chain' (fun a b : SpeechSegment =>
        0 ≤ b.iFrameStart - a.iFrameEnd - 1 ∧
          (m.ndebug = true ∨ b.iFrameStart - a.iFrameEnd - 1 ≥ (m.hmmStatesClass : Int))) segs →
      applyPadding m T none segs = .ok segs := by
    intro T segs hrange hgap
    refine applyPadding_zero_from m T hpad segs none ?_ (fun seg hs => (hrange seg hs).2.2) hgap
    intro h hh
    refine ⟨fun _ => (hrange h ?_).1, fun prev hc => (by cases hc)⟩
    cases segs with
    | nil => cases hh
    | cons a rest =>
      simp only [List.head?_cons, Option.some.injEq] at hh
      subst hh
      exact List.mem_cons_self _ _
  refine ⟨hgen, ?_⟩
  intro mFeatures s v hH hrun hT hfloor hv
  obtain ⟨hlen, hchain⟩ := (recoverSegmentsUnpadded_inv m mFeatures s hH hrun hT hfloor).2 v hv
  have hr := recoverSegmentsUnpadded_range m mFeatures s v hH hrun hT hfloor hv
  have hrange : ∀ seg ∈ v, 0 ≤ seg.iFrameStart ∧ seg.iFrameStart ≤ seg.iFrameEnd
      ∧ seg.iFrameEnd ≤ (s.m_iTimeFrame : Int) - 1 := by
    intro seg hseg
    have := hlen seg hseg
    exact ⟨(hr seg hseg).1, by omega, (hr seg hseg).2⟩
  have hid := hgen (s.m_iTimeFrame : Int) v hrange
    (hchain.imp (fun {a b} hab => ⟨by omega, Or.inr hab⟩))
  refine ⟨hrange, hchain, hid, ?_⟩
  unfold recoverSpeechSegments
  rw [hv, ok_bind, hid]

/-- Witness of C37: two states a class, no padding, and a session of nine
frames, three like speech, three like silence, three like speech.
Back-tracking returns the segments `[0,3]` and `[6,8]`, two frames apart, and
`recoverSpeechSegments` returns them unchanged; so are the segments `[5,10]`
and `[14,20]` of a session of 25 frames. -/
theorem applyPadding_zero_witness :
    (∃ s, runSession (absorbingModule 2 0 false)
          [(5, 5), (5, 5), (5, 5), (0, 0), (0, 0), (0, 0), (5, 5), (5, 5), (5, 5)] = .ok s
        ∧ recoverSegmentsUnpadded (absorbingModule 2 0 false) s = .ok [⟨0, 3⟩, ⟨6, 8⟩]
        ∧ recoverSpeechSegments (absorbingModule 2 0 false) s = .ok [⟨0, 3⟩, ⟨6, 8⟩])
      ∧ applyPadding (absorbingModule 2 0 false) 25 none [⟨5, 10⟩, ⟨14, 20⟩]
        = .ok [⟨5, 10⟩, ⟨14, 20⟩] := by
  have hseg : (runSession (absorbingModule 2 0 false)
      [(5, 5), (5, 5), (5, 5), (0, 0), (0, 0), (0, 0), (5, 5), (5, 5), (5, 5)]).bind
      (recoverSegmentsUnpadded (absorbingModule 2 0 false)) = .ok [⟨0, 3⟩, ⟨6, 8⟩] := by
    decide!
  have hfl : (runSession (absorbingModule 2 0 false)
      [(5, 5), (5, 5), (5, 5), (0, 0), (0, 0), (0, 0), (5, 5), (5, 5), (5, 5)]).map
      (fun s => decide (s.m_iTimeFrame < 2 ^ 31 ∧ ∀ row ∈ s.m_grid, ∀ c ∈ row,
        ¬ c.fScore < (absorbingModule 2 0 false).negFltMax)) = .ok true := by
    decide!
  refine ⟨?_, (applyPadding_zero (absorbingModule 2 0 false) rfl).1 25 _ (by decide)
    (by simp [absorbingModule])⟩
  cases hs : runSession (absorbingModule 2 0 false)
      [(5, 5), (5, 5), (5, 5), (0, 0), (0, 0), (0, 0), (5, 5), (5, 5), (5, 5)] with
  | error e =>
    rw [hs] at hseg
    cases hseg
  | ok s =>
    rw [hs] at hseg hfl
    have hseg2 : recoverSegmentsUnpadded (absorbingModule 2 0 false) s
        = .ok [⟨0, 3⟩, ⟨6, 8⟩] := hseg
    have hfl2 : s.m_iTimeFrame < 2 ^ 31 ∧ ∀ row ∈ s.m_grid, ∀ c ∈ row,
        ¬ c.fScore < (absorbingModule 2 0 false).negFltMax := by
      have h2 : decide (s.m_iTimeFrame < 2 ^ 31 ∧ ∀ row ∈ s.m_grid, ∀ c ∈ row,
          ¬ c.fScore < (absorbingModule 2 0 false).negFltMax) = true := by
        simpa [Except.map] using hfl
      exact of_decide_eq_true h2
    exact ⟨s, rfl, hseg2,
      ((applyPadding_zero (absorbingModule 2 0 false) rfl).2 _ s _ (by decide) hs
        hfl2.1 hfl2.2 hseg2).2.2.2⟩

end PaddingZero

/-! ### Ties -/

section Ties

variable {α F : Type}

theorem closeSegment_first (m : SADModule α F) (f : Nat) (tb ty : AudioSegment) (e e0 : Int)
    (v : List SpeechSegment) (st : AudioSegment × Int × List SpeechSegment)
    (h : closeSegment m f tb ty e v = .ok st)
    (hI : (∃ seg, v.head? = some seg ∧ seg.iFrameEnd = e0) ∨
      (v = [] ∧ ty = .speech ∧ e = e0)) :
    (∃ seg, st.2.2.head? = some seg ∧ seg.iFrameEnd = e0) ∨
      (st.2.2 = [] ∧ st.1 = .speech ∧ st.2.1 = e0) := by
  unfold closeSegment at h
  by_cases hne : tb ≠ ty
  · rw [if_pos hne] at h
    obtain ⟨_, _, h2⟩ := bind_eq_ok.mp h
    cases h2
    rcases hI with ⟨seg, hs, he⟩ | ⟨hv, hty, he⟩
    · left
      refine ⟨seg, ?_, he⟩
      simp only []
      split_ifs
      · cases v with
        | nil => cases hs
        | cons a rest => exact hs
      · exact hs
    · left
      subst hv
      rw [hty, he]
      exact ⟨_, rfl, rfl⟩
  · rw [if_neg hne] at h
    cases h
    exact hI

theorem backtrack_first (m : SADModule α F) (grid : List (List (GridElementSAD α))) (e0 : Int)
    (f : Nat) (el : GridElementSAD α) (ty : AudioSegment) (e : Int) (v : List SpeechSegment)
    (st : AudioSegment × Int × List SpeechSegment)
    (h : backtrack m grid f el ty e v = .ok st)
    (hI : (∃ seg, v.head? = some seg ∧ seg.iFrameEnd = e0) ∨
      (v = [] ∧ ty = .speech ∧ e = e0)) :
    (∃ seg, st.2.2.head? = some seg ∧ seg.iFrameEnd = e0) ∨
      (st.2.2 = [] ∧ st.1 = .speech ∧ st.2.1 = e0) := by
  induction f generalizing el ty e v with
  | zero =>
    rw [backtrack_zero] at h
    split_ifs at h
    · cases h
      exact hI
    · obtain ⟨_, _, h2⟩ := bind_eq_ok.mp h
      cases h2
  | succ f ih =>
    rw [backtrack_succ] at h
    split_ifs at h
    · cases h
      exact hI
    · obtain ⟨st1, h1, h2⟩ := bind_eq_ok.mp h
      obtain ⟨el2, _, h3⟩ := bind_eq_ok.mp h2
      exact ih el2 st1.1 st1.2.1 st1.2.2 h3 (closeSegment_first m _ _ ty e e0 v st1 h1 hI)

/-- When the speech state wins in the last column, the last of the segments
that back-tracking returns ends at the last frame. -/
theorem recoverSegmentsUnpadded_last [LT α] [DecidableRel (fun a b : α => a < b)]
    (m : SADModule α F) (s : SADSession α) (el : GridElementSAD α)
    (v : List SpeechSegment)
    (hlast : lastElement m s = .ok (.speech, el))
    (h : recoverSegmentsUnpadded m s = .ok v) :
    ∃ seg, v.getLast? = some seg ∧ seg.iFrameEnd = (s.m_iTimeFrame : Int) - 1 := by
  unfold recoverSegmentsUnpadded at h
  split_ifs at h
  rw [hlast, ok_bind] at h
  obtain ⟨st, h1, h2⟩ := bind_eq_ok.mp h
  have hI := backtrack_first m s.m_grid ((s.m_iTimeFrame : Int) - 1) _ _ _ _ _ st h1
    (Or.inr ⟨rfl, rfl, rfl⟩)
  unfold finishSegments at h2
  obtain ⟨_, _, h3⟩ := bind_eq_ok.mp h2
  cases h3
  rw [List.getLast?_reverse]
  rcases hI with ⟨seg, hs, he⟩ | ⟨hv, hty, he⟩
  · refine ⟨seg, ?_, he⟩
    split_ifs
    · cases hv : st.2.2 with
      | nil => rw [hv] at hs; cases hs
      | cons a rest => rw [hv] at hs; exact hs
    · exact hs
  · rw [hv, if_pos hty, he]
    exact ⟨_, rfl, rfl⟩

/-- C38: in a session of one call, a cell of a column `t ≥ 1` that has both a
self-loop and a left predecessor takes the self-loop as back-pointer when the
two scores are equal (the penalty counted on the way into the first speech
state); and when the last silence state and the last speech state have equal
scores in the last column, the speech state is chosen, so that the last of the
segments that back-tracking returns is the speech segment that ends at the
last frame. -/
theorem processFeatures_ties [Add α] [Preorder α] [DecidableRel (fun a b : α => a < b)]
    (m : SADModule α F) (mFeatures : List F) (s : SADSession α)
    (hrun : runSession m mFeatures = .ok s) :
    (∀ t c : Nat, 1 ≤ t → t < mFeatures.length → c < 2 * m.hmmStatesClass →
      classOffset m.hmmStatesClass c < t →
      (0 < classOffset m.hmmStatesClass c ∨ m.hmmStatesClass ≤ t) →
      ∃ prevRow cell, s.m_grid[t - 1]? = some prevRow ∧
        gridGet s.m_grid t (c : Int) = some cell ∧
        ((rowGet m prevRow c).fScore
            = (if 0 < classOffset m.hmmStatesClass c then (rowGet m prevRow (c - 1)).fScore
                else if c < m.hmmStatesClass then
                  (rowGet m prevRow (2 * m.hmmStatesClass - 1)).fScore
                else (rowGet m prevRow (m.hmmStatesClass - 1)).fScore
                  + m.fPenaltySilenceToSpeech) →
          cell.iPrev = (c : Int)))
      ∧ (∀ last sil sp, s.m_grid.getLast? = some last →
          last[m.hmmStatesClass - 1]? = some sil → last[2 * m.hmmStatesClass - 1]? = some sp →
          sil.fScore = sp.fScore →
          lastElement m s = .ok (.speech, sp) ∧
            ∀ v, recoverSegmentsUnpadded m s = .ok v →
              ∃ seg, v.getLast? = some seg ∧ seg.iFrameEnd = (s.m_iTimeFrame : Int) - 1) := by
  constructor
  · intro t c ht1 ht hc hj hleft
    obtain ⟨prevRow, feat, hprev, _, hcell⟩ := runSession_cells m mFeatures s hrun t c ht1 ht hc
    have hset : CellSettled m prevRow t c :=
      ⟨Or.inl hj, by rcases hleft with h | h; exact Or.inl h; exact Or.inr (Or.inl h)⟩
    refine ⟨prevRow, _, hprev, hcell hset, ?_⟩
    intro heq
    unfold specCell
    simp only [hj, if_true]
    by_cases h0 : 0 < classOffset m.hmmStatesClass c
    · simp only [h0, if_true] at heq ⊢
      rw [heq, if_neg (lt_irrefl _)]
    · have hH : m.hmmStatesClass ≤ t := by
        rcases hleft with h | h
        · exact absurd h h0
        · exact h
      simp only [h0, if_false, hH, if_true] at heq ⊢
      by_cases hs : c < m.hmmStatesClass
      · simp only [hs, if_true] at heq ⊢
        rw [heq, if_neg (lt_irrefl _)]
      · simp only [hs, if_false] at heq ⊢
        rw [heq, if_neg (lt_irrefl _)]
  · intro last sil sp hl hsil hsp heq
    have hle : lastElement m s = .ok (.speech, sp) := by
      have e1 : ∀ {β : Type} (x : β), orOutOfBounds (some x) = (Except.ok x : Except SADError β) :=
        fun _ => rfl
      unfold lastElement
      rw [hl, e1, ok_bind, hsil, e1, ok_bind, hsp, e1, ok_bind, heq, if_neg (lt_irrefl _)]
    exact ⟨hle, fun v hv => recoverSegmentsUnpadded_last m s sp v hle hv⟩

/-- Witness of C38: scenario 1 with the penalty 0 and three frames `(5,0)`, which
are as far from the mean of silence as from the mean of speech, so that every
comparison is between equal scores.  The cells of column 1 point to
themselves, the speech state is chosen at the end, and the segment returned
ends at frame 2. -/
theorem processFeatures_ties_witness :
    runSession (scenarioModule 1 0 false) [(5, 0), (5, 0), (5, 0)]
        = .ok ⟨[[⟨-143379, -1⟩, ⟨-143379, -1⟩], [⟨-286758, 0⟩, ⟨-286758, 1⟩],
          [⟨-430137, 0⟩, ⟨-430137, 1⟩]], 3⟩
      ∧ (lastElement (scenarioModule 1 0 false)
          ⟨[[⟨-143379, -1⟩, ⟨-143379, -1⟩], [⟨-286758, 0⟩, ⟨-286758, 1⟩],
            [⟨-430137, 0⟩, ⟨-430137, 1⟩]], 3⟩
          = .ok (.speech, ⟨-430137, 1⟩)
        ∧ ∀ v, recoverSegmentsUnpadded (scenarioModule 1 0 false)
            ⟨[[⟨-143379, -1⟩, ⟨-143379, -1⟩], [⟨-286758, 0⟩, ⟨-286758, 1⟩],
              [⟨-430137, 0⟩, ⟨-430137, 1⟩]], 3⟩ = .ok v →
            ∃ seg, v.getLast? = some seg ∧ seg.iFrameEnd = ((3 : Nat) : Int) - 1)
      ∧ detect (scenarioModule 1 0 false) [(5, 0), (5, 0), (5, 0)] = .ok [⟨0, 2⟩] :=
  have h : runSession (scenarioModule 1 0 false) [(5, 0), (5, 0), (5, 0)]
      = .ok ⟨[[⟨-143379, -1⟩, ⟨-143379, -1⟩], [⟨-286758, 0⟩, ⟨-286758, 1⟩],
        [⟨-430137, 0⟩, ⟨-430137, 1⟩]], 3⟩ := by decide!
  ⟨h, (processFeatures_ties (scenarioModule 1 0 false) _ _ h).2 _ ⟨-430137, 0⟩ ⟨-430137, 1⟩
    rfl rfl rfl rfl, by decide!⟩

end Ties

/-! ### The nearest-neighbour value against the brute-force value -/

section BruteForceLemmas

variable {α : Type} [LinearOrderedField α]

theorem foldl_pair (c t : Nat → α) (l : List Nat) (a s : α) :
    l.foldl (fun (acc : α × α) j => (acc.1 * c j, acc.2 + t j)) (a, s)
      = (a * (l.map c).prod, s + (l.map t).sum) := by
  induction l generalizing a s with
  | nil => simp
  | cons j l ih =>
    rw [List.foldl_cons, ih]
    simp [mul_assoc, add_assoc]

theorem foldl_add_terms {β : Type} (t : β → α) (l : List β) (p : α) :
    l.foldl (fun acc g => acc + t g) p = p + (l.map t).sum := by
  induction l generalizing p with
  | nil => simp
  | cons g l ih =>
    rw [List.foldl_cons, ih]
    simp [add_assoc]

theorem vectorAt_map (v : List α) (f : α → α) (i : Nat) (h : i < v.length) :
    vectorAt (v.map f) i = f (vectorAt v i) := by
  unfold vectorAt
  rw [List.getD_eq_getElem?_getD, List.getD_eq_getElem?_getD, List.getElem?_map,
    List.getElem?_eq_getElem h]
  rfl

theorem vectorAt_replicate (n : Nat) (c : α) (j : Nat) (h : j < n) :
    vectorAt (List.replicate n c) j = c := by
  unfold vectorAt
  rw [List.getD_eq_getElem?_getD, List.getElem?_replicate, if_pos h]
  rfl

theorem floatUnderflow_of_one_le (v : α) (h : 1 ≤ v) : floatUnderflow v = v := by
  unfold floatUnderflow
  rw [if_neg]
  rw [not_lt, abs_of_nonneg (le_trans zero_le_one h)]
  refine le_trans ?_ h
  rw [div_le_one (by positivity)]
  exact one_le_pow₀ (by norm_num)

theorem floatUnderflow_small (v : α) (h0 : 0 ≤ v) (h : v < 1 / 2 ^ 150) :
    floatUnderflow v = 0 := by
  unfold floatUnderflow
  rw [if_pos]
  rwa [abs_of_nonneg h0]

/-- The value of `computeEmissionProbabilityBruteForce` on a cache miss when the
conversions to `float` lose nothing: the probability is the sum over the
components of `weight * exp(-1/2 * exponent) / (constant * pow(determinant, 1/2))`. -/
theorem bruteForceScore_eq (b : DecodingBuild α) (exp : α → α) (pow : α → α → α)
    (st : HMMStateDecoding α) (x : List α)
    (hlen : ∀ g ∈ st.m_gaussians, g.fCovariance.length = b.dimensionality) :
    bruteForceScore b exp pow (fun v => v) st x
      = if (st.m_gaussians.map (fun g => g.fWeight
            * exp (-(1 / 2) * ((List.range b.dimensionality).map
                (fun j => (vectorAt x j - vectorAt g.fMean j)
                  * (vectorAt x j - vectorAt g.fMean j) * (1 / vectorAt g.fCovariance j))).sum)
            / (b.powf (b.piNumber * 2) ((b.dimensionality : α) / 2)
                * pow g.fCovariance.prod (1 / 2)))).sum ≤ 0
        then b.logLikelihoodFloor
        else cMax b.logLikelihoodFloor (b.log
          (st.m_gaussians.map (fun g => g.fWeight
            * exp (-(1 / 2) * ((List.range b.dimensionality).map
                (fun j => (vectorAt x j - vectorAt g.fMean j)
                  * (vectorAt x j - vectorAt g.fMean j) * (1 / vectorAt g.fCovariance j))).sum)
            / (b.powf (b.piNumber * 2) ((b.dimensionality : α) / 2)
                * pow g.fCovariance.prod (1 / 2)))).sum) := by
  have hfold : st.m_gaussians.foldl
      (bruteForceStep b exp pow (fun v => v)
        (b.powf (b.piNumber * 2) ((b.dimensionality : α) / 2)) x) 0
      = (st.m_gaussians.map (fun g => g.fWeight
            * exp (-(1 / 2) * ((List.range b.dimensionality).map
                (fun j => (vectorAt x j - vectorAt g.fMean j)
                  * (vectorAt x j - vectorAt g.fMean j) * (1 / vectorAt g.fCovariance j))).sum)
            / (b.powf (b.piNumber * 2) ((b.dimensionality : α) / 2)
                * pow g.fCovariance.prod (1 / 2)))).sum := by
    have hgen : ∀ (gs : List (GaussianDecoding α)) (p : α),
        (∀ g ∈ gs, g.fCovariance.length = b.dimensionality) →
        gs.foldl (bruteForceStep b exp pow (fun v => v)
            (b.powf (b.piNumber * 2) ((b.dimensionality : α) / 2)) x) p
          = p + (gs.map (fun g => g.fWeight
            * exp (-(1 / 2) * ((List.range b.dimensionality).map
                (fun j => (vectorAt x j - vectorAt g.fMean j)
                  * (vectorAt x j - vectorAt g.fMean j) * (1 / vectorAt g.fCovariance j))).sum)
            / (b.powf (b.piNumber * 2) ((b.dimensionality : α) / 2)
                * pow g.fCovariance.prod (1 / 2)))).sum := by
      intro gs
      induction gs with
      | nil => intro p _; simp
      | cons g gs ih =>
        intro p hl
        have hg := hl g (List.mem_cons_self _ _)
        rw [List.foldl_cons, ih _ (fun g2 h2 => hl g2 (List.mem_cons_of_mem _ h2))]
        unfold bruteForceStep
        simp only []
        rw [foldl_pair (fun j => vectorAt g.fCovariance j)
          (fun j => (vectorAt x j - vectorAt g.fMean j)
            * (vectorAt x j - vectorAt g.fMean j) * (1 / vectorAt g.fCovariance j))]
        have hprod : ((List.range b.dimensionality).map (fun j => vectorAt g.fCovariance j)).prod
            = g.fCovariance.prod := by
          rw [← hg]
          exact congrArg List.prod (vectorAt_range g.fCovariance)
        rw [hprod]
        simp [add_assoc]
    rw [hgen st.m_gaussians 0 hlen, zero_add]
  unfold bruteForceScore
  simp only []
  rw [hfold]

/-- The inner loop of the brute-force evaluator for the vector `(2, ..., 2)`
and the component with mean 0 and variances 1, with the conversion that loses
what underflows: the determinant is 1 and the exponent grows by 4 in each
dimension. -/
theorem bruteForce_unit_inner (n : Nat) (hn : n ≤ 39) :
    (List.range n).foldl
      (fun (acc : α × α) j =>
        (acc.1 * vectorAt (List.replicate 39 (1 : α)) j,
          floatUnderflow (acc.2 + floatUnderflow
            ((vectorAt (List.replicate 39 (2 : α)) j - vectorAt (List.replicate 39 (0 : α)) j)
              * (vectorAt (List.replicate 39 (2 : α)) j - vectorAt (List.replicate 39 (0 : α)) j)
              * (1 / vectorAt (List.replicate 39 (1 : α)) j)))))
      (1, 0) = (1, 4 * (n : α)) := by
  induction n with
  | zero => simp
  | succ n ih =>
    rw [List.range_succ, List.foldl_append, ih (by omega)]
    simp only [List.foldl_cons, List.foldl_nil]
    rw [vectorAt_replicate 39 _ n (by omega), vectorAt_replicate 39 _ n (by omega),
      vectorAt_replicate 39 _ n (by omega)]
    have h4 : ((2 : α) - 0) * (2 - 0) * (1 / 1) = 4 := by norm_num
    rw [h4, floatUnderflow_of_one_le 4 (by norm_num),
      floatUnderflow_of_one_le _ (by
        have : (0 : α) ≤ 4 * (n : α) := by positivity
        linarith)]
    simp only [mul_one, Prod.mk.injEq, true_and]
    push_cast
    ring

end BruteForceLemmas

section BruteForceClaim

/-- The score of a component of the initialized state is the logarithm of the
term of the component in the sum of `computeEmissionProbabilityBruteForce`. -/
theorem componentLogScore_log (K w : ℝ) (x mean cov : List ℝ) (iId : Int) (c0 : ℝ)
    (hK : 0 < K) (hw : 0 < w) (hlen : cov.length = 39) (hvar : ∀ v ∈ cov, 0 < v) :
    componentLogScore x
        { iId := iId, fWeight := w, fConstant := Real.log (w / (K * Real.sqrt cov.prod)),
          fMean := mean, fCovariance := cov.map (fun v => 1 / (2 * v)) }
      = Real.log (w * Real.exp (-(1 / 2) * ((List.range 39).map
            (fun j => (vectorAt x j - vectorAt mean j)
              * (vectorAt x j - vectorAt mean j) * (1 / vectorAt cov j))).sum)
          / (K * cov.prod ^ ((1 : ℝ) / 2))) ∧
      0 < w * Real.exp (-(1 / 2) * ((List.range 39).map
            (fun j => (vectorAt x j - vectorAt mean j)
              * (vectorAt x j - vectorAt mean j) * (1 / vectorAt cov j))).sum)
          / (K * cov.prod ^ ((1 : ℝ) / 2)) := by
  have _h0 := c0
  have hdet : 0 < cov.prod := List.prod_pos hvar
  have hsq : 0 < Real.sqrt cov.prod := Real.sqrt_pos.mpr hdet
  rw [← Real.sqrt_eq_rpow]
  have ha : 0 < w / (K * Real.sqrt cov.prod) := div_pos hw (mul_pos hK hsq)
  have hsum : ((List.range 39).map (fun i => (vectorAt x i - vectorAt mean i) ^ 2
        * vectorAt (cov.map (fun v => 1 / (2 * v))) i)).sum
      = (1 / 2) * ((List.range 39).map (fun j => (vectorAt x j - vectorAt mean j)
          * (vectorAt x j - vectorAt mean j) * (1 / vectorAt cov j))).sum := by
    rw [← List.sum_map_mul_left]
    congr 1
    apply List.map_congr_left
    intro i hi
    have hi2 : i < cov.length := by rw [hlen]; exact List.mem_range.mp hi
    rw [vectorAt_map cov _ i hi2]
    ring
  constructor
  · unfold componentLogScore
    simp only []
    rw [hsum]
    have hre : w * Real.exp (-(1 / 2) * ((List.range 39).map
          (fun j => (vectorAt x j - vectorAt mean j)
            * (vectorAt x j - vectorAt mean j) * (1 / vectorAt cov j))).sum)
        / (K * Real.sqrt cov.prod)
        = (w / (K * Real.sqrt cov.prod)) * Real.exp (-(1 / 2) * ((List.range 39).map
          (fun j => (vectorAt x j - vectorAt mean j)
            * (vectorAt x j - vectorAt mean j) * (1 / vectorAt cov j))).sum) := by
      ring
    rw [hre, Real.log_mul (ne_of_gt ha) (ne_of_gt (Real.exp_pos _)), Real.log_exp]
    ring
  · exact div_pos (mul_pos hw (Real.exp_pos _)) (mul_pos hK hsq)

/-- C39 (counterexample).  The state of one component of weight 1, mean 0 and
variances 1 in 39 dimensions, and the vector `(2, ..., 2)`, with the functions
of real analysis as library functions and a conversion to `float` that loses
only what underflows.  The term of the component, `exp(-78) / (2π)^(39/2)`, is
below `2^-150`, so the sum of `computeEmissionProbabilityBruteForce` is 0 and
the call returns the floor `-10^10`; `computeEmissionProbabilityNearestNeighbor`
on the initialized state returns the logarithm of the term, which is above the
floor. -/
theorem bruteForce_underflow :
    ∃ st2, initializeDecoding
        (sampleBuildWith Real.pi (fun a c => a ^ c) Real.sqrt Real.log) (unitStateIn ℝ)
        = .ok st2 ∧
      (computeEmissionProbabilityBruteForce
          (sampleBuildWith Real.pi (fun a c => a ^ c) Real.sqrt Real.log) Real.exp
          (fun a c => a ^ c) floatUnderflow (unitStateIn ℝ) (List.replicate 39 2) 0).1
        = -10000000000 ∧
      (computeEmissionProbabilityBruteForce
          (sampleBuildWith Real.pi (fun a c => a ^ c) Real.sqrt Real.log) Real.exp
          (fun a c => a ^ c) floatUnderflow (unitStateIn ℝ) (List.replicate 39 2) 0).1
        < (computeEmissionProbabilityNearestNeighbor
          (sampleBuildWith Real.pi (fun a c => a ^ c) Real.sqrt Real.log) st2
          (List.replicate 39 2) 0).1 := by
  have hpi6 : (6 : ℝ) ≤ Real.pi * 2 := by linarith [Real.pi_gt_three]
  have hpi8 : Real.pi * 2 ≤ 8 := by linarith [Real.pi_le_four]
  have hK6 : (6 : ℝ) ^ 19 ≤ (Real.pi * 2) ^ (((39 : ℕ) : ℝ) / 2) := by
    calc (6 : ℝ) ^ 19 = (6 : ℝ) ^ ((19 : ℕ) : ℝ) := (Real.rpow_natCast 6 19).symm
      _ ≤ (6 : ℝ) ^ (((39 : ℕ) : ℝ) / 2) :=
          Real.rpow_le_rpow_of_exponent_le (by norm_num) (by norm_num)
      _ ≤ (Real.pi * 2) ^ (((39 : ℕ) : ℝ) / 2) :=
          Real.rpow_le_rpow (by norm_num) hpi6 (by norm_num)
  have hKpos : (0 : ℝ) < (Real.pi * 2) ^ (((39 : ℕ) : ℝ) / 2) :=
    lt_of_lt_of_le (by norm_num) hK6
  have hK1 : (1 : ℝ) ≤ (Real.pi * 2) ^ (((39 : ℕ) : ℝ) / 2) :=
    le_trans (by norm_num) hK6
  have hexp : (2.7 : ℝ) ^ 78 ≤ Real.exp 78 := by
    have h1 : Real.exp 78 = Real.exp 1 ^ 78 := by
      rw [← Real.exp_nat_mul]
      norm_num
    rw [h1]
    exact pow_le_pow_left₀ (by norm_num)
      (le_of_lt (lt_trans (by norm_num) Real.exp_one_gt_d9)) 78
  have hsum : ((List.range 39).map (fun j =>
      (vectorAt (List.replicate 39 (2 : ℝ)) j - vectorAt (List.replicate 39 (0 : ℝ)) j)
        * (vectorAt (List.replicate 39 (2 : ℝ)) j - vectorAt (List.replicate 39 (0 : ℝ)) j)
        * (1 / vectorAt (List.replicate 39 (1 : ℝ)) j))).sum = 156 := by
    have hc : (List.range 39).map (fun j =>
        (vectorAt (List.replicate 39 (2 : ℝ)) j - vectorAt (List.replicate 39 (0 : ℝ)) j)
          * (vectorAt (List.replicate 39 (2 : ℝ)) j - vectorAt (List.replicate 39 (0 : ℝ)) j)
          * (1 / vectorAt (List.replicate 39 (1 : ℝ)) j))
        = (List.range 39).map (fun _ => (4 : ℝ)) := by
      apply List.map_congr_left
      intro j hj
      have hj2 : j < 39 := List.mem_range.mp hj
      rw [vectorAt_replicate 39 _ j hj2, vectorAt_replicate 39 _ j hj2,
        vectorAt_replicate 39 _ j hj2]
      norm_num
    rw [hc]
    simp
    norm_num
  have hterm : Real.exp (-78) / (Real.pi * 2) ^ (((39 : ℕ) : ℝ) / 2) < 1 / 2 ^ 150 := by
    have he : Real.exp (-78) ≤ 1 / (2.7 : ℝ) ^ 78 := by
      rw [Real.exp_neg, one_div]
      exact inv_anti₀ (by positivity) hexp
    calc Real.exp (-78) / (Real.pi * 2) ^ (((39 : ℕ) : ℝ) / 2)
        ≤ (1 / (2.7 : ℝ) ^ 78) / (6 : ℝ) ^ 19 :=
          div_le_div₀ (by positivity) he (by positivity) hK6
      _ < 1 / 2 ^ 150 := by norm_num
  have hinit := initializeDecoding_ok
    (sampleBuildWith Real.pi (fun a c => a ^ c) Real.sqrt Real.log) (unitStateIn ℝ) rfl
    (by intro g hg
        simp only [unitStateIn, List.mem_singleton] at hg
        subst hg
        simp [sampleBuildWith])
    (by intro g hg v hv
        simp only [unitStateIn, List.mem_singleton] at hg
        subst hg
        rw [List.eq_of_mem_replicate hv]
        norm_num)
    (by intro g hg
        simp only [unitStateIn, List.mem_singleton] at hg
        subst hg
        refine finiteConstant_pos _ _ _ _ ?_ (fun x hx => Real.sqrt_pos.mpr hx) (by norm_num)
          (by simp)
        exact hKpos)
  have hbf : (computeEmissionProbabilityBruteForce
      (sampleBuildWith Real.pi (fun a c => a ^ c) Real.sqrt Real.log) Real.exp
      (fun a c => a ^ c) floatUnderflow (unitStateIn ℝ) (List.replicate 39 2) 0).1
      = -10000000000 := by
    unfold computeEmissionProbabilityBruteForce bruteForceScore
    simp only [unitStateIn, sampleBuildWith, List.foldl_cons, List.foldl_nil]
    rw [if_neg (by decide)]
    simp only []
    unfold bruteForceStep
    simp only []
    rw [bruteForce_unit_inner 39 (le_refl _), floatUnderflow_of_one_le _ hK1]
    simp only [Real.one_rpow, mul_one, one_mul, zero_add]
    have h78 : -(1 / 2 : ℝ) * (4 * ((39 : ℕ) : ℝ)) = -78 := by norm_num
    rw [h78, floatUnderflow_small _ (by positivity) hterm,
      floatUnderflow_small 0 (le_refl _) (by positivity), if_pos (le_refl _)]
  refine ⟨_, hinit, hbf, ?_⟩
  rw [hbf]
  unfold computeEmissionProbabilityNearestNeighbor
  rw [if_neg (by decide)]
  simp only []
  obtain ⟨-, hall, -⟩ := nearestNeighborScore_spec
    (sampleBuildWith Real.pi (fun a c => a ^ c) Real.sqrt Real.log)
    { unitStateIn ℝ with
      m_fConstant := (sampleBuildWith Real.pi (fun a c => a ^ c) Real.sqrt Real.log).powf
        ((sampleBuildWith Real.pi (fun a c => a ^ c) Real.sqrt Real.log).piNumber * 2)
        (((sampleBuildWith Real.pi (fun a c => a ^ c) Real.sqrt Real.log).dimensionality : ℝ) / 2),
      m_gaussians := (unitStateIn ℝ).m_gaussians.map (fun g => { g with
        fConstant := (sampleBuildWith Real.pi (fun a c => a ^ c) Real.sqrt Real.log).log
          (g.fWeight /
          ((sampleBuildWith Real.pi (fun a c => a ^ c) Real.sqrt Real.log).powf
            ((sampleBuildWith Real.pi (fun a c => a ^ c) Real.sqrt Real.log).piNumber * 2)
            (((sampleBuildWith Real.pi (fun a c => a ^ c) Real.sqrt Real.log).dimensionality : ℝ)
              / 2)
            * (sampleBuildWith Real.pi (fun a c => a ^ c) Real.sqrt Real.log).sqrt
              g.fCovariance.prod)),
        fCovariance := g.fCovariance.map (fun v => 1 / (2 * v)) }),
      m_bCovarianceOriginal := false } (List.replicate 39 2)
  refine lt_of_lt_of_le ?_ (hall _ (List.mem_map.mpr ⟨_, List.mem_singleton.mpr rfl, rfl⟩))
  obtain ⟨hcomp, -⟩ := componentLogScore_log ((Real.pi * 2) ^ (((39 : ℕ) : ℝ) / 2)) 1
    (List.replicate 39 2) (List.replicate 39 0) (List.replicate 39 1) 0 0 hKpos (by norm_num)
    (by simp) (by intro v hv; rw [List.eq_of_mem_replicate hv]; norm_num)
  simp only [sampleBuildWith]
  rw [hcomp, hsum]
  have hprod : (List.replicate 39 (1 : ℝ)).prod = 1 := by simp
  rw [hprod, Real.one_rpow, mul_one, one_mul]
  have h78 : -(1 / 2 : ℝ) * 156 = -78 := by norm_num
  rw [h78, Real.log_div (ne_of_gt (Real.exp_pos _)) (ne_of_gt hKpos), Real.log_exp,
    Real.log_rpow (by linarith)]
  have hlog : Real.log (Real.pi * 2) ≤ 7 := by
    have := Real.log_le_sub_one_of_pos (show (0 : ℝ) < Real.pi * 2 by linarith)
    linarith
  have hcast : (((39 : ℕ) : ℝ) / 2) = 39 / 2 := by norm_num
  rw [hcast]
  nlinarith

/-- C39 (amended): in real arithmetic, where the conversions to `float` lose
nothing, for a state of 39 dimensions with positive weights and positive
variances, `initialize` returns, and on a time stamp that misses the cache
`computeEmissionProbabilityNearestNeighbor` on the initialized state returns at
most what `computeEmissionProbabilityBruteForce` returns on the state in
original form. -/
theorem nearestNeighbor_le_bruteForce (b : DecodingBuild ℝ) (toFloat : ℝ → ℝ)
    (st : HMMStateDecoding ℝ) (x : List ℝ) (iTime : Int)
    (hcast : ∀ v, toFloat v = v)
    (hlog : b.log = Real.log) (hsqrt : b.sqrt = Real.sqrt)
    (hpowf : b.powf = fun a c => a ^ c) (hpi : 0 < b.piNumber)
    (hopt : b.optimizedComputation = true) (hD : b.dimensionality = 39)
    (hlen : ∀ g ∈ st.m_gaussians, g.fCovariance.length = 39)
    (hw : ∀ g ∈ st.m_gaussians, 0 < g.fWeight)
    (hvar : ∀ g ∈ st.m_gaussians, ∀ v ∈ g.fCovariance, 0 < v)
    (hmiss : iTime ≠ st.m_iTimestamp) :
    ∃ st2, initializeDecoding b st = .ok st2 ∧
      (computeEmissionProbabilityNearestNeighbor b st2 x iTime).1
        ≤ (computeEmissionProbabilityBruteForce b Real.exp (fun a c => a ^ c) toFloat st x
            iTime).1 := by
  have hid : toFloat = fun v => v := funext hcast
  subst hid
  have hlenD : ∀ g ∈ st.m_gaussians, g.fCovariance.length = b.dimensionality := by
    intro g hg
    rw [hD]
    exact hlen g hg
  have hK : 0 < b.powf (b.piNumber * 2) ((b.dimensionality : ℝ) / 2) := by
    rw [hpowf]
    exact Real.rpow_pos_of_pos (by linarith) _
  have hfin := finiteConstant_of_positive b st.m_gaussians hK
    (fun v hv => by rw [hsqrt]; exact Real.sqrt_pos.mpr hv) hw hvar
  refine ⟨_, initializeDecoding_ok b st hopt hlenD hfin.1 hfin.2, ?_⟩
  unfold computeEmissionProbabilityNearestNeighbor computeEmissionProbabilityBruteForce
  rw [if_neg hmiss, if_neg hmiss]
  simp only []
  rw [bruteForceScore_eq b Real.exp (fun a c => a ^ c) st x hlenD]
  simp only [hD, hlog, hsqrt, cMax_eq_max]
  obtain ⟨hfloor, -, hcase⟩ := nearestNeighborScore_spec b
    { st with
      m_fConstant := b.powf (b.piNumber * 2) ((b.dimensionality : ℝ) / 2),
      m_gaussians := st.m_gaussians.map (fun g => { g with
        fConstant := b.log (g.fWeight /
          (b.powf (b.piNumber * 2) ((b.dimensionality : ℝ) / 2) * b.sqrt g.fCovariance.prod)),
        fCovariance := g.fCovariance.map (fun v => 1 / (2 * v)) }),
      m_bCovarianceOriginal := false } x
  simp only [hD, hlog, hsqrt] at hcase hK
  rcases hcase with hfl | ⟨g2, hg2, hsc⟩
  · rw [hfl]
    split_ifs
    · exact le_refl _
    · exact le_max_left _ _
  · obtain ⟨g, hg, rfl⟩ := List.mem_map.mp hg2
    obtain ⟨hcomp, hpos⟩ := componentLogScore_log
      (b.powf (b.piNumber * 2) (((39 : ℕ) : ℝ) / 2)) g.fWeight x g.fMean g.fCovariance g.iId 0
      hK (hw g hg) (hlen g hg) (hvar g hg)
    rw [hsc, hcomp]
    have hterms : ∀ y ∈ st.m_gaussians.map (fun g => g.fWeight
          * Real.exp (-(1 / 2) * ((List.range 39).map
              (fun j => (vectorAt x j - vectorAt g.fMean j)
                * (vectorAt x j - vectorAt g.fMean j) * (1 / vectorAt g.fCovariance j))).sum)
          / (b.powf (b.piNumber * 2) (((39 : ℕ) : ℝ) / 2) * g.fCovariance.prod ^ ((1 : ℝ) / 2))),
        0 ≤ y := by
      intro y hy
      obtain ⟨g3, hg3, rfl⟩ := List.mem_map.mp hy
      exact le_of_lt (componentLogScore_log
        (b.powf (b.piNumber * 2) (((39 : ℕ) : ℝ) / 2)) g3.fWeight x g3.fMean g3.fCovariance g3.iId 0
        hK (hw g3 hg3) (hlen g3 hg3) (hvar g3 hg3)).2
    have hle := List.single_le_sum hterms _ (List.mem_map.mpr ⟨g, hg, rfl⟩)
    have hsumpos := lt_of_lt_of_le hpos hle
    rw [if_neg (not_le.mpr hsumpos)]
    exact le_trans (Real.log_le_log hpos hle) (le_max_right _ _)

/-- Witness of C39 (amended): the state of two components in 39 dimensions
with the functions of real analysis as library functions, a conversion to
`float` that keeps every value, and the vector `(4, 5, 0, ...)` at time 0. -/
theorem nearestNeighbor_le_bruteForce_witness :
    ∃ st2, initializeDecoding
        (sampleBuildWith Real.pi (fun a c => a ^ c) Real.sqrt Real.log) (sampleStateIn ℝ)
        = .ok st2 ∧
      (computeEmissionProbabilityNearestNeighbor
          (sampleBuildWith Real.pi (fun a c => a ^ c) Real.sqrt Real.log) st2
          (4 :: 5 :: List.replicate 37 0) 0).1
        ≤ (computeEmissionProbabilityBruteForce
          (sampleBuildWith Real.pi (fun a c => a ^ c) Real.sqrt Real.log) Real.exp
          (fun a c => a ^ c) (fun v => v) (sampleStateIn ℝ)
          (4 :: 5 :: List.replicate 37 0) 0).1 :=
  nearestNeighbor_le_bruteForce
    (sampleBuildWith Real.pi (fun a c => a ^ c) Real.sqrt Real.log) (fun v => v)
    (sampleStateIn ℝ) (4 :: 5 :: List.replicate 37 0) 0 (fun _ => rfl) rfl rfl rfl
    Real.pi_pos rfl rfl
    (by intro g hg
        simp only [sampleStateIn, List.mem_cons, List.mem_singleton, List.not_mem_nil,
          or_false] at hg
        rcases hg with rfl | rfl <;> simp)
    (by intro g hg
        simp only [sampleStateIn, List.mem_cons, List.mem_singleton, List.not_mem_nil,
          or_false] at hg
        rcases hg with rfl | rfl <;> norm_num)
    (by intro g hg v hv
        simp only [sampleStateIn, List.mem_cons, List.mem_singleton, List.not_mem_nil,
          or_false] at hg
        rcases hg with rfl | rfl
        · rw [List.eq_of_mem_replicate hv]
          norm_num
        · rw [List.eq_of_mem_replicate hv]
          norm_num)
    (by decide)

end BruteForceClaim

/-! ### The grid against the paths of the specification -/

section ViterbiLemmas

variable {α F : Type}

/-- The states of a state sequence are states of the grid, and the index within
its class of the state at frame `u` is at most `u`. -/
theorem validPathBack_offset (H : Nat) (hH : 1 ≤ H) (p : Nat) (rest : List Nat)
    (h : ValidPathBack H (p :: rest)) : p < 2 * H ∧ classOffset H p ≤ rest.length := by
  induction rest generalizing p with
  | nil =>
    simp only [ValidPathBack] at h
    unfold classOffset
    rcases h with rfl | rfl
    · exact ⟨by omega, by simp⟩
    · exact ⟨by omega, by simp⟩
  | cons p2 rest ih =>
    simp only [ValidPathBack] at h
    obtain ⟨hstep, hv⟩ := h
    obtain ⟨h1, h2⟩ := ih p2 hv
    unfold classOffset at h2 ⊢
    unfold ValidStep at hstep
    rw [List.length_cons]
    split_ifs at h2 ⊢ <;> omega

/-- The first column of the grid of a session of one call. -/
theorem runSession_column0 [Add α] [LT α] [DecidableRel (fun a b : α => a < b)]
    (m : SADModule α F) (mFeatures : List F) (s : SADSession α)
    (hrun : runSession m mFeatures = .ok s) :
    ∃ f0, mFeatures[0]? = some f0 ∧ s.m_grid[0]? = some (firstColumn m f0) := by
  unfold runSession processFeatures at hrun
  simp only [beginSession, SADSession.fresh, if_true, List.nil_append, Nat.zero_add] at hrun
  obtain ⟨_, h0, h1⟩ := bind_eq_ok.mp hrun
  obtain ⟨feat, hfeat, h2⟩ := bind_eq_ok.mp h1
  obtain ⟨g, hg, h3⟩ := bind_eq_ok.mp h2
  cases h3
  have hpos : 0 < mFeatures.length := by
    have := (List.getElem?_eq_some.mp (orOutOfBounds_ok.mp h0)).1
    simpa using this
  obtain ⟨_, g2, _, _⟩ := fillGrid_rows _ _ _ _ _ _ _ _ _ hg (le_refl 1)
  refine ⟨feat, orOutOfBounds_ok.mp hfeat, ?_⟩
  simp only []
  rw [g2 0 (by omega)]
  exact set_get_self (by simpa using hpos)

theorem firstColumn_first [Add α] (m : SADModule α F) (feat : F) (hH : 1 ≤ m.hmmStatesClass) :
    (firstColumn m feat)[0]? = some ⟨m.emitSilence feat, -1⟩ ∧
      (firstColumn m feat)[m.hmmStatesClass]?
        = some ⟨m.emitSpeech feat + m.fPenaltySilenceToSpeech, -1⟩ := by
  unfold firstColumn
  constructor
  · rw [set_get_ne (by omega), set_get_self (by simp; omega)]
  · rw [set_get_self (by simp; omega)]

/-- The cell of the specification in terms of its two predecessors: its score
is not below what either of them brings, and it is made of one of them. -/
theorem specCell_options [LinearOrder α] [Add α]
    [CovariantClass α α (Function.swap (· + ·)) (· ≤ ·)]
    (m : SADModule α F) (prevRow : List (GridElementSAD α)) (feat : F) (t c : Nat) :
    (classOffset m.hmmStatesClass c < t →
        (rowGet m prevRow c).fScore + classEmission m c feat
          ≤ (specCell m prevRow feat t c).fScore) ∧
      ((0 < classOffset m.hmmStatesClass c ∨ m.hmmStatesClass ≤ t) →
        leftValue m prevRow c + classEmission m c feat ≤ (specCell m prevRow feat t c).fScore) ∧
      ((classOffset m.hmmStatesClass c < t ∨ 0 < classOffset m.hmmStatesClass c
          ∨ m.hmmStatesClass ≤ t) →
        (classOffset m.hmmStatesClass c < t ∧
          specCell m prevRow feat t c
            = ⟨(rowGet m prevRow c).fScore + classEmission m c feat, (c : Int)⟩) ∨
        ((0 < classOffset m.hmmStatesClass c ∨ m.hmmStatesClass ≤ t) ∧
          specCell m prevRow feat t c
            = ⟨leftValue m prevRow c + classEmission m c feat,
                ((leftIndex m.hmmStatesClass c : Nat) : Int)⟩)) := by
  by_cases hs : classOffset m.hmmStatesClass c < t
  · by_cases hl : 0 < classOffset m.hmmStatesClass c
    · by_cases hcmp : (rowGet m prevRow c).fScore < (rowGet m prevRow (c - 1)).fScore
      · have e1 : specCell m prevRow feat t c
            = ⟨leftValue m prevRow c + classEmission m c feat,
                ((leftIndex m.hmmStatesClass c : Nat) : Int)⟩ := by
          simp [specCell, leftValue, leftIndex, classEmission, hs, hl, hcmp]
        rw [e1]
        refine ⟨fun _ => ?_, fun _ => le_refl _, fun _ => Or.inr ⟨Or.inl hl, rfl⟩⟩
        simp only [leftValue, hl, if_true]
        exact add_le_add_right (le_of_lt hcmp) _
      · have e1 : specCell m prevRow feat t c
            = ⟨(rowGet m prevRow c).fScore + classEmission m c feat, (c : Int)⟩ := by
          simp [specCell, classEmission, hs, hl, hcmp]
        rw [e1]
        refine ⟨fun _ => le_refl _, fun _ => ?_, fun _ => Or.inl ⟨hs, rfl⟩⟩
        simp only [leftValue, hl, if_true]
        exact add_le_add_right (not_lt.mp hcmp) _
    · by_cases hH : m.hmmStatesClass ≤ t
      · by_cases hcmp : (rowGet m prevRow c).fScore < leftValue m prevRow c
        · have e1 : specCell m prevRow feat t c
              = ⟨leftValue m prevRow c + classEmission m c feat,
                  ((leftIndex m.hmmStatesClass c : Nat) : Int)⟩ := by
            simp only [leftValue, hl, if_false] at hcmp
            by_cases hc : c < m.hmmStatesClass
            · simp only [hc, if_true] at hcmp
              simp [specCell, leftValue, leftIndex, classEmission, hs, hl, hH, hc, hcmp]
            · simp only [hc, if_false] at hcmp
              simp [specCell, leftValue, leftIndex, classEmission, hs, hl, hH, hc, hcmp]
          rw [e1]
          exact ⟨fun _ => add_le_add_right (le_of_lt hcmp) _, fun _ => le_refl _,
            fun _ => Or.inr ⟨Or.inr hH, rfl⟩⟩
        · have e1 : specCell m prevRow feat t c
              = ⟨(rowGet m prevRow c).fScore + classEmission m c feat, (c : Int)⟩ := by
            simp only [leftValue, hl, if_false] at hcmp
            by_cases hc : c < m.hmmStatesClass
            · simp only [hc, if_true] at hcmp
              simp [specCell, classEmission, hs, hl, hH, hc, hcmp]
            · simp only [hc, if_false] at hcmp
              simp [specCell, classEmission, hs, hl, hH, hc, hcmp]
          rw [e1]
          exact ⟨fun _ => le_refl _, fun _ => add_le_add_right (not_lt.mp hcmp) _,
            fun _ => Or.inl ⟨hs, rfl⟩⟩
      · have e1 : specCell m prevRow feat t c
            = ⟨(rowGet m prevRow c).fScore + classEmission m c feat, (c : Int)⟩ := by
          simp [specCell, classEmission, hs, hl, hH]
        rw [e1]
        refine ⟨fun _ => le_refl _, fun h => ?_, fun _ => Or.inl ⟨hs, rfl⟩⟩
        rcases h with h | h
        · exact absurd h hl
        · exact absurd h hH
  · by_cases hl : 0 < classOffset m.hmmStatesClass c
    · have e1 : specCell m prevRow feat t c
          = ⟨leftValue m prevRow c + classEmission m c feat,
              ((leftIndex m.hmmStatesClass c : Nat) : Int)⟩ := by
        simp [specCell, leftValue, leftIndex, classEmission, hs, hl]
      rw [e1]
      exact ⟨fun h => absurd h hs, fun _ => le_refl _, fun _ => Or.inr ⟨Or.inl hl, rfl⟩⟩
    · by_cases hH : m.hmmStatesClass ≤ t
      · have e1 : specCell m prevRow feat t c
            = ⟨leftValue m prevRow c + classEmission m c feat,
                ((leftIndex m.hmmStatesClass c : Nat) : Int)⟩ := by
          by_cases hc : c < m.hmmStatesClass
          · simp [specCell, leftValue, leftIndex, classEmission, hs, hl, hH, hc]
          · simp [specCell, leftValue, leftIndex, classEmission, hs, hl, hH, hc]
        rw [e1]
        exact ⟨fun h => absurd h hs, fun _ => le_refl _, fun _ => Or.inr ⟨Or.inr hH, rfl⟩⟩
      · refine ⟨fun h => absurd h hs, fun h => ?_, fun h => ?_⟩
        · rcases h with h | h
          · exact absurd h hl
          · exact absurd h hH
        · rcases h with h | h | h
          · exact absurd h hs
          · exact absurd h hl
          · exact absurd h hH

end ViterbiLemmas

section Viterbi

variable {α F : Type}

theorem leftIndex_spec (H c t : Nat) (hH : 1 ≤ H) (hc : c < 2 * H)
    (hoff : classOffset H c ≤ t + 1) (hl : 0 < classOffset H c ∨ H ≤ t + 1) :
    leftIndex H c < 2 * H ∧ classOffset H (leftIndex H c) ≤ t ∧
      ValidStep H (leftIndex H c) c ∧
      ((c = H ∧ leftIndex H c ≠ H) ↔ (¬ 0 < classOffset H c ∧ ¬ c < H)) := by
  unfold leftIndex ValidStep classOffset at *
  split_ifs at * <;> omega

theorem validStep_cases (H p c t : Nat) (hH : 1 ≤ H) (hp : p < 2 * H)
    (hoff : classOffset H p ≤ t) (hstep : ValidStep H p c) :
    c < 2 * H ∧ ((p = c ∧ classOffset H c < t + 1) ∨
      ((0 < classOffset H c ∨ H ≤ t + 1) ∧ p = leftIndex H c)) := by
  unfold leftIndex ValidStep classOffset at *
  split_ifs at * <;> omega

theorem leftValue_eq [Add α] (m : SADModule α F) (prevRow : List (GridElementSAD α)) (c : Nat)
    (hH : 1 ≤ m.hmmStatesClass) :
    leftValue m prevRow c
      = if c = m.hmmStatesClass ∧ leftIndex m.hmmStatesClass c ≠ m.hmmStatesClass then
          (rowGet m prevRow (leftIndex m.hmmStatesClass c)).fScore + m.fPenaltySilenceToSpeech
        else (rowGet m prevRow (leftIndex m.hmmStatesClass c)).fScore := by
  unfold leftValue leftIndex
  by_cases h0 : 0 < classOffset m.hmmStatesClass c
  · have hne : ¬ (c = m.hmmStatesClass ∧ c - 1 ≠ m.hmmStatesClass) := by
      intro h
      rw [h.1] at h0
      unfold classOffset at h0
      simp at h0
    simp only [h0, if_true]
    rw [if_neg hne]
  · simp only [h0, if_false]
    by_cases hc2 : c < m.hmmStatesClass
    · simp only [hc2, if_true]
      rw [if_neg (by omega)]
    · simp only [hc2, if_false]
      have hcH : c = m.hmmStatesClass := by
        unfold classOffset at h0
        rw [if_neg hc2] at h0
        omega
      rw [if_pos ⟨hcH, by omega⟩]

theorem pathScoreBack_cons [Add α] (m : SADModule α F) (feat : Nat → F) (c p : Nat)
    (rest : List Nat) :
    pathScoreBack m feat (c :: p :: rest)
      = (if c = m.hmmStatesClass ∧ p ≠ m.hmmStatesClass then
          pathScoreBack m feat (p :: rest) + m.fPenaltySilenceToSpeech
        else pathScoreBack m feat (p :: rest))
        + classEmission m c (feat (rest.length + 1)) := rfl

theorem validPathBack_cons (H s p : Nat) (rest : List Nat) :
    ValidPathBack H (s :: p :: rest) ↔ ValidStep H p s ∧ ValidPathBack H (p :: rest) :=
  Iff.rfl

theorem followsPointersBack_cons (grid : List (List (GridElementSAD α))) (s p : Nat)
    (rest : List Nat) :
    FollowsPointersBack grid (s :: p :: rest) ↔
      (∃ c, gridGet grid (rest.length + 1) (s : Int) = some c ∧ c.iPrev = (p : Int)) ∧
        FollowsPointersBack grid (p :: rest) :=
  Iff.rfl

/-- The grid against the state sequences, latest state first: the score of a
cell that can be reached is the highest score of a state sequence that ends in
its state, and a sequence that follows the back-pointers has this score. -/
theorem runSession_optimal [LinearOrder α] [Add α]
    [CovariantClass α α (Function.swap (· + ·)) (· ≤ ·)]
    (m : SADModule α F) (mFeatures : List F) (feat : Nat → F) (s : SADSession α)
    (hH : 1 ≤ m.hmmStatesClass) (hrun : runSession m mFeatures = .ok s)
    (hfeat : ∀ u, u < mFeatures.length → mFeatures[u]? = some (feat u))
    (hfloor : ∀ r, ValidPathBack m.hmmStatesClass r → r.length ≤ mFeatures.length →
      m.negFltMax < pathScoreBack m feat r) :
    ∀ t c : Nat, t < mFeatures.length → c < 2 * m.hmmStatesClass →
      classOffset m.hmmStatesClass c ≤ t →
      ∃ cell, gridGet s.m_grid t (c : Int) = some cell ∧
        (∀ rest, ValidPathBack m.hmmStatesClass (c :: rest) → rest.length = t →
          pathScoreBack m feat (c :: rest) ≤ cell.fScore) ∧
        (∃ rest, ValidPathBack m.hmmStatesClass (c :: rest) ∧ rest.length = t ∧
          FollowsPointersBack s.m_grid (c :: rest) ∧
          pathScoreBack m feat (c :: rest) = cell.fScore) := by
  intro t
  induction t with
  | zero =>
    intro c hT hc hoff
    obtain ⟨f0, hf0, hcol⟩ := runSession_column0 m mFeatures s hrun
    rw [hfeat 0 hT] at hf0
    cases hf0
    obtain ⟨c0, cH⟩ := firstColumn_first m (feat 0) hH
    have hcase : c = 0 ∨ c = m.hmmStatesClass := by
      unfold classOffset at hoff
      split_ifs at hoff <;> omega
    rcases hcase with rfl | rfl
    · refine ⟨_, (gridGet_natCast hcol).trans c0, ?_, ⟨[], Or.inl rfl, rfl, trivial, ?_⟩⟩
      · intro rest _ hlen
        rw [List.length_eq_zero.mp hlen]
        simp only [pathScoreBack, classEmission]
        rw [if_neg (by omega), if_pos (by omega)]
      · simp only [pathScoreBack, classEmission]
        rw [if_neg (by omega), if_pos (by omega)]
    · refine ⟨_, (gridGet_natCast hcol).trans cH, ?_, ⟨[], Or.inr rfl, rfl, trivial, ?_⟩⟩
      · intro rest _ hlen
        rw [List.length_eq_zero.mp hlen]
        simp only [pathScoreBack, if_true]
        exact le_refl _
      · simp only [pathScoreBack, if_true]
  | succ t ih =>
    intro c hT hc hoff
    obtain ⟨prevRow, feat2, hprev, hft, hcell⟩ :=
      runSession_cells m mFeatures s hrun (t + 1) c (by omega) hT hc
    rw [Nat.add_sub_cancel] at hprev
    rw [hfeat (t + 1) hT] at hft
    cases hft
    have hV : ∀ p, p < 2 * m.hmmStatesClass → classOffset m.hmmStatesClass p ≤ t →
        (∀ rest, ValidPathBack m.hmmStatesClass (p :: rest) → rest.length = t →
          pathScoreBack m feat (p :: rest) ≤ (rowGet m prevRow p).fScore) ∧
        (∃ rest, ValidPathBack m.hmmStatesClass (p :: rest) ∧ rest.length = t ∧
          FollowsPointersBack s.m_grid (p :: rest) ∧
          pathScoreBack m feat (p :: rest) = (rowGet m prevRow p).fScore) ∧
        m.negFltMax < (rowGet m prevRow p).fScore := by
      intro p hp hpo
      obtain ⟨cp, hcp, hub, hat⟩ := ih p (by omega) hp hpo
      rw [gridGet_natCast hprev] at hcp
      rw [rowGet_eq hcp]
      refine ⟨hub, hat, ?_⟩
      obtain ⟨rest, hv, hlen, _, hsc⟩ := hat
      rw [← hsc]
      exact hfloor _ hv (by rw [List.length_cons, hlen]; omega)
    have hset : CellSettled m prevRow (t + 1) c := by
      constructor
      · by_cases h1 : classOffset m.hmmStatesClass c < t + 1
        · exact Or.inl h1
        · right
          have hp : c - 1 < 2 * m.hmmStatesClass ∧ classOffset m.hmmStatesClass (c - 1) ≤ t := by
            unfold classOffset at *
            split_ifs at * <;> omega
          exact (hV (c - 1) hp.1 hp.2).2.2
      · by_cases h1 : 0 < classOffset m.hmmStatesClass c
        · exact Or.inl h1
        · by_cases h2 : m.hmmStatesClass ≤ t + 1
          · exact Or.inr (Or.inl h2)
          · right
            right
            exact not_lt_of_gt (hV c hc (by omega)).2.2
    have hget := hcell hset
    obtain ⟨o1, o2, o3⟩ := specCell_options m prevRow (feat (t + 1)) (t + 1) c
    refine ⟨_, hget, ?_, ?_⟩
    · intro rest hv hlen
      cases rest with
      | nil => cases hlen
      | cons p rest2 =>
        simp only [List.length_cons, Nat.add_right_cancel_iff] at hlen
        obtain ⟨hstep, hv2⟩ := (validPathBack_cons _ _ _ _).mp hv
        obtain ⟨hp, hpo⟩ := validPathBack_offset m.hmmStatesClass hH p rest2 hv2
        rw [hlen] at hpo
        rw [pathScoreBack_cons, hlen]
        obtain ⟨_, hcases⟩ := validStep_cases m.hmmStatesClass p c t hH hp hpo hstep
        rcases hcases with ⟨hpc, hself⟩ | ⟨hleft, hpl⟩
        · subst hpc
          rw [if_neg (fun h => h.2 h.1)]
          exact le_trans (add_le_add_right ((hV p hp hpo).1 rest2 hv2 hlen) _) (o1 hself)
        · refine le_trans (add_le_add_right ?_ _) (o2 hleft)
          rw [leftValue_eq m prevRow c hH, ← hpl]
          split_ifs
          · exact add_le_add_right ((hV p hp hpo).1 rest2 hv2 hlen) _
          · exact (hV p hp hpo).1 rest2 hv2 hlen
    · have hany : classOffset m.hmmStatesClass c < t + 1 ∨ 0 < classOffset m.hmmStatesClass c
          ∨ m.hmmStatesClass ≤ t + 1 := by omega
      rcases o3 hany with ⟨hself, hsc⟩ | ⟨hleft, hsc⟩
      · obtain ⟨rest, hv, hlen, hfol, hps⟩ := (hV c hc (by omega)).2.1
        refine ⟨c :: rest, (validPathBack_cons _ _ _ _).mpr ⟨Or.inl rfl, hv⟩,
          by rw [List.length_cons, hlen],
          (followsPointersBack_cons _ _ _ _).mpr
            ⟨⟨specCell m prevRow (feat (t + 1)) (t + 1) c, ?_, ?_⟩, hfol⟩, ?_⟩
        · rw [hlen]
          exact hget
        · rw [hsc]
        · rw [pathScoreBack_cons, if_neg (fun h => h.2 h.1), hps, hlen, hsc]
      · obtain ⟨hp, hpo, hstep, hpen⟩ := leftIndex_spec m.hmmStatesClass c t hH hc hoff hleft
        obtain ⟨rest, hv, hlen, hfol, hps⟩ := (hV _ hp hpo).2.1
        refine ⟨leftIndex m.hmmStatesClass c :: rest,
          (validPathBack_cons _ _ _ _).mpr ⟨hstep, hv⟩,
          by rw [List.length_cons, hlen],
          (followsPointersBack_cons _ _ _ _).mpr
            ⟨⟨specCell m prevRow (feat (t + 1)) (t + 1) c, ?_, ?_⟩, hfol⟩, ?_⟩
        · rw [hlen]
          exact hget
        · rw [hsc]
        · rw [pathScoreBack_cons, hps, hlen, hsc, leftValue_eq m prevRow c hH]

/-- C32: in a session of one call in which every state sequence scores above
`-FLT_MAX`, for every column `t` and every state `st` whose index within its
class is at most `t`: no state sequence `q(0), ..., q(t)` that ends in `st`
scores above the cell of `st` in column `t`, and there is one that follows the
back-pointers from that cell and has its score. -/
theorem processFeatures_viterbi [LinearOrder α] [Add α]
    [CovariantClass α α (Function.swap (· + ·)) (· ≤ ·)]
    (m : SADModule α F) (mFeatures : List F) (feat : Nat → F) (s : SADSession α)
    (hH : 1 ≤ m.hmmStatesClass) (hrun : runSession m mFeatures = .ok s)
    (hfeat : ∀ u, u < mFeatures.length → mFeatures[u]? = some (feat u))
    (hfloor : ∀ q, ValidPath m.hmmStatesClass q → q.length ≤ mFeatures.length →
      m.negFltMax < pathScore m feat q) :
    ∀ t st : Nat, t < mFeatures.length → st < 2 * m.hmmStatesClass →
      classOffset m.hmmStatesClass st ≤ t →
      ∃ cell, gridGet s.m_grid t (st : Int) = some cell ∧
        (∀ q, ValidPath m.hmmStatesClass q → q.length = t + 1 → q.getLast? = some st →
          pathScore m feat q ≤ cell.fScore) ∧
        (∃ q, ValidPath m.hmmStatesClass q ∧ q.length = t + 1 ∧ q.getLast? = some st ∧
          FollowsPointers s.m_grid q ∧ pathScore m feat q = cell.fScore) := by
  intro t st hT hst hoff
  have hfloorB : ∀ r, ValidPathBack m.hmmStatesClass r → r.length ≤ mFeatures.length →
      m.negFltMax < pathScoreBack m feat r := by
    intro r hv hlen
    have := hfloor r.reverse (by unfold ValidPath; rw [List.reverse_reverse]; exact hv)
      (by rw [List.length_reverse]; exact hlen)
    unfold pathScore at this
    rw [List.reverse_reverse] at this
    exact this
  obtain ⟨cell, hcell, hub, rest, hv, hlen, hfol, hsc⟩ :=
    runSession_optimal m mFeatures feat s hH hrun hfeat hfloorB t st hT hst hoff
  refine ⟨cell, hcell, ?_, ⟨(st :: rest).reverse, ?_, ?_, ?_, ?_, ?_⟩⟩
  · intro q hq hlq hlast
    unfold ValidPath at hq
    unfold pathScore
    have hrev : q.reverse = st :: q.reverse.tail := by
      have hh : q.reverse.head? = some st := by rw [List.head?_reverse]; exact hlast
      cases hr : q.reverse with
      | nil => rw [hr] at hh; cases hh
      | cons a l =>
        rw [hr] at hh
        simp only [List.head?_cons, Option.some.injEq] at hh
        rw [hh]
        rfl
    rw [hrev] at hq ⊢
    refine hub _ hq ?_
    have := congrArg List.length hrev
    rw [List.length_reverse, List.length_cons] at this
    omega
  · unfold ValidPath
    rw [List.reverse_reverse]
    exact hv
  · rw [List.length_reverse, List.length_cons, hlen]
  · rw [List.getLast?_reverse]
    rfl
  · unfold FollowsPointers
    rw [List.reverse_reverse]
    exact hfol
  · unfold pathScore
    rw [List.reverse_reverse]
    exact hsc

/-- With scores in `WithBot ℤ` every state sequence has a finite score. -/
theorem absorbing_pathScore_finite (H : Nat) (pad : Int) (nd : Bool) (feat : Nat → Int × Int)
    (r : List Nat) (hr : r ≠ []) :
    ∃ z : Int, pathScoreBack (absorbingModule H pad nd) feat r = (z : WithBot Int) := by
  induction r with
  | nil => exact absurd rfl hr
  | cons c rest ih =>
    cases rest with
    | nil =>
      simp only [pathScoreBack, classEmission, absorbingModule]
      split_ifs
      · exact ⟨_, add_zero _⟩
      · exact ⟨_, rfl⟩
      · exact ⟨_, rfl⟩
    | cons p rest2 =>
      obtain ⟨z, hz⟩ := ih (List.cons_ne_nil _ _)
      rw [pathScoreBack_cons, hz]
      simp only [classEmission, absorbingModule]
      split_ifs
      · exact ⟨_, by rw [add_zero]; exact (WithBot.coe_add _ _).symm⟩
      · exact ⟨_, by rw [add_zero]; exact (WithBot.coe_add _ _).symm⟩
      · exact ⟨_, (WithBot.coe_add _ _).symm⟩
      · exact ⟨_, (WithBot.coe_add _ _).symm⟩

/-- Witness of C32: two states a class, scores in `WithBot ℤ`, the frames
`(0,0),(0,0),(5,5),(5,5)`, and the last speech state in the last column: the
state sequence `0, 1, 2, 3` follows the back-pointers and scores `-73516`, the
score of the cell. -/
theorem processFeatures_viterbi_witness :
    (∃ cell, gridGet absorbingGrid 3 ((3 : Nat) : Int) = some cell ∧
        (∀ q, ValidPath 2 q → q.length = 3 + 1 → q.getLast? = some 3 →
          pathScore (absorbingModule 2 0 false)
            (fun u => [((0 : Int), (0 : Int)), (0, 0), (5, 5), (5, 5)].getD u (0, 0)) q
            ≤ cell.fScore) ∧
        (∃ q, ValidPath 2 q ∧ q.length = 3 + 1 ∧ q.getLast? = some 3 ∧
          FollowsPointers absorbingGrid q ∧
          pathScore (absorbingModule 2 0 false)
            (fun u => [((0 : Int), (0 : Int)), (0, 0), (5, 5), (5, 5)].getD u (0, 0)) q
            = cell.fScore))
      ∧ gridGet absorbingGrid 3 ((3 : Nat) : Int) = some ⟨finiteScore (-73516), 2⟩
      ∧ pathScore (absorbingModule 2 0 false)
          (fun u => [((0 : Int), (0 : Int)), (0, 0), (5, 5), (5, 5)].getD u (0, 0)) [0, 1, 2, 3]
        = finiteScore (-73516) :=
  ⟨processFeatures_viterbi (absorbingModule 2 0 false) [(0, 0), (0, 0), (5, 5), (5, 5)]
      (fun u => [((0 : Int), (0 : Int)), (0, 0), (5, 5), (5, 5)].getD u (0, 0))
      ⟨absorbingGrid, 4⟩ (by decide) (by decide!)
      (by intro u hu
          simp only [List.length_cons, List.length_nil] at hu
          interval_cases u <;> rfl)
      (fun q hq _ => by
        obtain ⟨z, hz⟩ := absorbing_pathScore_finite 2 0 false
          (fun u => [((0 : Int), (0 : Int)), (0, 0), (5, 5), (5, 5)].getD u (0, 0)) q.reverse
          (by intro h0
              unfold ValidPath at hq
              rw [h0] at hq
              exact hq)
        unfold pathScore
        rw [hz]
        exact WithBot.bot_lt_coe z)
      3 3 (by decide) (by decide) (by decide),
    by decide!, by decide!⟩

end Viterbi
end Bavieca
